import Mathlib

/-!
# AIFM far-memory core: pointer metadata word, object header, dereference, free, migration

A shallow embedding of `inc/pointer.hpp`, `src/pointer.cpp`, `inc/object.hpp`, and the parts of
`inc/region.hpp` and `inc/manager.hpp` they call.

* Unsigned machine integers are natural numbers; every place where the C++ arithmetic can wrap
  carries an explicit `% 2 ^ w`.
* Region memory is a byte map `Mem`. The eight bytes of the `metadata_` field of a pointer are kept in
  the pointer value itself (as one little-endian word) together with the address of the pointer.
* The run is sequential: one mutator, no collector running in between.  A spin on a lock entry
  that is held therefore never ends, which the model reports as `Fault.spin`.
-/

namespace far_memory

/-- Byte-addressed memory of the process: region buffers with their objects. -/
abbrev Mem := Nat → Nat

/-- Truncation of an unsigned result to 64 bits. -/
def u64 (x : Nat) : Nat := x % 2 ^ 64

/-- Byte `i` of an integer held in a local variable or a field (little-endian). -/
def word_byte (w i : Nat) : Nat := w / 2 ^ (8 * i) % 256

/-- The integer `w` after its byte `i` has been overwritten by `v`. -/
def word_set_byte (w i v : Nat) : Nat :=
  w - word_byte w i * 2 ^ (8 * i) + v % 256 * 2 ^ (8 * i)

/-- Read of one `uint8_t`. -/
def load8 (m : Mem) (a : Nat) : Nat := m a % 256

/-- Write of one `uint8_t`. -/
def store8 (m : Mem) (a v : Nat) : Mem := fun x => if x = a then v % 256 else m x

/-- Little-endian read of `n` consecutive bytes starting at `a`. -/
def loadN (m : Mem) : Nat → Nat → Nat
  | _, 0 => 0
  | a, n + 1 => load8 m a + 256 * loadN m (a + 1) n

/-- Little-endian write of the low `n` bytes of `v` starting at `a`. -/
def storeN (m : Mem) : Nat → Nat → Nat → Mem
  | _, _, 0 => m
  | a, v, n + 1 => storeN (store8 m a v) (a + 1) (v / 256) n

/-- The libc `memcpy(dst, src, n)`: the `n` bytes at `dst` become the `n` bytes that were at
`src`; every other byte is kept. -/
def memcpy (m : Mem) (dst src n : Nat) : Mem :=
  fun x => if dst ≤ x ∧ x < dst + n then load8 m (src + (x - dst)) else m x

namespace helpers

/-- Modelled from the spec: `helpers::small_memcpy<N>(dst, &value)` of helpers.hpp, which is not
among the sources; the spec has the back pointer as a 6-byte field, so the call copies the first
`n` bytes of the 64-bit local `value` (little-endian) to `dst`. -/
def small_memcpy_to_mem (n : Nat) (m : Mem) (dst value : Nat) : Mem := storeN m dst value n

/-- Modelled from the spec: `helpers::small_memcpy<N>(&value, src)` of helpers.hpp, which is not
among the sources: the first `n` bytes of the 64-bit local `value` are replaced by the `n` bytes
at `src`, the remaining high bytes of the local are kept. -/
def small_memcpy_from_mem (n : Nat) (m : Mem) (value src : Nat) : Nat :=
  value / 256 ^ n * 256 ^ n + loadN m src n

end helpers

/-! ## object.hpp -/

/-- An `Object` is a reference to the object stored at `addr_`. -/
structure Object where
  addr_ : Nat

namespace Object

def kPtrAddrPos : Nat := 0
def kPtrAddrSize : Nat := 6
def kDataLenPos : Nat := 6
def kDSIDPos : Nat := 8
def kIDLenPos : Nat := 9
def kDSIDSize : Nat := 1
def kIDLenSize : Nat := 1
def kDataLenSize : Nat := 2
def kHeaderSize : Nat := kPtrAddrSize + kDataLenSize + kDSIDSize + kIDLenSize

def get_addr (o : Object) : Nat := o.addr_

def get_ds_id (o : Object) (m : Mem) : Nat := load8 m (u64 (o.addr_ + kDSIDPos))

def get_obj_id_len (o : Object) (m : Mem) : Nat := load8 m (u64 (o.addr_ + kIDLenPos))

def get_data_len (o : Object) (m : Mem) : Nat := loadN m (u64 (o.addr_ + kDataLenPos)) 2

def is_freed (o : Object) (m : Mem) : Bool :=
  decide (load8 m (u64 (o.addr_ + kPtrAddrPos + kPtrAddrSize - 1)) = 0xFF)

def free (o : Object) (m : Mem) : Mem :=
  store8 m (u64 (o.addr_ + kPtrAddrPos + kPtrAddrSize - 1)) 0xFF

/-- Address of the object id: `addr_ + offset` with the 32-bit `offset = kHeaderSize +
get_data_len()`. -/
def get_obj_id (o : Object) (m : Mem) : Nat :=
  u64 (o.addr_ + (kHeaderSize + o.get_data_len m) % 2 ^ 32)

def set_ptr_addr (o : Object) (address : Nat) (m : Mem) : Mem :=
  helpers.small_memcpy_to_mem kPtrAddrSize m (u64 (o.addr_ + kPtrAddrPos)) address

def get_ptr_addr (o : Object) (m : Mem) : Nat :=
  helpers.small_memcpy_from_mem kPtrAddrSize m 0 (u64 (o.addr_ + kPtrAddrPos))

def get_data_addr (o : Object) : Nat := u64 (o.addr_ + kHeaderSize)

/-- The total size, returned as `uint16_t`. -/
def size (o : Object) (m : Mem) : Nat :=
  (kHeaderSize + o.get_data_len m + o.get_obj_id_len m) % 2 ^ 16

end Object

/-! ## region.hpp -/

namespace Region

def kRefCntPos : Nat := 0
def kRefCntSize : Nat := 4
def kNtPos : Nat := 4
def kObjectPos : Nat := 5
def kShift : Nat := 20
def kSize : Nat := 1 <<< kShift

/-- The 64-bit mask `~(Region::kSize - 1)`. -/
def kBaseMask : Nat := 2 ^ 64 - 1 - (kSize - 1)

/-- The 4-byte reference count of the region whose buffer starts at `region_addr`. -/
def ref_cnt_at (region_addr : Nat) (m : Mem) : Nat := loadN m (region_addr + kRefCntPos) kRefCntSize

/-- The free-standing `Region::atomic_inc_ref_cnt(object_addr, delta)`: the region base is found
by masking, the 32-bit counter there is increased by `delta` with wrap-around. -/
def atomic_inc_ref_cnt (object_addr : Nat) (delta : Int) (m : Mem) : Mem :=
  let region_addr := object_addr &&& kBaseMask
  let ref_cnt_ptr := region_addr + kRefCntPos
  storeN m ref_cnt_ptr (Int.toNat (((loadN m ref_cnt_ptr kRefCntSize : Nat) + delta) % 2 ^ 32))
    kRefCntSize

/-- The static `Region::is_nt(buf_ptr_addr)`. -/
def is_nt (buf_ptr_addr : Nat) (m : Mem) : Bool :=
  decide (load8 m (u64 (buf_ptr_addr + kNtPos)) ≠ 0)

end Region

/-! ## pointer.hpp: the metadata word -/

/-- The metadata of a far-memory pointer: `self_addr` is the address of the pointer (the value of
`this`), `metadata_` the content of its eight bytes read as one little-endian word. -/
structure FarMemPtrMeta where
  self_addr : Nat
  metadata_ : Nat

namespace FarMemPtrMeta

def kSize : Nat := 8
def kEvacuationPos : Nat := 2
def kObjectIDBitPos : Nat := 26
def kObjectIDBitSize : Nat := 38
def kDirtyClear : Nat := 0x400
def kPresentClear : Nat := 0x100
def kHotClear : Nat := 0x80
def kEvacuationSet : Nat := 0x10000
def kObjectDataAddrBitPos : Nat := 17
def kObjectSizeBitPos : Nat := 10
def kHotPos : Nat := 0
def kPresentPos : Nat := 1
def kHotThresh : Nat := 2
def kDSIDPos : Nat := 0
def kSharedBitPos : Nat := 9
def kNull : Nat := kPresentClear
def kNullMask : Nat := ((2 ^ 64 - 1) <<< (8 * kPresentPos)) % 2 ^ 64

/-- The byte `metadata_[i]`. -/
def byte (self : FarMemPtrMeta) (i : Nat) : Nat := word_byte self.metadata_ i

/-- The assignment `metadata_[i] = v`. -/
def set_byte (self : FarMemPtrMeta) (i v : Nat) : FarMemPtrMeta :=
  { self with metadata_ := word_set_byte self.metadata_ i v }

/-- The value of `*reinterpret_cast<const uint16_t *>(metadata_)`. -/
def low16 (self : FarMemPtrMeta) : Nat := self.metadata_ % 2 ^ 16

/-- The assignment `*reinterpret_cast<uint16_t *>(metadata_) = v`. -/
def set_low16 (self : FarMemPtrMeta) (v : Nat) : FarMemPtrMeta :=
  { self with metadata_ := self.metadata_ / 2 ^ 16 * 2 ^ 16 + v % 2 ^ 16 }

def to_uint64_t (self : FarMemPtrMeta) : Nat := self.metadata_

def from_uint64_t (self : FarMemPtrMeta) (val : Nat) : FarMemPtrMeta :=
  { self with metadata_ := val }

def is_present (self : FarMemPtrMeta) : Bool := decide (self.low16 &&& kPresentClear = 0)

def is_null (self : FarMemPtrMeta) : Bool := decide (self.to_uint64_t &&& kNullMask = kNull)

def nullify (self : FarMemPtrMeta) : FarMemPtrMeta := self.from_uint64_t kNull

def get_object_data_addr (self : FarMemPtrMeta) : Nat :=
  self.to_uint64_t >>> kObjectDataAddrBitPos

def get_object_addr (self : FarMemPtrMeta) : Nat :=
  (self.get_object_data_addr + 2 ^ 64 - Object.kHeaderSize) % 2 ^ 64

/-- The 16-bit object size of an absent word; `none` is the failed `assert(!is_present())`. -/
def get_object_size (self : FarMemPtrMeta) : Option Nat :=
  if self.is_present then none else some ((self.to_uint64_t >>> kObjectSizeBitPos) % 2 ^ 16)

def object (self : FarMemPtrMeta) : Object := ⟨self.get_object_addr⟩

def get_object_id (self : FarMemPtrMeta) : Nat := self.to_uint64_t >>> kObjectIDBitPos

def is_dirty (self : FarMemPtrMeta) : Bool := decide (self.low16 &&& kDirtyClear = 0)

def set_dirty (self : FarMemPtrMeta) : FarMemPtrMeta :=
  self.set_low16 (self.low16 &&& (2 ^ 32 - 1 - kDirtyClear))

def clear_dirty (self : FarMemPtrMeta) : FarMemPtrMeta :=
  self.set_low16 (self.low16 ||| kDirtyClear)

def is_hot (self : FarMemPtrMeta) : Bool := decide (self.low16 &&& kHotClear = 0)

def clear_hot (self : FarMemPtrMeta) : FarMemPtrMeta :=
  self.set_byte kHotPos ((kHotClear >>> (8 * kHotPos)) + (kHotThresh - 1))

def set_hot (self : FarMemPtrMeta) : FarMemPtrMeta :=
  self.set_low16 (self.low16 &&& (2 ^ 32 - 1 - kHotClear))

def is_nt (self : FarMemPtrMeta) (m : Mem) : Bool :=
  let obj_data_addr := self.get_object_data_addr
  if obj_data_addr = 0 then false else Region.is_nt (obj_data_addr &&& Region.kBaseMask) m

def set_evacuation (self : FarMemPtrMeta) : FarMemPtrMeta :=
  self.set_byte kEvacuationPos (self.byte kEvacuationPos ||| 1)

def is_evacuation (self : FarMemPtrMeta) : Bool :=
  decide (self.byte kEvacuationPos &&& 1 ≠ 0)

def is_shared (self : FarMemPtrMeta) : Bool :=
  decide (self.to_uint64_t &&& (1 <<< kSharedBitPos) ≠ 0)

/-- The source writes `to_uint64_t() | (1 < kSharedBitPos)`: a comparison, whose value `true`
is the integer 1. -/
def set_shared (self : FarMemPtrMeta) : FarMemPtrMeta :=
  self.from_uint64_t (self.to_uint64_t ||| (if 1 < kSharedBitPos then 1 else 0))

/-- The byte `metadata_[kDSIDPos]` of an absent word; `none` is the failed
`assert(!is_present())`. -/
def get_ds_id (self : FarMemPtrMeta) : Option Nat :=
  if self.is_present then none else some (self.byte kDSIDPos)

/-- In pointer.cpp: writes the back pointer into the object, then the present form of the word. -/
def set_present (self : FarMemPtrMeta) (object_addr : Nat) (m : Mem) : FarMemPtrMeta × Mem :=
  let obj : Object := ⟨object_addr⟩
  let m1 := obj.set_ptr_addr self.self_addr m
  let new_metadata :=
    (u64 (object_addr + Object.kHeaderSize) <<< kObjectDataAddrBitPos) % 2 ^ 64 |||
      ((kDirtyClear ||| kHotClear) + ((kHotThresh - 1) <<< (8 * kHotPos)))
  (self.from_uint64_t new_metadata, m1)

def init (self : FarMemPtrMeta) (shared : Bool) (object_addr : Nat) (m : Mem) :
    FarMemPtrMeta × Mem :=
  let self1 := if shared then self.set_shared else self
  let (self2, m2) := self1.set_present object_addr m
  (self2.set_dirty, m2)

/-- The constructor `FarMemPtrMeta(bool shared, uint64_t object_addr)` of the pointer placed at
`self_addr`: `memset` to zero, then `init`. -/
def mk_shared (self_addr : Nat) (shared : Bool) (object_addr : Nat) (m : Mem) :
    FarMemPtrMeta × Mem :=
  init ⟨self_addr, 0⟩ shared object_addr m

def mutator_copy (self : FarMemPtrMeta) (new_local_object_addr : Nat) : FarMemPtrMeta :=
  let obj_data_addr_mask := (1 <<< kObjectDataAddrBitPos) - 1
  let evacuation_mask := 2 ^ 64 - 1 - (1 <<< (8 * kEvacuationPos))
  let mask := obj_data_addr_mask &&& evacuation_mask
  let masked_old_meta := self.to_uint64_t &&& mask
  self.from_uint64_t
    (masked_old_meta |||
      (u64 (new_local_object_addr + Object.kHeaderSize) <<< kObjectDataAddrBitPos) % 2 ^ 64)

/-- The absent form; `none` is the failed `assert(obj_id < (1ULL << kObjectIDBitSize))`. -/
def gc_wb (self : FarMemPtrMeta) (ds_id object_size obj_id : Nat) : Option FarMemPtrMeta :=
  if obj_id < 1 <<< kObjectIDBitSize then
    some (self.from_uint64_t
      ((obj_id <<< kObjectIDBitPos) % 2 ^ 64 |||
        (object_size % 2 ^ 16) <<< kObjectSizeBitPos ||| kPresentClear ||| ds_id % 2 ^ 8))
  else none

end FarMemPtrMeta

/-! ## obj_locker.hpp and manager.hpp: the object lock -/

/-- Modelled from the spec: the `ObjLocker` of obj_locker.cpp, which is not among the sources.
The spec has it as a sharded map from id fragments to entries, "`try_insert(id)` returns true if
newly inserted, false if contended; `remove(id)` erases".  The shard of a key is a function of
the key, so the shards are kept as one collection of the keys that have an entry. -/
structure ObjLocker where
  maps_ : List Nat

namespace ObjLocker

/-- Modelled from the spec: `ObjLocker::try_insert` (obj_locker.cpp is not among the sources),
"returns true if newly inserted, false if contended". -/
def try_insert (l : ObjLocker) (obj_id : Nat) : Bool × ObjLocker :=
  if obj_id ∈ l.maps_ then (false, l) else (true, ⟨obj_id :: l.maps_⟩)

/-- Modelled from the spec: `ObjLocker::remove` (obj_locker.cpp is not among the sources),
"erases" the entry of the key. -/
def remove (l : ObjLocker) (obj_id : Nat) : ObjLocker :=
  ⟨l.maps_.filter (fun k => decide (k ≠ obj_id))⟩

/-- The key has an entry, that is, the object lock of that key is held. -/
def holds (l : ObjLocker) (obj_id : Nat) : Prop := obj_id ∈ l.maps_

instance (l : ObjLocker) (obj_id : Nat) : Decidable (l.holds obj_id) := by
  unfold holds; infer_instance

end ObjLocker

/-- What a run records: the lock operations with their key and the calls of the slow paths. -/
inductive Event where
  | lock_object (obj_id_fragment : Nat)
  | unlock_object (obj_id_fragment : Nat)
  | swap_in (nt : Bool)
  | mutator_migrate_object
  | thread_yield
  deriving DecidableEq, Repr

/-- The state outside the pointer itself: memory, the static `FarMemManager::obj_locker_`, and
the record of the run so far. -/
structure World where
  mem : Mem
  obj_locker_ : ObjLocker
  trace : List Event

/-- Ways in which a call does not return normally. -/
inductive Fault where
  | assertion
  | spin
  | out_of_fuel
  deriving DecidableEq, Repr

/-- In manager.hpp: the first 8 bytes of the id, or all `obj_id_len` bytes written one by one
into a zeroed 64-bit integer. -/
def get_obj_id_fragment (obj_id_len obj_id : Nat) (m : Mem) : Nat :=
  if obj_id_len ≥ 8 then loadN m obj_id 8
  else (List.range obj_id_len).foldl (fun frag i => word_set_byte frag i (load8 m (obj_id + i))) 0

namespace FarMemManager

/-- The loop `while (!obj_locker_.try_insert(obj_id_fragment));`: with no other thread running,
an entry that is held stays held and the loop spins for ever. -/
def lock_object (obj_id_len obj_id : Nat) (w : World) : Except Fault World :=
  let obj_id_fragment := get_obj_id_fragment obj_id_len obj_id w.mem
  let r := w.obj_locker_.try_insert obj_id_fragment
  if r.1 then
    .ok { w with obj_locker_ := r.2, trace := w.trace ++ [Event.lock_object obj_id_fragment] }
  else .error Fault.spin

def unlock_object (obj_id_len obj_id : Nat) (w : World) : World :=
  let obj_id_fragment := get_obj_id_fragment obj_id_len obj_id w.mem
  { w with
    obj_locker_ := w.obj_locker_.remove obj_id_fragment,
    trace := w.trace ++ [Event.unlock_object obj_id_fragment] }

end FarMemManager

/-! ## pointer.hpp and pointer.cpp: GenericUniquePtr -/

/-- A `GenericUniquePtr` is its `meta_` field. -/
structure GenericUniquePtr where
  meta_ : FarMemPtrMeta

/-- The parts of the manager whose code (manager.cpp) is not among the sources, taken as
parameters: the swap-in of an absent pointer and the non-blocking allocator, which returns the
address of the new object (or nothing) and the memory as it leaves it. -/
structure Env where
  swap_in : Bool → GenericUniquePtr → World → GenericUniquePtr × World
  allocate_local_object_nb : Bool → Nat → Mem → Option Nat × Mem

namespace GenericUniquePtr

def object (self : GenericUniquePtr) : Object := self.meta_.object

def nullify (self : GenericUniquePtr) : GenericUniquePtr := ⟨self.meta_.nullify⟩

def is_null (self : GenericUniquePtr) : Bool := self.meta_.is_null

def release (self : GenericUniquePtr) : GenericUniquePtr := ⟨self.meta_.nullify⟩

def swap_in (env : Env) (self : GenericUniquePtr) (nt : Bool) (w : World) :
    GenericUniquePtr × World :=
  env.swap_in nt self { w with trace := w.trace ++ [Event.swap_in nt] }

/-- In pointer.cpp.  The `guard` of the source unlocks on every return that follows the lock. -/
def mutator_migrate_object (env : Env) (self : GenericUniquePtr) (w0 : World) :
    Except Fault (Bool × GenericUniquePtr × World) :=
  let w := { w0 with trace := w0.trace ++ [Event.mutator_migrate_object] }
  let object := self.meta_.object
  if !self.meta_.is_present then .ok (false, self, w)
  else
    let obj_id_len := object.get_obj_id_len w.mem
    let obj_id := object.get_obj_id w.mem
    match FarMemManager.lock_object obj_id_len obj_id w with
    | .error e => .error e
    | .ok w1 =>
      if !self.meta_.is_present || !self.meta_.is_evacuation then
        .ok (false, self, FarMemManager.unlock_object obj_id_len obj_id w1)
      else
        let nt := self.meta_.is_nt w1.mem
        let object_size := object.size w1.mem
        match env.allocate_local_object_nb nt object_size w1.mem with
        | (none, m2) =>
          .ok (false, self, FarMemManager.unlock_object obj_id_len obj_id { w1 with mem := m2 })
        | (some new_local_object_addr, m2) =>
          let m3 := memcpy m2 new_local_object_addr object.get_addr object_size
          let m4 := Region.atomic_inc_ref_cnt new_local_object_addr (-1) m3
          let self1 : GenericUniquePtr := ⟨self.meta_.mutator_copy new_local_object_addr⟩
          .ok (true, self1, FarMemManager.unlock_object obj_id_len obj_id { w1 with mem := m4 })

/-- In pointer.cpp; `.error Fault.assertion` is a failed `assert`. -/
def _free (self : GenericUniquePtr) (w : World) : Except Fault (GenericUniquePtr × World) :=
  if self.meta_.is_null then .error Fault.assertion
  else if !self.meta_.is_present then .error Fault.assertion
  else
    let obj := self.object
    let obj_id_len := obj.get_obj_id_len w.mem
    let obj_id := obj.get_obj_id w.mem
    match FarMemManager.lock_object obj_id_len obj_id w with
    | .error e => .error e
    | .ok w1 =>
      let w2 := { w1 with mem := self.object.free w1.mem }
      let self1 := self.nullify
      .ok (self1, FarMemManager.unlock_object obj_id_len obj_id w2)

/-- The mask of the bits tested by the fast path of `_deref<Mut, Nt>`. -/
def deref_exceptions (Mut : Bool) : Nat :=
  let exceptions :=
    FarMemPtrMeta.kHotClear ||| FarMemPtrMeta.kPresentClear ||| FarMemPtrMeta.kEvacuationSet
  if Mut then exceptions ||| FarMemPtrMeta.kDirtyClear else exceptions

/-- The template `_deref<Mut, Nt>` of pointer.hpp.  Each `goto retry` uses one unit of fuel;
the result is the returned address, 0 being `nullptr`. -/
def _deref (env : Env) (Mut Nt : Bool) :
    Nat → GenericUniquePtr → World → Except Fault (Nat × GenericUniquePtr × World)
  | 0, _, _ => .error Fault.out_of_fuel
  | fuel + 1, self, w =>
    let metadata := self.meta_.to_uint64_t
    let exceptions := deref_exceptions Mut
    if metadata &&& exceptions ≠ 0 then
      if metadata &&& (FarMemPtrMeta.kPresentClear ||| FarMemPtrMeta.kEvacuationSet) ≠ 0 then
        if metadata &&& FarMemPtrMeta.kPresentClear ≠ 0 then
          if self.meta_.is_null then .ok (0, self, w)
          else
            let r := self.swap_in env Nt w
            _deref env Mut Nt fuel r.1 r.2
        else
          match self.mutator_migrate_object env w with
          | .error e => .error e
          | .ok (true, self1, w1) => _deref env Mut Nt fuel self1 w1
          | .ok (false, self1, w1) =>
            _deref env Mut Nt fuel self1
              { w1 with trace := w1.trace ++ [Event.thread_yield] }
      else
        let self1 : GenericUniquePtr :=
          if Mut then ⟨self.meta_.set_byte FarMemPtrMeta.kPresentPos 0⟩ else self
        let self2 : GenericUniquePtr :=
          ⟨self1.meta_.set_byte FarMemPtrMeta.kHotPos
            ((self1.meta_.byte FarMemPtrMeta.kHotPos + 255) % 256)⟩
        .ok (metadata >>> FarMemPtrMeta.kObjectDataAddrBitPos, self2, w)
    else .ok (metadata >>> FarMemPtrMeta.kObjectDataAddrBitPos, self, w)

def deref (env : Env) (Nt : Bool) (fuel : Nat) (self : GenericUniquePtr) (w : World) :=
  _deref env false Nt fuel self w

def deref_mut (env : Env) (Nt : Bool) (fuel : Nat) (self : GenericUniquePtr) (w : World) :=
  _deref env true Nt fuel self w

end GenericUniquePtr

/-- The pointer after the slow path "set P and D, count the access" of `_deref`. -/
def deref_touched (Mut : Bool) (self : GenericUniquePtr) : GenericUniquePtr :=
  let self1 : GenericUniquePtr :=
    if Mut then ⟨self.meta_.set_byte FarMemPtrMeta.kPresentPos 0⟩ else self
  ⟨self1.meta_.set_byte FarMemPtrMeta.kHotPos
    ((self1.meta_.byte FarMemPtrMeta.kHotPos + 255) % 256)⟩

/-- The key under which the object at `a` is locked. -/
def object_key (a : Nat) (m : Mem) : Nat :=
  get_obj_id_fragment ((Object.mk a).get_obj_id_len m) ((Object.mk a).get_obj_id m) m

/-- Modelled from the spec: what the non-blocking allocator of manager.cpp, which is not among
the sources, guarantees to a migration of the object of `size` bytes at `a`, `r` being what the
allocator returned and the memory as it left it.  The allocator writes none of the bytes of the
object.  An address `n` it returns is a 47-bit address in the object area of its region (the
spec: "objects allocated bump-wise from offset 5 forward") and is the address of a new object
(the spec: "allocate a new local object in a non-evacuating region"): the `size` bytes at `n`
do not overlap the object at `a`, and the reference count of the region of `n` is not part of
that object. -/
def alloc_ok (a size : Nat) (m : Mem) (r : Option Nat × Mem) : Prop :=
  (∀ i, i < size → r.2 (a + i) = m (a + i)) ∧
  ∀ n, r.1 = some n →
    n + 10 < 2 ^ 47 ∧ Region.kObjectPos ≤ n % Region.kSize ∧
    (n + size ≤ a ∨ a + size ≤ n) ∧
    ((n &&& Region.kBaseMask) + Region.kRefCntSize ≤ a ∨ a + size ≤ (n &&& Region.kBaseMask))

/-- The setting of a migration of the object at `a` through the pointer `self`: the word is a
64-bit word with data address `a + 10`, the object is within the size limit of 65535 bytes, the
lock entry of the object is not held by someone else, and, if the allocator gets called (the
evacuation bit is set), it behaves as `alloc_ok` says. -/
def migrate_pre (env : Env) (self : GenericUniquePtr) (w : World) (a : Nat) : Prop :=
  self.meta_.metadata_ < 2 ^ 64 ∧
  self.meta_.get_object_data_addr = a + 10 ∧
  10 + (Object.mk a).get_data_len w.mem + (Object.mk a).get_obj_id_len w.mem < 2 ^ 16 ∧
  ¬ w.obj_locker_.holds (object_key a w.mem) ∧
  (self.meta_.is_evacuation = true →
    alloc_ok a ((Object.mk a).size w.mem) w.mem
      (env.allocate_local_object_nb (self.meta_.is_nt w.mem) ((Object.mk a).size w.mem) w.mem))

/-! ## object.hpp: initialisation of the header -/

namespace Object

def kMaxObjectSize : Nat := 2 ^ 16 - 1
def kMaxObjectIDSize : Nat := ((1 <<< (8 * kIDLenSize)) - 1) % 2 ^ 16
def kMaxObjectDataSize : Nat := (kMaxObjectSize - kHeaderSize - kMaxObjectIDSize) % 2 ^ 16

def set_ds_id (o : Object) (ds_id : Nat) (m : Mem) : Mem :=
  store8 m (u64 (o.addr_ + kDSIDPos)) ds_id

def set_obj_id_len (o : Object) (id_len : Nat) (m : Mem) : Mem :=
  store8 m (u64 (o.addr_ + kIDLenPos)) id_len

def set_data_len (o : Object) (data_len : Nat) (m : Mem) : Mem :=
  storeN m (u64 (o.addr_ + kDataLenPos)) data_len 2

/-- The id is passed as the address `id` of its first byte and is copied behind the payload,
whose length is read back from the header. -/
def set_object_id (o : Object) (id id_len : Nat) (m : Mem) : Mem :=
  let offset := (kHeaderSize + o.get_data_len m) % 2 ^ 32
  memcpy m (u64 (o.addr_ + offset)) id (id_len % 2 ^ 8)

def init (o : Object) (ds_id data_len id_len id : Nat) (m : Mem) : Mem :=
  let m1 := o.set_ds_id ds_id m
  let m2 := o.set_data_len data_len m1
  let m3 := o.set_obj_id_len id_len m2
  o.set_object_id id id_len m3

end Object

/-! ## region.hpp: the region handle -/

/-- A `Region` handle: the cursor, the address of the buffer, the index and the recorded GC
boundaries. -/
structure Region where
  first_free_byte_idx_ : Nat
  buf_ptr_ : Nat
  region_idx_ : Int
  num_boundaries_ : Nat
  gc_boundaries_ : Nat → Nat

namespace Region

def get_ref_cnt (r : Region) (m : Mem) : Nat := loadN m (r.buf_ptr_ + kRefCntPos) kRefCntSize

def clear_ref_cnt (r : Region) (m : Mem) : Mem := storeN m (r.buf_ptr_ + kRefCntPos) 0 kRefCntSize

/-- The member `Region::atomic_inc_ref_cnt(delta)`. -/
def atomic_inc_ref_cnt_member (r : Region) (delta : Int) (m : Mem) : Mem :=
  let ref_cnt_ptr := r.buf_ptr_ + kRefCntPos
  storeN m ref_cnt_ptr (Int.toNat (((loadN m ref_cnt_ptr kRefCntSize : Nat) + delta) % 2 ^ 32))
    kRefCntSize

def is_gcable (r : Region) (m : Mem) : Bool := decide (r.get_ref_cnt m = 0)

end Region

/-! ## deref_scope.hpp -/

/-- The `enum Status`. -/
inductive Status where
  | OutofScope
  | InScopeV0
  | InScopeV1
  | GC
  deriving DecidableEq, Repr

/-- The integer value of a status, which indexes the per-core counters. -/
def Status.toNat : Status → Nat
  | .OutofScope => 0
  | .InScopeV0 => 1
  | .InScopeV1 => 2
  | .GC => 3

/-- A 32-bit signed result with wrap-around. -/
def wrap32 (x : Int) : Int := (x + 2 ^ 31) % 2 ^ 32 - 2 ^ 31

/-- What the dereference scopes work on.  `th_status w` is the thread-local status byte of
worker `w`; `num_threads_on_status c i` is entry `i` of the three-entry `int` array
`num_threads_on_status` of core `c`; `num_threads_on_status_ptrs c` tells whether the global
table has a pointer to the array of core `c` (or a null pointer); then the three globals
`expected_status`, `almost_empty`, `gc_master_active`, and the record of the yields. -/
structure ScopeState where
  th_status : Nat → Status
  num_threads_on_status : Nat → Nat → Int
  num_threads_on_status_ptrs : Nat → Bool
  expected_status : Status
  almost_empty : Bool
  gc_master_active : Bool
  trace : List Event

/-- Ways in which a scope operation stops the program. -/
inductive ScopeFault where
  | assertion
  | out_of_bounds
  deriving DecidableEq, Repr

namespace DerefScope

/-- Modelled from the spec: `get_self_th_status()` of the threading runtime, which is not among
the sources; the spec has "a thread-local status byte observable by other cores". -/
def get_self_th_status (worker : Nat) (st : ScopeState) : Status := st.th_status worker

/-- Modelled from the spec: `set_self_th_status(status)` of the threading runtime, which is not
among the sources; it writes the thread-local status byte of the calling worker. -/
def set_self_th_status (worker : Nat) (status : Status) (st : ScopeState) : ScopeState :=
  { st with th_status := fun w => if w = worker then status else st.th_status w }

/-- The instruction `incl` (for `d = 1`) or `decl` (for `d = -1`) on entry `idx` of the counter
array of the core the instruction runs on. -/
def add_counter (core idx : Nat) (d : Int) (st : ScopeState) : ScopeState :=
  { st with
    num_threads_on_status := fun c i =>
      if c = core ∧ i = idx then wrap32 (st.num_threads_on_status c i + d)
      else st.num_threads_on_status c i }

def is_in_deref_scope (worker : Nat) (st : ScopeState) : Bool :=
  decide (get_self_th_status worker st ≠ Status.OutofScope)

def is_status_expected (worker : Nat) (st : ScopeState) : Bool :=
  decide (get_self_th_status worker st = st.expected_status)

/-- The parameter `wait` is `mutator_wait_for_gc_cache()`, whose code (manager.cpp) is not
among the sources; `worker` is the calling worker and `core` the core it runs on.  A failure
carries the state in which the program stops. -/
def enter_deref_scope (wait : ScopeState → ScopeState) (worker core : Nat) (st : ScopeState) :
    Except (ScopeFault × ScopeState) ScopeState :=
  if is_in_deref_scope worker st then .error (ScopeFault.assertion, st)
  else
    let st1 := if st.almost_empty then wait st else st
    let snapshot := st1.expected_status
    let st2 := set_self_th_status worker snapshot st1
    if snapshot.toNat < 3 then .ok (add_counter core snapshot.toNat 1 st2)
    else .error (ScopeFault.out_of_bounds, st2)

def exit_deref_scope (worker core : Nat) (st : ScopeState) :
    Except (ScopeFault × ScopeState) ScopeState :=
  if get_self_th_status worker st = Status.OutofScope then .error (ScopeFault.assertion, st)
  else
    let old_th_status := get_self_th_status worker st
    if old_th_status.toNat < 3 then
      let st1 := add_counter core old_th_status.toNat (-1) st
      let st2 := set_self_th_status worker Status.OutofScope st1
      if old_th_status ≠ st2.expected_status then
        if st2.gc_master_active then
          .ok { st2 with trace := st2.trace ++ [Event.thread_yield] }
        else .ok st2
      else .ok st2
    else .error (ScopeFault.out_of_bounds, st)

/-- The loop of `get_num_threads` over the first `n` entries of the pointer table. -/
def get_num_threads_loop (status : Status) (st : ScopeState) : Nat → Int
  | 0 => 0
  | n + 1 =>
    let sum := get_num_threads_loop status st n
    if st.num_threads_on_status_ptrs n then
      wrap32 (sum + st.num_threads_on_status n status.toNat)
    else sum

/-- The parameter `kNumCPUs` is `helpers::kNumCPUs`, whose declaration (helpers.hpp) is not
among the sources; `none` is the failed `assert(sum >= 0)`. -/
def get_num_threads (kNumCPUs : Nat) (status : Status) (st : ScopeState) : Option Int :=
  let sum := get_num_threads_loop status st kNumCPUs
  if sum ≥ 0 then some sum else none

end DerefScope

/-- In deref_scope.hpp: `flip_status`; `none` is the failed `assert(status != OutofScope)`. -/
def flip_status (status : Status) : Option Status :=
  if status = Status.OutofScope then none
  else some (if status = Status.InScopeV0 then Status.InScopeV1 else Status.InScopeV0)

/-! ## region.hpp: the cursor, the `nt` flag and the GC boundaries -/

/-- Ways in which a call on a `Region` does not return normally. -/
inductive RegionFault where
  | assertion
  | out_of_bounds
  deriving DecidableEq, Repr

namespace Region

def kNtSize : Nat := 1
def kGCParallelism : Nat := 2
def kInvalidIdx : Int := -1
def kHeaderSize : Nat := kRefCntSize + kNtSize

/-- The handle that the default constructor `Region()` builds; the array `gc_boundaries_` has
no initialiser and holds whatever `gc` is. -/
def fresh (gc : Nat → Nat) : Region := ⟨kObjectPos, 0, kInvalidIdx, 0, gc⟩

def is_invalid (r : Region) : Bool := decide (r.region_idx_ = kInvalidIdx)

def invalidate (r : Region) : Region := { r with region_idx_ := kInvalidIdx }

def is_local (r : Region) : Bool := decide (r.buf_ptr_ ≠ 0)

/-- The member `Region::is_nt()`. -/
def is_nt_member (r : Region) (m : Mem) : Bool := decide (load8 m (r.buf_ptr_ + kNtPos) ≠ 0)

def set_nt (r : Region) (m : Mem) : Mem := store8 m (r.buf_ptr_ + kNtPos) 1

def clear_nt (r : Region) (m : Mem) : Mem := store8 m (r.buf_ptr_ + kNtPos) 0

def reset (r : Region) (m : Mem) : Region × Mem :=
  ({ r with first_free_byte_idx_ := kObjectPos, num_boundaries_ := 0 }, r.clear_nt m)

/-- The store `gc_boundaries_[num_boundaries_++] = first_free_byte_idx_` is outside the array
of `kGCParallelism` entries when `num_boundaries_` has reached `kGCParallelism`;
`num_boundaries_` is 8 bits wide. -/
def update_boundaries (r : Region) (force : Bool) : Except RegionFault Region :=
  if force || decide (r.first_free_byte_idx_ > kSize / kGCParallelism * (r.num_boundaries_ + 1))
  then
    if kGCParallelism ≤ r.num_boundaries_ then .error RegionFault.out_of_bounds
    else
      .ok { r with
        gc_boundaries_ := fun i =>
          if i = r.num_boundaries_ then r.first_free_byte_idx_ else r.gc_boundaries_ i,
        num_boundaries_ := (r.num_boundaries_ + 1) % 2 ^ 8 }
  else .ok r

def get_num_boundaries (r : Region) : Nat := r.num_boundaries_

/-- The `assert` comes first; an index that passes it and is not below `kGCParallelism` reads
outside the array. -/
def get_boundary (r : Region) (idx : Nat) : Except RegionFault (Nat × Nat) :=
  if ¬ idx < r.num_boundaries_ then .error RegionFault.assertion
  else if kGCParallelism ≤ idx then .error RegionFault.out_of_bounds
  else
    let left_offset := if idx = 0 then kHeaderSize else r.gc_boundaries_ (idx - 1)
    let right_offset := r.gc_boundaries_ idx
    .ok (u64 (r.buf_ptr_ + left_offset), u64 (r.buf_ptr_ + right_offset))

end Region

/-! ## cb.hpp: the circular buffer -/

/-- A value as a `uint32_t` holds it. -/
def u32 (x : Nat) : Nat := x % 2 ^ 32

/-- Ways in which a call on a `CircularBuffer` does not return normally: a failed `assert`,
`spin_.Lock()` on a lock that is held (with no other thread running it stays held), and a
remainder by a `capacity_` of 0. -/
inductive CbFault where
  | assertion
  | spin
  | division_by_zero
  deriving DecidableEq, Repr

/-- The fields of a `CircularBuffer<T, Sync, Capacity>`; `spin_` is `true` while the lock is
held.  `Sync` is an argument of the operations. -/
structure CircularBuffer (T : Type) where
  items_ : Nat → T
  head_ : Nat
  tail_ : Nat
  capacity_ : Nat
  spin_ : Bool

namespace CircularBuffer

variable {T : Type}

/-- The constructor `CircularBuffer(uint32_t size)`: `capacity_ = size + 1` in 32 bits; the new
array holds `init`. -/
def mk_size (size : Nat) (init : Nat → T) : CircularBuffer T :=
  ⟨init, 0, 0, u32 (size + 1), false⟩

/-- The difference `capacity_ - 1` in 32 bits. -/
def capacity (cb : CircularBuffer T) : Nat := u32 (cb.capacity_ + (2 ^ 32 - 1))

def size (cb : CircularBuffer T) : Nat :=
  let tail := cb.tail_
  let head := cb.head_
  if tail < head then u32 (u32 (tail + cb.capacity_) + (2 ^ 32 - head)) else u32 (tail - head)

/-- In `push_front`, `head + capacity_ - 1` is a 32-bit sum. -/
def push_front (Sync : Bool) (cb : CircularBuffer T) (d : T) :
    Except CbFault (Bool × CircularBuffer T) :=
  if Sync && cb.spin_ then .error CbFault.spin
  else
    let head := cb.head_
    if cb.capacity_ = 0 then .error CbFault.division_by_zero
    else
      let new_head := u32 (u32 (head + cb.capacity_) + (2 ^ 32 - 1)) % cb.capacity_
      let success := decide (new_head ≠ cb.tail_)
      if success then
        .ok (true,
          { cb with items_ := fun i => if i = new_head then d else cb.items_ i,
                    head_ := new_head })
      else .ok (false, cb)

def push_back (Sync : Bool) (cb : CircularBuffer T) (d : T) :
    Except CbFault (Bool × CircularBuffer T) :=
  if Sync && cb.spin_ then .error CbFault.spin
  else
    let tail := cb.tail_
    if cb.capacity_ = 0 then .error CbFault.division_by_zero
    else
      let new_tail := u32 (tail + 1) % cb.capacity_
      let success := decide (new_tail ≠ cb.head_)
      if success then
        .ok (true,
          { cb with items_ := fun i => if i = tail then d else cb.items_ i, tail_ := new_tail })
      else .ok (false, cb)

/-- The item written to `*d` is the first component: `none` when the call returns `false`, in
which case `*d` is not written. -/
def pop_front (Sync : Bool) (cb : CircularBuffer T) :
    Except CbFault (Option T × CircularBuffer T) :=
  if Sync && cb.spin_ then .error CbFault.spin
  else
    let head := cb.head_
    let tail := cb.tail_
    let success := decide (head ≠ tail)
    if success then
      if cb.capacity_ = 0 then .error CbFault.division_by_zero
      else .ok (some (cb.items_ head), { cb with head_ := u32 (head + 1) % cb.capacity_ })
    else .ok (none, cb)

/-- The loop of `work_steal`, with `n` iterations left: `tail` and `items` are the local
`tail` and the array of the thief, `self_head` and `self_capacity` its `head_` and
`capacity_`, and `cb` is the victim. -/
def work_steal_loop (self_head self_capacity : Nat) :
    Nat → Nat → (Nat → T) → CircularBuffer T → Except CbFault (Nat × (Nat → T) × CircularBuffer T)
  | 0, tail, items, cb => .ok (tail, items, cb)
  | n + 1, tail, items, cb =>
    let items1 : Nat → T := fun i => if i = tail then cb.items_ cb.head_ else items i
    if cb.capacity_ = 0 then .error CbFault.division_by_zero
    else
      let cb1 := { cb with head_ := u32 (cb.head_ + 1) % cb.capacity_ }
      if self_capacity = 0 then .error CbFault.division_by_zero
      else
        let tail1 := u32 (tail + 1) % self_capacity
        if ¬ tail1 < u32 (self_head + self_capacity) then .error CbFault.assertion
        else if ¬ cb1.head_ ≠ cb1.tail_ then .error CbFault.assertion
        else work_steal_loop self_head self_capacity n tail1 items1 cb1

/-- The call `self.work_steal(&cb)` on two distinct buffers (`Sync` is `true`); both locks are
released on every return. -/
def work_steal (self cb : CircularBuffer T) :
    Except CbFault (Bool × CircularBuffer T × CircularBuffer T) :=
  if self.spin_ then .error CbFault.spin
  else if cb.size / 2 = 0 then .ok (false, self, cb)
  else if cb.spin_ then .ok (false, self, cb)
  else
    let cb_size := cb.size
    if cb_size / 2 = 0 then .ok (false, self, cb)
    else
      let tail := self.tail_
      let steal_size := min (cb_size / 2) (u32 (self.capacity + (2 ^ 32 - self.size)))
      match work_steal_loop self.head_ self.capacity_ steal_size tail self.items_ cb with
      | .error e => .error e
      | .ok (tail1, items1, cb1) =>
        .ok (true, { self with items_ := items1, tail_ := tail1 }, cb1)

/-- The items that the buffer holds, oldest first: the entries from `head_` up to `tail_`. -/
def contents (cb : CircularBuffer T) : List T :=
  (List.range cb.size).map (fun i => cb.items_ ((cb.head_ + i) % cb.capacity_))

/-- The representation invariant: `capacity_` is a non-zero 32-bit value and both indices are
below it. -/
def wf (cb : CircularBuffer T) : Prop :=
  0 < cb.capacity_ ∧ cb.capacity_ < 2 ^ 32 ∧ cb.head_ < cb.capacity_ ∧ cb.tail_ < cb.capacity_

end CircularBuffer

/-- A call of `push_back` or of `pop_front`. -/
inductive CbOp (T : Type) where
  | push_back (d : T)
  | pop_front

/-- A buffer with what a run of calls has done so far: the items that the successful
`push_back` calls accepted, the items that the successful `pop_front` calls delivered, and the
fault that ended the run, if any. -/
structure CbRun (T : Type) where
  cb : CircularBuffer T
  accepted : List T
  delivered : List T
  fault : Option CbFault

namespace CbRun

variable {T : Type}

def step (Sync : Bool) (s : CbRun T) : CbOp T → CbRun T
  | .push_back d =>
    match s.cb.push_back Sync d with
    | .error e => { s with fault := some e }
    | .ok (true, cb1) => { s with cb := cb1, accepted := s.accepted ++ [d] }
    | .ok (false, cb1) => { s with cb := cb1 }
  | .pop_front =>
    match s.cb.pop_front Sync with
    | .error e => { s with fault := some e }
    | .ok (some x, cb1) => { s with cb := cb1, delivered := s.delivered ++ [x] }
    | .ok (none, cb1) => { s with cb := cb1 }

/-- The calls `ops` in order, on the buffer `cb`; a fault ends the run. -/
def run (Sync : Bool) (ops : List (CbOp T)) (cb : CircularBuffer T) : CbRun T :=
  ops.foldl (fun s op => if s.fault.isSome then s else s.step Sync op) ⟨cb, [], [], none⟩

end CbRun

/-! ## parallel.hpp: the task queues of the parallelizer -/

/-- Ways in which `master_enqueue_task` does not return normally: a fault of the queue it
calls, an index outside `task_queues_`, and a loop that has not ended when the fuel has. -/
inductive ParFault where
  | queue (e : CbFault)
  | out_of_bounds
  | out_of_fuel
  deriving DecidableEq, Repr

/-- The fields of a `Parallelizer<Task>` that `master_enqueue_task` uses. -/
structure Parallelizer (Task : Type) where
  task_queues_ : Nat → CircularBuffer Task
  enqueue_thread_id_ : Nat
  num_slaves_ : Nat

namespace Parallelizer

variable {Task : Type}

/-- The loop `while (!pushed)` of `master_enqueue_task`.  Each pass is one call of `push_back`
and uses one unit of fuel; `attempts` counts the calls made so far. -/
def master_enqueue_loop (task : Task) :
    Nat → Parallelizer Task → Nat → Except ParFault (Nat × Parallelizer Task)
  | 0, _, _ => .error ParFault.out_of_fuel
  | fuel + 1, p, attempts =>
    if ¬ p.enqueue_thread_id_ < p.num_slaves_ then .error ParFault.out_of_bounds
    else
      match (p.task_queues_ p.enqueue_thread_id_).push_back true task with
      | .error e => .error (ParFault.queue e)
      | .ok (pushed, q) =>
        let p1 : Parallelizer Task :=
          { p with
            task_queues_ := fun i => if i = p.enqueue_thread_id_ then q else p.task_queues_ i,
            enqueue_thread_id_ := u32 (p.enqueue_thread_id_ + 1) }
        let p2 : Parallelizer Task :=
          if p1.enqueue_thread_id_ = p1.num_slaves_ then { p1 with enqueue_thread_id_ := 0 }
          else p1
        if pushed then .ok (attempts + 1, p2) else master_enqueue_loop task fuel p2 (attempts + 1)

/-- The call `master_enqueue_task(task)`: the number of calls of `push_back` it made and the
state it leaves. -/
def master_enqueue_task (fuel : Nat) (p : Parallelizer Task) (task : Task) :
    Except ParFault (Nat × Parallelizer Task) :=
  master_enqueue_loop task fuel p 0

def slave_dequeue_task (p : Parallelizer Task) (tid : Nat) :
    Except ParFault (Option Task × Parallelizer Task) :=
  if ¬ tid < p.num_slaves_ then .error ParFault.out_of_bounds
  else
    match (p.task_queues_ tid).pop_front true with
    | .error e => .error (ParFault.queue e)
    | .ok (o, q) =>
      .ok (o, { p with task_queues_ := fun i => if i = tid then q else p.task_queues_ i })

/-- The constructor `Parallelizer(num_slaves, task_queues_depth)`, which exits when one of the
two is 0. -/
def mk_queues (num_slaves task_queues_depth : Nat) (init : Nat → Task) :
    Option (Parallelizer Task) :=
  if num_slaves = 0 ∨ task_queues_depth = 0 then none
  else some ⟨fun _ => CircularBuffer.mk_size task_queues_depth init, 0, num_slaves⟩

/-- One `master_enqueue_task` call for each task of the list, in order. -/
def master_enqueue_all (fuel : Nat) :
    List Task → Parallelizer Task → Except ParFault (Parallelizer Task)
  | [], p => .ok p
  | task :: tasks, p =>
    match p.master_enqueue_task fuel task with
    | .error e => .error e
    | .ok (_, p1) => master_enqueue_all fuel tasks p1

/-- No queue is full. -/
def no_queue_full (p : Parallelizer Task) : Bool :=
  (List.range p.num_slaves_).all
    (fun i => decide ((p.task_queues_ i).size < (p.task_queues_ i).capacity))

/-- No queue is full before any of the calls of `master_enqueue_all`. -/
def never_full (fuel : Nat) : List Task → Parallelizer Task → Bool
  | [], _ => true
  | task :: tasks, p =>
    p.no_queue_full &&
      match p.master_enqueue_task fuel task with
      | .error _ => false
      | .ok (_, p1) => never_full fuel tasks p1

/-- The tasks of the list that a round-robin starting at the cursor `c` gives to queue `i` of
`N`: the `k`-th task goes to queue `(c + k) % N`. -/
def routed (N i : Nat) : Nat → List Task → List Task
  | _, [] => []
  | c, task :: tasks => (if c % N = i then [task] else []) ++ routed N i (c + 1) tasks

/-- The representation invariant: the cursor is below `num_slaves_`, a 32-bit value, and every
queue is well formed with a free lock. -/
def wf (p : Parallelizer Task) : Prop :=
  p.enqueue_thread_id_ < p.num_slaves_ ∧ p.num_slaves_ < 2 ^ 32 ∧
  ∀ i, i < p.num_slaves_ → (p.task_queues_ i).wf ∧ (p.task_queues_ i).spin_ = false

end Parallelizer

/-! ## dataframe_vector.hpp and dataframe_vector.cpp -/

/-- Ways in which a call on a `DataFrameVector` does not return normally: a failed `assert`
and a `BUG_ON` that fires. -/
inductive DfvFault where
  | assertion
  | bug_on
  deriving DecidableEq, Repr

/-- What the constants of `DataFrameVector<T>` depend on: `sizeof(T)`, and
`helpers::round_up_power_of_two`, which is in helpers.hpp, a file that is not among the
sources. -/
structure DfvConst where
  sizeof_T : Nat
  round_up_power_of_two : Nat → Nat

namespace DfvConst

def kPreferredChunkSize : Nat := 512

def kRealChunkNumEntries (k : DfvConst) : Nat :=
  max (u32 1) (u32 (k.round_up_power_of_two (kPreferredChunkSize / k.sizeof_T)))

def kRealChunkSize (k : DfvConst) : Nat := u32 (k.sizeof_T * k.kRealChunkNumEntries)

def kSizePerExpansion : Nat := u32 (4 <<< 20)

def kNumEntriesPerExpansion (k : DfvConst) : Nat :=
  u32 ((kSizePerExpansion - 1) / k.sizeof_T + 1)

end DfvConst

/-- The 64-bit difference `x - 1` for a 64-bit `x`: it wraps at 0. -/
def dec64 (x : Nat) : Nat := if x = 0 then 2 ^ 64 - 1 else x - 1

/-- A `DataFrameVector<T>`.  `num_chunk_ptrs` is `chunk_ptrs_.size()`, and `resize_log` holds
the capacities that `expand` has sent to the device.

Modelled from the spec: the chunk objects themselves.  Their allocation and their swap-in are
in manager.cpp, which is not among the sources; `chunks c` stands for the entries of the chunk
object that `chunk_ptrs_[c]` designates, at the address that `deref` and `deref_mut` give, and
`chunk_dirty c` tells whether `deref_mut` has been called on that pointer.  An entry keeps its
value until it is written. -/
structure DataFrameVector (T : Type) where
  size_ : Nat
  num_chunk_ptrs : Nat
  chunks : Nat → Nat → T
  chunk_dirty : Nat → Bool
  resize_log : List Nat

/-- A call of `push_back` or of `pop_back`. -/
inductive DfvOp (T : Type) where
  | push_back (u : T)
  | pop_back

namespace DataFrameVector

variable {T : Type}

def clear (v : DataFrameVector T) : DataFrameVector T := { v with size_ := 0 }

def size (v : DataFrameVector T) : Nat := v.size_

def empty (v : DataFrameVector T) : Bool := decide (v.size = 0)

/-- In dataframe_vector.cpp, `GenericDataFrameVector::expand(num)`: the new capacity goes to
the device and `num` pointers are added.  Each pointer is allocated in a loop that waits for
the collector until the allocation succeeds; the allocation is taken to succeed. -/
def generic_expand (k : DfvConst) (v : DataFrameVector T) (num : Nat) : DataFrameVector T :=
  let old_chunk_ptrs_size := v.num_chunk_ptrs
  let new_capacity := u64 ((old_chunk_ptrs_size + num) * k.kRealChunkNumEntries)
  { v with
    num_chunk_ptrs := old_chunk_ptrs_size + num,
    resize_log := v.resize_log ++ [new_capacity] }

/-- The constructor: no entry and, by `expand(1)`, one chunk. -/
def fresh (k : DfvConst) (chunks : Nat → Nat → T) : DataFrameVector T :=
  generic_expand k ⟨0, 0, chunks, fun _ => false, []⟩ 1

def capacity (k : DfvConst) (v : DataFrameVector T) : Nat :=
  u64 (v.num_chunk_ptrs * k.kRealChunkNumEntries)

def get_chunk_stats (k : DfvConst) (index : Nat) : Nat × Nat :=
  (index / k.kRealChunkNumEntries, index % k.kRealChunkNumEntries)

/-- The method `DataFrameVector<T>::expand(num)`, which adds whole chunks. -/
def expand (k : DfvConst) (v : DataFrameVector T) (num : Nat) : DataFrameVector T :=
  generic_expand k v (u64 (dec64 num / k.kRealChunkNumEntries + 1))

/-- The number of chunks that `expand(num)` adds. -/
def expand_chunks (k : DfvConst) (num : Nat) : Nat :=
  u64 (dec64 num / k.kRealChunkNumEntries + 1)

def push_back (k : DfvConst) (v : DataFrameVector T) (u : T) :
    Except DfvFault (DataFrameVector T) :=
  let index := v.size_
  let v1 := { v with size_ := u64 (v.size_ + 1) }
  let (chunk_idx, chunk_offset) := get_chunk_stats k index
  if ¬ v1.num_chunk_ptrs ≥ chunk_idx then .error DfvFault.assertion
  else
    let v2 := if v1.num_chunk_ptrs = chunk_idx then expand k v1 k.kNumEntriesPerExpansion else v1
    .ok { v2 with
      chunks := fun c o => if c = chunk_idx ∧ o = chunk_offset then u else v2.chunks c o,
      chunk_dirty := fun c => if c = chunk_idx then true else v2.chunk_dirty c }

def pop_back (v : DataFrameVector T) : DataFrameVector T :=
  { v with size_ := dec64 v.size_ }

/-- The conversion `static_cast<int64_t>` of a 64-bit value. -/
def to_int64 (x : Nat) : Int := if u64 x < 2 ^ 63 then (u64 x : Int) else (u64 x : Int) - 2 ^ 64

/-- The worker that calls and the state of the scopes are arguments. -/
def reserve (k : DfvConst) (worker : Nat) (st : ScopeState) (v : DataFrameVector T)
    (count : Nat) : Except DfvFault (DataFrameVector T) :=
  if DerefScope.is_in_deref_scope worker st then .error DfvFault.bug_on
  else
    let diff : Int := to_int64 (Int.toNat ((to_int64 count - to_int64 (capacity k v)) % 2 ^ 64))
    if diff > 0 then .ok (expand k v diff.toNat) else .ok v

def at_mut (k : DfvConst) (v : DataFrameVector T) (index : Nat) :
    Except DfvFault (T × DataFrameVector T) :=
  let (chunk_idx, chunk_offset) := get_chunk_stats k index
  if ¬ v.num_chunk_ptrs > chunk_idx then .error DfvFault.assertion
  else
    .ok (v.chunks chunk_idx chunk_offset,
      { v with chunk_dirty := fun c => if c = chunk_idx then true else v.chunk_dirty c })

/-- The method `at`. -/
def at_const (k : DfvConst) (v : DataFrameVector T) (index : Nat) : Except DfvFault T :=
  let (chunk_idx, chunk_offset) := get_chunk_stats k index
  if ¬ v.num_chunk_ptrs > chunk_idx then .error DfvFault.assertion
  else .ok (v.chunks chunk_idx chunk_offset)

def front_mut (k : DfvConst) (v : DataFrameVector T) := at_mut k v 0

def front (k : DfvConst) (v : DataFrameVector T) := at_const k v 0

def back_mut (k : DfvConst) (v : DataFrameVector T) := at_mut k v (dec64 v.size)

def back (k : DfvConst) (v : DataFrameVector T) := at_const k v (dec64 v.size)

/-- The calls `ops` in order; a failed assertion ends the run. -/
def run (k : DfvConst) : List (DfvOp T) → DataFrameVector T → Except DfvFault (DataFrameVector T)
  | [], v => .ok v
  | DfvOp.push_back u :: ops, v =>
    match push_back k v u with
    | .error e => .error e
    | .ok v1 => run k ops v1
  | DfvOp.pop_back :: ops, v => run k ops (pop_back v)

/-- The vector `v` holds the list `l`: `size_` is its length, the chunks that exist have room
for it, and element `i` is at offset `i % K` of chunk `i / K`. -/
@[reducible] def holds (k : DfvConst) (v : DataFrameVector T) (l : List T) : Prop :=
  v.size_ = l.length ∧ l.length ≤ v.num_chunk_ptrs * k.kRealChunkNumEntries ∧
  ∀ i, i < l.length →
    l[i]? = some (v.chunks (i / k.kRealChunkNumEntries) (i % k.kRealChunkNumEntries))

end DataFrameVector

/-- The sequence that a series of calls describes: `push_back` appends an element and
`pop_back` drops the last one. -/
def dfv_sequence {T : Type} : List (DfvOp T) → List T → List T
  | [], l => l
  | DfvOp.push_back u :: ops, l => dfv_sequence ops (l ++ [u])
  | DfvOp.pop_back :: ops, l => dfv_sequence ops l.dropLast

/-- Every `pop_back` of the series is called with at least one element in the sequence. -/
def dfv_pops_allowed {T : Type} : List (DfvOp T) → List T → Bool
  | [], _ => true
  | DfvOp.push_back u :: ops, l => dfv_pops_allowed ops (l ++ [u])
  | DfvOp.pop_back :: ops, l => decide (1 ≤ l.length) && dfv_pops_allowed ops l.dropLast

def dfv_num_pushes {T : Type} : List (DfvOp T) → Nat
  | [] => 0
  | DfvOp.push_back _ :: ops => dfv_num_pushes ops + 1
  | DfvOp.pop_back :: ops => dfv_num_pushes ops

def dfv_num_pops {T : Type} : List (DfvOp T) → Nat
  | [] => 0
  | DfvOp.push_back _ :: ops => dfv_num_pops ops
  | DfvOp.pop_back :: ops => dfv_num_pops ops + 1

/-! ## concurrent_hopscotch.hpp: the lookup -/

/-- The 64-bit difference `x - y` of two 64-bit values. -/
def sub64 (x y : Nat) : Nat := if y ≤ x then x - y else 2 ^ 64 - (y - x)

/-- The C library call `strncmp(s1, s2, n) == 0` on the strings at the addresses `s1` and
`s2`: the comparison ends at the first difference, after a byte 0 that both strings have, or
after `n` bytes. -/
def strncmp_is_zero (m : Mem) : Nat → Nat → Nat → Bool
  | _, _, 0 => true
  | s1, s2, n + 1 =>
    if load8 m s1 ≠ load8 m s2 then false
    else if load8 m s1 = 0 then true
    else strncmp_is_zero m (s1 + 1) (s2 + 1) n

/-- Modelled from the spec: `helpers::bsf_32`, which is in helpers.hpp, a file that is not
among the sources.  It gives the index of the lowest bit that is set (the instruction `bsf`);
the spec has the lookup walk "the bitmap of the bucket".  `n` bounds the search. -/
def bsf_loop (x : Nat) : Nat → Nat → Nat
  | 0, i => i
  | n + 1, i => if x.testBit i then i else bsf_loop x n (i + 1)

def bsf_32 (x : Nat) : Nat := bsf_loop x 32 0

/-- An entry of the table. -/
structure BucketEntry where
  bitmap : Nat
  spin : Bool
  timestamp : Nat
  ptr : GenericUniquePtr

/-- The fields of a `GenericConcurrentHopscotch` that the lookup uses. -/
structure GenericConcurrentHopscotch where
  kHashMask_ : Nat
  kNumEntries_ : Nat
  buckets_ : Nat → BucketEntry

/-- What the lookup calls and is not among the sources: `hash_32` of hash.hpp, on the `len`
bytes at an address, and `process_notifier_stash`, whose `do_notifier` is in
concurrent_hopscotch.cpp. -/
structure HopscotchEnv where
  hash_32 : Nat → Nat → Mem → Nat
  process_notifier_stash : GenericConcurrentHopscotch → World → GenericConcurrentHopscotch × World

/-- How a walk over the bitmap ends: with the length of the value it has copied, with no
entry for the key, or at a pointer whose dereference gave `nullptr`. -/
inductive ScanOutcome where
  | hit (val_len : Nat)
  | miss
  | retry
  deriving DecidableEq, Repr

namespace GenericConcurrentHopscotch

def kNeighborhood : Nat := 32
def kMaxRetries : Nat := 2
def kMetadataSize : Nat := 7

/-- The loop `while (bitmap)` of `get_once`, with `fuel` passes left (a 32-bit bitmap needs at
most 32).  `_deref<false, false>` runs with `deref_fuel`. -/
def scan (env : Env) (deref_fuel : Nat) (key_len key val bucket_idx : Nat) :
    Nat → Nat → GenericConcurrentHopscotch → World →
      Except Fault (ScanOutcome × GenericConcurrentHopscotch × World)
  | 0, _, _, _ => .error Fault.out_of_fuel
  | fuel + 1, bitmap, h, w =>
    if bitmap = 0 then .ok (ScanOutcome.miss, h, w)
    else
      let offset := bsf_32 bitmap
      let ptr := (h.buckets_ (bucket_idx + offset)).ptr
      let next := u32 (bitmap ^^^ u32 (1 <<< offset))
      if !ptr.is_null then
        match GenericUniquePtr._deref env false false deref_fuel ptr w with
        | .error e => .error e
        | .ok (obj_val_ptr, ptr1, w1) =>
          let h1 : GenericConcurrentHopscotch :=
            { h with buckets_ := fun i =>
                if i = bucket_idx + offset then { h.buckets_ i with ptr := ptr1 }
                else h.buckets_ i }
          if obj_val_ptr = 0 then .ok (ScanOutcome.retry, h1, w1)
          else
            let obj : Object := ⟨sub64 obj_val_ptr Object.kHeaderSize⟩
            if obj.get_obj_id_len w1.mem = key_len then
              let obj_data_len := obj.get_data_len w1.mem
              if strncmp_is_zero w1.mem (u64 (obj_val_ptr + obj_data_len)) key key_len then
                let val_len :=
                  if kMetadataSize ≤ obj_data_len then (obj_data_len - kMetadataSize) % 2 ^ 16
                  else 2 ^ 16 - (kMetadataSize - obj_data_len)
                .ok (ScanOutcome.hit val_len, h1,
                  { w1 with mem := memcpy w1.mem val obj_val_ptr val_len })
              else scan env deref_fuel key_len key val bucket_idx fuel next h1 w1
            else scan env deref_fuel key_len key val bucket_idx fuel next h1 w1
      else scan env deref_fuel key_len key val bucket_idx fuel next h w

/-- The lambda `get_once<Lock>`: whether it found the key, the length it wrote to `*val_len`,
and the timestamp it read.  Each `goto retry` uses one unit of `fuel`; with `Lock`, a lock
that is held stays held. -/
def get_once (env : Env) (henv : HopscotchEnv) (deref_fuel : Nat)
    (key_len key val bucket_idx : Nat) (Lock : Bool) :
    Nat → GenericConcurrentHopscotch → World →
      Except Fault (Bool × Option Nat × Nat × GenericConcurrentHopscotch × World)
  | 0, _, _ => .error Fault.out_of_fuel
  | fuel + 1, h, w =>
    if Lock && (h.buckets_ bucket_idx).spin then .error Fault.spin
    else
      let timestamp := (h.buckets_ bucket_idx).timestamp
      let bitmap := (h.buckets_ bucket_idx).bitmap
      match scan env deref_fuel key_len key val bucket_idx 33 bitmap h w with
      | .error e => .error e
      | .ok (ScanOutcome.hit n, h1, w1) => .ok (true, some n, timestamp, h1, w1)
      | .ok (ScanOutcome.miss, h1, w1) => .ok (false, none, timestamp, h1, w1)
      | .ok (ScanOutcome.retry, h1, w1) =>
        let r := henv.process_notifier_stash h1 w1
        get_once env henv deref_fuel key_len key val bucket_idx Lock fuel r.1
          { r.2 with trace := r.2.trace ++ [Event.thread_yield] }

/-- The `do ... while` of the fast path, with `budget` further passes allowed by
`retry_counter++ < kMaxRetries`. -/
def fast_path (env : Env) (henv : HopscotchEnv) (deref_fuel fuel : Nat)
    (key_len key val bucket_idx : Nat) :
    Nat → GenericConcurrentHopscotch → World →
      Except Fault (Bool × Option Nat × Nat × GenericConcurrentHopscotch × World)
  | budget, h, w =>
    match get_once env henv deref_fuel key_len key val bucket_idx false fuel h w with
    | .error e => .error e
    | .ok (true, n, timestamp, h1, w1) => .ok (true, n, timestamp, h1, w1)
    | .ok (false, n, timestamp, h1, w1) =>
      match budget with
      | 0 => .ok (false, n, timestamp, h1, w1)
      | budget1 + 1 =>
        if timestamp ≠ (h1.buckets_ bucket_idx).timestamp then
          fast_path env henv deref_fuel fuel key_len key val bucket_idx budget1 h1 w1
        else .ok (false, n, timestamp, h1, w1)

/-- The method `__get(key_len, key, val_len, val)`: what it returns (`true` is a miss), the
length it wrote to `*val_len` if it wrote one, and the state; the value is in the memory at
`val`. -/
def __get (env : Env) (henv : HopscotchEnv) (deref_fuel fuel : Nat) (key_len key val : Nat)
    (h : GenericConcurrentHopscotch) (w : World) :
    Except Fault (Bool × Option Nat × GenericConcurrentHopscotch × World) :=
  let hash := u32 (henv.hash_32 key key_len w.mem)
  let bucket_idx := hash &&& h.kHashMask_
  match fast_path env henv deref_fuel fuel key_len key val bucket_idx kMaxRetries h w with
  | .error e => .error e
  | .ok (true, n, _, h1, w1) => .ok (false, n, h1, w1)
  | .ok (false, _, timestamp, h1, w1) =>
    if timestamp ≠ (h1.buckets_ bucket_idx).timestamp then
      match get_once env henv deref_fuel key_len key val bucket_idx true fuel h1 w1 with
      | .error e => .error e
      | .ok (true, n, _, h2, w2) => .ok (false, n, h2, w2)
      | .ok (false, _, _, h2, w2) => .ok (true, none, h2, w2)
    else .ok (true, none, h1, w1)

end GenericConcurrentHopscotch

/-! ## pointer.cpp: the move of a pointer -/

namespace FarMemManager

/-- The call `lock_object(sizeof(uint64_t), p)` with `p` the address of a local 64-bit variable
that holds `obj_id`: the fragment read through `p` is the value of the variable. -/
def lock_object_local (obj_id : Nat) (w : World) : Except Fault World :=
  let obj_id_fragment := u64 obj_id
  let r := w.obj_locker_.try_insert obj_id_fragment
  if r.1 then
    .ok { w with obj_locker_ := r.2, trace := w.trace ++ [Event.lock_object obj_id_fragment] }
  else .error Fault.spin

/-- The call `unlock_object(sizeof(uint64_t), p)` with `p` the address of a local 64-bit
variable that holds `obj_id`. -/
def unlock_object_local (obj_id : Nat) (w : World) : World :=
  let obj_id_fragment := u64 obj_id
  { w with
    obj_locker_ := w.obj_locker_.remove obj_id_fragment,
    trace := w.trace ++ [Event.unlock_object obj_id_fragment] }

end FarMemManager

namespace GenericUniquePtr

/-- In pointer.cpp: `move(other, reset_value)` on the pointer `self`; the result is `self`,
`other` and the world.  Each `goto retry` uses one unit of fuel.  The length handed to the lock
is `sizeof(uint64_t)` in both branches; the id is read in the object when `other` is present
and is the local copy of the object id of the word otherwise.  The `guard` of the source unlocks
on every way out that follows the lock. -/
def move : Nat → GenericUniquePtr → GenericUniquePtr → Nat → World →
    Except Fault (GenericUniquePtr × GenericUniquePtr × World)
  | 0, _, _, _, _ => .error Fault.out_of_fuel
  | fuel + 1, self, other, reset_value, w =>
    let other_obj_id_len := 8
    let other_present := other.meta_.is_present
    if other_present then
      let other_object := other.object
      let other_obj_id_ptr := other_object.get_obj_id w.mem
      match FarMemManager.lock_object other_obj_id_len other_obj_id_ptr w with
      | .error e => .error e
      | .ok w1 =>
        if other.meta_.is_present != other_present then
          move fuel self other reset_value
            (FarMemManager.unlock_object other_obj_id_len other_obj_id_ptr w1)
        else
          let self1 : GenericUniquePtr := ⟨self.meta_.from_uint64_t other.meta_.to_uint64_t⟩
          let w2 := { w1 with mem := other_object.set_ptr_addr self.meta_.self_addr w1.mem }
          let other1 : GenericUniquePtr := ⟨other.meta_.from_uint64_t reset_value⟩
          .ok (self1, other1,
            FarMemManager.unlock_object other_obj_id_len other_obj_id_ptr w2)
    else
      let other_obj_id := other.meta_.get_object_id
      match FarMemManager.lock_object_local other_obj_id w with
      | .error e => .error e
      | .ok w1 =>
        if other.meta_.is_present != other_present then
          move fuel self other reset_value (FarMemManager.unlock_object_local other_obj_id w1)
        else
          let self1 : GenericUniquePtr := ⟨self.meta_.from_uint64_t other.meta_.to_uint64_t⟩
          let other1 : GenericUniquePtr := ⟨other.meta_.from_uint64_t reset_value⟩
          .ok (self1, other1, FarMemManager.unlock_object_local other_obj_id w1)

/-- In pointer.cpp: the move assignment `operator=(GenericUniquePtr &&other)`. -/
def move_assign (fuel : Nat) (self other : GenericUniquePtr) (w : World) :=
  move fuel self other FarMemPtrMeta.kNull w

end GenericUniquePtr

/-- The key that `move` hands to the lock for the pointer `other`: eight bytes read at the
address of the id of its object when it is present, the object id of its word otherwise. -/
def move_key (other : GenericUniquePtr) (m : Mem) : Nat :=
  if other.meta_.is_present then
    get_obj_id_fragment 8 (other.object.get_obj_id m) m
  else u64 other.meta_.get_object_id

/-! ## deref_scope.hpp: runs of scope operations -/

/-- A step of the scope machinery: a worker enters or leaves a scope on a core, or the
collector flips `expected_status`. -/
inductive ScopeOp where
  | enter (worker core : Nat)
  | exit (worker core : Nat)
  | flip
  deriving DecidableEq, Repr

/-- One step.  The flip is the assignment `expected_status = flip_status(expected_status)`. -/
def scope_step (wait : ScopeState → ScopeState) :
    ScopeOp → ScopeState → Except (ScopeFault × ScopeState) ScopeState
  | ScopeOp.enter worker core, st => DerefScope.enter_deref_scope wait worker core st
  | ScopeOp.exit worker core, st => DerefScope.exit_deref_scope worker core st
  | ScopeOp.flip, st =>
    match flip_status st.expected_status with
    | none => .error (ScopeFault.assertion, st)
    | some s => .ok { st with expected_status := s }

/-- The steps `ops` in order; a failed assertion ends the run. -/
def scope_run (wait : ScopeState → ScopeState) :
    List ScopeOp → ScopeState → Except (ScopeFault × ScopeState) ScopeState
  | [], st => .ok st
  | op :: ops, st =>
    match scope_step wait op st with
    | .error e => .error e
    | .ok st1 => scope_run wait ops st1

/-- The number of workers `w < W` whose status is `s`. -/
def count_status (s : Status) (st : ScopeState) : Nat → Nat
  | 0 => 0
  | W + 1 => count_status s st W + (if st.th_status W = s then 1 else 0)

/-- The worker and the core of a step are a worker below `W` and a core below `kNumCPUs`
whose counter array is in the pointer table. -/
def ScopeOp.within (W kNumCPUs : Nat) (ptrs : Nat → Bool) : ScopeOp → Prop
  | ScopeOp.enter worker core => worker < W ∧ core < kNumCPUs ∧ ptrs core = true
  | ScopeOp.exit worker core => worker < W ∧ core < kNumCPUs ∧ ptrs core = true
  | ScopeOp.flip => True

instance (W kNumCPUs : Nat) (ptrs : Nat → Bool) (op : ScopeOp) :
    Decidable (op.within W kNumCPUs ptrs) := by
  cases op <;> unfold ScopeOp.within <;> infer_instance

/-- What is taken of `mutator_wait_for_gc_cache()`: it returns with the statuses, the counters
and the pointer table as they were, and it leaves `expected_status` one of the two in-scope
values if it was one. -/
def wait_frame (wait : ScopeState → ScopeState) : Prop :=
  ∀ st, (wait st).th_status = st.th_status ∧
    (wait st).num_threads_on_status = st.num_threads_on_status ∧
    (wait st).num_threads_on_status_ptrs = st.num_threads_on_status_ptrs ∧
    ((st.expected_status = Status.InScopeV0 ∨ st.expected_status = Status.InScopeV1) →
      ((wait st).expected_status = Status.InScopeV0 ∨
        (wait st).expected_status = Status.InScopeV1))

/-- The initial state: every worker `OutofScope`, every counter 0, and `expected_status` one of
the two in-scope values. -/
def scope_initial (st : ScopeState) : Prop :=
  (∀ w, st.th_status w = Status.OutofScope) ∧
  (∀ c i, st.num_threads_on_status c i = 0) ∧
  (st.expected_status = Status.InScopeV0 ∨ st.expected_status = Status.InScopeV1)

/-- What every reachable state of the scope machinery satisfies, for `W` workers and
`kNumCPUs` cores: `expected_status` is one of the two in-scope values, a worker that does not
exist is out of scope, no worker has the status `GC`, and for each in-scope value the sum that
`get_num_threads` computes differs from the number of workers with that status by a multiple
of `2^32`. -/
def scope_inv (W kNumCPUs : Nat) (st : ScopeState) : Prop :=
  (st.expected_status = Status.InScopeV0 ∨ st.expected_status = Status.InScopeV1) ∧
  (∀ w, W ≤ w → st.th_status w = Status.OutofScope) ∧
  (∀ w, st.th_status w ≠ Status.GC) ∧
  ∀ s, s = Status.InScopeV0 ∨ s = Status.InScopeV1 →
    (DerefScope.get_num_threads_loop s st kNumCPUs - (count_status s st W : Int)) % 2 ^ 32 = 0

/-! ## region.hpp: series of boundary updates -/

namespace Region

/-- A series of calls of `update_boundaries`; each comes with the value that the cursor
`first_free_byte_idx_` has when the call is made and with its `force` argument. -/
def run_updates : List (Nat × Bool) → Region → Except RegionFault Region
  | [], r => .ok r
  | (cursor, force) :: rest, r =>
    match update_boundaries { r with first_free_byte_idx_ := cursor } force with
    | .error e => .error e
    | .ok r1 => run_updates rest r1

/-- The number of forced calls of a series. -/
def num_forced : List (Nat × Bool) → Nat
  | [] => 0
  | (_, force) :: rest => (if force then 1 else 0) + num_forced rest

/-- The number of calls of a series that are not forced and record a boundary. -/
def num_unforced_records : List (Nat × Bool) → Region → Nat
  | [], _ => 0
  | (cursor, force) :: rest, r =>
    match update_boundaries { r with first_free_byte_idx_ := cursor } force with
    | .error _ => 0
    | .ok r1 =>
      (if !force && decide (r1.num_boundaries_ ≠ r.num_boundaries_) then 1 else 0)
        + num_unforced_records rest r1

end Region

/-! ## server_dataframe_vector.cpp and the client's `expand` -/

/-- Ways in which a call on the server-side vector does not return normally: a failed `assert`,
a wait on the barrier that nothing ends, a copy outside the storage of `vec_`, and `BUG()`. -/
inductive ServerFault where
  | assertion
  | spin
  | out_of_bounds
  | bug
  deriving DecidableEq, Repr

/-- A `ServerDataFrameVector<T>`: `vec_size` is `vec_.size()`, `vec_bytes b` the byte at offset
`b` of `vec_.data()`, then the flag and the per-core counters of the barrier. -/
structure ServerDataFrameVector where
  vec_size : Nat
  vec_bytes : Nat → Nat
  global_wait_ : Bool
  ref_cnts_ : Nat → Int

namespace ServerDataFrameVector

/-- The constructor: an empty `vec_`, the counters set to 0. -/
def fresh : ServerDataFrameVector := ⟨0, fun _ => 0, false, fun _ => 0⟩

/-- The method `enter_barrier()` on the core `core`, the value of `get_core_num()`; with no
other thread running, a wait on `global_wait_` does not end. -/
def enter_barrier (core : Nat) (s : ServerDataFrameVector) :
    Except ServerFault ServerDataFrameVector :=
  if s.global_wait_ then .error ServerFault.spin
  else
    .ok { s with ref_cnts_ := fun c => if c = core then wrap32 (s.ref_cnts_ c + 1)
                                         else s.ref_cnts_ c }

def exit_barrier (core : Nat) (s : ServerDataFrameVector) : ServerDataFrameVector :=
  { s with ref_cnts_ := fun c => if c = core then wrap32 (s.ref_cnts_ c - 1) else s.ref_cnts_ c }

/-- The method `disable_and_wait_barrier()`; `cores` are the cores that the loop
`FOR_ALL_SOCKET0_CORES` visits.  With no other thread running, a sum that is not 0 stays so. -/
def disable_and_wait_barrier (cores : List Nat) (s : ServerDataFrameVector) :
    Except ServerFault ServerDataFrameVector :=
  let s1 := { s with global_wait_ := true }
  let sum := cores.foldl (fun acc i => wrap32 (acc + s1.ref_cnts_ i)) 0
  if sum ≠ 0 then .error ServerFault.spin else .ok s1

def enable_barrier (s : ServerDataFrameVector) : ServerDataFrameVector :=
  { s with global_wait_ := false }

/-- The method `read_object`; `obj_id` is the value of the eight bytes that the argument points
at.  The result is `*data_len`, a 16-bit value, with the bytes copied to `data_buf`.  The guard
made by `helpers::finally` calls `exit_barrier()`, so the counter is back before the call
returns.  A copy that does not lie within the `vec_.size() * sizeof(T)` bytes of `vec_` is
`out_of_bounds`. -/
def read_object (k : DfvConst) (core obj_id_len obj_id : Nat) (s : ServerDataFrameVector) :
    Except ServerFault ((Nat × List Nat) × ServerDataFrameVector) :=
  match enter_barrier core s with
  | .error e => .error e
  | .ok s1 =>
    let s2 := exit_barrier core s1
    if obj_id_len ≠ 8 then .error ServerFault.assertion
    else
      let index := obj_id
      let chunk_size := k.kRealChunkSize
      let data_len := chunk_size % 2 ^ 16
      let offset := u64 (index * chunk_size)
      if offset + chunk_size ≤ s2.vec_size * k.sizeof_T then
        .ok ((data_len, (List.range chunk_size).map (fun i => s2.vec_bytes (offset + i))), s2)
      else .error ServerFault.out_of_bounds

/-- The method `write_object`; `data_buf` holds the bytes to copy, of which the first
`kRealChunkSize` are copied. -/
def write_object (k : DfvConst) (core obj_id_len obj_id data_len : Nat) (data_buf : List Nat)
    (s : ServerDataFrameVector) : Except ServerFault ServerDataFrameVector :=
  match enter_barrier core s with
  | .error e => .error e
  | .ok s1 =>
    let s2 := exit_barrier core s1
    if obj_id_len ≠ 8 then .error ServerFault.assertion
    else
      let index := obj_id
      let chunk_size := k.kRealChunkSize
      if data_len ≠ chunk_size then .error ServerFault.assertion
      else
        let offset := u64 (index * chunk_size)
        if offset + chunk_size ≤ s2.vec_size * k.sizeof_T then
          .ok { s2 with
            vec_bytes := fun b =>
              if offset ≤ b ∧ b < offset + chunk_size then data_buf.getD (b - offset) 0
              else s2.vec_bytes b }
        else .error ServerFault.out_of_bounds

/-- The method `remove_object`, which is `BUG()`. -/
def remove_object (_obj_id_len _obj_id : Nat) (_s : ServerDataFrameVector) :
    Except ServerFault (Bool × ServerDataFrameVector) :=
  .error ServerFault.bug

/-- The method `compute_resize`; `input` is the value of the eight bytes of `input_buf`.  The
result is `*output_len`.  `vec_.resize` keeps the elements there are and sets the new ones to
zero. -/
def compute_resize (k : DfvConst) (cores : List Nat) (input_len input : Nat)
    (s : ServerDataFrameVector) : Except ServerFault (Nat × ServerDataFrameVector) :=
  match disable_and_wait_barrier cores s with
  | .error e => .error e
  | .ok s1 =>
    if input_len ≠ 8 then .error ServerFault.assertion
    else
      let new_capacity := input
      if ¬ new_capacity > s1.vec_size then .error ServerFault.assertion
      else
        .ok (0, enable_barrier
          { s1 with
            vec_size := new_capacity,
            vec_bytes := fun b => if b < s1.vec_size * k.sizeof_T then s1.vec_bytes b else 0 })

/-- The method `compute`; the opcode `Resize` is 0. -/
def compute (k : DfvConst) (cores : List Nat) (opcode input_len input : Nat)
    (s : ServerDataFrameVector) : Except ServerFault (Nat × ServerDataFrameVector) :=
  if opcode = 0 then compute_resize k cores input_len input s else .error ServerFault.bug

end ServerDataFrameVector

/-- A `GenericDataFrameVector` with the server-side vector behind its device: `chunk_ptrs_`
holds, for each pointer of the vector, the object id it was allocated with.

Modelled from the spec: the device (device.hpp and the server are not among the sources), of
which the spec has "`compute(ds_id, opcode, input) → output` — opaque pass-through"; the
request of `expand` reaches `compute` of the server-side vector `device_`. -/
structure GenericDataFrameVector where
  chunk_ptrs_ : List Nat
  device_ : ServerDataFrameVector

namespace GenericDataFrameVector

/-- The vector when the constructor is about to call `expand(1)`: no pointer, and the
server-side vector as `construct` has built it. -/
def fresh : GenericDataFrameVector := ⟨[], ServerDataFrameVector.fresh⟩

/-- In dataframe_vector.cpp, `GenericDataFrameVector::expand(num)`, with `kChunkNumEntries_`
being `kRealChunkNumEntries`: the new capacity goes to the device as a `Resize` request of
eight bytes, then `num` pointers are added with the object ids `old_chunk_ptrs_size + i`; the
allocation of each is taken to succeed. -/
def expand (k : DfvConst) (cores : List Nat) (g : GenericDataFrameVector) (num : Nat) :
    Except ServerFault GenericDataFrameVector :=
  let old_chunk_ptrs_size := g.chunk_ptrs_.length
  let new_capacity := u64 ((old_chunk_ptrs_size + num) * k.kRealChunkNumEntries)
  match g.device_.compute k cores 0 8 new_capacity with
  | .error e => .error e
  | .ok (output_len, device1) =>
    if output_len ≠ 0 then .error ServerFault.assertion
    else
      .ok { chunk_ptrs_ :=
              g.chunk_ptrs_ ++ (List.range num).map (fun i => u64 (i + old_chunk_ptrs_size)),
            device_ := device1 }

/-- The calls `expand(num)` for the values of `nums`, in order. -/
def expand_all (k : DfvConst) (cores : List Nat) :
    List Nat → GenericDataFrameVector → Except ServerFault GenericDataFrameVector
  | [], g => .ok g
  | num :: nums, g =>
    match expand k cores g num with
    | .error e => .error e
    | .ok g1 => expand_all k cores nums g1

end GenericDataFrameVector

/-! ## Concrete inputs -/

/-- An environment whose swap-in does nothing and whose allocator has no room. -/
def env_full : Env :=
  { swap_in := fun _ p w => (p, w), allocate_local_object_nb := fun _ _ m => (none, m) }

/-- An environment whose allocator always hands out the address `0x300005`, the first object
slot of the region at `0x300000`. -/
def env_fixed : Env :=
  { swap_in := fun _ p w => (p, w),
    allocate_local_object_nb := fun _ _ m => (some 0x300005, m) }

/-- A memory holding one object at `0x200005`: back pointer `0x1000`, `data_len = 2`,
`ds_id = 7`, `id_len = 1`, payload `AA BB`, id `2A`; the reference count of the region at
`0x300000` is 1. -/
def mem_one_object : Mem := fun x =>
  if x = 0x200005 + 1 then 0x10
  else if x = 0x200005 + 6 then 2
  else if x = 0x200005 + 8 then 7
  else if x = 0x200005 + 9 then 1
  else if x = 0x200005 + 10 then 0xAA
  else if x = 0x200005 + 11 then 0xBB
  else if x = 0x200005 + 12 then 0x2A
  else if x = 0x300000 then 1
  else 0

/-- A world with that memory, no lock held and nothing recorded. -/
def world_one_object : World := ⟨mem_one_object, ⟨[]⟩, []⟩

/-- The pointer at `0x1000` to the object at `0x200005`, as `set_present` writes it. -/
def ptr_fresh : GenericUniquePtr := ⟨⟨0x1000, (0x200005 + 10) * 131072 + 0x481⟩⟩

/-- The same pointer with the evacuation bit set. -/
def ptr_evacuating : GenericUniquePtr := ⟨⟨0x1000, (0x200005 + 10) * 131072 + 0x10481⟩⟩

/-- A state in which every worker is out of scope and every counter is 0; the arrays of the
cores 0..3 are in the pointer table and `expected_status` is `InScopeV0`. -/
def scope_idle : ScopeState :=
  ⟨fun _ => Status.OutofScope, fun _ _ => 0, fun c => decide (c < 4), Status.InScopeV0, false,
    false, []⟩

/-- The same state with worker 0 inside a scope that it entered on core 1. -/
def scope_busy : ScopeState :=
  ⟨fun w => if w = 0 then Status.InScopeV0 else Status.OutofScope,
    fun c i => if c = 1 ∧ i = 1 then 1 else 0, fun c => decide (c < 4), Status.InScopeV0, false,
    false, []⟩

/-- A region at 0x200000 with two recorded boundaries. -/
def region_two_boundaries : Region :=
  ⟨0x90000, 0x200000, 3, 2, fun i => if i = 0 then 0x80010 else 0x90000⟩

/-- A buffer constructed with size `2^32 - 2`, after two `push_back` and two `pop_front`
calls: it is empty, with `head_ = tail_ = 2`. -/
def cb_huge : CircularBuffer Nat :=
  (CbRun.run false [CbOp.push_back 1, CbOp.push_back 2, CbOp.pop_front, CbOp.pop_front]
    (CircularBuffer.mk_size 4294967294 (fun _ => 0))).cb

/-- A buffer constructed with size `2^32 - 2`, after one `push_back` and one `pop_front` call:
it is empty, with `head_ = tail_ = 1`. -/
def cb_thief : CircularBuffer Nat :=
  (CbRun.run true [CbOp.push_back 1, CbOp.pop_front]
    (CircularBuffer.mk_size 4294967294 (fun _ => 0))).cb

/-- A buffer constructed with size 2 that holds the items 10 and 20. -/
def cb_victim : CircularBuffer Nat :=
  (CbRun.run true [CbOp.push_back 10, CbOp.push_back 20]
    (CircularBuffer.mk_size 2 (fun _ => 0))).cb

/-- A buffer constructed with size 4 that holds the item 1. -/
def cb_small : CircularBuffer Nat :=
  (CbRun.run true [CbOp.push_back 1] (CircularBuffer.mk_size 4 (fun _ => 0))).cb

/-- A buffer constructed with size 8 that holds the items 10, 20, 30, 40, 50. -/
def cb_five : CircularBuffer Nat :=
  (CbRun.run true [CbOp.push_back 10, CbOp.push_back 20, CbOp.push_back 30, CbOp.push_back 40,
    CbOp.push_back 50] (CircularBuffer.mk_size 8 (fun _ => 0))).cb

/-- Three queues of depth 2 with the cursor at queue 1; queue 1 is full. -/
def par_three : Parallelizer Nat :=
  ⟨fun i => if i = 1 then cb_victim else CircularBuffer.mk_size 2 (fun _ => 0), 1, 3⟩

/-- The constants for `T = long long`: 8 bytes an entry, 64 entries a chunk. -/
def dfv_long : DfvConst := ⟨8, fun x => x⟩

/-- A memory with one object at `0x200005`: `data_len = 9` (a value of the two bytes `AB CD`
and the 7 bytes of its `NotifierMeta`), `id_len = 2`, id `00 02`.  At `0x300000` is the key
`00 01`. -/
def mem_table : Mem := fun x =>
  if x = 0x200005 + 6 then 9
  else if x = 0x200005 + 9 then 2
  else if x = 0x200005 + 10 then 0xAB
  else if x = 0x200005 + 11 then 0xCD
  else if x = 0x200005 + 19 then 0
  else if x = 0x200005 + 20 then 2
  else if x = 0x300000 then 0
  else if x = 0x300001 then 1
  else 0

/-- A table of 8 buckets whose bucket 3 has one entry in its neighbourhood, at offset 0: a
present pointer to the object at `0x200005`. -/
def table_one_entry : GenericConcurrentHopscotch :=
  ⟨7, 8 + 32, fun i =>
    if i = 3 then ⟨1, false, 0, ⟨⟨0x1000, (0x200005 + 10) * 131072 + 0x401⟩⟩⟩
    else ⟨0, false, 0, ⟨⟨0x1000 + 24 * i, 0x100⟩⟩⟩⟩

/-- A hash that sends every key to bucket 3, and a notifier stash that is empty. -/
def henv_three : HopscotchEnv := ⟨fun _ _ _ => 3, fun h w => (h, w)⟩

/-- A memory holding two objects one after the other: the object of `mem_one_object` at
`0x200005`, which ends with its one-byte id `2A` at `0x200011`, and at `0x200012` an object
with back pointer `0x1008`, `data_len = 1`, `ds_id = 7`, `id_len = 1`, payload `CC`, id `2B`. -/
def mem_two_objects : Mem := fun x =>
  if x = 0x200005 + 1 then 0x10
  else if x = 0x200005 + 6 then 2
  else if x = 0x200005 + 8 then 7
  else if x = 0x200005 + 9 then 1
  else if x = 0x200005 + 10 then 0xAA
  else if x = 0x200005 + 11 then 0xBB
  else if x = 0x200005 + 12 then 0x2A
  else if x = 0x200012 then 0x08
  else if x = 0x200012 + 1 then 0x10
  else if x = 0x200012 + 6 then 1
  else if x = 0x200012 + 8 then 7
  else if x = 0x200012 + 9 then 1
  else if x = 0x200012 + 10 then 0xCC
  else if x = 0x200012 + 11 then 0x2B
  else 0

/-- A world with that memory, no lock held and nothing recorded. -/
def world_two_objects : World := ⟨mem_two_objects, ⟨[]⟩, []⟩

/-- A null pointer at `0x2000`. -/
def ptr_target : GenericUniquePtr := ⟨⟨0x2000, 0x100⟩⟩

/-- Five steps: workers 0 and 1 enter on the cores 1 and 2, the collector flips
`expected_status`, worker 0 leaves on core 3 and worker 2 enters on core 0. -/
def scope_ops : List ScopeOp :=
  [ScopeOp.enter 0 1, ScopeOp.enter 1 2, ScopeOp.flip, ScopeOp.exit 0 3, ScopeOp.enter 2 0]

/-- The state in which the run of `scope_ops` from `scope_idle` ends, where waiting for the
collector changes nothing. -/
def scope_after_ops : ScopeState :=
  match scope_run id scope_ops scope_idle with
  | .ok st => st
  | .error e => e.2

/-! ## Bitwise operations as arithmetic -/

theorem lor_eq_zero_iff (a b : Nat) : a ||| b = 0 ↔ a = 0 ∧ b = 0 := by
  constructor
  · intro h
    have hb : ∀ i, (a ||| b).testBit i = false := by intro i; rw [h]; exact Nat.zero_testBit i
    constructor <;> apply Nat.eq_of_testBit_eq <;> intro i <;> have := hb i <;>
      simp [Nat.testBit_or] at this ⊢ <;> tauto
  · rintro ⟨rfl, rfl⟩; rfl

theorem land_two_pow (w k : Nat) : w &&& 2 ^ k = w / 2 ^ k % 2 * 2 ^ k := by
  rw [Nat.and_two_pow, Nat.testBit_to_div_mod]
  rcases Nat.mod_two_eq_zero_or_one (w / 2 ^ k) with h | h <;> simp [h]

theorem shl_lor (a k r : Nat) (h : r < 2 ^ k) : a <<< k ||| r = a * 2 ^ k + r := by
  rw [Nat.shiftLeft_eq, Nat.mul_comm a, Nat.mul_add_lt_is_or h]

theorem land_mask_bits (x lo hi n : Nat) :
    x &&& ((2 ^ n - 1) <<< hi ||| (2 ^ lo - 1)) = ((x >>> hi) % 2 ^ n) <<< hi ||| x % 2 ^ lo := by
  apply Nat.eq_of_testBit_eq
  intro i
  simp only [Nat.testBit_and, Nat.testBit_or, Nat.testBit_shiftLeft, Nat.testBit_two_pow_sub_one,
    Nat.testBit_mod_two_pow, Nat.testBit_shiftRight]
  by_cases h1 : i ≥ hi
  · have : hi + (i - hi) = i := by omega
    simp [h1, this]
    cases x.testBit i <;> simp
  · simp [h1]
    cases x.testBit i <;> simp

/-- A mask made of `n` ones from bit `hi` upwards and `lo` ones from bit 0 keeps those two
fields of `x`. -/
theorem land_mask (x lo hi n : Nat) (h : lo ≤ hi) :
    x &&& ((2 ^ n - 1) <<< hi ||| (2 ^ lo - 1)) = x / 2 ^ hi % 2 ^ n * 2 ^ hi + x % 2 ^ lo := by
  rw [land_mask_bits, shl_lor, Nat.shiftRight_eq_div_pow]
  exact lt_of_lt_of_le (Nat.mod_lt _ (Nat.two_pow_pos lo)) (Nat.pow_le_pow_right (by decide) h)

theorem land_0x80 (x : Nat) : x &&& 0x80 = x / 128 % 2 * 128 := by
  simpa using land_two_pow x 7

theorem land_0x100 (x : Nat) : x &&& 0x100 = x / 256 % 2 * 256 := by
  simpa using land_two_pow x 8

theorem land_0x200 (x : Nat) : x &&& 0x200 = x / 512 % 2 * 512 := by
  simpa using land_two_pow x 9

theorem land_0x400 (x : Nat) : x &&& 0x400 = x / 1024 % 2 * 1024 := by
  simpa using land_two_pow x 10

theorem land_0x10000 (x : Nat) : x &&& 0x10000 = x / 65536 % 2 * 65536 := by
  simpa using land_two_pow x 16

/-- The 32-bit complement of `kDirtyClear`. -/
theorem land_not_dirty (x : Nat) :
    x &&& 4294966271 = x / 2048 % 2097152 * 2048 + x % 1024 := by
  simpa using land_mask x 10 11 21 (by decide)

/-- The mask `kNullMask`. -/
theorem land_null_mask (x : Nat) :
    x &&& 18446744073709551360 = x / 256 % 72057594037927936 * 256 := by
  have h := land_mask x 0 8 56 (Nat.zero_le _)
  simp only [Nat.shiftLeft_eq] at h
  norm_num at h
  rw [Nat.mod_one, Nat.add_zero] at h
  exact h

/-- The mask `~(Region::kSize - 1)`. -/
theorem land_base_mask (x : Nat) :
    x &&& 18446744073708503040 = x / 1048576 % 17592186044416 * 1048576 := by
  have h := land_mask x 0 20 44 (Nat.zero_le _)
  simp only [Nat.shiftLeft_eq] at h
  norm_num at h
  rw [Nat.mod_one, Nat.add_zero] at h
  exact h

theorem land_0xFFFF (x : Nat) : x &&& 65535 = x % 65536 := by
  simpa using Nat.and_pow_two_sub_one_eq_mod x 16

/-! ## Memory reads and writes -/

theorem store8_same (m : Mem) (a v : Nat) : store8 m a v a = v % 256 := by
  simp [store8]

theorem store8_other (m : Mem) (a v x : Nat) (h : x ≠ a) : store8 m a v x = m x := by
  simp [store8, h]

theorem storeN_outside (n : Nat) : ∀ (m : Mem) (a v x : Nat), x < a ∨ a + n ≤ x →
    storeN m a v n x = m x := by
  induction n with
  | zero => intro m a v x _; rfl
  | succ n ih =>
    intro m a v x h
    rw [storeN, ih _ _ _ _ (by omega), store8_other _ _ _ _ (by omega)]

theorem loadN_congr (n : Nat) : ∀ (m1 m2 : Mem) (a : Nat),
    (∀ x, a ≤ x → x < a + n → m1 x = m2 x) → loadN m1 a n = loadN m2 a n := by
  induction n with
  | zero => intro m1 m2 a _; rfl
  | succ n ih =>
    intro m1 m2 a h
    rw [loadN, loadN, ih m1 m2 (a + 1) (fun x h1 h2 => h x (by omega) (by omega))]
    simp only [load8, h a (Nat.le_refl a) (by omega)]

theorem loadN_congr_bytes (k : Nat) : ∀ (m1 m2 : Mem) (a1 a2 : Nat),
    (∀ i, i < k → load8 m1 (a1 + i) = load8 m2 (a2 + i)) → loadN m1 a1 k = loadN m2 a2 k := by
  induction k with
  | zero => intro m1 m2 a1 a2 _; rfl
  | succ k ih =>
    intro m1 m2 a1 a2 h
    have h0 := h 0 (Nat.succ_pos k)
    rw [Nat.add_zero, Nat.add_zero] at h0
    rw [loadN, loadN, h0, ih m1 m2 (a1 + 1) (a2 + 1)]
    intro i hi
    have := h (i + 1) (by omega)
    rwa [show a1 + (i + 1) = a1 + 1 + i by omega, show a2 + (i + 1) = a2 + 1 + i by omega]
      at this

theorem loadN_storeN (n : Nat) : ∀ (m : Mem) (a v : Nat),
    loadN (storeN m a v n) a n = v % 256 ^ n := by
  induction n with
  | zero => intro m a v; simp [loadN, Nat.mod_one]
  | succ n ih =>
    intro m a v
    rw [storeN, loadN, ih, load8, storeN_outside _ _ _ _ _ (Or.inl (Nat.lt_succ_self a)),
      store8_same, Nat.pow_succ, Nat.mul_comm (256 ^ n) 256, Nat.mod_mul]
    omega

theorem loadN_lt (n : Nat) : ∀ (m : Mem) (a : Nat), loadN m a n < 256 ^ n := by
  induction n with
  | zero => intro m a; simp [loadN]
  | succ n ih =>
    intro m a
    have h1 := ih m (a + 1)
    have h2 : load8 m a < 256 := Nat.mod_lt _ (by decide)
    rw [loadN, Nat.pow_succ]
    omega

namespace FarMemPtrMeta

theorem is_present_iff (self : FarMemPtrMeta) :
    self.is_present = true ↔ self.metadata_ / 256 % 2 = 0 := by
  simp only [is_present, low16, kPresentClear, decide_eq_true_eq, land_0x100]
  omega

theorem is_dirty_iff (self : FarMemPtrMeta) :
    self.is_dirty = true ↔ self.metadata_ / 1024 % 2 = 0 := by
  simp only [is_dirty, low16, kDirtyClear, decide_eq_true_eq, land_0x400]
  omega

theorem is_hot_iff (self : FarMemPtrMeta) :
    self.is_hot = true ↔ self.metadata_ / 128 % 2 = 0 := by
  simp only [is_hot, low16, kHotClear, decide_eq_true_eq, land_0x80]
  omega

theorem is_evacuation_iff (self : FarMemPtrMeta) :
    self.is_evacuation = true ↔ self.metadata_ / 65536 % 2 = 1 := by
  simp only [is_evacuation, byte, word_byte, kEvacuationPos, decide_eq_true_eq,
    Nat.and_one_is_mod]
  omega

theorem is_shared_iff (self : FarMemPtrMeta) :
    self.is_shared = true ↔ self.metadata_ / 512 % 2 = 1 := by
  simp only [is_shared, to_uint64_t, kSharedBitPos, decide_eq_true_eq]
  rw [show (1 <<< 9 : Nat) = 0x200 from rfl, land_0x200]
  omega

theorem is_null_iff (self : FarMemPtrMeta) :
    self.is_null = true ↔ self.metadata_ % 2 ^ 64 / 256 = 1 := by
  simp only [is_null, to_uint64_t, kNull, kPresentClear, decide_eq_true_eq]
  rw [show kNullMask = 18446744073709551360 from rfl, land_null_mask]
  omega

theorem get_object_data_addr_eq (self : FarMemPtrMeta) :
    self.get_object_data_addr = self.metadata_ / 131072 := by
  simp only [get_object_data_addr, to_uint64_t, kObjectDataAddrBitPos, Nat.shiftRight_eq_div_pow]

theorem get_object_id_eq (self : FarMemPtrMeta) :
    self.get_object_id = self.metadata_ / 67108864 := by
  simp only [get_object_id, to_uint64_t, kObjectIDBitPos, Nat.shiftRight_eq_div_pow]

/-- The word written by `set_present`, as a sum. -/
theorem set_present_metadata (self : FarMemPtrMeta) (a : Nat) (m : Mem) (ha : a + 10 < 2 ^ 47) :
    (self.set_present a m).1.metadata_ = (a + 10) * 131072 + 1153 := by
  have e : (u64 (a + Object.kHeaderSize) <<< kObjectDataAddrBitPos) % 2 ^ 64 = (a + 10) <<< 17 := by
    simp only [u64, Object.kHeaderSize, Object.kPtrAddrSize, Object.kDataLenSize,
      Object.kDSIDSize, Object.kIDLenSize, kObjectDataAddrBitPos]
    omega
  simp only [set_present, from_uint64_t, e]
  rw [show ((kDirtyClear ||| kHotClear) + ((kHotThresh - 1) <<< (8 * kHotPos))) = 1153 from rfl,
    shl_lor _ _ _ (by norm_num)]
  norm_num

/-- The word written by `gc_wb`, as a sum. -/
theorem gc_wb_eq (self : FarMemPtrMeta) (ds_id object_size obj_id : Nat) (h1 : ds_id < 2 ^ 8)
    (h2 : object_size < 2 ^ 16) (h3 : obj_id < 2 ^ 38) :
    self.gc_wb ds_id object_size obj_id =
      some ⟨self.self_addr, obj_id * 67108864 + object_size * 1024 + 256 + ds_id⟩ := by
  have e0 : obj_id < 1 <<< kObjectIDBitSize := by
    simp only [kObjectIDBitSize]; omega
  have e1 : (obj_id <<< kObjectIDBitPos) % 2 ^ 64 = obj_id <<< 26 := by
    simp only [kObjectIDBitPos]; omega
  have e2 : (object_size % 2 ^ 16) <<< kObjectSizeBitPos = object_size <<< 10 := by
    simp only [kObjectSizeBitPos]; rw [Nat.mod_eq_of_lt h2]
  have e3 : ds_id % 2 ^ 8 = ds_id := Nat.mod_eq_of_lt h1
  have o1 : kPresentClear ||| ds_id = 256 + ds_id := by
    have := shl_lor 1 8 ds_id h1
    simpa [kPresentClear] using this
  have o2 : object_size <<< 10 ||| (256 + ds_id) = object_size * 1024 + (256 + ds_id) := by
    have := shl_lor object_size 10 (256 + ds_id) (by omega)
    simpa using this
  have o3 : obj_id <<< 26 ||| (object_size * 1024 + (256 + ds_id))
      = obj_id * 67108864 + (object_size * 1024 + (256 + ds_id)) := by
    have := shl_lor obj_id 26 (object_size * 1024 + (256 + ds_id)) (by omega)
    simpa using this
  unfold gc_wb
  rw [if_pos e0, e1, e2, e3, Nat.lor_assoc, Nat.lor_assoc, o1, o2, o3]
  simp only [from_uint64_t, Nat.add_assoc]

theorem set_dirty_metadata (self : FarMemPtrMeta) :
    self.set_dirty.metadata_ = self.metadata_ - self.metadata_ / 1024 % 2 * 1024 := by
  simp only [set_dirty, set_low16, low16, kDirtyClear]
  rw [show (2 ^ 32 - 1 - 1024 : Nat) = 4294966271 from rfl, land_not_dirty]
  omega

/-- The word left by `init`, as a sum. -/
theorem init_metadata (self : FarMemPtrMeta) (shared : Bool) (a : Nat) (m : Mem)
    (ha : a + 10 < 2 ^ 47) :
    (self.init shared a m).1.metadata_ = (a + 10) * 131072 + 129 := by
  have h := set_present_metadata (if shared then self.set_shared else self) a m ha
  have e : (self.init shared a m).1
      = ((if shared then self.set_shared else self).set_present a m).1.set_dirty := rfl
  rw [e, set_dirty_metadata, h]
  omega

end FarMemPtrMeta

/-! ## The dereference of a present pointer that is not under evacuation -/

theorem word_set_byte_0 (w v : Nat) : word_set_byte w 0 v = w / 256 * 256 + v % 256 := by
  simp only [word_set_byte, word_byte]
  norm_num
  omega

theorem word_set_byte_1 (w v : Nat) :
    word_set_byte w 1 v = w / 65536 * 65536 + v % 256 * 256 + w % 256 := by
  simp only [word_set_byte, word_byte]
  norm_num
  omega

theorem land_present_evac (w : Nat) :
    w &&& (FarMemPtrMeta.kPresentClear ||| FarMemPtrMeta.kEvacuationSet) = 0 ↔
      w / 256 % 2 = 0 ∧ w / 65536 % 2 = 0 := by
  rw [Nat.and_or_distrib_left, lor_eq_zero_iff]
  simp only [FarMemPtrMeta.kPresentClear, FarMemPtrMeta.kEvacuationSet, land_0x100, land_0x10000]
  omega

theorem land_deref_exceptions (w : Nat) (Mut : Bool) :
    w &&& GenericUniquePtr.deref_exceptions Mut = 0 ↔
      w / 128 % 2 = 0 ∧ w / 256 % 2 = 0 ∧ w / 65536 % 2 = 0 ∧
        (Mut = true → w / 1024 % 2 = 0) := by
  cases Mut
  · simp only [GenericUniquePtr.deref_exceptions, Bool.false_eq_true, if_false,
      Nat.and_or_distrib_left, lor_eq_zero_iff, FarMemPtrMeta.kHotClear,
      FarMemPtrMeta.kPresentClear, FarMemPtrMeta.kEvacuationSet, land_0x80, land_0x100,
      land_0x10000]
    constructor
    · intro h
      exact ⟨by omega, by omega, by omega, fun hf => absurd hf (by decide)⟩
    · intro h
      omega
  · simp only [GenericUniquePtr.deref_exceptions, if_true, Nat.and_or_distrib_left,
      lor_eq_zero_iff, FarMemPtrMeta.kHotClear, FarMemPtrMeta.kPresentClear,
      FarMemPtrMeta.kEvacuationSet, FarMemPtrMeta.kDirtyClear, land_0x80, land_0x100,
      land_0x10000, land_0x400]
    constructor
    · intro h
      exact ⟨by omega, by omega, by omega, fun _ => by omega⟩
    · intro h
      have := h.2.2.2 trivial
      omega

/-- On a present word that is not under evacuation `_deref` returns at its first pass, with the
world as it was. -/
theorem deref_present (env : Env) (Mut Nt : Bool) (fuel : Nat) (self : GenericUniquePtr)
    (w : World) (hp : self.meta_.is_present = true) (he : self.meta_.is_evacuation = false) :
    self._deref env Mut Nt (fuel + 1) w =
      .ok (self.meta_.metadata_ >>> 17,
        if self.meta_.metadata_ &&& GenericUniquePtr.deref_exceptions Mut ≠ 0
        then deref_touched Mut self else self, w) := by
  have h1 : self.meta_.metadata_ / 256 % 2 = 0 := (FarMemPtrMeta.is_present_iff _).1 hp
  have h2 : self.meta_.metadata_ / 65536 % 2 = 0 := by
    have := FarMemPtrMeta.is_evacuation_iff self.meta_
    rw [he] at this
    simp only [Bool.false_eq_true, false_iff] at this
    omega
  have h3 : self.meta_.metadata_ &&&
      (FarMemPtrMeta.kPresentClear ||| FarMemPtrMeta.kEvacuationSet) = 0 :=
    (land_present_evac _).2 ⟨h1, h2⟩
  unfold GenericUniquePtr._deref
  simp only [FarMemPtrMeta.to_uint64_t, h3, ne_eq, not_true_eq_false, if_false,
    FarMemPtrMeta.kObjectDataAddrBitPos, deref_touched]
  by_cases h4 : self.meta_.metadata_ &&& GenericUniquePtr.deref_exceptions Mut = 0
  · simp only [h4, not_true_eq_false, if_false]
  · simp only [h4, not_false_eq_true, if_true]

theorem deref_touched_metadata (Mut : Bool) (self : GenericUniquePtr) :
    (deref_touched Mut self).meta_.metadata_ =
      (if Mut then self.meta_.metadata_ / 65536 * 65536 else self.meta_.metadata_ / 256 * 256)
        + (self.meta_.metadata_ % 256 + 255) % 256 ∧
    (deref_touched Mut self).meta_.self_addr = self.meta_.self_addr := by
  cases Mut
  · simp only [deref_touched, Bool.false_eq_true, if_false, FarMemPtrMeta.set_byte,
      FarMemPtrMeta.byte, FarMemPtrMeta.kHotPos, word_set_byte_0, word_byte]
    norm_num
  · simp only [deref_touched, if_true, FarMemPtrMeta.set_byte, FarMemPtrMeta.byte,
      FarMemPtrMeta.kHotPos, FarMemPtrMeta.kPresentPos, word_set_byte_0, word_set_byte_1,
      word_byte]
    norm_num
    omega

/-! ## The object lock and `_free` -/

theorem foldl_fragment_congr (m1 m2 : Mem) (id1 id2 : Nat) (l : List Nat) :
    ∀ init : Nat, (∀ i ∈ l, load8 m1 (id1 + i) = load8 m2 (id2 + i)) →
      l.foldl (fun frag i => word_set_byte frag i (load8 m1 (id1 + i))) init =
        l.foldl (fun frag i => word_set_byte frag i (load8 m2 (id2 + i))) init := by
  induction l with
  | nil => intro init _; rfl
  | cons x xs ih =>
    intro init h
    simp only [List.foldl_cons, h x (List.mem_cons_self x xs)]
    exact ih _ (fun i hi => h i (List.mem_cons_of_mem x hi))

/-- The lock key is a function of the first `min obj_id_len 8` bytes of the id. -/
theorem get_obj_id_fragment_bytes (obj_id_len id1 id2 : Nat) (m1 m2 : Mem)
    (h : ∀ i, i < obj_id_len → i < 8 → load8 m1 (id1 + i) = load8 m2 (id2 + i)) :
    get_obj_id_fragment obj_id_len id1 m1 = get_obj_id_fragment obj_id_len id2 m2 := by
  unfold get_obj_id_fragment
  by_cases h8 : obj_id_len ≥ 8
  · simp only [h8, if_true]
    exact loadN_congr_bytes 8 m1 m2 id1 id2 (fun i hi => h i (by omega) hi)
  · simp only [h8, if_false]
    apply foldl_fragment_congr
    intro i hi
    rw [List.mem_range] at hi
    exact h i hi (by omega)

/-- The lock key depends on the first `min obj_id_len 8` bytes of the id only. -/
theorem get_obj_id_fragment_congr (obj_id_len obj_id : Nat) (m1 m2 : Mem)
    (h : ∀ i, i < obj_id_len → i < 8 → m1 (obj_id + i) = m2 (obj_id + i)) :
    get_obj_id_fragment obj_id_len obj_id m1 = get_obj_id_fragment obj_id_len obj_id m2 :=
  get_obj_id_fragment_bytes obj_id_len obj_id obj_id m1 m2
    (fun i h1 h2 => by rw [load8, load8, h i h1 h2])

theorem lock_then_unlock (l : ObjLocker) (f : Nat) (h : ¬ l.holds f) :
    (l.try_insert f).1 = true ∧ (l.try_insert f).2.remove f = l := by
  have h1 : f ∉ l.maps_ := h
  simp only [ObjLocker.try_insert, h1, if_false, ObjLocker.remove, true_and]
  have : (f :: l.maps_).filter (fun k => decide (k ≠ f)) = l.maps_ := by
    rw [List.filter_cons_of_neg (by simp)]
    apply List.filter_eq_self.2
    intro k hk
    have : k ≠ f := fun e => h1 (e ▸ hk)
    simpa using this
  rw [this]

theorem present_not_null (self : FarMemPtrMeta) (hp : self.is_present = true) :
    self.is_null = false := by
  cases hq : self.is_null
  · rfl
  · rw [FarMemPtrMeta.is_null_iff] at hq
    rw [FarMemPtrMeta.is_present_iff] at hp
    omega

/-- The object of a word whose data address is `a + 10`. -/
theorem object_of_data_addr (self : FarMemPtrMeta) (a : Nat)
    (hw : self.metadata_ < 2 ^ 64) (ha : self.get_object_data_addr = a + 10) :
    self.object = ⟨a⟩ ∧ a + 10 < 2 ^ 47 := by
  have hd := self.get_object_data_addr_eq
  have hb : a + 10 < 2 ^ 47 := by omega
  refine ⟨?_, hb⟩
  have e : (a + 10 + 2 ^ 64 - 10) % 2 ^ 64 = a := by omega
  simp only [FarMemPtrMeta.object, FarMemPtrMeta.get_object_addr, ha, Object.kHeaderSize,
    Object.kPtrAddrSize, Object.kDataLenSize, Object.kDSIDSize, Object.kIDLenSize]
  exact congrArg Object.mk e

/-- Where the header fields and the id of the object at `a` are read. -/
theorem object_reads (a : Nat) (m : Mem) (ha : a + 10 < 2 ^ 47) :
    (Object.mk a).get_obj_id_len m = load8 m (a + 9) ∧
    (Object.mk a).get_data_len m = loadN m (a + 6) 2 ∧
    (Object.mk a).get_ds_id m = load8 m (a + 8) ∧
    (Object.mk a).get_obj_id m = a + 10 + loadN m (a + 6) 2 ∧
    (Object.mk a).size m = (10 + loadN m (a + 6) 2 + load8 m (a + 9)) % 2 ^ 16 ∧
    (Object.mk a).free m = store8 m (a + 5) 0xFF ∧
    (Object.mk a).is_freed m = decide (load8 m (a + 5) = 0xFF) := by
  have hl := loadN_lt 2 m (a + 6)
  have e9 : u64 (a + Object.kIDLenPos) = a + 9 := by
    simp only [u64, Object.kIDLenPos]; omega
  have e6 : u64 (a + Object.kDataLenPos) = a + 6 := by
    simp only [u64, Object.kDataLenPos]; omega
  have e8 : u64 (a + Object.kDSIDPos) = a + 8 := by
    simp only [u64, Object.kDSIDPos]; omega
  have e5 : u64 (a + Object.kPtrAddrPos + Object.kPtrAddrSize - 1) = a + 5 := by
    simp only [u64, Object.kPtrAddrPos, Object.kPtrAddrSize]; omega
  have eh : Object.kHeaderSize = 10 := rfl
  have eid : u64 (a + (10 + loadN m (a + 6) 2) % 2 ^ 32) = a + 10 + loadN m (a + 6) 2 := by
    simp only [u64]; omega
  refine ⟨?_, ?_, ?_, ?_, ?_, ?_, ?_⟩
  · simp only [Object.get_obj_id_len, e9]
  · simp only [Object.get_data_len, e6]
  · simp only [Object.get_ds_id, e8]
  · simp only [Object.get_obj_id, Object.get_data_len, e6, eh, eid]
  · simp only [Object.size, Object.get_data_len, Object.get_obj_id_len, e6, e9, eh]
  · simp only [Object.free, e5]
  · simp only [Object.is_freed, e5]

/-- What `_free` does to a present pointer whose object lies at `a` when the lock entry of the
object is not held. -/
theorem free_present (self : GenericUniquePtr) (w : World) (a : Nat)
    (hw : self.meta_.metadata_ < 2 ^ 64) (ha : self.meta_.get_object_data_addr = a + 10)
    (hp : self.meta_.is_present = true) (hl : ¬ w.obj_locker_.holds (object_key a w.mem)) :
    self._free w = .ok (self.nullify,
      { mem := store8 w.mem (a + 5) 0xFF,
        obj_locker_ := w.obj_locker_,
        trace := w.trace ++ [Event.lock_object (object_key a w.mem),
          Event.unlock_object (object_key a w.mem)] }) := by
  obtain ⟨ho, hb⟩ := object_of_data_addr self.meta_ a hw ha
  obtain ⟨r1, r2, -, r4, -, r6, -⟩ := object_reads a w.mem hb
  have hk := lock_then_unlock w.obj_locker_ (object_key a w.mem) hl
  have hl2 := loadN_lt 2 w.mem (a + 6)
  have hfrag : get_obj_id_fragment ((Object.mk a).get_obj_id_len w.mem)
      ((Object.mk a).get_obj_id w.mem) (store8 w.mem (a + 5) 0xFF) = object_key a w.mem := by
    unfold object_key
    apply get_obj_id_fragment_congr
    intro i _ _
    rw [r4]
    exact store8_other _ _ _ _ (by omega)
  unfold GenericUniquePtr._free
  simp only [present_not_null _ hp, hp, Bool.false_eq_true, if_false, Bool.not_true,
    GenericUniquePtr.object, ho, FarMemManager.lock_object]
  unfold object_key at hk
  simp only [hk.1, if_true, FarMemManager.unlock_object, r6, hfrag]
  unfold object_key
  simp only [hk.2, List.append_assoc, List.singleton_append]

/-- On a null word `_deref` returns `nullptr` at its first pass and changes nothing. -/
theorem deref_null (env : Env) (Mut Nt : Bool) (fuel : Nat) (self : GenericUniquePtr)
    (w : World) (hn : self.meta_.is_null = true) :
    self._deref env Mut Nt (fuel + 1) w = .ok (0, self, w) := by
  have h1 : self.meta_.metadata_ / 256 % 2 = 1 := by
    have := (FarMemPtrMeta.is_null_iff _).1 hn
    omega
  have h2 : self.meta_.metadata_ &&& GenericUniquePtr.deref_exceptions Mut ≠ 0 := by
    intro h
    have := ((land_deref_exceptions _ Mut).1 h).2.1
    omega
  have h3 : self.meta_.metadata_ &&&
      (FarMemPtrMeta.kPresentClear ||| FarMemPtrMeta.kEvacuationSet) ≠ 0 := by
    intro h
    have := ((land_present_evac _).1 h).1
    omega
  have h4 : self.meta_.metadata_ &&& FarMemPtrMeta.kPresentClear ≠ 0 := by
    simp only [FarMemPtrMeta.kPresentClear, land_0x100]
    omega
  unfold GenericUniquePtr._deref
  simp only [FarMemPtrMeta.to_uint64_t, h2, h3, h4, hn, ne_eq, not_false_eq_true, if_true]

/-! ## Migration by the mutator -/

theorem memcpy_inside (m : Mem) (dst src n i : Nat) (h : i < n) :
    memcpy m dst src n (dst + i) = load8 m (src + i) := by
  simp only [memcpy]
  rw [if_pos ⟨by omega, by omega⟩, show dst + i - dst = i by omega]

theorem memcpy_outside (m : Mem) (dst src n x : Nat) (h : x < dst ∨ dst + n ≤ x) :
    memcpy m dst src n x = m x := by
  simp only [memcpy]
  rw [if_neg (by omega)]

theorem region_base (n : Nat) (h : n < 2 ^ 64) :
    n &&& Region.kBaseMask = n - n % 1048576 := by
  rw [show Region.kBaseMask = 18446744073708503040 from rfl, land_base_mask]
  omega

theorem atomic_inc_ref_cnt_outside (n : Nat) (d : Int) (m : Mem) (x : Nat)
    (h : x < (n &&& Region.kBaseMask) ∨ (n &&& Region.kBaseMask) + 4 ≤ x) :
    Region.atomic_inc_ref_cnt n d m x = m x := by
  simp only [Region.atomic_inc_ref_cnt, Region.kRefCntPos, Region.kRefCntSize, Nat.add_zero]
  exact storeN_outside _ _ _ _ _ h

theorem atomic_dec_ref_cnt (n : Nat) (m : Mem) :
    Region.ref_cnt_at (n &&& Region.kBaseMask) (Region.atomic_inc_ref_cnt n (-1) m) =
      (Region.ref_cnt_at (n &&& Region.kBaseMask) m + 2 ^ 32 - 1) % 2 ^ 32 := by
  simp only [Region.ref_cnt_at, Region.atomic_inc_ref_cnt, Region.kRefCntPos,
    Region.kRefCntSize, Nat.add_zero, loadN_storeN]
  have := loadN_lt 4 m (n &&& Region.kBaseMask)
  generalize loadN m (n &&& Region.kBaseMask) 4 = c at this ⊢
  norm_num at this ⊢
  omega

theorem mutator_copy_metadata (self : FarMemPtrMeta) (n : Nat) (hn : n + 10 < 2 ^ 47) :
    (self.mutator_copy n).metadata_ = (n + 10) * 131072 + self.metadata_ % 65536 ∧
    (self.mutator_copy n).self_addr = self.self_addr := by
  refine ⟨?_, rfl⟩
  have e : (u64 (n + Object.kHeaderSize) <<< FarMemPtrMeta.kObjectDataAddrBitPos) % 2 ^ 64
      = (n + 10) <<< 17 := by
    simp only [u64, Object.kHeaderSize, Object.kPtrAddrSize, Object.kDataLenSize,
      Object.kDSIDSize, Object.kIDLenSize, FarMemPtrMeta.kObjectDataAddrBitPos]
    omega
  have em : ((1 <<< FarMemPtrMeta.kObjectDataAddrBitPos) - 1) &&&
      (2 ^ 64 - 1 - (1 <<< (8 * FarMemPtrMeta.kEvacuationPos))) = 65535 := by decide
  simp only [FarMemPtrMeta.mutator_copy, FarMemPtrMeta.from_uint64_t,
    FarMemPtrMeta.to_uint64_t, e, em, land_0xFFFF]
  rw [Nat.lor_comm, shl_lor _ _ _ (by omega)]
  norm_num

/-- The size of an object within the limit is the sum of its three parts. -/
theorem size_of_small (a : Nat) (m : Mem) (ha : a + 10 < 2 ^ 47)
    (hsz : 10 + (Object.mk a).get_data_len m + (Object.mk a).get_obj_id_len m < 2 ^ 16) :
    (Object.mk a).size m = 10 + loadN m (a + 6) 2 + load8 m (a + 9) := by
  obtain ⟨r1, r2, -, -, r5, -, -⟩ := object_reads a m ha
  rw [r1, r2] at hsz
  rw [r5]
  omega

/-- A memory that agrees with `m` on the object at `a` gives the same lock key. -/
theorem object_key_congr (a : Nat) (m m2 : Mem) (ha : a + 10 < 2 ^ 47)
    (hsz : 10 + (Object.mk a).get_data_len m + (Object.mk a).get_obj_id_len m < 2 ^ 16)
    (hagree : ∀ i, i < (Object.mk a).size m → m2 (a + i) = m (a + i)) :
    get_obj_id_fragment ((Object.mk a).get_obj_id_len m) ((Object.mk a).get_obj_id m) m2
      = object_key a m := by
  have hs := size_of_small a m ha hsz
  obtain ⟨r1, -, -, r4, -, -, -⟩ := object_reads a m ha
  unfold object_key
  apply get_obj_id_fragment_congr
  intro i h1 _
  rw [r1] at h1
  rw [r4]
  have := hagree (10 + loadN m (a + 6) 2 + i) (by omega)
  rwa [show a + (10 + loadN m (a + 6) 2 + i) = a + 10 + loadN m (a + 6) 2 + i by omega] at this

/-- The bytes of the old object after the copy and the decrement. -/
theorem moved_old_bytes (a n : Nat) (m m2 : Mem)
    (hok : alloc_ok a ((Object.mk a).size m) m (some n, m2)) :
    ∀ i, i < (Object.mk a).size m →
      Region.atomic_inc_ref_cnt n (-1) (memcpy m2 n a ((Object.mk a).size m)) (a + i)
        = m (a + i) := by
  intro i hi
  obtain ⟨hf, hn⟩ := hok
  obtain ⟨-, -, h3, h4⟩ := hn n rfl
  have h4 : (n &&& Region.kBaseMask) + 4 ≤ a ∨
      a + (Object.mk a).size m ≤ (n &&& Region.kBaseMask) := h4
  rw [atomic_inc_ref_cnt_outside _ _ _ _ (by omega), memcpy_outside _ _ _ _ _ (by omega)]
  exact hf i hi

/-- The bytes of the new object after the copy and the decrement. -/
theorem moved_new_bytes (a n : Nat) (m m2 : Mem)
    (hok : alloc_ok a ((Object.mk a).size m) m (some n, m2)) :
    ∀ i, i < (Object.mk a).size m →
      Region.atomic_inc_ref_cnt n (-1) (memcpy m2 n a ((Object.mk a).size m)) (n + i)
        = load8 m (a + i) := by
  intro i hi
  obtain ⟨hf, hn⟩ := hok
  obtain ⟨h1, h2, -, -⟩ := hn n rfl
  have hb := region_base n (by omega)
  have h2 : 5 ≤ n % 1048576 := h2
  have hf : m2 (a + i) = m (a + i) := hf i hi
  rw [atomic_inc_ref_cnt_outside _ _ _ _ (by omega), memcpy_inside _ _ _ _ _ hi, load8, load8,
    hf]

theorem migrate_absent (env : Env) (self : GenericUniquePtr) (w : World)
    (hp : self.meta_.is_present = false) :
    self.mutator_migrate_object env w =
      .ok (false, self, ⟨w.mem, w.obj_locker_, w.trace ++ [Event.mutator_migrate_object]⟩) := by
  unfold GenericUniquePtr.mutator_migrate_object
  simp only [hp, Bool.not_false, if_true]

theorem migrate_not_evacuating (env : Env) (self : GenericUniquePtr) (w : World) (a : Nat)
    (hw : self.meta_.metadata_ < 2 ^ 64) (ha : self.meta_.get_object_data_addr = a + 10)
    (hp : self.meta_.is_present = true) (he : self.meta_.is_evacuation = false)
    (hl : ¬ w.obj_locker_.holds (object_key a w.mem)) :
    self.mutator_migrate_object env w =
      .ok (false, self, ⟨w.mem, w.obj_locker_,
        w.trace ++ [Event.mutator_migrate_object, Event.lock_object (object_key a w.mem),
          Event.unlock_object (object_key a w.mem)]⟩) := by
  obtain ⟨ho, -⟩ := object_of_data_addr self.meta_ a hw ha
  have hk := lock_then_unlock w.obj_locker_ (object_key a w.mem) hl
  unfold object_key at hk
  unfold GenericUniquePtr.mutator_migrate_object
  simp only [hp, he, Bool.not_true, Bool.false_eq_true, if_false, ho,
    FarMemManager.lock_object, hk.1, if_true, Bool.not_false, Bool.or_true,
    FarMemManager.unlock_object]
  unfold object_key
  simp only [hk.2, List.append_assoc, List.cons_append, List.nil_append]

theorem migrate_no_room (env : Env) (self : GenericUniquePtr) (w : World) (a : Nat) (m2 : Mem)
    (hw : self.meta_.metadata_ < 2 ^ 64) (ha : self.meta_.get_object_data_addr = a + 10)
    (hp : self.meta_.is_present = true) (he : self.meta_.is_evacuation = true)
    (hsz : 10 + (Object.mk a).get_data_len w.mem + (Object.mk a).get_obj_id_len w.mem < 2 ^ 16)
    (hl : ¬ w.obj_locker_.holds (object_key a w.mem))
    (halloc : env.allocate_local_object_nb (self.meta_.is_nt w.mem)
      ((Object.mk a).size w.mem) w.mem = (none, m2))
    (hok : alloc_ok a ((Object.mk a).size w.mem) w.mem (none, m2)) :
    self.mutator_migrate_object env w =
      .ok (false, self, ⟨m2, w.obj_locker_,
        w.trace ++ [Event.mutator_migrate_object, Event.lock_object (object_key a w.mem),
          Event.unlock_object (object_key a w.mem)]⟩) := by
  obtain ⟨ho, hb⟩ := object_of_data_addr self.meta_ a hw ha
  have hk := lock_then_unlock w.obj_locker_ (object_key a w.mem) hl
  have hf := object_key_congr a w.mem m2 hb hsz hok.1
  unfold object_key at hk
  unfold GenericUniquePtr.mutator_migrate_object
  simp only [hp, he, Bool.not_true, Bool.false_eq_true, if_false, ho,
    FarMemManager.lock_object, hk.1, if_true, Bool.or_self, halloc,
    FarMemManager.unlock_object, hf]
  unfold object_key
  simp only [hk.2, List.append_assoc, List.cons_append, List.nil_append]

theorem migrate_moved (env : Env) (self : GenericUniquePtr) (w : World) (a n : Nat) (m2 : Mem)
    (hw : self.meta_.metadata_ < 2 ^ 64) (ha : self.meta_.get_object_data_addr = a + 10)
    (hp : self.meta_.is_present = true) (he : self.meta_.is_evacuation = true)
    (hsz : 10 + (Object.mk a).get_data_len w.mem + (Object.mk a).get_obj_id_len w.mem < 2 ^ 16)
    (hl : ¬ w.obj_locker_.holds (object_key a w.mem))
    (halloc : env.allocate_local_object_nb (self.meta_.is_nt w.mem)
      ((Object.mk a).size w.mem) w.mem = (some n, m2))
    (hok : alloc_ok a ((Object.mk a).size w.mem) w.mem (some n, m2)) :
    self.mutator_migrate_object env w =
      .ok (true, ⟨self.meta_.mutator_copy n⟩,
        ⟨Region.atomic_inc_ref_cnt n (-1) (memcpy m2 n a ((Object.mk a).size w.mem)),
          w.obj_locker_,
          w.trace ++ [Event.mutator_migrate_object, Event.lock_object (object_key a w.mem),
            Event.unlock_object (object_key a w.mem)]⟩) := by
  obtain ⟨ho, hb⟩ := object_of_data_addr self.meta_ a hw ha
  have hk := lock_then_unlock w.obj_locker_ (object_key a w.mem) hl
  have hf := object_key_congr a w.mem
    (Region.atomic_inc_ref_cnt n (-1) (memcpy m2 n a ((Object.mk a).size w.mem))) hb hsz
    (moved_old_bytes a n w.mem m2 hok)
  unfold object_key at hk
  unfold GenericUniquePtr.mutator_migrate_object
  simp only [hp, he, Bool.not_true, Bool.false_eq_true, if_false, ho,
    FarMemManager.lock_object, hk.1, if_true, Bool.or_self]
  rw [halloc]
  show Except.ok _ = _
  simp only [FarMemManager.unlock_object]
  rw [show (Object.mk a).get_addr = a from rfl, hf]
  unfold object_key
  simp only [hk.2, List.append_assoc, List.cons_append, List.nil_append]

/-- A second call after a successful migration finds the evacuation bit clear: it returns
false after locking and unlocking the same key, and changes neither word nor memory. -/
theorem migrate_again (env : Env) (self : GenericUniquePtr) (w : World) (a n : Nat) (m2 : Mem)
    (hw : self.meta_.metadata_ < 2 ^ 64) (ha : self.meta_.get_object_data_addr = a + 10)
    (hp : self.meta_.is_present = true)
    (hsz : 10 + (Object.mk a).get_data_len w.mem + (Object.mk a).get_obj_id_len w.mem < 2 ^ 16)
    (hl : ¬ w.obj_locker_.holds (object_key a w.mem))
    (hok : alloc_ok a ((Object.mk a).size w.mem) w.mem (some n, m2)) (t : List Event) :
    GenericUniquePtr.mutator_migrate_object env ⟨self.meta_.mutator_copy n⟩
        ⟨Region.atomic_inc_ref_cnt n (-1) (memcpy m2 n a ((Object.mk a).size w.mem)),
          w.obj_locker_, t⟩ =
      .ok (false, ⟨self.meta_.mutator_copy n⟩,
        ⟨Region.atomic_inc_ref_cnt n (-1) (memcpy m2 n a ((Object.mk a).size w.mem)),
          w.obj_locker_,
          t ++ [Event.mutator_migrate_object, Event.lock_object (object_key a w.mem),
            Event.unlock_object (object_key a w.mem)]⟩) := by
  obtain ⟨-, hb⟩ := object_of_data_addr self.meta_ a hw ha
  have hs := size_of_small a w.mem hb hsz
  obtain ⟨r1, r2, -, r4, -, -, -⟩ := object_reads a w.mem hb
  obtain ⟨hn1, -, -, -⟩ := hok.2 n rfl
  have hnew := moved_new_bytes a n w.mem m2 hok
  have hm := (mutator_copy_metadata self.meta_ n hn1).1
  have hpw : self.meta_.metadata_ / 256 % 2 = 0 := (FarMemPtrMeta.is_present_iff _).1 hp
  have hp1 : (self.meta_.mutator_copy n).is_present = true := by
    rw [FarMemPtrMeta.is_present_iff, hm]; omega
  have he1 : (self.meta_.mutator_copy n).is_evacuation = false := by
    cases hq : FarMemPtrMeta.is_evacuation _
    · rfl
    · rw [FarMemPtrMeta.is_evacuation_iff, hm] at hq; omega
  have hd1 : (self.meta_.mutator_copy n).get_object_data_addr = n + 10 := by
    rw [FarMemPtrMeta.get_object_data_addr_eq, hm]; omega
  have hw1 : (self.meta_.mutator_copy n).metadata_ < 2 ^ 64 := by rw [hm]; omega
  generalize hM : Region.atomic_inc_ref_cnt n (-1) (memcpy m2 n a ((Object.mk a).size w.mem))
    = M at hnew ⊢
  have hload : ∀ i, i < (Object.mk a).size w.mem → load8 M (n + i) = load8 w.mem (a + i) := by
    intro i hi
    rw [load8, hnew i hi, load8, Nat.mod_mod]
  obtain ⟨q1, q2, -, q4, -, -, -⟩ := object_reads n M hn1
  have hl2 := loadN_lt 2 w.mem (a + 6)
  have e9 : load8 M (n + 9) = load8 w.mem (a + 9) := hload 9 (by omega)
  have e6 : loadN M (n + 6) 2 = loadN w.mem (a + 6) 2 := by
    apply loadN_congr_bytes
    intro i hi
    have := hload (6 + i) (by omega)
    rwa [show n + (6 + i) = n + 6 + i by omega, show a + (6 + i) = a + 6 + i by omega] at this
  have hkey : object_key n M = object_key a w.mem := by
    unfold object_key
    rw [q1, q4, r1, r4, e9, e6]
    apply get_obj_id_fragment_bytes
    intro i h1 _
    have := hload (10 + loadN w.mem (a + 6) 2 + i) (by omega)
    rwa [show n + (10 + loadN w.mem (a + 6) 2 + i) = n + 10 + loadN w.mem (a + 6) 2 + i by omega,
      show a + (10 + loadN w.mem (a + 6) 2 + i) = a + 10 + loadN w.mem (a + 6) 2 + i by omega]
      at this
  have h := migrate_not_evacuating env ⟨self.meta_.mutator_copy n⟩ ⟨M, w.obj_locker_, t⟩ n
    hw1 hd1 hp1 he1 (by rw [hkey]; exact hl)
  rw [hkey] at h
  exact h

/-- The concrete migration used as an example satisfies its setting. -/
theorem migrate_pre_fixed : migrate_pre env_fixed ptr_evacuating world_one_object 0x200005 :=
  ⟨by decide, by decide, by decide, by decide, fun _ =>
    ⟨fun _ _ => rfl, fun n hn =>
      (Option.some.inj hn) ▸ ⟨by decide, by decide, by decide, by decide⟩⟩⟩

/-- The concrete migration that finds no room satisfies its setting. -/
theorem migrate_pre_full : migrate_pre env_full ptr_evacuating world_one_object 0x200005 :=
  ⟨by decide, by decide, by decide, by decide, fun _ =>
    ⟨fun _ _ => rfl, fun _ hn => Option.noConfusion hn⟩⟩

/-! ## Properties of the pointer operations -/

/-- C5: a 64-bit word is null exactly when the word with its low byte cleared is `kNull`
(0x100); a null word is not present and has object data address 0, so no present word is null;
and the word left by `nullify` is null. -/
theorem C5_null_word (self : FarMemPtrMeta) (hw : self.metadata_ < 2 ^ 64) :
    (self.is_null = true ↔ self.metadata_ / 256 * 256 = FarMemPtrMeta.kNull) ∧
    (FarMemPtrMeta.kNull = 0x100) ∧
    (self.is_null = true → self.is_present = false ∧ self.get_object_data_addr = 0) ∧
    (self.is_present = true → self.is_null = false) ∧
    self.nullify.is_null = true := by
  have hn := self.is_null_iff
  have hp := self.is_present_iff
  have hd := self.get_object_data_addr_eq
  refine ⟨?_, rfl, ?_, ?_, ?_⟩
  · rw [hn, show FarMemPtrMeta.kNull = 256 from rfl]; omega
  · intro h
    rw [hn] at h
    refine ⟨?_, by rw [hd]; omega⟩
    cases hq : self.is_present
    · rfl
    · rw [hp] at hq; omega
  · intro h
    rw [hp] at h
    cases hq : self.is_null
    · rfl
    · rw [hn] at hq; omega
  · rw [FarMemPtrMeta.is_null_iff]
    simp [FarMemPtrMeta.nullify, FarMemPtrMeta.from_uint64_t, FarMemPtrMeta.kNull,
      FarMemPtrMeta.kPresentClear]

theorem C5_null_word_witness :
    (⟨0, 0x1AB⟩ : FarMemPtrMeta).metadata_ < 2 ^ 64 ∧
    (⟨0, 0x1AB⟩ : FarMemPtrMeta).is_null = true ∧
    (⟨0, 0x1AB⟩ : FarMemPtrMeta).is_present = false :=
  ⟨by decide, by decide,
    ((C5_null_word ⟨0, 0x1AB⟩ (by decide)).2.2.1 (by decide)).1⟩

/-- C4: the absent form round-trips: after `gc_wb(ds_id, object_size, obj_id)` with an 8-bit
`ds_id`, a 16-bit `object_size` and `obj_id < 2^38`, the word is not present, `get_ds_id`,
`get_object_size` and `get_object_id` give back the three inputs, and the shared bit is clear. -/
theorem C4_gc_wb_round_trip (self : FarMemPtrMeta) (ds_id object_size obj_id : Nat)
    (h1 : ds_id < 2 ^ 8) (h2 : object_size < 2 ^ 16) (h3 : obj_id < 2 ^ 38) :
    ∃ self1, self.gc_wb ds_id object_size obj_id = some self1 ∧
      self1.self_addr = self.self_addr ∧
      self1.is_present = false ∧
      self1.get_ds_id = some ds_id ∧
      self1.get_object_size = some object_size ∧
      self1.get_object_id = obj_id ∧
      self1.is_shared = false ∧
      self1.metadata_ / 512 % 2 = 0 := by
  refine ⟨_, FarMemPtrMeta.gc_wb_eq self ds_id object_size obj_id h1 h2 h3, rfl, ?_⟩
  have hp : (⟨self.self_addr, obj_id * 67108864 + object_size * 1024 + 256 + ds_id⟩ :
      FarMemPtrMeta).is_present = false := by
    cases hq : FarMemPtrMeta.is_present _
    · rfl
    · rw [FarMemPtrMeta.is_present_iff] at hq; simp only at hq; omega
  refine ⟨hp, ?_, ?_, ?_, ?_, ?_⟩
  · simp only [FarMemPtrMeta.get_ds_id, hp, FarMemPtrMeta.byte, word_byte, FarMemPtrMeta.kDSIDPos]
    simp only [Bool.false_eq_true, if_false, Option.some.injEq]
    omega
  · simp only [FarMemPtrMeta.get_object_size, hp, FarMemPtrMeta.to_uint64_t,
      FarMemPtrMeta.kObjectSizeBitPos, Nat.shiftRight_eq_div_pow]
    simp only [Bool.false_eq_true, if_false, Option.some.injEq]
    omega
  · rw [FarMemPtrMeta.get_object_id_eq]; simp only; omega
  · cases hq : FarMemPtrMeta.is_shared _
    · rfl
    · rw [FarMemPtrMeta.is_shared_iff] at hq; simp only at hq; omega
  · simp only; omega

theorem C4_gc_wb_round_trip_witness :
    ∃ self1, (⟨64, 0⟩ : FarMemPtrMeta).gc_wb 7 300 123456789 = some self1 ∧
      self1.self_addr = 64 ∧
      self1.is_present = false ∧
      self1.get_ds_id = some 7 ∧
      self1.get_object_size = some 300 ∧
      self1.get_object_id = 123456789 ∧
      self1.is_shared = false ∧
      self1.metadata_ / 512 % 2 = 0 :=
  C4_gc_wb_round_trip ⟨64, 0⟩ 7 300 123456789 (by decide) (by decide) (by decide)

/-- C2: for an object address `a` with `a + 10 < 2^47` and a pointer at an address below `2^48`,
`set_present(a)` leaves a word that is present, not dirty, not under evacuation, with low byte
0x81 (hot-cleared bit set, counter `kHotThresh - 1 = 1`, hence not hot), object data address
`a + 10` and object address `a`; the back pointer of the object is the address of the pointer;
and the result is the same whatever the word held before. -/
theorem C2_set_present (self : FarMemPtrMeta) (a : Nat) (m : Mem) (ha : a + 10 < 2 ^ 47)
    (hp : self.self_addr < 2 ^ 48) :
    (self.set_present a m).1.is_present = true ∧
    (self.set_present a m).1.is_dirty = false ∧
    (self.set_present a m).1.is_evacuation = false ∧
    (self.set_present a m).1.byte 0 = 0x81 ∧
    (self.set_present a m).1.byte 0 = FarMemPtrMeta.kHotClear + (FarMemPtrMeta.kHotThresh - 1) ∧
    (self.set_present a m).1.is_hot = false ∧
    (self.set_present a m).1.get_object_data_addr = a + 10 ∧
    (self.set_present a m).1.get_object_addr = a ∧
    (self.set_present a m).1.self_addr = self.self_addr ∧
    (Object.mk a).get_ptr_addr (self.set_present a m).2 = self.self_addr ∧
    (∀ w0 : Nat, FarMemPtrMeta.set_present ⟨self.self_addr, w0⟩ a m = self.set_present a m) := by
  have hm := FarMemPtrMeta.set_present_metadata self a m ha
  have hd : (self.set_present a m).1.get_object_data_addr = a + 10 := by
    rw [FarMemPtrMeta.get_object_data_addr_eq, hm]; omega
  refine ⟨?_, ?_, ?_, ?_, ?_, ?_, hd, ?_, rfl, ?_, fun _ => rfl⟩
  · rw [FarMemPtrMeta.is_present_iff, hm]; omega
  · cases hq : FarMemPtrMeta.is_dirty _
    · rfl
    · rw [FarMemPtrMeta.is_dirty_iff, hm] at hq; omega
  · cases hq : FarMemPtrMeta.is_evacuation _
    · rfl
    · rw [FarMemPtrMeta.is_evacuation_iff, hm] at hq; omega
  · simp only [FarMemPtrMeta.byte, word_byte, hm]; omega
  · simp only [FarMemPtrMeta.byte, word_byte, hm, FarMemPtrMeta.kHotClear,
      FarMemPtrMeta.kHotThresh]
    omega
  · cases hq : FarMemPtrMeta.is_hot _
    · rfl
    · rw [FarMemPtrMeta.is_hot_iff, hm] at hq; omega
  · simp only [FarMemPtrMeta.get_object_addr, hd, Object.kHeaderSize, Object.kPtrAddrSize,
      Object.kDataLenSize, Object.kDSIDSize, Object.kIDLenSize]
    omega
  · simp only [FarMemPtrMeta.set_present, Object.get_ptr_addr, Object.set_ptr_addr,
      helpers.small_memcpy_from_mem, helpers.small_memcpy_to_mem, loadN_storeN,
      Object.kPtrAddrSize]
    norm_num
    omega

theorem C2_set_present_witness :
    (4096 : Nat) + 10 < 2 ^ 47 ∧ (⟨512, 0x100⟩ : FarMemPtrMeta).self_addr < 2 ^ 48 ∧
    (FarMemPtrMeta.set_present ⟨512, 0x100⟩ 4096 (fun _ => 0)).1.metadata_ = 0x20140481 ∧
    (Object.mk 4096).get_ptr_addr (FarMemPtrMeta.set_present ⟨512, 0x100⟩ 4096 (fun _ => 0)).2
      = 512 :=
  ⟨by decide, by decide, by decide,
    (C2_set_present ⟨512, 0x100⟩ 4096 (fun _ => 0) (by decide) (by decide)).2.2.2.2.2.2.2.2.2.1⟩

/-- C3: for either value of the shared flag and an object address `a` with `a + 10 < 2^47`, the
word built by `init(shared, a)`, and the one built by the constructor
`FarMemPtrMeta(shared, a)`, is present and dirty, is neither null nor under evacuation, and has
object data address `a + 10`. -/
theorem C3_init_present_dirty (self : FarMemPtrMeta) (self_addr : Nat) (shared : Bool)
    (a : Nat) (m : Mem) (ha : a + 10 < 2 ^ 47) :
    ((self.init shared a m).1.is_present = true ∧
      (self.init shared a m).1.is_dirty = true ∧
      (self.init shared a m).1.is_null = false ∧
      (self.init shared a m).1.is_evacuation = false ∧
      (self.init shared a m).1.get_object_data_addr = a + 10) ∧
    ((FarMemPtrMeta.mk_shared self_addr shared a m).1.is_present = true ∧
      (FarMemPtrMeta.mk_shared self_addr shared a m).1.is_dirty = true ∧
      (FarMemPtrMeta.mk_shared self_addr shared a m).1.is_null = false ∧
      (FarMemPtrMeta.mk_shared self_addr shared a m).1.is_evacuation = false ∧
      (FarMemPtrMeta.mk_shared self_addr shared a m).1.get_object_data_addr = a + 10) := by
  have key : ∀ s : FarMemPtrMeta, (s.init shared a m).1.is_present = true ∧
      (s.init shared a m).1.is_dirty = true ∧
      (s.init shared a m).1.is_null = false ∧
      (s.init shared a m).1.is_evacuation = false ∧
      (s.init shared a m).1.get_object_data_addr = a + 10 := by
    intro s
    have hm := FarMemPtrMeta.init_metadata s shared a m ha
    refine ⟨?_, ?_, ?_, ?_, ?_⟩
    · rw [FarMemPtrMeta.is_present_iff, hm]; omega
    · rw [FarMemPtrMeta.is_dirty_iff, hm]; omega
    · cases hq : FarMemPtrMeta.is_null _
      · rfl
      · rw [FarMemPtrMeta.is_null_iff, hm] at hq; omega
    · cases hq : FarMemPtrMeta.is_evacuation _
      · rfl
      · rw [FarMemPtrMeta.is_evacuation_iff, hm] at hq; omega
    · rw [FarMemPtrMeta.get_object_data_addr_eq, hm]; omega
  exact ⟨key self, key ⟨self_addr, 0⟩⟩

theorem C3_init_present_dirty_witness :
    (4096 : Nat) + 10 < 2 ^ 47 ∧
    (FarMemPtrMeta.init ⟨512, 0xFFFF⟩ true 4096 (fun _ => 0)).1.metadata_ = 0x20140081 ∧
    (FarMemPtrMeta.init ⟨512, 0xFFFF⟩ true 4096 (fun _ => 0)).1.is_dirty = true :=
  ⟨by decide, by decide,
    (C3_init_present_dirty ⟨512, 0xFFFF⟩ 512 true 4096 (fun _ => 0) (by decide)).1.2.1⟩

/-- C1: on a word that is present (bit 8 clear) and not under evacuation (bit 16 clear),
`_deref<Mut, Nt>`, for both values of `Mut`, returns the word shifted right by 17 bits, which is
`get_object_data_addr()`; the world, and with it the record of the calls of `swap_in` and
`mutator_migrate_object`, is as before the call; bits 16..63 of the word are unchanged; and when
no bit of the tested mask (0x80, 0x100, 0x10000, and 0x400 if `Mut`) is set, the whole word is
unchanged. -/
theorem C1_deref_fast_path (env : Env) (Mut Nt : Bool) (fuel : Nat) (self : GenericUniquePtr)
    (w : World) (hp : self.meta_.is_present = true) (he : self.meta_.is_evacuation = false) :
    ∃ self1 : GenericUniquePtr,
      self._deref env Mut Nt (fuel + 1) w = .ok (self.meta_.metadata_ >>> 17, self1, w) ∧
      self.meta_.metadata_ >>> 17 = self.meta_.get_object_data_addr ∧
      self1.meta_.metadata_ / 2 ^ 16 = self.meta_.metadata_ / 2 ^ 16 ∧
      self1.meta_.self_addr = self.meta_.self_addr ∧
      GenericUniquePtr.deref_exceptions Mut
        = (0x80 ||| 0x100 ||| 0x10000 ||| if Mut then 0x400 else 0) ∧
      (self.meta_.metadata_ &&& GenericUniquePtr.deref_exceptions Mut = 0 → self1 = self) := by
  refine ⟨_, deref_present env Mut Nt fuel self w hp he, rfl, ?_, ?_, ?_, ?_⟩
  · by_cases h : self.meta_.metadata_ &&& GenericUniquePtr.deref_exceptions Mut = 0
    · simp only [h, ne_eq, not_true_eq_false, if_false]
    · simp only [h, ne_eq, not_false_eq_true, if_true, (deref_touched_metadata Mut self).1]
      cases Mut
      · simp only [Bool.false_eq_true, if_false]; omega
      · simp only [if_true]; omega
  · by_cases h : self.meta_.metadata_ &&& GenericUniquePtr.deref_exceptions Mut = 0
    · simp only [h, ne_eq, not_true_eq_false, if_false]
    · simp only [h, ne_eq, not_false_eq_true, if_true, (deref_touched_metadata Mut self).2]
  · cases Mut <;> rfl
  · intro h
    simp only [h, ne_eq, not_true_eq_false, if_false]

theorem C1_deref_fast_path_witness :
    ptr_fresh.meta_.is_present = true ∧ ptr_fresh.meta_.is_evacuation = false ∧
    ∃ self1 : GenericUniquePtr,
      ptr_fresh._deref env_full true false (0 + 1) world_one_object
        = .ok (ptr_fresh.meta_.metadata_ >>> 17, self1, world_one_object) ∧
      ptr_fresh.meta_.metadata_ >>> 17 = ptr_fresh.meta_.get_object_data_addr ∧
      self1.meta_.metadata_ / 2 ^ 16 = ptr_fresh.meta_.metadata_ / 2 ^ 16 ∧
      self1.meta_.self_addr = ptr_fresh.meta_.self_addr ∧
      GenericUniquePtr.deref_exceptions true
        = (0x80 ||| 0x100 ||| 0x10000 ||| if true then 0x400 else 0) ∧
      (ptr_fresh.meta_.metadata_ &&& GenericUniquePtr.deref_exceptions true = 0 →
        self1 = ptr_fresh) :=
  ⟨by decide, by decide,
    C1_deref_fast_path env_full true false 0 ptr_fresh world_one_object (by decide) (by decide)⟩

/-- C6: on a word that is present and not under evacuation, `deref_mut` (`_deref<Mut = true>`)
leaves the word present and dirty, whatever its dirty and hot bits were, and `deref`
(`_deref<Mut = false>`) leaves the dirty bit and the present bit as they were. -/
theorem C6_deref_dirty_bit (env : Env) (Nt : Bool) (fuel : Nat) (self : GenericUniquePtr)
    (w : World) (hp : self.meta_.is_present = true) (he : self.meta_.is_evacuation = false) :
    (∃ (r : Nat) (self1 : GenericUniquePtr) (w1 : World),
      self.deref_mut env Nt (fuel + 1) w = .ok (r, self1, w1) ∧
      self1.meta_.is_present = true ∧ self1.meta_.is_dirty = true) ∧
    (∃ (r : Nat) (self1 : GenericUniquePtr) (w1 : World),
      self.deref env Nt (fuel + 1) w = .ok (r, self1, w1) ∧
      self1.meta_.is_present = self.meta_.is_present ∧
      self1.meta_.is_dirty = self.meta_.is_dirty) := by
  have h1 : self.meta_.metadata_ / 256 % 2 = 0 := (FarMemPtrMeta.is_present_iff _).1 hp
  constructor
  · refine ⟨_, _, _, deref_present env true Nt fuel self w hp he, ?_⟩
    by_cases h : self.meta_.metadata_ &&& GenericUniquePtr.deref_exceptions true = 0
    · simp only [h, ne_eq, not_true_eq_false, if_false]
      have := ((land_deref_exceptions _ true).1 h).2.2.2 rfl
      exact ⟨hp, (FarMemPtrMeta.is_dirty_iff _).2 this⟩
    · simp only [h, ne_eq, not_false_eq_true, if_true]
      have hm := (deref_touched_metadata true self).1
      simp only [if_true] at hm
      constructor
      · rw [FarMemPtrMeta.is_present_iff, hm]; omega
      · rw [FarMemPtrMeta.is_dirty_iff, hm]; omega
  · refine ⟨_, _, _, deref_present env false Nt fuel self w hp he, ?_⟩
    by_cases h : self.meta_.metadata_ &&& GenericUniquePtr.deref_exceptions false = 0
    · simp only [h, ne_eq, not_true_eq_false, if_false, and_self]
    · simp only [h, ne_eq, not_false_eq_true, if_true]
      have hm := (deref_touched_metadata false self).1
      simp only [Bool.false_eq_true, if_false] at hm
      constructor
      · rw [Bool.eq_iff_iff, FarMemPtrMeta.is_present_iff, FarMemPtrMeta.is_present_iff, hm]
        omega
      · rw [Bool.eq_iff_iff, FarMemPtrMeta.is_dirty_iff, FarMemPtrMeta.is_dirty_iff, hm]
        omega

theorem C6_deref_dirty_bit_witness :
    ptr_fresh.meta_.is_present = true ∧ ptr_fresh.meta_.is_evacuation = false ∧
    ptr_fresh.meta_.is_dirty = false ∧
    ∃ (r : Nat) (self1 : GenericUniquePtr) (w1 : World),
      ptr_fresh.deref_mut env_full false (0 + 1) world_one_object = .ok (r, self1, w1) ∧
      self1.meta_.is_present = true ∧ self1.meta_.is_dirty = true :=
  ⟨by decide, by decide, by decide,
    (C6_deref_dirty_bit env_full false 0 ptr_fresh world_one_object (by decide) (by decide)).1⟩

/-- C7: on a null word `_deref<Mut, Nt>`, for both values of `Mut`, returns `nullptr` (0)
and leaves the word and the world, with its record of the calls of `swap_in` and
`mutator_migrate_object`, as they were.  In particular, after `_free()` on a present pointer
whose object lies at `a` (the lock entry of the object not being held by someone else, so that
`_free` returns), `deref` and `deref_mut` return `nullptr`, which is not the address `a + 10`
of the data of the freed object. -/
theorem C7_deref_null_pointer (env : Env) (Mut Nt : Bool) (fuel : Nat) :
    (∀ (self : GenericUniquePtr) (w : World), self.meta_.is_null = true →
      self._deref env Mut Nt (fuel + 1) w = .ok (0, self, w)) ∧
    (∀ (self : GenericUniquePtr) (w : World) (a : Nat),
      self.meta_.metadata_ < 2 ^ 64 → self.meta_.get_object_data_addr = a + 10 →
      self.meta_.is_present = true → ¬ w.obj_locker_.holds (object_key a w.mem) →
      ∃ (self1 : GenericUniquePtr) (w1 : World), self._free w = .ok (self1, w1) ∧
        self1._deref env Mut Nt (fuel + 1) w1 = .ok (0, self1, w1) ∧
        self1.deref env Nt (fuel + 1) w1 = .ok (0, self1, w1) ∧
        self1.deref_mut env Nt (fuel + 1) w1 = .ok (0, self1, w1) ∧
        0 ≠ self.meta_.get_object_data_addr) := by
  refine ⟨fun self w hn => deref_null env Mut Nt fuel self w hn, ?_⟩
  intro self w a hw ha hp hl
  have hn : self.nullify.meta_.is_null = true := by
    rw [FarMemPtrMeta.is_null_iff]
    simp [GenericUniquePtr.nullify, FarMemPtrMeta.nullify, FarMemPtrMeta.from_uint64_t,
      FarMemPtrMeta.kNull, FarMemPtrMeta.kPresentClear]
  refine ⟨_, _, free_present self w a hw ha hp hl, deref_null env Mut Nt fuel _ _ hn,
    deref_null env false Nt fuel _ _ hn, deref_null env true Nt fuel _ _ hn, ?_⟩
  rw [ha]
  omega

theorem C7_deref_null_pointer_witness :
    ptr_fresh.meta_.metadata_ < 2 ^ 64 ∧ ptr_fresh.meta_.get_object_data_addr = 0x200005 + 10 ∧
    ptr_fresh.meta_.is_present = true ∧
    ¬ world_one_object.obj_locker_.holds (object_key 0x200005 world_one_object.mem) ∧
    ∃ (self1 : GenericUniquePtr) (w1 : World),
      ptr_fresh._free world_one_object = .ok (self1, w1) ∧
      self1._deref env_full true false (0 + 1) w1 = .ok (0, self1, w1) ∧
      self1.deref env_full false (0 + 1) w1 = .ok (0, self1, w1) ∧
      self1.deref_mut env_full false (0 + 1) w1 = .ok (0, self1, w1) ∧
      0 ≠ ptr_fresh.meta_.get_object_data_addr :=
  ⟨by decide, by decide, by decide, by decide,
    (C7_deref_null_pointer env_full true false 0).2 ptr_fresh world_one_object 0x200005
      (by decide) (by decide) (by decide) (by decide)⟩

/-- C8: for a present (hence non-null) pointer whose object lies at `a`, the lock entry of the
object not being held by someone else, `_free()` returns; afterwards `Object(a).is_freed()` is
true and the word is null; every byte other than the one at offset 5 is unchanged, so
`data_len`, `ds_id`, `id_len`, the payload and the id are unchanged; and the lock entry that
was taken for the id of the object has been released. -/
theorem C8_free_present (self : GenericUniquePtr) (w : World) (a : Nat)
    (hw : self.meta_.metadata_ < 2 ^ 64) (ha : self.meta_.get_object_data_addr = a + 10)
    (hp : self.meta_.is_present = true) (hl : ¬ w.obj_locker_.holds (object_key a w.mem)) :
    self.meta_.is_null = false ∧
    ∃ (self1 : GenericUniquePtr) (w1 : World), self._free w = .ok (self1, w1) ∧
      (Object.mk a).is_freed w1.mem = true ∧
      self1.meta_.is_null = true ∧
      (∀ x, x ≠ a + 5 → w1.mem x = w.mem x) ∧
      (Object.mk a).get_data_len w1.mem = (Object.mk a).get_data_len w.mem ∧
      (Object.mk a).get_ds_id w1.mem = (Object.mk a).get_ds_id w.mem ∧
      (Object.mk a).get_obj_id_len w1.mem = (Object.mk a).get_obj_id_len w.mem ∧
      (Object.mk a).get_obj_id w1.mem = (Object.mk a).get_obj_id w.mem ∧
      (∀ i, w1.mem ((Object.mk a).get_data_addr + i) = w.mem ((Object.mk a).get_data_addr + i)) ∧
      (∀ i, w1.mem ((Object.mk a).get_obj_id w.mem + i)
        = w.mem ((Object.mk a).get_obj_id w.mem + i)) ∧
      w1.trace = w.trace ++ [Event.lock_object (object_key a w.mem),
        Event.unlock_object (object_key a w.mem)] ∧
      ¬ w1.obj_locker_.holds (object_key a w.mem) ∧
      w1.obj_locker_ = w.obj_locker_ := by
  obtain ⟨-, hb⟩ := object_of_data_addr self.meta_ a hw ha
  have hl2 := loadN_lt 2 w.mem (a + 6)
  obtain ⟨r1, r2, r3, r4, -, -, -⟩ := object_reads a w.mem hb
  obtain ⟨q1, q2, q3, q4, -, -, q7⟩ := object_reads a (store8 w.mem (a + 5) 0xFF) hb
  have hother : ∀ x, x ≠ a + 5 → store8 w.mem (a + 5) 0xFF x = w.mem x :=
    fun x hx => store8_other _ _ _ _ hx
  have hlen : loadN (store8 w.mem (a + 5) 0xFF) (a + 6) 2 = loadN w.mem (a + 6) 2 :=
    loadN_congr 2 _ _ _ (fun x h1 _ => hother x (by omega))
  have hda : (Object.mk a).get_data_addr = a + 10 := by
    simp only [Object.get_data_addr, u64, Object.kHeaderSize, Object.kPtrAddrSize,
      Object.kDataLenSize, Object.kDSIDSize, Object.kIDLenSize]
    omega
  refine ⟨present_not_null _ hp, _, _, free_present self w a hw ha hp hl, ?_, ?_, hother, ?_, ?_,
    ?_, ?_, ?_, ?_, rfl, hl, rfl⟩
  · rw [q7, load8, store8_same]; decide
  · rw [FarMemPtrMeta.is_null_iff]
    simp [GenericUniquePtr.nullify, FarMemPtrMeta.nullify, FarMemPtrMeta.from_uint64_t,
      FarMemPtrMeta.kNull, FarMemPtrMeta.kPresentClear]
  · rw [q2, r2, hlen]
  · rw [q3, r3, load8, load8, hother _ (by omega)]
  · rw [q1, r1, load8, load8, hother _ (by omega)]
  · rw [q4, r4, hlen]
  · intro i; rw [hda]; exact hother _ (by omega)
  · intro i; rw [r4]; exact hother _ (by omega)

theorem C8_free_present_witness :
    ptr_fresh.meta_.metadata_ < 2 ^ 64 ∧ ptr_fresh.meta_.get_object_data_addr = 0x200005 + 10 ∧
    ptr_fresh.meta_.is_present = true ∧
    ¬ world_one_object.obj_locker_.holds (object_key 0x200005 world_one_object.mem) ∧
    object_key 0x200005 world_one_object.mem = 0x2A ∧
    ∃ (self1 : GenericUniquePtr) (w1 : World), ptr_fresh._free world_one_object = .ok (self1, w1) ∧
      (Object.mk 0x200005).is_freed w1.mem = true ∧ self1.meta_.is_null = true :=
  ⟨by decide, by decide, by decide, by decide, by decide,
    let ⟨s1, w1, h1, h2, h3, _⟩ :=
      (C8_free_present ptr_fresh world_one_object 0x200005 (by decide) (by decide) (by decide)
        (by decide)).2
    ⟨s1, w1, h1, h2, h3⟩⟩

/-- C9: for a pointer that is present and under evacuation, with its object at `a` of size
`s = Object(a).size()`, in the setting `migrate_pre`, when `allocate_local_object_nb` returns
the address `n`, `mutator_migrate_object()` returns true and then: the `s` bytes at `n` equal
the `s` bytes that were at `a`; the word is present, not under evacuation, with object data
address `n + 10`; the bytes at `a` are as before; the reference count of the region that
contains `n` is one less (modulo `2^32`) than the allocator left it.  Hence a following `_deref`
returns `n + 10` where the payload equals the payload before the migration, and the back pointer
of the new object is that of the old one, so it is the address of the pointer if that was so
before. -/
theorem C9_migrate_copies (env : Env) (self : GenericUniquePtr) (w : World) (a n : Nat)
    (hp : self.meta_.is_present = true) (he : self.meta_.is_evacuation = true)
    (hpre : migrate_pre env self w a)
    (halloc : (env.allocate_local_object_nb (self.meta_.is_nt w.mem)
      ((Object.mk a).size w.mem) w.mem).1 = some n) :
    ∃ (self1 : GenericUniquePtr) (w1 : World),
      self.mutator_migrate_object env w = .ok (true, self1, w1) ∧
      (∀ i, i < (Object.mk a).size w.mem → load8 w1.mem (n + i) = load8 w.mem (a + i)) ∧
      self1.meta_.is_present = true ∧
      self1.meta_.is_evacuation = false ∧
      self1.meta_.get_object_data_addr = n + 10 ∧
      self1.meta_.self_addr = self.meta_.self_addr ∧
      (∀ i, i < (Object.mk a).size w.mem → w1.mem (a + i) = w.mem (a + i)) ∧
      n &&& Region.kBaseMask = n - n % Region.kSize ∧
      Region.ref_cnt_at (n &&& Region.kBaseMask) w1.mem =
        (Region.ref_cnt_at (n &&& Region.kBaseMask)
          (env.allocate_local_object_nb (self.meta_.is_nt w.mem)
            ((Object.mk a).size w.mem) w.mem).2 + 2 ^ 32 - 1) % 2 ^ 32 ∧
      (∀ (Mut Nt : Bool) (fuel : Nat), ∃ self2 : GenericUniquePtr,
        self1._deref env Mut Nt (fuel + 1) w1 = .ok (n + 10, self2, w1)) ∧
      (∀ i, i < (Object.mk a).get_data_len w.mem →
        load8 w1.mem (n + 10 + i) = load8 w.mem (a + 10 + i)) ∧
      (Object.mk n).get_ptr_addr w1.mem = (Object.mk a).get_ptr_addr w.mem ∧
      ((Object.mk a).get_ptr_addr w.mem = self.meta_.self_addr →
        (Object.mk n).get_ptr_addr w1.mem = self1.meta_.self_addr) := by
  obtain ⟨hw, ha, hsz, hl, hok⟩ := hpre
  have hok := hok he
  rcases hr : env.allocate_local_object_nb (self.meta_.is_nt w.mem)
    ((Object.mk a).size w.mem) w.mem with ⟨o, m2⟩
  rw [hr] at halloc hok
  simp only at halloc
  subst halloc
  obtain ⟨-, hb⟩ := object_of_data_addr self.meta_ a hw ha
  have hs := size_of_small a w.mem hb hsz
  obtain ⟨r1, r2, -, -, -, -, -⟩ := object_reads a w.mem hb
  obtain ⟨hn1, hn2, -, -⟩ := hok.2 n rfl
  have hn2 : 5 ≤ n % 1048576 := hn2
  have hbase := region_base n (by omega)
  have hnew := moved_new_bytes a n w.mem m2 hok
  have hold := moved_old_bytes a n w.mem m2 hok
  have hm := (mutator_copy_metadata self.meta_ n hn1).1
  have hpw : self.meta_.metadata_ / 256 % 2 = 0 := (FarMemPtrMeta.is_present_iff _).1 hp
  have hp1 : (self.meta_.mutator_copy n).is_present = true := by
    rw [FarMemPtrMeta.is_present_iff, hm]; omega
  have he1 : (self.meta_.mutator_copy n).is_evacuation = false := by
    cases hq : FarMemPtrMeta.is_evacuation _
    · rfl
    · rw [FarMemPtrMeta.is_evacuation_iff, hm] at hq; omega
  have hd1 : (self.meta_.mutator_copy n).get_object_data_addr = n + 10 := by
    rw [FarMemPtrMeta.get_object_data_addr_eq, hm]; omega
  have hload : ∀ i, i < (Object.mk a).size w.mem →
      load8 (Region.atomic_inc_ref_cnt n (-1) (memcpy m2 n a ((Object.mk a).size w.mem))) (n + i)
        = load8 w.mem (a + i) := by
    intro i hi
    rw [load8, hnew i hi, load8, Nat.mod_mod]
  have hptr : (Object.mk n).get_ptr_addr
      (Region.atomic_inc_ref_cnt n (-1) (memcpy m2 n a ((Object.mk a).size w.mem)))
        = (Object.mk a).get_ptr_addr w.mem := by
    have en : u64 (n + Object.kPtrAddrPos) = n := by simp only [u64, Object.kPtrAddrPos]; omega
    have ea : u64 (a + Object.kPtrAddrPos) = a := by simp only [u64, Object.kPtrAddrPos]; omega
    simp only [Object.get_ptr_addr, helpers.small_memcpy_from_mem, en, ea, Object.kPtrAddrSize]
    rw [loadN_congr_bytes 6 _ w.mem n a (fun i hi => hload i (by omega))]
  refine ⟨_, _, migrate_moved env self w a n m2 hw ha hp he hsz hl hr hok, hload, hp1, he1, hd1,
    rfl, hold, ?_, ?_, ?_, ?_, hptr, fun h => hptr.trans h⟩
  · rw [hbase]; rfl
  · have e : Region.ref_cnt_at (n &&& Region.kBaseMask)
        (memcpy m2 n a ((Object.mk a).size w.mem))
          = Region.ref_cnt_at (n &&& Region.kBaseMask) m2 := by
      simp only [Region.ref_cnt_at, Region.kRefCntPos, Region.kRefCntSize, Nat.add_zero]
      apply loadN_congr
      intro x h1 h2
      exact memcpy_outside _ _ _ _ _ (by omega)
    show Region.ref_cnt_at _ (Region.atomic_inc_ref_cnt n (-1) _) = _
    rw [atomic_dec_ref_cnt, e]
  · intro Mut Nt fuel
    have h17 : (self.meta_.mutator_copy n).metadata_ >>> 17 = n + 10 := by
      rw [← hd1]; rfl
    have hd := fun w1 =>
      deref_present env Mut Nt fuel ⟨self.meta_.mutator_copy n⟩ w1 hp1 he1
    simp only [h17] at hd
    exact ⟨_, hd _⟩
  · intro i hi
    rw [r2] at hi
    have := hload (10 + i) (by omega)
    rwa [show n + (10 + i) = n + 10 + i by omega, show a + (10 + i) = a + 10 + i by omega]
      at this

theorem C9_migrate_copies_witness :
    ptr_evacuating.meta_.is_present = true ∧ ptr_evacuating.meta_.is_evacuation = true ∧
    (Object.mk 0x200005).size world_one_object.mem = 13 ∧
    ∃ (self1 : GenericUniquePtr) (w1 : World),
      ptr_evacuating.mutator_migrate_object env_fixed world_one_object = .ok (true, self1, w1) ∧
      (∀ i, i < (Object.mk 0x200005).size world_one_object.mem →
        load8 w1.mem (0x300005 + i) = load8 world_one_object.mem (0x200005 + i)) ∧
      self1.meta_.is_present = true ∧
      self1.meta_.is_evacuation = false ∧
      self1.meta_.get_object_data_addr = 0x300005 + 10 :=
  ⟨by decide, by decide, by decide,
    let ⟨s1, w1, h1, h2, h3, h4, h5, _⟩ :=
      C9_migrate_copies env_fixed ptr_evacuating world_one_object 0x200005 0x300005
        (by decide) (by decide) migrate_pre_fixed rfl
    ⟨s1, w1, h1, h2, h3, h4, h5⟩⟩

/-- C10: in the setting `migrate_pre` (required when the pointer is present),
`mutator_migrate_object()` returns, and it returns true exactly when the pointer is present,
its evacuation bit is set and `allocate_local_object_nb` returns an address.  When it returns
false the word is unchanged and so are the bytes of the object; the memory as a whole is
unchanged when the pointer is not present or not under evacuation.  On every path the lock
entries are as at the call: what the call recorded is its own entry followed, when the pointer
is present, by the lock and the unlock of the key of the object.  A second call right after a
successful migration returns false and changes neither the word nor the memory. -/
theorem C10_migrate_result (env : Env) (self : GenericUniquePtr) (w : World) (a : Nat)
    (hpre : self.meta_.is_present = true → migrate_pre env self w a) :
    ∃ (b : Bool) (self1 : GenericUniquePtr) (w1 : World),
      self.mutator_migrate_object env w = .ok (b, self1, w1) ∧
      (b = true ↔ (self.meta_.is_present = true ∧ self.meta_.is_evacuation = true ∧
        (env.allocate_local_object_nb (self.meta_.is_nt w.mem)
          ((Object.mk a).size w.mem) w.mem).1.isSome = true)) ∧
      (b = false → self1 = self ∧
        ∀ i, i < (Object.mk a).size w.mem → w1.mem (a + i) = w.mem (a + i)) ∧
      (b = false → (self.meta_.is_present = false ∨ self.meta_.is_evacuation = false) →
        w1.mem = w.mem) ∧
      w1.obj_locker_ = w.obj_locker_ ∧
      w1.trace = w.trace ++ Event.mutator_migrate_object ::
        (if self.meta_.is_present then
          [Event.lock_object (object_key a w.mem), Event.unlock_object (object_key a w.mem)]
        else []) ∧
      (b = true → ∃ w2 : World,
        self1.mutator_migrate_object env w1 = .ok (false, self1, w2) ∧
        w2.mem = w1.mem ∧ w2.obj_locker_ = w1.obj_locker_) := by
  cases hp : self.meta_.is_present
  · refine ⟨false, _, _, migrate_absent env self w hp, ?_, ?_, ?_, rfl, ?_, ?_⟩
    · simp
    · intro _; exact ⟨rfl, fun _ _ => rfl⟩
    · intro _ _; rfl
    · simp
    · intro h; exact absurd h (by decide)
  · obtain ⟨hw, ha, hsz, hl, hok⟩ := hpre hp
    cases he : self.meta_.is_evacuation
    · refine ⟨false, _, _, migrate_not_evacuating env self w a hw ha hp he hl, ?_, ?_, ?_,
        rfl, ?_, ?_⟩
      · simp
      · intro _; exact ⟨rfl, fun _ _ => rfl⟩
      · intro _ _; rfl
      · simp
      · intro h; exact absurd h (by decide)
    · have hok := hok he
      rcases hr : env.allocate_local_object_nb (self.meta_.is_nt w.mem)
        ((Object.mk a).size w.mem) w.mem with ⟨o, m2⟩
      rw [hr] at hok
      cases o with
      | none =>
        refine ⟨false, _, _, migrate_no_room env self w a m2 hw ha hp he hsz hl hr hok, ?_, ?_,
          ?_, rfl, ?_, ?_⟩
        · simp
        · intro _; exact ⟨rfl, hok.1⟩
        · intro _ h
          rcases h with h | h <;> exact absurd h (by decide)
        · simp
        · intro h; exact absurd h (by decide)
      | some n =>
        refine ⟨true, _, _, migrate_moved env self w a n m2 hw ha hp he hsz hl hr hok, ?_, ?_,
          ?_, rfl, ?_, ?_⟩
        · simp
        · intro h; exact absurd h (by decide)
        · intro h; exact absurd h (by decide)
        · simp
        · intro _
          exact ⟨_, migrate_again env self w a n m2 hw ha hp hsz hl hok _, rfl, rfl⟩

theorem C10_migrate_result_witness :
    migrate_pre env_full ptr_evacuating world_one_object 0x200005 ∧
    ∃ (b : Bool) (self1 : GenericUniquePtr) (w1 : World),
      ptr_evacuating.mutator_migrate_object env_full world_one_object = .ok (b, self1, w1) ∧
      (b = true ↔ (ptr_evacuating.meta_.is_present = true ∧
        ptr_evacuating.meta_.is_evacuation = true ∧
        (env_full.allocate_local_object_nb (ptr_evacuating.meta_.is_nt world_one_object.mem)
          ((Object.mk 0x200005).size world_one_object.mem) world_one_object.mem).1.isSome
            = true)) ∧
      (b = false → self1 = ptr_evacuating ∧
        ∀ i, i < (Object.mk 0x200005).size world_one_object.mem →
          w1.mem (0x200005 + i) = world_one_object.mem (0x200005 + i)) :=
  ⟨migrate_pre_full,
    let ⟨b, s1, w1, h1, h2, h3, _⟩ :=
      C10_migrate_result env_full ptr_evacuating world_one_object 0x200005
        (fun _ => migrate_pre_full)
    ⟨b, s1, w1, h1, h2, h3⟩⟩

/-! ## The metadata word: copy by the mutator and the evacuation bit -/

theorem lor_one (x : Nat) : x ||| 1 = x / 2 * 2 + 1 := by
  obtain ⟨q, r, hr, rfl⟩ : ∃ q r, r < 2 ∧ x = 2 * q + r := ⟨x / 2, x % 2, by omega, by omega⟩
  have h := Nat.mul_add_lt_is_or (i := 1) (b := r) (by omega) q
  have h1 := Nat.mul_add_lt_is_or (i := 1) (b := 1) (by omega) q
  simp only [Nat.pow_one] at h h1
  have hr1 : r ||| 1 = 1 := by
    interval_cases r <;> rfl
  have hl : (2 * q + r) ||| 1 = 2 * q + 1 := by
    rw [h, Nat.lor_assoc, hr1, ← h1]
  rw [hl]
  omega

/-- Setting bit 16. -/
theorem lor_0x10000 (w : Nat) : w ||| 65536 = w + (1 - w / 65536 % 2) * 65536 := by
  obtain ⟨q, b, r, hb, hr, rfl⟩ : ∃ q b r, b < 2 ∧ r < 65536 ∧ w = 131072 * q + (65536 * b + r) :=
    ⟨w / 131072, w / 65536 % 2, w % 65536, by omega, by omega, by omega⟩
  have h := Nat.mul_add_lt_is_or (i := 17) (b := r) (by omega) q
  have h0 := Nat.mul_add_lt_is_or (i := 17) (b := 65536 + r) (by omega) q
  have h1 := Nat.mul_add_lt_is_or (i := 16) (b := r) (by omega) 1
  norm_num at h h0 h1
  interval_cases b
  · have hl : (131072 * q + (65536 * 0 + r)) ||| 65536 = 131072 * q + (65536 + r) := by
      rw [Nat.mul_zero, Nat.zero_add, h, Nat.lor_assoc, Nat.lor_comm r, ← h1, ← h0]
    rw [hl]
    omega
  · have hl : (131072 * q + (65536 * 1 + r)) ||| 65536 = 131072 * q + (65536 + r) := by
      rw [Nat.mul_one, h0, h1, Nat.lor_assoc, Nat.lor_assoc, Nat.lor_comm r, ← Nat.lor_assoc 65536,
        Nat.or_self]
    rw [hl]
    omega

theorem set_evacuation_metadata (self : FarMemPtrMeta) :
    self.set_evacuation.metadata_ = self.metadata_ ||| 65536 ∧
    self.set_evacuation.self_addr = self.self_addr := by
  refine ⟨?_, rfl⟩
  simp only [FarMemPtrMeta.set_evacuation, FarMemPtrMeta.set_byte, FarMemPtrMeta.byte,
    FarMemPtrMeta.kEvacuationPos, word_set_byte, word_byte, lor_one, lor_0x10000]
  norm_num
  omega

/-- C11: for every word `w` and every new object address `n` with `n + 10 < 2^47`,
`mutator_copy(n)` replaces `w` by `(w mod 2^16) | ((n + 10) << 17)`: the low 16 bits, and with
them the hot byte and the present, shared and dirty bits, are as before, the evacuation bit is
clear, and `get_object_data_addr()` is `n + 10`. -/
theorem C11_mutator_copy (self : FarMemPtrMeta) (n : Nat) (hn : n + 10 < 2 ^ 47) :
    (self.mutator_copy n).metadata_ = self.metadata_ % 2 ^ 16 ||| (n + 10) <<< 17 ∧
    (self.mutator_copy n).self_addr = self.self_addr ∧
    (self.mutator_copy n).low16 = self.low16 ∧
    (self.mutator_copy n).byte 0 = self.byte 0 ∧
    (self.mutator_copy n).is_present = self.is_present ∧
    (self.mutator_copy n).is_shared = self.is_shared ∧
    (self.mutator_copy n).is_dirty = self.is_dirty ∧
    (self.mutator_copy n).is_hot = self.is_hot ∧
    (self.mutator_copy n).is_evacuation = false ∧
    (self.mutator_copy n).get_object_data_addr = n + 10 := by
  have hm := (mutator_copy_metadata self n hn).1
  refine ⟨?_, rfl, ?_, ?_, ?_, ?_, ?_, ?_, ?_, ?_⟩
  · rw [hm, Nat.lor_comm, shl_lor _ _ _ (by omega)]
    norm_num
  · simp only [FarMemPtrMeta.low16, hm]; omega
  · simp only [FarMemPtrMeta.byte, word_byte, hm]; omega
  · rw [Bool.eq_iff_iff, FarMemPtrMeta.is_present_iff, FarMemPtrMeta.is_present_iff, hm]; omega
  · rw [Bool.eq_iff_iff, FarMemPtrMeta.is_shared_iff, FarMemPtrMeta.is_shared_iff, hm]; omega
  · rw [Bool.eq_iff_iff, FarMemPtrMeta.is_dirty_iff, FarMemPtrMeta.is_dirty_iff, hm]; omega
  · rw [Bool.eq_iff_iff, FarMemPtrMeta.is_hot_iff, FarMemPtrMeta.is_hot_iff, hm]; omega
  · cases hq : FarMemPtrMeta.is_evacuation _
    · rfl
    · rw [FarMemPtrMeta.is_evacuation_iff, hm] at hq; omega
  · rw [FarMemPtrMeta.get_object_data_addr_eq, hm]; omega

theorem C11_mutator_copy_witness :
    (0x300005 : Nat) + 10 < 2 ^ 47 ∧
    (ptr_evacuating.meta_.mutator_copy 0x300005).metadata_ = (0x300005 + 10) * 131072 + 0x481 ∧
    (ptr_evacuating.meta_.mutator_copy 0x300005).is_evacuation = false :=
  ⟨by decide, by decide,
    (C11_mutator_copy ptr_evacuating.meta_ 0x300005 (by decide)).2.2.2.2.2.2.2.2.1⟩

/-- C12: for every word `w`, `set_evacuation()` replaces `w` by `w | 2^16` and changes no other
bit: afterwards `is_evacuation()` is true, and `is_present()`, `is_dirty()`, `is_hot()`, the low
byte and `get_object_data_addr()` are as before; applying it twice is applying it once. -/
theorem C12_set_evacuation (self : FarMemPtrMeta) :
    self.set_evacuation.metadata_ = self.metadata_ ||| 2 ^ 16 ∧
    self.set_evacuation.self_addr = self.self_addr ∧
    (∀ i, i ≠ 16 → self.set_evacuation.metadata_.testBit i = self.metadata_.testBit i) ∧
    self.set_evacuation.is_evacuation = true ∧
    self.set_evacuation.is_present = self.is_present ∧
    self.set_evacuation.is_dirty = self.is_dirty ∧
    self.set_evacuation.is_hot = self.is_hot ∧
    self.set_evacuation.byte 0 = self.byte 0 ∧
    self.set_evacuation.get_object_data_addr = self.get_object_data_addr ∧
    self.set_evacuation.set_evacuation = self.set_evacuation := by
  have hm := (set_evacuation_metadata self).1
  have ha := lor_0x10000 self.metadata_
  have hb : self.metadata_ / 65536 % 2 = 0 ∨ self.metadata_ / 65536 % 2 = 1 := by omega
  refine ⟨hm, rfl, ?_, ?_, ?_, ?_, ?_, ?_, ?_, ?_⟩
  · intro i hi
    rw [hm, show (65536 : Nat) = 2 ^ 16 from rfl, Nat.testBit_or, Nat.testBit_two_pow]
    have : ¬ (16 = i) := fun e => hi e.symm
    simp [this]
  · rw [FarMemPtrMeta.is_evacuation_iff, hm, ha]
    rcases hb with h | h <;> rw [h] <;> omega
  · rw [Bool.eq_iff_iff, FarMemPtrMeta.is_present_iff, FarMemPtrMeta.is_present_iff, hm, ha]
    rcases hb with h | h <;> rw [h] <;> omega
  · rw [Bool.eq_iff_iff, FarMemPtrMeta.is_dirty_iff, FarMemPtrMeta.is_dirty_iff, hm, ha]
    rcases hb with h | h <;> rw [h] <;> omega
  · rw [Bool.eq_iff_iff, FarMemPtrMeta.is_hot_iff, FarMemPtrMeta.is_hot_iff, hm, ha]
    rcases hb with h | h <;> rw [h] <;> omega
  · simp only [FarMemPtrMeta.byte, word_byte, hm, ha]
    rcases hb with h | h <;> rw [h] <;> omega
  · rw [FarMemPtrMeta.get_object_data_addr_eq, FarMemPtrMeta.get_object_data_addr_eq, hm, ha]
    rcases hb with h | h <;> rw [h] <;> omega
  · have h2 := (set_evacuation_metadata self.set_evacuation).1
    have e : self.set_evacuation.set_evacuation.metadata_ = self.set_evacuation.metadata_ := by
      rw [h2, hm, Nat.lor_assoc, Nat.or_self]
    cases hx : self.set_evacuation.set_evacuation with
    | mk a b =>
      cases hy : self.set_evacuation with
      | mk c d =>
        have e1 : self.set_evacuation.set_evacuation.self_addr = self.set_evacuation.self_addr :=
          rfl
        rw [hx, hy] at e1
        rw [hx, hy] at e
        simp only at e e1
        rw [e, e1]

theorem C12_set_evacuation_witness :
    (FarMemPtrMeta.set_evacuation ⟨0x1000, 0x20140481⟩).metadata_ = 0x20150481 ∧
    (FarMemPtrMeta.set_evacuation ⟨0x1000, 0x20140481⟩).is_evacuation = true :=
  ⟨by decide, (C12_set_evacuation ⟨0x1000, 0x20140481⟩).2.2.2.1⟩

/-! ## The object header -/

theorem load8_storeN (n : Nat) : ∀ (m : Mem) (a v i : Nat), i < n →
    load8 (storeN m a v n) (a + i) = v / 256 ^ i % 256 := by
  induction n with
  | zero => intro m a v i h; omega
  | succ n ih =>
    intro m a v i h
    rw [storeN]
    rcases Nat.eq_zero_or_pos i with rfl | hpos
    · show storeN (store8 m a v) (a + 1) (v / 256) n a % 256 = v / 256 ^ 0 % 256
      rw [storeN_outside n (store8 m a v) (a + 1) (v / 256) a (Or.inl (by omega)), store8_same]
      simp
    · obtain ⟨j, rfl⟩ : ∃ j, i = j + 1 := ⟨i - 1, by omega⟩
      have := ih (store8 m a v) (a + 1) (v / 256) j (by omega)
      rw [show a + (j + 1) = a + 1 + j by omega, this, Nat.div_div_eq_div_mul, Nat.pow_succ,
        Nat.mul_comm]

theorem load8_store8_same (m : Mem) (a v : Nat) : load8 (store8 m a v) a = v % 256 := by
  rw [load8, store8_same, Nat.mod_mod]

/-- Where the header setters write when the header lies within the address space. -/
theorem object_writes (o : Object) (m : Mem) (ha : o.addr_ + 10 ≤ 2 ^ 64) :
    (∀ v, o.set_ds_id v m = store8 m (o.addr_ + 8) v) ∧
    (∀ v, o.set_data_len v m = storeN m (o.addr_ + 6) v 2) ∧
    (∀ v, o.set_obj_id_len v m = store8 m (o.addr_ + 9) v) ∧
    (∀ p, o.set_ptr_addr p m = storeN m o.addr_ p 6) ∧
    o.free m = store8 m (o.addr_ + 5) 0xFF ∧
    o.is_freed m = decide (load8 m (o.addr_ + 5) = 0xFF) ∧
    o.get_ptr_addr m = loadN m o.addr_ 6 ∧
    o.get_ds_id m = load8 m (o.addr_ + 8) ∧
    o.get_data_len m = loadN m (o.addr_ + 6) 2 ∧
    o.get_obj_id_len m = load8 m (o.addr_ + 9) := by
  have e8 : u64 (o.addr_ + Object.kDSIDPos) = o.addr_ + 8 := by
    simp only [u64, Object.kDSIDPos]; omega
  have e6 : u64 (o.addr_ + Object.kDataLenPos) = o.addr_ + 6 := by
    simp only [u64, Object.kDataLenPos]; omega
  have e9 : u64 (o.addr_ + Object.kIDLenPos) = o.addr_ + 9 := by
    simp only [u64, Object.kIDLenPos]; omega
  have e0 : u64 (o.addr_ + Object.kPtrAddrPos) = o.addr_ := by
    simp only [u64, Object.kPtrAddrPos]; omega
  have e5 : u64 (o.addr_ + Object.kPtrAddrPos + Object.kPtrAddrSize - 1) = o.addr_ + 5 := by
    simp only [u64, Object.kPtrAddrPos, Object.kPtrAddrSize]; omega
  refine ⟨?_, ?_, ?_, ?_, ?_, ?_, ?_, ?_, ?_, ?_⟩
  · intro v; simp only [Object.set_ds_id, e8]
  · intro v; simp only [Object.set_data_len, e6]
  · intro v; simp only [Object.set_obj_id_len, e9]
  · intro p
    simp only [Object.set_ptr_addr, helpers.small_memcpy_to_mem, e0, Object.kPtrAddrSize]
  · simp only [Object.free, e5]
  · simp only [Object.is_freed, e5]
  · simp only [Object.get_ptr_addr, helpers.small_memcpy_from_mem, e0, Object.kPtrAddrSize]
    norm_num
  · simp only [Object.get_ds_id, e8]
  · simp only [Object.get_data_len, e6]
  · simp only [Object.get_obj_id_len, e9]

/-- C14: `is_freed()` holds exactly when the byte at offset 5 is 0xFF; after `free()` it holds
and no other byte has changed; after `set_ptr_addr(p)` with `p < 2^48`, `get_ptr_addr()` is `p`
and the bytes at offsets 6 and above are unchanged, and if bits 40..47 of `p` are not 0xFF, as
for `p < 2^47`, `is_freed()` is false. -/
theorem C14_freed_marker (o : Object) (m : Mem) (p : Nat) (ha : o.addr_ + 10 ≤ 2 ^ 64)
    (hp : p < 2 ^ 48) :
    (o.is_freed m = true ↔ load8 m (o.addr_ + 5) = 0xFF) ∧
    o.is_freed (o.free m) = true ∧
    (∀ x, x ≠ o.addr_ + 5 → o.free m x = m x) ∧
    o.get_ptr_addr (o.set_ptr_addr p m) = p ∧
    (∀ x, o.addr_ + 6 ≤ x → o.set_ptr_addr p m x = m x) ∧
    (∀ x, x < o.addr_ → o.set_ptr_addr p m x = m x) ∧
    (p / 2 ^ 40 % 256 ≠ 0xFF → o.is_freed (o.set_ptr_addr p m) = false) ∧
    (p < 2 ^ 47 → o.is_freed (o.set_ptr_addr p m) = false) := by
  obtain ⟨-, -, -, w4, w5, w6, w7, -, -, -⟩ := object_writes o m ha
  have hfr : ∀ m1 : Mem, o.is_freed m1 = decide (load8 m1 (o.addr_ + 5) = 0xFF) :=
    fun m1 => (object_writes o m1 ha).2.2.2.2.2.1
  have hgp : ∀ m1 : Mem, o.get_ptr_addr m1 = loadN m1 o.addr_ 6 :=
    fun m1 => (object_writes o m1 ha).2.2.2.2.2.2.1
  have h5 : load8 (o.set_ptr_addr p m) (o.addr_ + 5) = p / 2 ^ 40 % 256 := by
    rw [w4, load8_storeN 6 m o.addr_ p 5 (by omega)]
    norm_num
  have hno : p / 2 ^ 40 % 256 ≠ 0xFF → o.is_freed (o.set_ptr_addr p m) = false := by
    intro h
    rw [hfr, h5]
    exact decide_eq_false h
  refine ⟨?_, ?_, ?_, ?_, ?_, ?_, hno, ?_⟩
  · rw [w6]; exact decide_eq_true_iff
  · rw [hfr, w5, load8_store8_same]; rfl
  · intro x hx; rw [w5]; exact store8_other _ _ _ _ hx
  · rw [hgp, w4, loadN_storeN]
    norm_num
    omega
  · intro x hx; rw [w4]; exact storeN_outside _ _ _ _ _ (Or.inr hx)
  · intro x hx; rw [w4]; exact storeN_outside _ _ _ _ _ (Or.inl hx)
  · intro h
    apply hno
    norm_num
    omega

theorem C14_freed_marker_witness :
    (Object.mk 0x200005).addr_ + 10 ≤ 2 ^ 64 ∧ (0x1000 : Nat) < 2 ^ 48 ∧
    (Object.mk 0x200005).is_freed ((Object.mk 0x200005).free mem_one_object) = true ∧
    (Object.mk 0x200005).get_ptr_addr ((Object.mk 0x200005).set_ptr_addr 0x1000 mem_one_object)
      = 0x1000 :=
  ⟨by decide, by decide,
    (C14_freed_marker ⟨0x200005⟩ mem_one_object 0x1000 (by decide) (by decide)).2.1,
    (C14_freed_marker ⟨0x200005⟩ mem_one_object 0x1000 (by decide) (by decide)).2.2.2.1⟩

/-- The memory left by `Object::init` when the object lies within the address space. -/
theorem init_memory (o : Object) (ds_id data_len id_len id : Nat) (m : Mem)
    (ha : o.addr_ + 10 + data_len + id_len < 2 ^ 64)
    (h2 : data_len < 2 ^ 16) (h3 : id_len < 2 ^ 8) :
    o.init ds_id data_len id_len id m =
      memcpy (store8 (storeN (store8 m (o.addr_ + 8) ds_id) (o.addr_ + 6) data_len 2)
        (o.addr_ + 9) id_len) (o.addr_ + 10 + data_len) id id_len := by
  have hb : o.addr_ + 10 ≤ 2 ^ 64 := by omega
  have w1 := (object_writes o m hb).1 ds_id
  have w2 := (object_writes o (store8 m (o.addr_ + 8) ds_id) hb).2.1 data_len
  have w3 := (object_writes o (storeN (store8 m (o.addr_ + 8) ds_id) (o.addr_ + 6) data_len 2)
    hb).2.2.1 id_len
  have hlen : o.get_data_len (store8 (storeN (store8 m (o.addr_ + 8) ds_id) (o.addr_ + 6)
      data_len 2) (o.addr_ + 9) id_len) = data_len := by
    rw [(object_writes o _ hb).2.2.2.2.2.2.2.2.1]
    rw [loadN_congr 2 _ (storeN (store8 m (o.addr_ + 8) ds_id) (o.addr_ + 6) data_len 2)
      (o.addr_ + 6) (fun x _ _ => store8_other _ _ _ _ (by omega)), loadN_storeN]
    norm_num
    omega
  have hdst : u64 (o.addr_ + (Object.kHeaderSize + data_len) % 2 ^ 32)
      = o.addr_ + 10 + data_len := by
    simp only [u64, Object.kHeaderSize, Object.kPtrAddrSize, Object.kDataLenSize,
      Object.kDSIDSize, Object.kIDLenSize]
    omega
  simp only [Object.init, w1, w2, w3, Object.set_object_id, hlen, hdst, Nat.mod_eq_of_lt h3]

/-- C13: the object header round-trips.  For an 8-bit `ds_id`, a 16-bit `data_len`, an 8-bit
`id_len` and an id of `id_len` bytes at the address `id`, after
`Object(addr).init(ds_id, data_len, id_len, id)`: `get_ds_id()`, `get_data_len()` and
`get_obj_id_len()` return the three values, `get_obj_id()` is `addr + 10 + data_len`,
`get_data_addr()` is `addr + 10`, and the `id_len` bytes at `get_obj_id()` are the bytes the id
had at the call (the id not lying in the header bytes at offsets 6..9, which are written
first).  `data_len` is at offsets 6..7 (little-endian), `ds_id` at 8, `id_len` at 9, the back
pointer is read from offsets 0..5, and `init` writes no byte at offsets 0..5 and no byte of
the payload. -/
theorem C13_init_round_trip (o : Object) (ds_id data_len id_len id : Nat) (m : Mem)
    (ha : o.addr_ + 10 + data_len + id_len < 2 ^ 64)
    (h1 : ds_id < 2 ^ 8) (h2 : data_len < 2 ^ 16) (h3 : id_len < 2 ^ 8) :
    o.get_ds_id (o.init ds_id data_len id_len id m) = ds_id ∧
    o.get_data_len (o.init ds_id data_len id_len id m) = data_len ∧
    o.get_obj_id_len (o.init ds_id data_len id_len id m) = id_len ∧
    o.get_obj_id (o.init ds_id data_len id_len id m) = o.addr_ + 10 + data_len ∧
    o.get_data_addr = o.addr_ + 10 ∧
    ((∀ i, i < id_len → id + i < o.addr_ + 6 ∨ o.addr_ + 10 ≤ id + i) →
      ∀ i, i < id_len →
        load8 (o.init ds_id data_len id_len id m)
          (o.get_obj_id (o.init ds_id data_len id_len id m) + i) = load8 m (id + i)) ∧
    load8 (o.init ds_id data_len id_len id m) (o.addr_ + 6) = data_len % 256 ∧
    load8 (o.init ds_id data_len id_len id m) (o.addr_ + 7) = data_len / 256 ∧
    load8 (o.init ds_id data_len id_len id m) (o.addr_ + 8) = ds_id ∧
    load8 (o.init ds_id data_len id_len id m) (o.addr_ + 9) = id_len ∧
    o.get_ptr_addr (o.init ds_id data_len id_len id m)
      = loadN (o.init ds_id data_len id_len id m) o.addr_ 6 ∧
    (∀ x, o.addr_ ≤ x → x < o.addr_ + 6 → o.init ds_id data_len id_len id m x = m x) ∧
    (∀ x, o.addr_ + 10 ≤ x → x < o.addr_ + 10 + data_len →
      o.init ds_id data_len id_len id m x = m x) ∧
    o.get_ptr_addr (o.init ds_id data_len id_len id m) = o.get_ptr_addr m := by
  have hb : o.addr_ + 10 ≤ 2 ^ 64 := by omega
  rw [init_memory o ds_id data_len id_len id m ha h2 h3]
  generalize hM1 : store8 m (o.addr_ + 8) ds_id = M1
  generalize hM2 : storeN M1 (o.addr_ + 6) data_len 2 = M2
  generalize hM3 : store8 M2 (o.addr_ + 9) id_len = M3
  generalize hM4 : memcpy M3 (o.addr_ + 10 + data_len) id id_len = M4
  have f43 : ∀ x, x < o.addr_ + 10 + data_len → M4 x = M3 x := by
    intro x hx; rw [← hM4]; exact memcpy_outside _ _ _ _ _ (Or.inl hx)
  have f32 : ∀ x, x ≠ o.addr_ + 9 → M3 x = M2 x := by
    intro x hx; rw [← hM3]; exact store8_other _ _ _ _ hx
  have f21 : ∀ x, x < o.addr_ + 6 ∨ o.addr_ + 8 ≤ x → M2 x = M1 x := by
    intro x hx; rw [← hM2]; exact storeN_outside _ _ _ _ _ (by omega)
  have f10 : ∀ x, x ≠ o.addr_ + 8 → M1 x = m x := by
    intro x hx; rw [← hM1]; exact store8_other _ _ _ _ hx
  have b8 : load8 M4 (o.addr_ + 8) = ds_id := by
    rw [load8, f43 _ (by omega), f32 _ (by omega), f21 _ (by omega), ← hM1, store8_same]
    omega
  have b9 : load8 M4 (o.addr_ + 9) = id_len := by
    rw [load8, f43 _ (by omega), ← hM3, store8_same]
    omega
  have b6 : load8 M4 (o.addr_ + 6) = data_len % 256 := by
    have := load8_storeN 2 M1 (o.addr_ + 6) data_len 0 (by omega)
    rw [hM2, Nat.add_zero] at this
    rw [load8, f43 _ (by omega), f32 _ (by omega)]
    rw [load8] at this
    rw [this]
    simp
  have b7 : load8 M4 (o.addr_ + 7) = data_len / 256 := by
    have := load8_storeN 2 M1 (o.addr_ + 6) data_len 1 (by omega)
    rw [hM2] at this
    rw [load8, f43 _ (by omega), f32 _ (by omega)]
    rw [load8] at this
    rw [show o.addr_ + 7 = o.addr_ + 6 + 1 by omega, this]
    norm_num
    omega
  have hlen : loadN M4 (o.addr_ + 6) 2 = data_len := by
    have e : loadN M4 (o.addr_ + 6) 2 = load8 M4 (o.addr_ + 6) + 256 * load8 M4 (o.addr_ + 7) := by
      simp only [loadN, Nat.mul_zero, Nat.add_zero]
    rw [e, b6, b7]
    omega
  obtain ⟨-, -, -, -, -, -, g7, g8, g9, g10⟩ := object_writes o M4 hb
  have gm := (object_writes o m hb).2.2.2.2.2.2.1
  have hid : o.get_obj_id M4 = o.addr_ + 10 + data_len := by
    simp only [Object.get_obj_id, g9, hlen, u64, Object.kHeaderSize, Object.kPtrAddrSize,
      Object.kDataLenSize, Object.kDSIDSize, Object.kIDLenSize]
    omega
  have hlow : ∀ x, o.addr_ ≤ x → x < o.addr_ + 6 → M4 x = m x := by
    intro x _ hx
    rw [f43 _ (by omega), f32 _ (by omega), f21 _ (by omega), f10 _ (by omega)]
  refine ⟨by rw [g8, b8], by rw [g9, hlen], by rw [g10, b9], hid, ?_, ?_, b6, b7, b8, b9, g7,
    hlow, ?_, ?_⟩
  · simp only [Object.get_data_addr, u64, Object.kHeaderSize, Object.kPtrAddrSize,
      Object.kDataLenSize, Object.kDSIDSize, Object.kIDLenSize]
    omega
  · intro hsrc i hi
    rw [hid, load8, ← hM4, memcpy_inside _ _ _ _ _ hi, load8, Nat.mod_mod]
    have hs := hsrc i hi
    rw [f32 _ (by omega), f21 _ (by omega), f10 _ (by omega)]
    rfl
  · intro x h1 h2
    rw [f43 _ h2, f32 _ (by omega), f21 _ (by omega), f10 _ (by omega)]
  · rw [g7, gm]
    exact loadN_congr 6 _ _ _ (fun x hx1 hx2 => hlow x hx1 hx2)

theorem C13_init_round_trip_witness :
    (Object.mk 0x200005).addr_ + 10 + 3 + 1 < 2 ^ 64 ∧
    (Object.mk 0x200005).get_data_len
      ((Object.mk 0x200005).init 9 3 1 0x300000 mem_one_object) = 3 ∧
    load8 mem_one_object (0x300000 + 0) = 1 ∧
    load8 ((Object.mk 0x200005).init 9 3 1 0x300000 mem_one_object)
      ((Object.mk 0x200005).get_obj_id
        ((Object.mk 0x200005).init 9 3 1 0x300000 mem_one_object) + 0)
      = load8 mem_one_object (0x300000 + 0) :=
  ⟨by decide,
    (C13_init_round_trip ⟨0x200005⟩ 9 3 1 0x300000 mem_one_object (by decide) (by decide)
      (by decide) (by decide)).2.1,
    by decide,
    (C13_init_round_trip ⟨0x200005⟩ 9 3 1 0x300000 mem_one_object (by decide) (by decide)
      (by decide) (by decide)).2.2.2.2.2.1 (fun i _ => Or.inr (by show 2097157 + 10 ≤ 3145728 + i; omega)) 0 (by decide)⟩

/-- C15: `kHeaderSize = 10`, `kMaxObjectIDSize = 255` and
`kMaxObjectDataSize = 65535 - 10 - 255 = 65270`, so that for a header holding a
`data_len <= kMaxObjectDataSize` and an `id_len <= 255`, `Object::size()` returns exactly
`10 + data_len + id_len`, which is at most 65535. -/
theorem C15_size_limit (o : Object) (m : Mem) (data_len id_len : Nat)
    (hd : o.get_data_len m = data_len) (hi : o.get_obj_id_len m = id_len)
    (h1 : data_len ≤ Object.kMaxObjectDataSize) (h2 : id_len ≤ 255) :
    Object.kHeaderSize = 10 ∧ Object.kMaxObjectIDSize = 255 ∧
    Object.kMaxObjectSize = 65535 ∧
    Object.kMaxObjectDataSize = 65535 - 10 - 255 ∧ Object.kMaxObjectDataSize = 65270 ∧
    o.size m = 10 + data_len + id_len ∧ o.size m ≤ 65535 := by
  have e : Object.kMaxObjectDataSize = 65270 := by decide
  rw [e] at h1
  refine ⟨rfl, by decide, by decide, by decide, e, ?_, ?_⟩
  · simp only [Object.size, hd, hi, Object.kHeaderSize, Object.kPtrAddrSize,
      Object.kDataLenSize, Object.kDSIDSize, Object.kIDLenSize]
    omega
  · simp only [Object.size]
    omega

theorem C15_size_limit_witness :
    (Object.mk 0x200005).get_data_len mem_one_object = 2 ∧
    (Object.mk 0x200005).get_obj_id_len mem_one_object = 1 ∧
    (2 : Nat) ≤ Object.kMaxObjectDataSize ∧ (1 : Nat) ≤ 255 ∧
    (Object.mk 0x200005).size mem_one_object = 10 + 2 + 1 :=
  ⟨by decide, by decide, by decide, by decide,
    (C15_size_limit ⟨0x200005⟩ mem_one_object 2 1 (by decide) (by decide) (by decide)
      (by decide)).2.2.2.2.2.1⟩

/-! ## The lock key -/

theorem loadN_snoc (k : Nat) : ∀ (m : Mem) (a : Nat),
    loadN m a (k + 1) = loadN m a k + load8 m (a + k) * 256 ^ k := by
  induction k with
  | zero => intro m a; simp [loadN]
  | succ k ih =>
    intro m a
    rw [loadN, ih m (a + 1), loadN, show a + 1 + k = a + (k + 1) by omega, Nat.pow_succ]
    ring

theorem loadN_eq_sum (k : Nat) (m : Mem) (a : Nat) :
    loadN m a k = ∑ i in Finset.range k, load8 m (a + i) * 256 ^ i := by
  induction k with
  | zero => simp [loadN]
  | succ k ih => rw [loadN_snoc, Finset.sum_range_succ, ih]

/-- The byte-by-byte loop of `get_obj_id_fragment` builds the little-endian value. -/
theorem fragment_loop_eq (m : Mem) (obj_id : Nat) (k : Nat) :
    (List.range k).foldl (fun frag i => word_set_byte frag i (load8 m (obj_id + i))) 0
      = loadN m obj_id k := by
  induction k with
  | zero => rfl
  | succ k ih =>
    rw [List.range_succ, List.foldl_append, ih, loadN_snoc]
    have hlt := loadN_lt k m obj_id
    have hb : load8 m (obj_id + k) < 256 := Nat.mod_lt _ (by decide)
    have hp : 2 ^ (8 * k) = 256 ^ k := by rw [Nat.pow_mul]
    simp only [List.foldl_cons, List.foldl_nil, word_set_byte, word_byte, hp,
      Nat.div_eq_of_lt hlt, Nat.zero_mod, Nat.zero_mul, Nat.sub_zero, Nat.mod_eq_of_lt hb]

theorem sum_zero_extended (g : Nat → Nat) (L : Nat) :
    (∑ i in Finset.range 8, (if i < L then g i else 0)) = ∑ i in Finset.range (min L 8), g i := by
  by_cases h : 8 ≤ L
  · rw [Nat.min_eq_right h]
    apply Finset.sum_congr rfl
    intro i hi
    rw [Finset.mem_range] at hi
    rw [if_pos (by omega)]
  · have hL : L < 8 := by omega
    rw [Nat.min_eq_left (by omega)]
    interval_cases L <;> simp [Finset.sum_range_succ]

theorem get_obj_id_fragment_eq (L obj_id : Nat) (m : Mem) :
    get_obj_id_fragment L obj_id m = loadN m obj_id (min L 8) := by
  unfold get_obj_id_fragment
  by_cases h : L ≥ 8
  · rw [if_pos h, Nat.min_eq_right h]
  · rw [if_neg h, Nat.min_eq_left (by omega), fragment_loop_eq]

/-- C16: `get_obj_id_fragment(L, id)` is the sum over `i < min(L, 8)` of `b_i * 256^i`, the
`b_i` being the bytes of the id: the little-endian value of the first 8 bytes when `L >= 8`,
the id extended by zero bytes to 8 bytes when `L < 8`.  Hence two ids whose first 8 bytes after
extension by zeros agree have the same key, and `lock_object` and `unlock_object` called with
the same id use the same key. -/
theorem C16_id_fragment (L obj_id : Nat) (m : Mem) :
    get_obj_id_fragment L obj_id m
      = ∑ i in Finset.range (min L 8), load8 m (obj_id + i) * 256 ^ i ∧
    (L ≥ 8 → get_obj_id_fragment L obj_id m = loadN m obj_id 8) ∧
    get_obj_id_fragment L obj_id m
      = ∑ i in Finset.range 8, (if i < L then load8 m (obj_id + i) else 0) * 256 ^ i ∧
    get_obj_id_fragment L obj_id m < 2 ^ 64 ∧
    (∀ (L2 id2 : Nat) (m2 : Mem),
      (∀ i, i < 8 → (if i < L2 then load8 m2 (id2 + i) else 0)
        = (if i < L then load8 m (obj_id + i) else 0)) →
      get_obj_id_fragment L2 id2 m2 = get_obj_id_fragment L obj_id m) ∧
    (∀ w : World, w.mem = m → ¬ w.obj_locker_.holds (get_obj_id_fragment L obj_id m) →
      ∃ w1 : World, FarMemManager.lock_object L obj_id w = .ok w1 ∧
        w1.mem = m ∧
        w1.obj_locker_.holds (get_obj_id_fragment L obj_id m) ∧
        w1.trace = w.trace ++ [Event.lock_object (get_obj_id_fragment L obj_id m)] ∧
        (FarMemManager.unlock_object L obj_id w1).trace
          = w1.trace ++ [Event.unlock_object (get_obj_id_fragment L obj_id m)] ∧
        (FarMemManager.unlock_object L obj_id w1).obj_locker_ = w.obj_locker_) := by
  have hsum : ∀ (L1 id1 : Nat) (m1 : Mem), get_obj_id_fragment L1 id1 m1
      = ∑ i in Finset.range 8, (if i < L1 then load8 m1 (id1 + i) else 0) * 256 ^ i := by
    intro L1 id1 m1
    rw [get_obj_id_fragment_eq, loadN_eq_sum,
      ← sum_zero_extended (fun i => load8 m1 (id1 + i) * 256 ^ i) L1]
    apply Finset.sum_congr rfl
    intro i _
    by_cases h : i < L1
    · rw [if_pos h, if_pos h]
    · rw [if_neg h, if_neg h, Nat.zero_mul]
  refine ⟨?_, ?_, hsum L obj_id m, ?_, ?_, ?_⟩
  · rw [get_obj_id_fragment_eq, loadN_eq_sum]
  · intro h
    rw [get_obj_id_fragment_eq, Nat.min_eq_right h]
  · rw [get_obj_id_fragment_eq]
    have h1 := loadN_lt (min L 8) m obj_id
    have h2 : (256 : Nat) ^ (min L 8) ≤ 256 ^ 8 :=
      Nat.pow_le_pow_right (by decide) (Nat.min_le_right L 8)
    have h3 : (256 : Nat) ^ 8 = 2 ^ 64 := by norm_num
    omega
  · intro L2 id2 m2 h
    rw [hsum L2 id2 m2, hsum L obj_id m]
    apply Finset.sum_congr rfl
    intro i hi
    rw [Finset.mem_range] at hi
    rw [h i hi]
  · intro w hm hl
    have hk := lock_then_unlock w.obj_locker_ (get_obj_id_fragment L obj_id m) hl
    subst hm
    refine ⟨{ w with
      obj_locker_ := (w.obj_locker_.try_insert (get_obj_id_fragment L obj_id w.mem)).2,
      trace := w.trace ++ [Event.lock_object (get_obj_id_fragment L obj_id w.mem)] },
      ?_, ?_, ?_, ?_, ?_, ?_⟩
    · simp only [FarMemManager.lock_object, hk.1, if_true]
    · rfl
    · show get_obj_id_fragment L obj_id w.mem ∈
        (w.obj_locker_.try_insert (get_obj_id_fragment L obj_id w.mem)).2.maps_
      have hl1 : get_obj_id_fragment L obj_id w.mem ∉ w.obj_locker_.maps_ := hl
      simp only [ObjLocker.try_insert, hl1, if_false]
      exact List.mem_cons_self _ _
    · rfl
    · rfl
    · exact hk.2

theorem C16_id_fragment_witness :
    get_obj_id_fragment 1 (0x200005 + 12) mem_one_object = 0x2A ∧
    get_obj_id_fragment 9 (0x200005 + 6) mem_one_object = 0x2ABBAA01070002 ∧
    get_obj_id_fragment 9 (0x200005 + 6) mem_one_object
      = loadN mem_one_object (0x200005 + 6) 8 :=
  ⟨by decide, by decide,
    (C16_id_fragment 9 (0x200005 + 6) mem_one_object).2.1 (by decide)⟩

/-! ## The reference count of a region -/

theorem member_ref_cnt (r : Region) (delta : Int) (m : Mem) :
    (r.get_ref_cnt (r.atomic_inc_ref_cnt_member delta m) : Int)
      = ((r.get_ref_cnt m : Nat) + delta) % 2 ^ 32 := by
  simp only [Region.get_ref_cnt, Region.atomic_inc_ref_cnt_member, Region.kRefCntPos,
    Region.kRefCntSize, Nat.add_zero, loadN_storeN]
  have := loadN_lt 4 m r.buf_ptr_
  generalize loadN m r.buf_ptr_ 4 = c at this ⊢
  norm_num at this ⊢
  omega

/-- C20: for a region whose buffer starts at a multiple `b` of `Region::kSize = 2^20` and an
offset `o < 2^20`, the free-standing `atomic_inc_ref_cnt(b + o, delta)` does what the member
`atomic_inc_ref_cnt(delta)` does: the region base found by masking is `b`, the 4-byte counter
at `b` becomes the old count plus `delta` modulo `2^32`, and no other byte changes; an
increment by `d` followed by one by `-d` restores the count; `is_gcable()` holds exactly when
the count is 0. -/
theorem C20_region_ref_cnt (r : Region) (o : Nat) (delta d : Int) (m : Mem)
    (hb : r.buf_ptr_ % Region.kSize = 0) (ho : o < Region.kSize) (hlt : r.buf_ptr_ < 2 ^ 64) :
    Region.kSize = 2 ^ 20 ∧
    (r.buf_ptr_ + o) &&& Region.kBaseMask = r.buf_ptr_ ∧
    Region.atomic_inc_ref_cnt (r.buf_ptr_ + o) delta m = r.atomic_inc_ref_cnt_member delta m ∧
    (r.get_ref_cnt (Region.atomic_inc_ref_cnt (r.buf_ptr_ + o) delta m) : Int)
      = ((r.get_ref_cnt m : Nat) + delta) % 2 ^ 32 ∧
    r.get_ref_cnt m < 2 ^ 32 ∧
    (∀ x, x < r.buf_ptr_ ∨ r.buf_ptr_ + 4 ≤ x →
      Region.atomic_inc_ref_cnt (r.buf_ptr_ + o) delta m x = m x) ∧
    r.get_ref_cnt (Region.atomic_inc_ref_cnt (r.buf_ptr_ + o) (-d)
      (Region.atomic_inc_ref_cnt (r.buf_ptr_ + o) d m)) = r.get_ref_cnt m ∧
    r.get_ref_cnt (r.atomic_inc_ref_cnt_member (-d) (r.atomic_inc_ref_cnt_member d m))
      = r.get_ref_cnt m ∧
    (r.is_gcable m = true ↔ r.get_ref_cnt m = 0) := by
  have hb1 : r.buf_ptr_ % 1048576 = 0 := hb
  have ho1 : o < 1048576 := ho
  have hbase : (r.buf_ptr_ + o) &&& Region.kBaseMask = r.buf_ptr_ := by
    rw [region_base _ (by omega)]
    omega
  have hsame : ∀ (e : Int) (m1 : Mem),
      Region.atomic_inc_ref_cnt (r.buf_ptr_ + o) e m1 = r.atomic_inc_ref_cnt_member e m1 := by
    intro e m1
    simp only [Region.atomic_inc_ref_cnt, Region.atomic_inc_ref_cnt_member, hbase]
  have hc := loadN_lt 4 m r.buf_ptr_
  have hcnt : r.get_ref_cnt m < 2 ^ 32 := by
    simp only [Region.get_ref_cnt, Region.kRefCntPos, Region.kRefCntSize, Nat.add_zero]
    norm_num at hc ⊢
    exact hc
  have hback : r.get_ref_cnt (r.atomic_inc_ref_cnt_member (-d) (r.atomic_inc_ref_cnt_member d m))
      = r.get_ref_cnt m := by
    have h1 := member_ref_cnt r d m
    have h2 := member_ref_cnt r (-d) (r.atomic_inc_ref_cnt_member d m)
    norm_num at hcnt
    omega
  refine ⟨rfl, hbase, hsame delta m, ?_, hcnt, ?_, ?_, hback, ?_⟩
  · rw [hsame]; exact member_ref_cnt r delta m
  · intro x hx
    rw [hsame]
    simp only [Region.atomic_inc_ref_cnt_member, Region.kRefCntPos, Region.kRefCntSize,
      Nat.add_zero]
    exact storeN_outside _ _ _ _ _ hx
  · rw [hsame, hsame]; exact hback
  · simp only [Region.is_gcable, decide_eq_true_eq]

theorem C20_region_ref_cnt_witness :
    (Region.mk 5 0x300000 0 0 (fun _ => 0)).buf_ptr_ % Region.kSize = 0 ∧
    (5 : Nat) < Region.kSize ∧
    (Region.mk 5 0x300000 0 0 (fun _ => 0)).get_ref_cnt mem_one_object = 1 ∧
    Region.atomic_inc_ref_cnt (0x300000 + 5) (-1) mem_one_object
      = (Region.mk 5 0x300000 0 0 (fun _ => 0)).atomic_inc_ref_cnt_member (-1) mem_one_object :=
  ⟨by decide, by decide, by decide,
    (C20_region_ref_cnt (Region.mk 5 0x300000 0 0 (fun _ => 0)) 5 (-1) 1 mem_one_object
      (by decide) (by decide) (by decide)).2.2.1⟩

/-! ## Dereference scopes -/

theorem wrap32_range (x : Int) : -2 ^ 31 ≤ wrap32 x ∧ wrap32 x < 2 ^ 31 := by
  simp only [wrap32]
  omega

theorem wrap32_of_range (x : Int) (h1 : -2 ^ 31 ≤ x) (h2 : x < 2 ^ 31) : wrap32 x = x := by
  simp only [wrap32]
  omega

theorem get_num_threads_loop_range (status : Status) (st : ScopeState) (n : Nat) :
    -2 ^ 31 ≤ DerefScope.get_num_threads_loop status st n ∧
      DerefScope.get_num_threads_loop status st n < 2 ^ 31 := by
  induction n with
  | zero => simp [DerefScope.get_num_threads_loop]
  | succ n ih =>
    simp only [DerefScope.get_num_threads_loop]
    split
    · exact wrap32_range _
    · exact ih

/-- The sum of `get_num_threads` after one `incl` on core `c1` and one `decl` on core `c2`,
both of the counter of index `idx`, the two cores being in the pointer table. -/
theorem get_num_threads_loop_inc_dec (status : Status) (A B : ScopeState) (c1 c2 idx : Nat)
    (hp : B.num_threads_on_status_ptrs = A.num_threads_on_status_ptrs)
    (h1 : A.num_threads_on_status_ptrs c1 = true) (h2 : A.num_threads_on_status_ptrs c2 = true)
    (hB : ∀ c i, B.num_threads_on_status c i =
      if c = c2 ∧ i = idx then
        wrap32 ((if c = c1 ∧ i = idx then wrap32 (A.num_threads_on_status c i + 1)
          else A.num_threads_on_status c i) - 1)
      else if c = c1 ∧ i = idx then wrap32 (A.num_threads_on_status c i + 1)
      else A.num_threads_on_status c i) :
    ∀ n, (DerefScope.get_num_threads_loop status B n - DerefScope.get_num_threads_loop status A n
      - ((if c1 < n ∧ status.toNat = idx then 1 else 0)
        - (if c2 < n ∧ status.toNat = idx then 1 else 0))) % 2 ^ 32 = 0 := by
  intro n
  induction n with
  | zero => simp [DerefScope.get_num_threads_loop]
  | succ n ih =>
    simp only [DerefScope.get_num_threads_loop, hp, hB]
    by_cases hs : status.toNat = idx
    · by_cases e1 : n = c1
      · by_cases e2 : n = c2
        · subst e1
          subst e2
          simp only [hs, and_self, if_true, h1, Nat.lt_irrefl, false_and, if_false,
            Nat.lt_succ_self, true_and] at ih ⊢
          simp only [wrap32] at ih ⊢
          omega
        · subst e1
          have hc : ¬ (c2 < n + 1) ↔ ¬ (c2 < n) := by omega
          by_cases hlt : c2 < n
          · have hlt1 : c2 < n + 1 := by omega
            simp only [hs, and_true, e2, if_false, if_true, h1, Nat.lt_irrefl,
              Nat.lt_succ_self, hlt, hlt1] at ih ⊢
            simp only [wrap32] at ih ⊢
            omega
          · have hlt1 : ¬ c2 < n + 1 := by omega
            simp only [hs, and_true, e2, if_false, if_true, h1, Nat.lt_irrefl,
              Nat.lt_succ_self, hlt, hlt1] at ih ⊢
            simp only [wrap32] at ih ⊢
            omega
      · by_cases e2 : n = c2
        · subst e2
          by_cases hlt : c1 < n
          · have hlt1 : c1 < n + 1 := by omega
            simp only [hs, and_true, e1, if_false, if_true, h2, Nat.lt_irrefl,
              Nat.lt_succ_self, hlt, hlt1] at ih ⊢
            simp only [wrap32] at ih ⊢
            omega
          · have hlt1 : ¬ c1 < n + 1 := by omega
            simp only [hs, and_true, e1, if_false, if_true, h2, Nat.lt_irrefl,
              Nat.lt_succ_self, hlt, hlt1] at ih ⊢
            simp only [wrap32] at ih ⊢
            omega
        · have a1 : (c1 < n + 1) ↔ (c1 < n) := by omega
          have a2 : (c2 < n + 1) ↔ (c2 < n) := by omega
          simp only [hs, and_true, e1, e2, if_false, a1, a2] at ih ⊢
          split
          · simp only [wrap32] at ih ⊢
            split_ifs at ih ⊢ <;> omega
          · exact ih
    · simp only [hs, and_false, if_false, Int.sub_self, Int.sub_zero] at ih ⊢
      split
      · simp only [wrap32] at ih ⊢
        omega
      · exact ih

/-- What `enter_deref_scope` does for a worker outside any scope when the cache is not almost
empty and `expected_status` is one of the two in-scope values. -/
theorem enter_out_of_scope (wait : ScopeState → ScopeState) (worker core : Nat)
    (st : ScopeState) (hout : DerefScope.get_self_th_status worker st = Status.OutofScope)
    (hae : st.almost_empty = false)
    (he : st.expected_status = Status.InScopeV0 ∨ st.expected_status = Status.InScopeV1) :
    DerefScope.enter_deref_scope wait worker core st =
      .ok (DerefScope.add_counter core st.expected_status.toNat 1
        (DerefScope.set_self_th_status worker st.expected_status st)) := by
  have h3 : st.expected_status.toNat < 3 := by
    rcases he with h | h <;> rw [h] <;> decide
  simp only [DerefScope.enter_deref_scope, DerefScope.is_in_deref_scope, hout, hae, ne_eq,
    not_true_eq_false, decide_False, Bool.false_eq_true, if_false, h3, if_true]

/-- What `exit_deref_scope` does for a worker whose status is one of the two in-scope values:
only the record of a yield depends on `expected_status` and `gc_master_active`. -/
theorem exit_in_scope (worker core : Nat) (st : ScopeState)
    (hin : DerefScope.get_self_th_status worker st = Status.InScopeV0 ∨
      DerefScope.get_self_th_status worker st = Status.InScopeV1) :
    ∃ st2 : ScopeState, DerefScope.exit_deref_scope worker core st = .ok st2 ∧
      st2.th_status = (fun w => if w = worker then Status.OutofScope else st.th_status w) ∧
      st2.num_threads_on_status = (fun c i =>
        if c = core ∧ i = (DerefScope.get_self_th_status worker st).toNat then
          wrap32 (st.num_threads_on_status c i + -1)
        else st.num_threads_on_status c i) ∧
      st2.num_threads_on_status_ptrs = st.num_threads_on_status_ptrs ∧
      st2.expected_status = st.expected_status ∧
      st2.almost_empty = st.almost_empty ∧
      st2.gc_master_active = st.gc_master_active := by
  have h0 : DerefScope.get_self_th_status worker st ≠ Status.OutofScope := by
    rcases hin with h | h <;> rw [h] <;> decide
  have h3 : (DerefScope.get_self_th_status worker st).toNat < 3 := by
    rcases hin with h | h <;> rw [h] <;> decide
  simp only [DerefScope.exit_deref_scope, h0, if_false, h3, if_true]
  split
  · split
    · exact ⟨_, rfl, rfl, rfl, rfl, rfl, rfl, rfl⟩
    · exact ⟨_, rfl, rfl, rfl, rfl, rfl, rfl, rfl⟩
  · exact ⟨_, rfl, rfl, rfl, rfl, rfl, rfl, rfl⟩

/-- C17: for a worker whose status is `OutofScope`, with `almost_empty` false and
`expected_status` one of the two in-scope values, `enter_deref_scope` sets the status of the
worker to the value `e` of `expected_status` and increments the counter of `e` (on the core it
runs on) by one, and nothing else.  `exit_deref_scope`, whatever `expected_status` has become
and whatever core it runs on, decrements the counter of `e` and sets the status to
`OutofScope`.  So enter followed by exit restores every status, and, the two cores being in
the pointer table, what `get_num_threads` returns for every status. -/
theorem C17_enter_then_exit (wait : ScopeState → ScopeState) (worker c1 c2 kNumCPUs : Nat)
    (st : ScopeState) (x : Status)
    (hout : DerefScope.get_self_th_status worker st = Status.OutofScope)
    (hae : st.almost_empty = false)
    (he : st.expected_status = Status.InScopeV0 ∨ st.expected_status = Status.InScopeV1) :
    ∃ st1 st2 : ScopeState,
      DerefScope.enter_deref_scope wait worker c1 st = .ok st1 ∧
      DerefScope.get_self_th_status worker st1 = st.expected_status ∧
      st1.num_threads_on_status c1 st.expected_status.toNat
        = wrap32 (st.num_threads_on_status c1 st.expected_status.toNat + 1) ∧
      (∀ c i, ¬ (c = c1 ∧ i = st.expected_status.toNat) →
        st1.num_threads_on_status c i = st.num_threads_on_status c i) ∧
      (∀ w, w ≠ worker → st1.th_status w = st.th_status w) ∧
      st1.expected_status = st.expected_status ∧
      DerefScope.exit_deref_scope worker c2 { st1 with expected_status := x } = .ok st2 ∧
      DerefScope.get_self_th_status worker st2 = Status.OutofScope ∧
      st2.num_threads_on_status c2 st.expected_status.toNat
        = wrap32 (st1.num_threads_on_status c2 st.expected_status.toNat - 1) ∧
      (∀ c i, ¬ (c = c2 ∧ i = st.expected_status.toNat) →
        st2.num_threads_on_status c i = st1.num_threads_on_status c i) ∧
      st2.th_status = st.th_status ∧
      (c1 < kNumCPUs → c2 < kNumCPUs → st.num_threads_on_status_ptrs c1 = true →
        st.num_threads_on_status_ptrs c2 = true →
        ∀ s : Status, DerefScope.get_num_threads kNumCPUs s st2
          = DerefScope.get_num_threads kNumCPUs s st) ∧
      (c2 = c1 → -2 ^ 31 ≤ st.num_threads_on_status c1 st.expected_status.toNat →
        st.num_threads_on_status c1 st.expected_status.toNat < 2 ^ 31 →
        st2.num_threads_on_status = st.num_threads_on_status) := by
  have hin : DerefScope.get_self_th_status worker
      { DerefScope.add_counter c1 st.expected_status.toNat 1
          (DerefScope.set_self_th_status worker st.expected_status st) with
        expected_status := x } = st.expected_status := by
    simp [DerefScope.get_self_th_status, DerefScope.add_counter, DerefScope.set_self_th_status]
  obtain ⟨B, hB, bth, bnum, bptr, -, -, -⟩ := exit_in_scope worker c2
    { DerefScope.add_counter c1 st.expected_status.toNat 1
        (DerefScope.set_self_th_status worker st.expected_status st) with
      expected_status := x } (by rw [hin]; exact he)
  rw [hin] at bnum
  have hnum : ∀ c i, (DerefScope.add_counter c1 st.expected_status.toNat 1
      (DerefScope.set_self_th_status worker st.expected_status st)).num_threads_on_status c i
        = if c = c1 ∧ i = st.expected_status.toNat then wrap32 (st.num_threads_on_status c i + 1)
          else st.num_threads_on_status c i := fun _ _ => rfl
  have hBnum : ∀ c i, B.num_threads_on_status c i =
      if c = c2 ∧ i = st.expected_status.toNat then
        wrap32 ((if c = c1 ∧ i = st.expected_status.toNat then
          wrap32 (st.num_threads_on_status c i + 1) else st.num_threads_on_status c i) - 1)
      else if c = c1 ∧ i = st.expected_status.toNat then
        wrap32 (st.num_threads_on_status c i + 1)
      else st.num_threads_on_status c i := by
    intro c i
    rw [bnum]
    simp only [hnum, Int.sub_eq_add_neg]
  refine ⟨_, B, enter_out_of_scope wait worker c1 st hout hae he, ?_, ?_, ?_, ?_, rfl, hB, ?_,
    ?_, ?_, ?_, ?_, ?_⟩
  · simp [DerefScope.get_self_th_status, DerefScope.add_counter, DerefScope.set_self_th_status]
  · rw [hnum, if_pos ⟨rfl, rfl⟩]
  · intro c i h
    rw [hnum, if_neg h]
  · intro w hw
    simp [DerefScope.add_counter, DerefScope.set_self_th_status, hw]
  · simp [DerefScope.get_self_th_status, bth]
  · rw [hBnum, if_pos ⟨rfl, rfl⟩, hnum]
  · intro c i h
    rw [hBnum, if_neg h, hnum]
  · rw [bth]
    funext w
    by_cases hw : w = worker
    · subst hw
      simp only [if_true]
      exact hout.symm
    · simp only [hw, if_false, DerefScope.add_counter, DerefScope.set_self_th_status]
  · intro h1 h2 p1 p2 s
    have hloop := get_num_threads_loop_inc_dec s st B c1 c2 st.expected_status.toNat bptr p1 p2
      hBnum kNumCPUs
    have r1 := get_num_threads_loop_range s st kNumCPUs
    have r2 := get_num_threads_loop_range s B kNumCPUs
    have heq : DerefScope.get_num_threads_loop s B kNumCPUs
        = DerefScope.get_num_threads_loop s st kNumCPUs := by
      by_cases hs : s.toNat = st.expected_status.toNat
      · simp only [h1, h2, hs, and_self, if_true, Int.sub_self, Int.sub_zero] at hloop
        omega
      · simp only [hs, and_false, if_false, Int.sub_self, Int.sub_zero] at hloop
        omega
    simp only [DerefScope.get_num_threads, heq]
  · intro hc r1 r2
    subst hc
    funext c i
    rw [hBnum]
    by_cases h : c = c2 ∧ i = st.expected_status.toNat
    · obtain ⟨rfl, rfl⟩ := h
      simp only [and_self, if_true, wrap32]
      omega
    · simp only [h, if_false]

theorem C17_enter_then_exit_witness :
    DerefScope.get_self_th_status 0 scope_idle = Status.OutofScope ∧
    scope_idle.almost_empty = false ∧
    (scope_idle.expected_status = Status.InScopeV0 ∨
      scope_idle.expected_status = Status.InScopeV1) ∧
    ∃ st1 st2 : ScopeState,
      DerefScope.enter_deref_scope (fun s => s) 0 1 scope_idle = .ok st1 ∧
      DerefScope.get_self_th_status 0 st1 = scope_idle.expected_status ∧
      DerefScope.exit_deref_scope 0 2 { st1 with expected_status := Status.InScopeV1 }
        = .ok st2 ∧
      st2.th_status = scope_idle.th_status ∧
      DerefScope.get_num_threads 4 Status.InScopeV0 st2
        = DerefScope.get_num_threads 4 Status.InScopeV0 scope_idle :=
  ⟨by decide, by decide, by decide,
    let ⟨st1, st2, h1, h2, _, _, _, _, h7, _, _, _, h11, h12, _⟩ :=
      C17_enter_then_exit (fun s => s) 0 1 2 4 scope_idle Status.InScopeV1 (by decide)
        (by decide) (by decide)
    ⟨st1, st2, h1, h2, h7, h11,
      h12 (by decide) (by decide) (by decide) (by decide) Status.InScopeV0⟩⟩

/-- C18: `enter_deref_scope` fails its assertion exactly when the status of the calling worker
is not `OutofScope` (`is_in_deref_scope()` is true), and then the program stops in the state of
the call, no status or counter changed; `exit_deref_scope` fails its assertion exactly when the
status of the worker is `OutofScope`.  So after an `enter_deref_scope` that returned (the
`expected_status` it read not being `OutofScope`), a second one by the same worker fails as long
as the status of the worker stays what the first one made it. -/
theorem C18_scope_assertions (wait : ScopeState → ScopeState) (worker core : Nat)
    (st : ScopeState) :
    (DerefScope.is_in_deref_scope worker st = true ↔
      DerefScope.get_self_th_status worker st ≠ Status.OutofScope) ∧
    (DerefScope.is_in_deref_scope worker st = true →
      DerefScope.enter_deref_scope wait worker core st = .error (ScopeFault.assertion, st)) ∧
    (DerefScope.is_in_deref_scope worker st = false →
      ∀ s1, DerefScope.enter_deref_scope wait worker core st
        ≠ .error (ScopeFault.assertion, s1)) ∧
    (DerefScope.get_self_th_status worker st = Status.OutofScope →
      DerefScope.exit_deref_scope worker core st = .error (ScopeFault.assertion, st)) ∧
    (DerefScope.get_self_th_status worker st ≠ Status.OutofScope →
      ∀ s1, DerefScope.exit_deref_scope worker core st ≠ .error (ScopeFault.assertion, s1)) ∧
    ((if st.almost_empty then wait st else st).expected_status ≠ Status.OutofScope →
      ∀ st1, DerefScope.enter_deref_scope wait worker core st = .ok st1 →
        DerefScope.is_in_deref_scope worker st1 = true ∧
        ∀ (core2 : Nat) (st2 : ScopeState), st2.th_status worker = st1.th_status worker →
          DerefScope.enter_deref_scope wait worker core2 st2
            = .error (ScopeFault.assertion, st2)) := by
  have hfail : ∀ (c : Nat) (s : ScopeState), DerefScope.is_in_deref_scope worker s = true →
      DerefScope.enter_deref_scope wait worker c s = .error (ScopeFault.assertion, s) := by
    intro c s h
    simp only [DerefScope.enter_deref_scope, h, if_true]
  refine ⟨?_, hfail core st, ?_, ?_, ?_, ?_⟩
  · simp only [DerefScope.is_in_deref_scope, decide_eq_true_eq]
  · intro h s1
    simp only [DerefScope.enter_deref_scope, h, Bool.false_eq_true, if_false]
    by_cases h3 : (if st.almost_empty = true then wait st else st).expected_status.toNat < 3
    · simp only [h3, if_true]
      intro e; cases e
    · simp only [h3, if_false]
      intro e
      injection e with e
      injection e with e1 _
      cases e1
  · intro h
    simp only [DerefScope.exit_deref_scope, h, if_true]
  · intro h s1
    simp only [DerefScope.exit_deref_scope, h, if_false]
    by_cases h3 : (DerefScope.get_self_th_status worker st).toNat < 3
    · simp only [h3, if_true]
      split
      · split
        · intro e; cases e
        · intro e; cases e
      · intro e; cases e
    · simp only [h3, if_false]
      intro e
      injection e with e
      injection e with e1 _
      cases e1
  · intro hne st1 hok
    have hin : DerefScope.is_in_deref_scope worker st1 = true := by
      cases h : DerefScope.is_in_deref_scope worker st
      · simp only [DerefScope.enter_deref_scope, h, Bool.false_eq_true, if_false] at hok
        by_cases h3 : (if st.almost_empty = true then wait st else st).expected_status.toNat < 3
        · simp only [h3, if_true] at hok
          injection hok with hok
          rw [← hok]
          simp only [DerefScope.is_in_deref_scope, DerefScope.get_self_th_status,
            DerefScope.add_counter, DerefScope.set_self_th_status, if_true, decide_eq_true_eq]
          exact hne
        · simp only [h3, if_false] at hok
          cases hok
      · rw [hfail core st h] at hok
        cases hok
    refine ⟨hin, ?_⟩
    intro core2 st2 h2
    apply hfail
    simp only [DerefScope.is_in_deref_scope, DerefScope.get_self_th_status, h2]
    exact hin

theorem C18_scope_assertions_witness :
    DerefScope.is_in_deref_scope 0 scope_busy = true ∧
    DerefScope.enter_deref_scope (fun s => s) 0 1 scope_busy
      = .error (ScopeFault.assertion, scope_busy) ∧
    DerefScope.exit_deref_scope 0 1 scope_idle = .error (ScopeFault.assertion, scope_idle) :=
  ⟨by decide,
    (C18_scope_assertions (fun s => s) 0 1 scope_busy).2.1 (by decide),
    (C18_scope_assertions (fun s => s) 0 1 scope_idle).2.2.2.1 (by decide)⟩


/-! ## The GC boundaries and `reset` of a region -/

/-- C21: for a region with buffer base `b` and `n = get_num_boundaries()` recorded boundaries,
`1 ≤ n ≤ kGCParallelism`, the ranges `get_boundary(0)`, ..., `get_boundary(n-1)` tile the
scanned area: the first one starts at `b + 5`, each one ends at `b + gc_boundaries_[i]`, and
the next one starts where the one before ends.  `get_boundary(i)` fails its assertion exactly
when `i ≥ n`.  A forced `update_boundaries` records the cursor as the end of a new last
range. -/
theorem C21_boundaries_tile (r : Region) (hn : 1 ≤ r.get_num_boundaries)
    (hk : r.get_num_boundaries ≤ Region.kGCParallelism)
    (hb : r.buf_ptr_ + 2 ^ 32 ≤ 2 ^ 64) (hg : ∀ i, r.gc_boundaries_ i < 2 ^ 32) :
    (∃ hi, r.get_boundary 0 = .ok (r.buf_ptr_ + 5, hi)) ∧
    (∀ i, i < r.get_num_boundaries →
      ∃ lo, r.get_boundary i = .ok (lo, r.buf_ptr_ + r.gc_boundaries_ i)) ∧
    (∀ i, i + 1 < r.get_num_boundaries →
      ∃ lo mid hi, r.get_boundary i = .ok (lo, mid) ∧ r.get_boundary (i + 1) = .ok (mid, hi)) ∧
    (∀ i, r.get_boundary i = .error RegionFault.assertion ↔ r.get_num_boundaries ≤ i) ∧
    (r.get_num_boundaries < Region.kGCParallelism →
      ∃ r1, r.update_boundaries true = .ok r1 ∧
        r1.get_num_boundaries = r.get_num_boundaries + 1 ∧
        (∀ i, i < r.get_num_boundaries → r1.get_boundary i = r.get_boundary i) ∧
        r1.get_boundary r.get_num_boundaries
          = .ok (r.buf_ptr_ + r.gc_boundaries_ (r.get_num_boundaries - 1),
              u64 (r.buf_ptr_ + r.first_free_byte_idx_))) := by
  have hu : ∀ x, x < 2 ^ 32 → u64 (r.buf_ptr_ + x) = r.buf_ptr_ + x := by
    intro x hx
    exact Nat.mod_eq_of_lt (by omega)
  simp only [Region.get_num_boundaries, Region.kGCParallelism] at hn hk ⊢
  have hget : ∀ i, i < r.num_boundaries_ →
      r.get_boundary i
        = .ok (r.buf_ptr_ + (if i = 0 then 5 else r.gc_boundaries_ (i - 1)),
            r.buf_ptr_ + r.gc_boundaries_ i) := by
    intro i hi
    have h2 : ¬ 2 ≤ i := by omega
    simp only [Region.get_boundary, Region.kGCParallelism, Region.kHeaderSize,
      Region.kRefCntSize, Region.kNtSize, hi, not_true_eq_false, if_false, h2]
    rw [hu _ (hg i)]
    by_cases h0 : i = 0
    · simp only [h0, if_true]
      rw [hu _ (by norm_num)]
    · simp only [h0, if_false]
      rw [hu _ (hg _)]
  refine ⟨⟨_, by rw [hget 0 (by omega)]; rfl⟩, fun i hi => ⟨_, hget i hi⟩, ?_, ?_, ?_⟩
  · intro i hi
    refine ⟨_, _, r.buf_ptr_ + r.gc_boundaries_ (i + 1), hget i (by omega), ?_⟩
    rw [hget (i + 1) hi]
    simp
  · intro i
    by_cases hi : i < r.num_boundaries_
    · rw [hget i hi]
      constructor
      · intro h; cases h
      · intro h; omega
    · simp only [Region.get_boundary, hi, not_false_eq_true, if_true, true_iff]
      omega
  · intro hlt
    have hcur : ¬ 2 ≤ r.num_boundaries_ := by omega
    have hm : (r.num_boundaries_ + 1) % 2 ^ 8 = r.num_boundaries_ + 1 :=
      Nat.mod_eq_of_lt (by omega)
    refine ⟨_, by simp only [Region.update_boundaries, Bool.true_or, if_true,
      Region.kGCParallelism, hcur, if_false]; rfl, hm, ?_, ?_⟩
    · intro i hi
      have h1 : i < (r.num_boundaries_ + 1) % 2 ^ 8 := by omega
      have h2 : ¬ 2 ≤ i := by omega
      have h3 : i ≠ r.num_boundaries_ := by omega
      have h4 : i - 1 ≠ r.num_boundaries_ := by omega
      simp only [Region.get_boundary, Region.kGCParallelism, h1, hi, not_true_eq_false,
        if_false, h2, h3, h4]
    · have h1 : r.num_boundaries_ < (r.num_boundaries_ + 1) % 2 ^ 8 := by omega
      have h3 : r.num_boundaries_ ≠ 0 := by omega
      have h4 : r.num_boundaries_ - 1 ≠ r.num_boundaries_ := by omega
      simp only [Region.get_boundary, Region.kGCParallelism, h1, not_true_eq_false,
        if_false, hcur, h3, h4, if_true]
      rw [hu _ (hg _)]

theorem C21_boundaries_tile_witness :
    region_two_boundaries.get_boundary 0 = .ok (0x200005, 0x280010) ∧
    region_two_boundaries.get_boundary 1 = .ok (0x280010, 0x290000) ∧
    (region_two_boundaries.get_boundary 2 = .error RegionFault.assertion ↔
      region_two_boundaries.get_num_boundaries ≤ 2) ∧
    ∃ lo mid hi, region_two_boundaries.get_boundary 0 = .ok (lo, mid) ∧
      region_two_boundaries.get_boundary (0 + 1) = .ok (mid, hi) :=
  ⟨rfl, rfl,
    (C21_boundaries_tile region_two_boundaries (by decide) (by decide) (by decide)
      (fun i => by unfold region_two_boundaries; dsimp only; split <;> decide)).2.2.2.1 2,
    (C21_boundaries_tile region_two_boundaries (by decide) (by decide) (by decide)
      (fun i => by unfold region_two_boundaries; dsimp only; split <;> decide)).2.2.1 0
      (by decide)⟩

/-- C22: `reset()` puts the allocation cursor back at the first object offset, 5, where the
constructor puts it, sets `get_num_boundaries()` to 0 and makes `is_nt()` false; it leaves the
reference count, the buffer address and the region index as they are, and writes no byte of
memory but the `nt` flag at offset 4. -/
theorem C22_reset (r : Region) (m : Mem) (gc : Nat → Nat) :
    (r.reset m).1.first_free_byte_idx_ = 5 ∧
    (r.reset m).1.first_free_byte_idx_ = (Region.fresh gc).first_free_byte_idx_ ∧
    (r.reset m).1.get_num_boundaries = 0 ∧
    (r.reset m).1.is_nt_member (r.reset m).2 = false ∧
    (r.reset m).1.get_ref_cnt (r.reset m).2 = r.get_ref_cnt m ∧
    (r.reset m).1.is_gcable (r.reset m).2 = r.is_gcable m ∧
    (r.reset m).1.buf_ptr_ = r.buf_ptr_ ∧
    (r.reset m).1.region_idx_ = r.region_idx_ ∧
    (r.reset m).1.gc_boundaries_ = r.gc_boundaries_ ∧
    (∀ x, x ≠ r.buf_ptr_ + 4 → (r.reset m).2 x = m x) := by
  have hcnt : (r.reset m).1.get_ref_cnt (r.reset m).2 = r.get_ref_cnt m := by
    simp only [Region.reset, Region.get_ref_cnt, Region.clear_nt, Region.kRefCntPos,
      Region.kRefCntSize, Region.kNtPos]
    apply loadN_congr
    intro x h1 h2
    exact store8_other _ _ _ _ (by omega)
  refine ⟨rfl, rfl, rfl, ?_, hcnt, ?_, rfl, rfl, rfl, ?_⟩
  · simp [Region.reset, Region.is_nt_member, Region.clear_nt, load8, store8]
  · simp only [Region.is_gcable, hcnt]
  · intro x hx
    simp only [Region.reset, Region.clear_nt, Region.kNtPos]
    exact store8_other _ _ _ _ hx

theorem C22_reset_witness :
    (region_two_boundaries.reset mem_one_object).1.first_free_byte_idx_ = 5 ∧
    (region_two_boundaries.reset mem_one_object).1.get_num_boundaries = 0 ∧
    (region_two_boundaries.reset mem_one_object).1.buf_ptr_ = 0x200000 :=
  ⟨(C22_reset region_two_boundaries mem_one_object (fun _ => 0)).1,
    (C22_reset region_two_boundaries mem_one_object (fun _ => 0)).2.2.1, by decide⟩

/-! ## The circular buffer -/

theorem mod_lt_twice (x c : Nat) (h : x < 2 * c) : x % c = if x < c then x else x - c := by
  split
  · exact Nat.mod_eq_of_lt ‹_›
  · rw [Nat.mod_eq_sub_mod (by omega), Nat.mod_eq_of_lt (by omega)]

namespace CircularBuffer

variable {T : Type}

theorem size_eq (cb : CircularBuffer T) (hw : cb.wf) :
    cb.size = if cb.tail_ < cb.head_ then cb.tail_ + cb.capacity_ - cb.head_
      else cb.tail_ - cb.head_ := by
  obtain ⟨h0, h1, h2, h3⟩ := hw
  simp only [size, u32]
  split <;> omega

theorem size_lt (cb : CircularBuffer T) (hw : cb.wf) : cb.size < cb.capacity_ := by
  rw [size_eq cb hw]
  obtain ⟨h0, h1, h2, h3⟩ := hw
  split <;> omega

theorem capacity_eq (cb : CircularBuffer T) (hw : cb.wf) : cb.capacity = cb.capacity_ - 1 := by
  obtain ⟨h0, h1, h2, h3⟩ := hw
  simp only [capacity, u32]
  omega

theorem index_eq (cb : CircularBuffer T) (hw : cb.wf) (i : Nat) (hi : i ≤ cb.size) :
    (cb.head_ + i) % cb.capacity_
      = if cb.head_ + i < cb.capacity_ then cb.head_ + i else cb.head_ + i - cb.capacity_ := by
  have hs := size_lt cb hw
  obtain ⟨h0, h1, h2, h3⟩ := hw
  exact mod_lt_twice _ _ (by omega)

theorem index_tail (cb : CircularBuffer T) (hw : cb.wf) :
    (cb.head_ + cb.size) % cb.capacity_ = cb.tail_ := by
  rw [index_eq cb hw _ (Nat.le_refl _), size_eq cb hw]
  obtain ⟨h0, h1, h2, h3⟩ := hw
  split_ifs <;> omega

theorem index_ne_tail (cb : CircularBuffer T) (hw : cb.wf) (i : Nat) (hi : i < cb.size) :
    (cb.head_ + i) % cb.capacity_ ≠ cb.tail_ := by
  rw [index_eq cb hw _ (Nat.le_of_lt hi)]
  rw [size_eq cb hw] at hi
  obtain ⟨h0, h1, h2, h3⟩ := hw
  split_ifs at hi ⊢ <;> omega

theorem contents_snoc (cb cb1 : CircularBuffer T) (d : T) (hsize : cb1.size = cb.size + 1)
    (hitems : ∀ i, i < cb.size →
      cb1.items_ ((cb1.head_ + i) % cb1.capacity_) = cb.items_ ((cb.head_ + i) % cb.capacity_))
    (hlast : cb1.items_ ((cb1.head_ + cb.size) % cb1.capacity_) = d) :
    cb1.contents = cb.contents ++ [d] := by
  unfold contents
  rw [hsize, List.range_succ, List.map_append, List.map_singleton, hlast,
    List.map_congr_left (fun i hi => hitems i (List.mem_range.1 hi))]

theorem contents_cons (cb cb1 : CircularBuffer T) (x : T) (hsize : cb1.size + 1 = cb.size)
    (hitems : ∀ i, i < cb1.size → cb.items_ ((cb.head_ + (i + 1)) % cb.capacity_)
      = cb1.items_ ((cb1.head_ + i) % cb1.capacity_))
    (hfirst : cb.items_ ((cb.head_ + 0) % cb.capacity_) = x) :
    cb.contents = x :: cb1.contents := by
  unfold contents
  rw [← hsize, List.range_succ_eq_map, List.map_cons, List.map_map, hfirst]
  exact congrArg (List.cons x)
    (List.map_congr_left (fun i hi => hitems i (List.mem_range.1 hi)))

theorem next_index (c x : Nat) (h0 : 0 < c) (h1 : c < 2 ^ 32) (hx : x < c) :
    u32 (x + 1) % c = if x + 1 < c then x + 1 else 0 := by
  have : u32 (x + 1) = x + 1 := Nat.mod_eq_of_lt (by omega)
  rw [this, mod_lt_twice _ _ (by omega)]
  split_ifs <;> omega

theorem full_iff (cb : CircularBuffer T) (hw : cb.wf) :
    u32 (cb.tail_ + 1) % cb.capacity_ = cb.head_ ↔ ¬ cb.size < cb.capacity := by
  rw [capacity_eq cb hw, size_eq cb hw, next_index _ _ hw.1 hw.2.1 hw.2.2.2]
  obtain ⟨h0, h1, h2, h3⟩ := hw
  split_ifs <;> omega

theorem empty_iff (cb : CircularBuffer T) (hw : cb.wf) : cb.head_ = cb.tail_ ↔ cb.size = 0 := by
  rw [size_eq cb hw]
  obtain ⟨h0, h1, h2, h3⟩ := hw
  split_ifs <;> omega

/-- A new youngest item at `tail_`, when the buffer is not full. -/
theorem contents_push_back (cb : CircularBuffer T) (d : T) (hw : cb.wf)
    (hnf : u32 (cb.tail_ + 1) % cb.capacity_ ≠ cb.head_) :
    (CircularBuffer.mk (fun i => if i = cb.tail_ then d else cb.items_ i) cb.head_
      (u32 (cb.tail_ + 1) % cb.capacity_) cb.capacity_ cb.spin_).wf ∧
    (CircularBuffer.mk (fun i => if i = cb.tail_ then d else cb.items_ i) cb.head_
      (u32 (cb.tail_ + 1) % cb.capacity_) cb.capacity_ cb.spin_).size = cb.size + 1 ∧
    (CircularBuffer.mk (fun i => if i = cb.tail_ then d else cb.items_ i) cb.head_
      (u32 (cb.tail_ + 1) % cb.capacity_) cb.capacity_ cb.spin_).contents
      = cb.contents ++ [d] := by
  have hsz := size_eq cb hw
  have hw0 := hw
  obtain ⟨h0, h1, h2, h3⟩ := hw
  have hnt := next_index _ _ h0 h1 h3
  have hwf1 : (CircularBuffer.mk (fun i => if i = cb.tail_ then d else cb.items_ i) cb.head_
      (u32 (cb.tail_ + 1) % cb.capacity_) cb.capacity_ cb.spin_).wf :=
    ⟨h0, h1, h2, Nat.mod_lt _ h0⟩
  have hsize1 : (CircularBuffer.mk (fun i => if i = cb.tail_ then d else cb.items_ i) cb.head_
      (u32 (cb.tail_ + 1) % cb.capacity_) cb.capacity_ cb.spin_).size = cb.size + 1 := by
    rw [size_eq _ hwf1, hsz]
    show (if u32 (cb.tail_ + 1) % cb.capacity_ < cb.head_ then
        u32 (cb.tail_ + 1) % cb.capacity_ + cb.capacity_ - cb.head_
      else u32 (cb.tail_ + 1) % cb.capacity_ - cb.head_) = _
    rw [hnt] at hnf ⊢
    split_ifs at hnf ⊢ <;> omega
  refine ⟨hwf1, hsize1, ?_⟩
  apply contents_snoc _ _ _ hsize1
  · intro i hi
    show (if (cb.head_ + i) % cb.capacity_ = cb.tail_ then d else _) = _
    rw [if_neg (index_ne_tail cb hw0 i hi)]
  · show (if (cb.head_ + cb.size) % cb.capacity_ = cb.tail_ then d else _) = _
    rw [if_pos (index_tail cb hw0)]

/-- The oldest item leaves, when the buffer is not empty. -/
theorem contents_pop_front (cb : CircularBuffer T) (hw : cb.wf) (hne : cb.head_ ≠ cb.tail_) :
    (CircularBuffer.mk cb.items_ (u32 (cb.head_ + 1) % cb.capacity_) cb.tail_ cb.capacity_
      cb.spin_).wf ∧
    (CircularBuffer.mk cb.items_ (u32 (cb.head_ + 1) % cb.capacity_) cb.tail_ cb.capacity_
      cb.spin_).size + 1 = cb.size ∧
    cb.contents = cb.items_ cb.head_ ::
      (CircularBuffer.mk cb.items_ (u32 (cb.head_ + 1) % cb.capacity_) cb.tail_ cb.capacity_
        cb.spin_).contents := by
  have hsz := size_eq cb hw
  obtain ⟨h0, h1, h2, h3⟩ := hw
  have hnh := next_index _ _ h0 h1 h2
  have hwf1 : (CircularBuffer.mk cb.items_ (u32 (cb.head_ + 1) % cb.capacity_) cb.tail_
      cb.capacity_ cb.spin_).wf := ⟨h0, h1, Nat.mod_lt _ h0, h3⟩
  have hsize1 : (CircularBuffer.mk cb.items_ (u32 (cb.head_ + 1) % cb.capacity_) cb.tail_
      cb.capacity_ cb.spin_).size + 1 = cb.size := by
    rw [size_eq _ hwf1, hsz]
    show (if cb.tail_ < u32 (cb.head_ + 1) % cb.capacity_ then
        cb.tail_ + cb.capacity_ - u32 (cb.head_ + 1) % cb.capacity_
      else cb.tail_ - u32 (cb.head_ + 1) % cb.capacity_) + 1 = _
    rw [hnh]
    split_ifs <;> omega
  refine ⟨hwf1, hsize1, ?_⟩
  apply contents_cons _ _ _ hsize1
  · intro i _
    show cb.items_ ((cb.head_ + (i + 1)) % cb.capacity_)
      = cb.items_ ((u32 (cb.head_ + 1) % cb.capacity_ + i) % cb.capacity_)
    have : u32 (cb.head_ + 1) = cb.head_ + 1 := Nat.mod_eq_of_lt (by omega)
    rw [this, Nat.mod_add_mod, Nat.add_assoc, Nat.add_comm 1 i]
  · rw [Nat.add_zero, Nat.mod_eq_of_lt h2]

/-- What `push_back` does to a well-formed buffer whose lock is free. -/
theorem push_back_spec (Sync : Bool) (cb : CircularBuffer T) (d : T) (hw : cb.wf)
    (hs : cb.spin_ = false) :
    ∃ b cb1, cb.push_back Sync d = .ok (b, cb1) ∧ cb1.wf ∧ cb1.spin_ = false ∧
      cb1.capacity_ = cb.capacity_ ∧
      (b = true ↔ cb.size < cb.capacity) ∧
      (b = true → cb1.contents = cb.contents ++ [d] ∧ cb1.size = cb.size + 1 ∧
        cb1.head_ = cb.head_) ∧
      (b = false → cb1 = cb) := by
  have hfi := full_iff cb hw
  have hc : ¬ cb.capacity_ = 0 := Nat.pos_iff_ne_zero.1 hw.1
  by_cases hfull : u32 (cb.tail_ + 1) % cb.capacity_ = cb.head_
  · refine ⟨false, cb, ?_, hw, hs, rfl, ?_, ?_, fun _ => rfl⟩
    · simp only [push_back, hs, Bool.and_false, hc, if_false, hfull, ne_eq, not_true_eq_false,
        decide_False]
      rfl
    · constructor
      · intro h; cases h
      · intro h; exact absurd h (hfi.1 hfull)
    · intro h; cases h
  · obtain ⟨hwf1, hsize1, hcont⟩ := contents_push_back cb d hw hfull
    refine ⟨true, _, ?_, hwf1, hs, rfl, ?_, fun _ => ⟨hcont, hsize1, rfl⟩, ?_⟩
    · simp only [push_back, hs, Bool.and_false, hc, if_false, hfull, ne_eq, not_false_eq_true,
        decide_True, if_true]
      rfl
    · simp only [true_iff]
      exact Decidable.not_not.1 (fun h => hfull (hfi.2 h))
    · intro h; cases h

/-- What `pop_front` does to a well-formed buffer whose lock is free. -/
theorem pop_front_spec (Sync : Bool) (cb : CircularBuffer T) (hw : cb.wf)
    (hs : cb.spin_ = false) :
    ∃ o cb1, cb.pop_front Sync = .ok (o, cb1) ∧ cb1.wf ∧ cb1.spin_ = false ∧
      cb1.capacity_ = cb.capacity_ ∧
      (o = none ↔ cb.size = 0) ∧
      (o = none → cb1 = cb) ∧
      (∀ x, o = some x → cb.contents = x :: cb1.contents ∧ cb1.size + 1 = cb.size ∧
        cb1.tail_ = cb.tail_) := by
  have hei := empty_iff cb hw
  have hc : ¬ cb.capacity_ = 0 := Nat.pos_iff_ne_zero.1 hw.1
  by_cases hempty : cb.head_ = cb.tail_
  · refine ⟨none, cb, ?_, hw, hs, rfl, ?_, fun _ => rfl, ?_⟩
    · simp only [pop_front, hs, Bool.and_false, hempty, ne_eq, not_true_eq_false, decide_False,
        if_false]
      rfl
    · simp only [true_iff]
      exact hei.1 hempty
    · intro x h; cases h
  · obtain ⟨hwf1, hsize1, hcont⟩ := contents_pop_front cb hw hempty
    refine ⟨some (cb.items_ cb.head_), _, ?_, hwf1, hs, rfl, ?_, ?_, ?_⟩
    · simp only [pop_front, hs, Bool.and_false, hc, if_false, hempty, ne_eq, not_false_eq_true,
        decide_True, if_true]
      rfl
    · constructor
      · intro h; cases h
      · intro h; exact absurd (hei.2 h) hempty
    · intro h; cases h
    · intro x hx
      cases hx
      exact ⟨hcont, hsize1, rfl⟩

/-- A new oldest item at the index before `head_`, when that index is not `tail_`. -/
theorem contents_push_front (cb : CircularBuffer T) (d : T) (hw : cb.wf) (nh : Nat)
    (hnh : nh = if cb.head_ = 0 then cb.capacity_ - 1 else cb.head_ - 1) (hne : nh ≠ cb.tail_) :
    (CircularBuffer.mk (fun i => if i = nh then d else cb.items_ i) nh cb.tail_ cb.capacity_
      cb.spin_).wf ∧
    (CircularBuffer.mk (fun i => if i = nh then d else cb.items_ i) nh cb.tail_ cb.capacity_
      cb.spin_).size = cb.size + 1 ∧
    (CircularBuffer.mk (fun i => if i = nh then d else cb.items_ i) nh cb.tail_ cb.capacity_
      cb.spin_).contents = d :: cb.contents := by
  have hsz := size_eq cb hw
  have hw0 := hw
  obtain ⟨h0, h1, h2, h3⟩ := hw
  have hlt : nh < cb.capacity_ := by rw [hnh]; split_ifs <;> omega
  have hwf1 : (CircularBuffer.mk (fun i => if i = nh then d else cb.items_ i) nh cb.tail_
      cb.capacity_ cb.spin_).wf := ⟨h0, h1, hlt, h3⟩
  have hsize1 : (CircularBuffer.mk (fun i => if i = nh then d else cb.items_ i) nh cb.tail_
      cb.capacity_ cb.spin_).size = cb.size + 1 := by
    rw [size_eq _ hwf1, hsz]
    show (if cb.tail_ < nh then cb.tail_ + cb.capacity_ - nh else cb.tail_ - nh) = _
    rw [hnh] at hne ⊢
    split_ifs at hne ⊢ <;> omega
  refine ⟨hwf1, hsize1, ?_⟩
  have hnext : (nh + 1) % cb.capacity_ = cb.head_ := by
    rw [mod_lt_twice _ _ (by omega), hnh]
    split_ifs <;> omega
  apply contents_cons _ _ _ hsize1.symm
  · intro i hi
    show (if (nh + (i + 1)) % cb.capacity_ = nh then d
      else cb.items_ ((nh + (i + 1)) % cb.capacity_)) = _
    have e : (nh + (i + 1)) % cb.capacity_ = (cb.head_ + i) % cb.capacity_ := by
      rw [show nh + (i + 1) = nh + 1 + i by omega, ← Nat.mod_add_mod, hnext]
    rw [e, if_neg]
    rw [index_eq cb hw0 i (Nat.le_of_lt hi), hnh]
    rw [hnh] at hne
    rw [hsz] at hi
    split_ifs at hne hi ⊢ <;> omega
  · show (if (nh + 0) % cb.capacity_ = nh then d else _) = d
    rw [Nat.add_zero, Nat.mod_eq_of_lt hlt, if_pos rfl]

/-- What `push_front` does to a well-formed buffer whose lock is free, when `capacity_` is at
most `2^31`, so that `head + capacity_ - 1` fits in 32 bits. -/
theorem push_front_spec (Sync : Bool) (cb : CircularBuffer T) (d : T) (hw : cb.wf)
    (hs : cb.spin_ = false) (hsmall : cb.capacity_ ≤ 2 ^ 31) :
    ∃ b cb1, cb.push_front Sync d = .ok (b, cb1) ∧ cb1.wf ∧ cb1.spin_ = false ∧
      cb1.capacity_ = cb.capacity_ ∧
      (b = true ↔ cb.size < cb.capacity) ∧
      (b = true → cb1.contents = d :: cb.contents ∧ cb1.size = cb.size + 1 ∧
        cb1.tail_ = cb.tail_) ∧
      (b = false → cb1 = cb) := by
  have hcap := capacity_eq cb hw
  have hsz := size_eq cb hw
  have hw0 := hw
  obtain ⟨h0, h1, h2, h3⟩ := hw
  have hc : ¬ cb.capacity_ = 0 := by omega
  have hnh : u32 (u32 (cb.head_ + cb.capacity_) + (2 ^ 32 - 1)) % cb.capacity_
      = if cb.head_ = 0 then cb.capacity_ - 1 else cb.head_ - 1 := by
    have e : u32 (u32 (cb.head_ + cb.capacity_) + (2 ^ 32 - 1)) = cb.head_ + cb.capacity_ - 1 := by
      simp only [u32]
      omega
    rw [e, mod_lt_twice _ _ (by omega)]
    split_ifs <;> omega
  by_cases hfull : u32 (u32 (cb.head_ + cb.capacity_) + (2 ^ 32 - 1)) % cb.capacity_ = cb.tail_
  · refine ⟨false, cb, ?_, hw0, hs, rfl, ?_, ?_, fun _ => rfl⟩
    · simp only [push_front, hs, Bool.and_false, hc, if_false, hfull, ne_eq, not_true_eq_false,
        decide_False]
      rfl
    · rw [hnh] at hfull
      rw [hcap, hsz]
      constructor
      · intro h; cases h
      · intro h
        exfalso
        split_ifs at hfull h <;> omega
    · intro h; cases h
  · obtain ⟨hwf1, hsize1, hcont⟩ := contents_push_front cb d hw0 _ hnh hfull
    refine ⟨true, _, ?_, hwf1, hs, rfl, ?_, fun _ => ⟨hcont, hsize1, rfl⟩, ?_⟩
    · simp only [push_front, hs, Bool.and_false, hc, if_false, hfull, ne_eq, not_false_eq_true,
        decide_True, if_true]
      rfl
    · rw [hnh] at hfull
      rw [hcap, hsz]
      simp only [true_iff]
      split_ifs at hfull ⊢ <;> omega
    · intro h; cases h

end CircularBuffer

namespace CbRun

variable {T : Type}

theorem foldl_invariant {S O : Type} (f : S → O → S) (P : S → Prop)
    (hstep : ∀ s op, P s → P (f s op)) : ∀ (ops : List O) (s : S), P s → P (ops.foldl f s) := by
  intro ops
  induction ops with
  | nil => intro s h; exact h
  | cons op ops ih => intro s h; exact ih _ (hstep s op h)

/-- While the buffer is well formed and its lock is free, no call faults and the accepted
items are the delivered ones followed by the ones in the buffer. -/
theorem step_wf (Sync : Bool) (s : CbRun T) (op : CbOp T)
    (h : s.fault = none ∧ s.cb.wf ∧ s.cb.spin_ = false ∧
      s.accepted = s.delivered ++ s.cb.contents) :
    (s.step Sync op).fault = none ∧ (s.step Sync op).cb.wf ∧ (s.step Sync op).cb.spin_ = false ∧
      (s.step Sync op).accepted = (s.step Sync op).delivered ++ (s.step Sync op).cb.contents ∧
      (s.step Sync op).cb.capacity_ = s.cb.capacity_ := by
  obtain ⟨hf, hw, hs, ha⟩ := h
  cases op with
  | push_back d =>
    obtain ⟨b, cb1, e, hw1, hs1, hc1, _, ht, hfl⟩ := CircularBuffer.push_back_spec Sync s.cb d hw hs
    cases b with
    | true =>
      simp only [step, e]
      refine ⟨hf, hw1, hs1, ?_, hc1⟩
      rw [(ht rfl).1, ha, List.append_assoc]
    | false =>
      simp only [step, e]
      refine ⟨hf, hw1, hs1, ?_, hc1⟩
      rw [hfl rfl, ha]
  | pop_front =>
    obtain ⟨o, cb1, e, hw1, hs1, hc1, _, hn, hsome⟩ := CircularBuffer.pop_front_spec Sync s.cb hw hs
    cases o with
    | none =>
      simp only [step, e]
      refine ⟨hf, hw1, hs1, ?_, hc1⟩
      rw [hn rfl, ha]
    | some x =>
      simp only [step, e]
      refine ⟨hf, hw1, hs1, ?_, hc1⟩
      rw [ha, (hsome x rfl).1, List.append_assoc]
      rfl

/-- On a buffer with `capacity_ = 0` and `head_ = tail_` nothing is ever delivered. -/
theorem step_zero (Sync : Bool) (s : CbRun T) (op : CbOp T)
    (h : s.cb.capacity_ = 0 ∧ s.cb.head_ = s.cb.tail_ ∧ s.delivered = []) :
    (s.step Sync op).cb.capacity_ = 0 ∧ (s.step Sync op).cb.head_ = (s.step Sync op).cb.tail_ ∧
      (s.step Sync op).delivered = [] := by
  obtain ⟨hc, ht, hd⟩ := h
  cases op with
  | push_back d =>
    cases hl : (Sync && s.cb.spin_) <;>
      simp [step, CircularBuffer.push_back, hl, hc, ht, hd]
  | pop_front =>
    cases hl : (Sync && s.cb.spin_) <;>
      simp [step, CircularBuffer.pop_front, hl, hc, ht, hd]

end CbRun

/-- C23: `CircularBuffer` is a FIFO.  For every series of `push_back` and `pop_front` calls on
a buffer that the constructor has just built, the items delivered by the successful
`pop_front` calls are a prefix of the items accepted by the successful `push_back` calls, in
the same order; when `capacity_` is not 0 no call faults, and what was accepted and not yet
delivered is what the buffer holds.  `pop_front` on an empty buffer returns `false`, writes no
item and changes nothing. -/
theorem C23_fifo {T : Type} (Sync : Bool) (size : Nat) (init : Nat → T) (ops : List (CbOp T)) :
    (CbRun.run Sync ops (CircularBuffer.mk_size size init)).delivered
      <+: (CbRun.run Sync ops (CircularBuffer.mk_size size init)).accepted ∧
    (u32 (size + 1) ≠ 0 →
      (CbRun.run Sync ops (CircularBuffer.mk_size size init)).fault = none ∧
      (CbRun.run Sync ops (CircularBuffer.mk_size size init)).accepted
        = (CbRun.run Sync ops (CircularBuffer.mk_size size init)).delivered
          ++ (CbRun.run Sync ops (CircularBuffer.mk_size size init)).cb.contents) ∧
    (∀ cb : CircularBuffer T, cb.head_ = cb.tail_ → (Sync && cb.spin_) = false →
      cb.pop_front Sync = .ok (none, cb)) := by
  have hwf : u32 (size + 1) ≠ 0 →
      (CbRun.run Sync ops (CircularBuffer.mk_size size init)).fault = none ∧
      (CbRun.run Sync ops (CircularBuffer.mk_size size init)).cb.wf ∧
      (CbRun.run Sync ops (CircularBuffer.mk_size size init)).cb.spin_ = false ∧
      (CbRun.run Sync ops (CircularBuffer.mk_size size init)).accepted
        = (CbRun.run Sync ops (CircularBuffer.mk_size size init)).delivered
          ++ (CbRun.run Sync ops (CircularBuffer.mk_size size init)).cb.contents := by
    intro hne
    apply CbRun.foldl_invariant _
      (fun s : CbRun T => s.fault = none ∧ s.cb.wf ∧ s.cb.spin_ = false ∧
        s.accepted = s.delivered ++ s.cb.contents)
    · intro s op h
      have h1 := CbRun.step_wf Sync s op h
      simp only [h.1, Option.isSome_none, Bool.false_eq_true, if_false]
      exact ⟨h1.1, h1.2.1, h1.2.2.1, h1.2.2.2.1⟩
    · refine ⟨rfl, ⟨Nat.pos_of_ne_zero hne, Nat.mod_lt _ (by norm_num), Nat.pos_of_ne_zero hne,
        Nat.pos_of_ne_zero hne⟩, rfl, ?_⟩
      simp [CircularBuffer.contents, CircularBuffer.size, CircularBuffer.mk_size, u32]
  refine ⟨?_, fun hne => ⟨(hwf hne).1, (hwf hne).2.2.2⟩, ?_⟩
  · by_cases hne : u32 (size + 1) = 0
    · have hz : (CbRun.run Sync ops (CircularBuffer.mk_size size init)).cb.capacity_ = 0 ∧
          (CbRun.run Sync ops (CircularBuffer.mk_size size init)).cb.head_
            = (CbRun.run Sync ops (CircularBuffer.mk_size size init)).cb.tail_ ∧
          (CbRun.run Sync ops (CircularBuffer.mk_size size init)).delivered = [] := by
        apply CbRun.foldl_invariant _
          (fun s : CbRun T => s.cb.capacity_ = 0 ∧ s.cb.head_ = s.cb.tail_ ∧ s.delivered = [])
        · intro s op h
          by_cases hf : s.fault.isSome
          · simp only [hf, if_true]
            exact h
          · simp only [hf, Bool.false_eq_true, if_false]
            exact CbRun.step_zero Sync s op h
        · exact ⟨hne, rfl, rfl⟩
      rw [hz.2.2]
      exact List.nil_prefix
    · rw [(hwf hne).2.2.2]
      exact List.prefix_append _ _
  · intro cb he hl
    simp only [CircularBuffer.pop_front, hl, he, ne_eq, not_true_eq_false, decide_False]
    rfl

theorem C23_fifo_witness :
    (CbRun.run false [CbOp.push_back 1, CbOp.push_back 2, CbOp.pop_front, CbOp.push_back 3,
        CbOp.push_back 4, CbOp.pop_front, CbOp.pop_front, CbOp.pop_front, CbOp.push_back 5]
      (CircularBuffer.mk_size 2 (fun _ => 0))).delivered = [1, 2, 3] ∧
    u32 (2 + 1) ≠ 0 ∧
    (CbRun.run false [CbOp.push_back 1, CbOp.push_back 2, CbOp.pop_front, CbOp.push_back 3,
        CbOp.push_back 4, CbOp.pop_front, CbOp.pop_front, CbOp.pop_front, CbOp.push_back 5]
      (CircularBuffer.mk_size 2 (fun _ => 0))).accepted
      = (CbRun.run false [CbOp.push_back 1, CbOp.push_back 2, CbOp.pop_front, CbOp.push_back 3,
          CbOp.push_back 4, CbOp.pop_front, CbOp.pop_front, CbOp.pop_front, CbOp.push_back 5]
        (CircularBuffer.mk_size 2 (fun _ => 0))).delivered
        ++ (CbRun.run false [CbOp.push_back 1, CbOp.push_back 2, CbOp.pop_front,
          CbOp.push_back 3, CbOp.push_back 4, CbOp.pop_front, CbOp.pop_front, CbOp.pop_front,
          CbOp.push_back 5] (CircularBuffer.mk_size 2 (fun _ => 0))).cb.contents :=
  ⟨by decide, by decide,
    ((C23_fifo false 2 (fun _ => 0) [CbOp.push_back 1, CbOp.push_back 2, CbOp.pop_front,
      CbOp.push_back 3, CbOp.push_back 4, CbOp.pop_front, CbOp.pop_front, CbOp.pop_front,
      CbOp.push_back 5]).2.1 (by decide)).2⟩

/-- C24: the code at the failing input.  A buffer constructed with size `n = 2^32 - 2`
(`capacity() = n`) is empty, with `head_ = 2`, after two `push_back` and two `pop_front` calls.
`push_front` then computes `head + capacity_ - 1 = 2^32`, which is 0 in 32 bits, takes index 0
and not index 1 as the new head and succeeds: `size()` goes from 0 to 2, and the buffer holds
the new item followed by the item 2 that had been delivered before. -/
theorem C24_push_front_wraps :
    cb_huge.capacity = 4294967294 ∧ cb_huge.size = 0 ∧ cb_huge.head_ = 2 ∧ cb_huge.tail_ = 2 ∧
    cb_huge.wf ∧
    ∃ cb1, cb_huge.push_front false 7 = .ok (true, cb1) ∧ cb1.size = 2 ∧ cb1.head_ = 0 ∧
      cb1.contents = [7, 2] :=
  ⟨by decide, by decide, by decide, by decide, by unfold CircularBuffer.wf; decide,
    _, rfl, by decide, by decide, by decide⟩

/-- C25: the code at the failing input.  The thief is a buffer constructed with size
`2^32 - 2` that is empty with `head_ = tail_ = 1`, the victim holds the two items 10 and 20,
and both locks are free.  In the first pass of the loop `head_ + capacity_` is `2^32`, which
is 0 in 32 bits, and `assert(tail < head_ + capacity_)` fails.  With buffers of size 4 and 8
the same call moves the two oldest of the five items of the victim. -/
theorem C25_work_steal_assertion :
    cb_thief.wf ∧ cb_victim.wf ∧ cb_thief.spin_ = false ∧ cb_victim.spin_ = false ∧
    cb_thief.size = 0 ∧ cb_victim.contents = [10, 20] ∧
    cb_thief.work_steal cb_victim = .error CbFault.assertion ∧
    ∃ t v, cb_small.work_steal cb_five = .ok (true, t, v) ∧ t.contents = [1, 10, 20] ∧
      v.contents = [30, 40, 50] :=
  ⟨by unfold CircularBuffer.wf; decide, by unfold CircularBuffer.wf; decide, by decide, by decide,
    by decide, by decide, rfl, _, _, rfl, by decide, by decide⟩

namespace CircularBuffer

variable {T : Type}

/-- The loop of `work_steal` with `n` passes, when the thief has room for `n` more items, the
victim holds more than `n` items and `capacity_` of the thief is at most `2^31`: no assertion
fails, and the `n` oldest items of the victim go to the tail of the thief in their order. -/
theorem work_steal_loop_spec (head cap : Nat) (spin : Bool) (hsmall : cap ≤ 2 ^ 31) :
    ∀ (n tail : Nat) (items : Nat → T) (cb : CircularBuffer T),
      (CircularBuffer.mk items head tail cap spin).wf → cb.wf →
      (CircularBuffer.mk items head tail cap spin).size + n < cap → n < cb.size →
      ∃ tail1 items1 cb1,
        work_steal_loop head cap n tail items cb = .ok (tail1, items1, cb1) ∧
        (CircularBuffer.mk items1 head tail1 cap spin).wf ∧
        (CircularBuffer.mk items1 head tail1 cap spin).contents
          = (CircularBuffer.mk items head tail cap spin).contents ++ cb.contents.take n ∧
        cb1.wf ∧ cb1.contents = cb.contents.drop n ∧ cb1.spin_ = cb.spin_ ∧
        cb1.capacity_ = cb.capacity_ := by
  intro n
  induction n with
  | zero =>
    intro tail items cb hwt hwc _ _
    exact ⟨tail, items, cb, rfl, hwt, by simp, hwc, by simp, rfl, rfl⟩
  | succ n ih =>
    intro tail items cb hwt hwc hroom hn
    have hne : cb.head_ ≠ cb.tail_ := fun h => by
      have := (empty_iff cb hwc).1 h
      omega
    obtain ⟨hwc1, hszc1, hcontc⟩ := contents_pop_front cb hwc hne
    have hnf : u32 (tail + 1) % cap ≠ head := fun h => by
      have h1 := (full_iff (CircularBuffer.mk items head tail cap spin) hwt).1 h
      rw [capacity_eq _ hwt] at h1
      have : (CircularBuffer.mk items head tail cap spin).capacity_ = cap := rfl
      omega
    obtain ⟨hwt0, hszt0, hcontt0⟩ :=
      contents_push_back (CircularBuffer.mk items head tail cap spin) (cb.items_ cb.head_) hwt hnf
    have hwt1 : (CircularBuffer.mk (fun i => if i = tail then cb.items_ cb.head_ else items i)
        head (u32 (tail + 1) % cap) cap spin).wf := hwt0
    have hszt1 : (CircularBuffer.mk (fun i => if i = tail then cb.items_ cb.head_ else items i)
        head (u32 (tail + 1) % cap) cap spin).size
        = (CircularBuffer.mk items head tail cap spin).size + 1 := hszt0
    have hcontt : (CircularBuffer.mk (fun i => if i = tail then cb.items_ cb.head_ else items i)
        head (u32 (tail + 1) % cap) cap spin).contents
        = (CircularBuffer.mk items head tail cap spin).contents ++ [cb.items_ cb.head_] :=
      hcontt0
    have hc1 : ¬ cb.capacity_ = 0 := Nat.pos_iff_ne_zero.1 hwc.1
    have hc2 : ¬ cap = 0 := Nat.pos_iff_ne_zero.1 hwt.1
    have ha1 : u32 (tail + 1) % cap < u32 (head + cap) := by
      have h1 : u32 (tail + 1) % cap < cap := Nat.mod_lt _ hwt.1
      have h2 : head < cap := hwt.2.2.1
      have h3 : u32 (head + cap) = head + cap := Nat.mod_eq_of_lt (by omega)
      omega
    have ha2 : u32 (cb.head_ + 1) % cb.capacity_ ≠ cb.tail_ := fun h => by
      have := (empty_iff _ hwc1).1 h
      omega
    obtain ⟨tail1, items1, cb1, e, hw1, hcont1, hwcb1, hcontcb1, hs1, hcap1⟩ :=
      ih (u32 (tail + 1) % cap) (fun i => if i = tail then cb.items_ cb.head_ else items i)
        (CircularBuffer.mk cb.items_ (u32 (cb.head_ + 1) % cb.capacity_) cb.tail_ cb.capacity_
          cb.spin_) hwt1 hwc1 (by omega) (by omega)
    refine ⟨tail1, items1, cb1, ?_, hw1, ?_, hwcb1, ?_, hs1, hcap1⟩
    · rw [work_steal_loop]
      simp only [hc1, hc2, if_false, ha1, ha2, not_true_eq_false, ne_eq, not_false_eq_true]
      exact e
    · rw [hcont1, hcontt, hcontc, List.take_succ_cons, List.append_assoc]
      rfl
    · rw [hcontcb1, hcontc, List.drop_succ_cons]

/-- What `work_steal` does on two well-formed buffers whose locks are free, when `capacity_`
of the thief is at most `2^31`. -/
theorem work_steal_spec (self cb : CircularBuffer T) (hws : self.wf) (hwc : cb.wf)
    (hs : self.spin_ = false) (hc : cb.spin_ = false) (hsmall : self.capacity_ ≤ 2 ^ 31) :
    (cb.size < 2 → self.work_steal cb = .ok (false, self, cb)) ∧
    (2 ≤ cb.size →
      ∃ t v, self.work_steal cb = .ok (true, t, v) ∧
        t.contents
          = self.contents ++ cb.contents.take (min (cb.size / 2) (self.capacity - self.size)) ∧
        v.contents = cb.contents.drop (min (cb.size / 2) (self.capacity - self.size)) ∧
        t.wf ∧ v.wf ∧ t.spin_ = false ∧ v.spin_ = false ∧
        t.capacity_ = self.capacity_ ∧ v.capacity_ = cb.capacity_) := by
  constructor
  · intro hk
    have : cb.size / 2 = 0 := by omega
    simp only [work_steal, hs, Bool.false_eq_true, if_false, this, if_true]
  · intro hk
    have h2 : ¬ cb.size / 2 = 0 := by omega
    have hcap := capacity_eq self hws
    have hlt := size_lt self hws
    have hm : u32 (self.capacity + (2 ^ 32 - self.size)) = self.capacity - self.size := by
      have := hws.2.1
      simp only [u32]
      omega
    obtain ⟨tail1, items1, cb1, e, hw1, hcont1, hwcb1, hcontcb1, hs1, hcap1⟩ :=
      work_steal_loop_spec self.head_ self.capacity_ self.spin_ hsmall
        (min (cb.size / 2) (self.capacity - self.size)) self.tail_ self.items_ cb hws hwc
        (by
          have : (CircularBuffer.mk self.items_ self.head_ self.tail_ self.capacity_
            self.spin_).size = self.size := rfl
          omega)
        (by omega)
    refine ⟨_, cb1, ?_, hcont1, hcontcb1, hw1, hwcb1, hs, hs1.trans hc, rfl, hcap1⟩
    simp only [work_steal, hs, hc, Bool.false_eq_true, if_false, h2, hm, e]

end CircularBuffer

/-! ## The round-robin of the parallelizer -/

namespace Parallelizer

variable {Task : Type}

theorem next_cursor_eq (c N : Nat) (hc : c < N) (hN : N < 2 ^ 32) :
    (if u32 (c + 1) = N then 0 else u32 (c + 1)) = (c + 1) % N := by
  have e : u32 (c + 1) = c + 1 := Nat.mod_eq_of_lt (by omega)
  rw [e, mod_lt_twice _ _ (by omega)]
  split_ifs <;> omega

/-- The loop of `master_enqueue_task` when the `j` queues from the cursor on are full and the
next one is not: `j + 1` calls of `push_back`, the last of which succeeds. -/
theorem master_enqueue_loop_spec (task : Task) :
    ∀ (j fuel : Nat) (p : Parallelizer Task) (attempts : Nat), p.wf → j < fuel →
      (∀ i, i < j →
        ¬ (p.task_queues_ ((p.enqueue_thread_id_ + i) % p.num_slaves_)).size
          < (p.task_queues_ ((p.enqueue_thread_id_ + i) % p.num_slaves_)).capacity) →
      (p.task_queues_ ((p.enqueue_thread_id_ + j) % p.num_slaves_)).size
        < (p.task_queues_ ((p.enqueue_thread_id_ + j) % p.num_slaves_)).capacity →
      ∃ p1 q, master_enqueue_loop task fuel p attempts = .ok (attempts + j + 1, p1) ∧
        (p.task_queues_ ((p.enqueue_thread_id_ + j) % p.num_slaves_)).push_back true task
          = .ok (true, q) ∧
        q.wf ∧ q.spin_ = false ∧
        q.contents
          = (p.task_queues_ ((p.enqueue_thread_id_ + j) % p.num_slaves_)).contents ++ [task] ∧
        (∀ i, p1.task_queues_ i
          = if i = (p.enqueue_thread_id_ + j) % p.num_slaves_ then q else p.task_queues_ i) ∧
        p1.enqueue_thread_id_ = (p.enqueue_thread_id_ + j + 1) % p.num_slaves_ ∧
        p1.num_slaves_ = p.num_slaves_ := by
  intro j
  induction j with
  | zero =>
    intro fuel p attempts hw hfuel _ hfree
    obtain ⟨hc, hN, hq⟩ := hw
    simp only [Nat.add_zero, Nat.mod_eq_of_lt hc] at hfree ⊢
    obtain ⟨b, q, e, hqw, hqs, _, hb, hqc, _⟩ :=
      CircularBuffer.push_back_spec true (p.task_queues_ p.enqueue_thread_id_) task (hq _ hc).1
        (hq _ hc).2
    have hbt : b = true := hb.2 hfree
    subst hbt
    obtain ⟨fuel, rfl⟩ : ∃ f, fuel = f + 1 := ⟨fuel - 1, by omega⟩
    refine ⟨⟨fun i => if i = p.enqueue_thread_id_ then q else p.task_queues_ i,
      (p.enqueue_thread_id_ + 1) % p.num_slaves_, p.num_slaves_⟩, q, ?_, e, hqw, hqs,
      (hqc rfl).1, fun _ => rfl, rfl, rfl⟩
    rw [master_enqueue_loop]
    simp only [hc, not_true_eq_false, if_false, e, if_true]
    rw [← next_cursor_eq _ _ hc hN]
    split_ifs <;> rfl
  | succ j ih =>
    intro fuel p attempts hw hfuel hfull hfree
    obtain ⟨hc, hN, hq⟩ := hw
    have hfull0 := hfull 0 (Nat.succ_pos j)
    rw [Nat.add_zero, Nat.mod_eq_of_lt hc] at hfull0
    obtain ⟨b, q, e, _, _, _, hb, _, hsame⟩ :=
      CircularBuffer.push_back_spec true (p.task_queues_ p.enqueue_thread_id_) task (hq _ hc).1
        (hq _ hc).2
    have hbf : b = false := by
      cases b with
      | false => rfl
      | true => exact absurd (hb.1 rfl) hfull0
    subst hbf
    have hq0 : q = p.task_queues_ p.enqueue_thread_id_ := hsame rfl
    subst hq0
    obtain ⟨fuel, rfl⟩ : ∃ f, fuel = f + 1 := ⟨fuel - 1, by omega⟩
    have hqs : (fun i => if i = p.enqueue_thread_id_ then p.task_queues_ p.enqueue_thread_id_
        else p.task_queues_ i) = p.task_queues_ := by
      funext i
      split_ifs with h
      · rw [h]
      · rfl
    have hstep : master_enqueue_loop task (fuel + 1) p attempts
        = master_enqueue_loop task fuel
            ⟨p.task_queues_, (p.enqueue_thread_id_ + 1) % p.num_slaves_, p.num_slaves_⟩
            (attempts + 1) := by
      rw [master_enqueue_loop]
      simp only [hc, not_true_eq_false, if_false, e, Bool.false_eq_true, hqs]
      rw [← next_cursor_eq _ _ hc hN]
      split_ifs <;> rfl
    have hmod : ∀ i, ((p.enqueue_thread_id_ + 1) % p.num_slaves_ + i) % p.num_slaves_
        = (p.enqueue_thread_id_ + (i + 1)) % p.num_slaves_ := by
      intro i
      rw [Nat.mod_add_mod, Nat.add_assoc, Nat.add_comm 1 i]
    obtain ⟨p1, q1, e1, hpush, hq1w, hq1s, hq1c, hqueues, hcur, hnum⟩ :=
      ih fuel ⟨p.task_queues_, (p.enqueue_thread_id_ + 1) % p.num_slaves_, p.num_slaves_⟩
        (attempts + 1) ⟨Nat.mod_lt _ (by omega), hN, hq⟩ (by omega)
        (fun i hi => by
          show ¬ (p.task_queues_ (((p.enqueue_thread_id_ + 1) % p.num_slaves_ + i)
            % p.num_slaves_)).size < _
          rw [hmod i]
          exact hfull (i + 1) (by omega))
        (by
          show (p.task_queues_ (((p.enqueue_thread_id_ + 1) % p.num_slaves_ + j)
            % p.num_slaves_)).size < _
          rw [hmod j]
          exact hfree)
    refine ⟨p1, q1, ?_, ?_, hq1w, hq1s, ?_, ?_, ?_, hnum⟩
    · rw [hstep, e1]
      rw [show attempts + 1 + j + 1 = attempts + (j + 1) + 1 by omega]
    · rw [← hmod j]
      exact hpush
    · rw [← hmod j]
      exact hq1c
    · intro i
      rw [hqueues i, ← hmod j]
    · rw [hcur]
      show ((p.enqueue_thread_id_ + 1) % p.num_slaves_ + j + 1) % p.num_slaves_ = _
      rw [Nat.add_assoc, Nat.mod_add_mod]
      congr 1
      omega

theorem routed_congr (N i : Nat) : ∀ (tasks : List Task) (c c1 : Nat), c % N = c1 % N →
    routed N i c tasks = routed N i c1 tasks := by
  intro tasks
  induction tasks with
  | nil => intro c c1 _; rfl
  | cons task tasks ih =>
    intro c c1 h
    rw [routed, routed, h, ih (c + 1) (c1 + 1) (by rw [Nat.add_mod, h, ← Nat.add_mod])]

theorem no_queue_full_iff (p : Parallelizer Task) :
    p.no_queue_full = true ↔
      ∀ i, i < p.num_slaves_ → (p.task_queues_ i).size < (p.task_queues_ i).capacity := by
  simp [no_queue_full]

/-- While no queue is full, each call gives its task to the queue at the cursor and moves the
cursor by one. -/
theorem master_enqueue_all_spec (fuel : Nat) (hfuel : 1 ≤ fuel) :
    ∀ (tasks : List Task) (p : Parallelizer Task), p.wf → never_full fuel tasks p = true →
      ∃ p2, master_enqueue_all fuel tasks p = .ok p2 ∧ p2.num_slaves_ = p.num_slaves_ ∧
        p2.enqueue_thread_id_ = (p.enqueue_thread_id_ + tasks.length) % p.num_slaves_ ∧
        ∀ i, i < p.num_slaves_ →
          (p2.task_queues_ i).contents
            = (p.task_queues_ i).contents ++ routed p.num_slaves_ i p.enqueue_thread_id_ tasks := by
  intro tasks
  induction tasks with
  | nil =>
    intro p hw _
    exact ⟨p, rfl, rfl, by rw [List.length_nil, Nat.add_zero, Nat.mod_eq_of_lt hw.1],
      fun i _ => by rw [routed, List.append_nil]⟩
  | cons task tasks ih =>
    intro p hw hnf
    rw [never_full, Bool.and_eq_true] at hnf
    obtain ⟨hnf0, hnf1⟩ := hnf
    have hc := hw.1
    have hfree := (no_queue_full_iff p).1 hnf0 _ hc
    obtain ⟨p1, q, e, _, hqw, hqs, hqc, hqueues, hcur, hnum⟩ :=
      master_enqueue_loop_spec task 0 fuel p 0 hw (by omega) (fun i hi => absurd hi (by omega))
        (by rw [Nat.add_zero, Nat.mod_eq_of_lt hc]; exact hfree)
    simp only [Nat.add_zero, Nat.mod_eq_of_lt hc, Nat.zero_add] at e hqc hqueues hcur
    have e1 : p.master_enqueue_task fuel task = .ok (1, p1) := e
    rw [e1] at hnf1
    have hw1 : p1.wf := by
      refine ⟨by rw [hcur, hnum]; exact Nat.mod_lt _ (by omega), by rw [hnum]; exact hw.2.1, ?_⟩
      intro i hi
      rw [hqueues i]
      split_ifs
      · exact ⟨hqw, hqs⟩
      · exact hw.2.2 i (by rw [← hnum]; exact hi)
    obtain ⟨p2, e2, hnum2, hcur2, hcont2⟩ := ih p1 hw1 hnf1
    refine ⟨p2, ?_, hnum2.trans hnum, ?_, ?_⟩
    · rw [master_enqueue_all, e1]
      exact e2
    · rw [hcur2, hcur, hnum, Nat.mod_add_mod, List.length_cons]
      congr 1
      omega
    · intro i hi
      rw [hcont2 i (by rw [hnum]; exact hi), hqueues i, hnum, hcur, routed,
        routed_congr _ _ tasks _ (p.enqueue_thread_id_ + 1) (Nat.mod_mod _ _),
        Nat.mod_eq_of_lt hc]
      by_cases h : i = p.enqueue_thread_id_
      · rw [if_pos h, if_pos h.symm, hqc, List.append_assoc, h]
      · rw [if_neg h, if_neg (fun h1 => h h1.symm), List.nil_append]

end Parallelizer

/-- C26: `master_enqueue_task` with `N = num_slaves_` well-formed queues and the cursor
`c = enqueue_thread_id_`.  If at least one queue is not full, there is a first queue that is
not full in the cyclic order `c, c+1, ..., c+N-1 (mod N)`, say the one `j` places from `c`;
the call returns after `j + 1 ≤ N` calls of `push_back` (fuel `N` is enough), appends the task
to that queue, leaves every other queue as it is, and leaves the cursor at the index of that
queue plus one modulo `N`.  While no queue is full the `k`-th task of a series goes to queue
`(c + k) mod N`. -/
theorem C26_round_robin {Task : Type} (p : Parallelizer Task) (task : Task) (hw : p.wf)
    (hex : ∃ i, i < p.num_slaves_ ∧ (p.task_queues_ i).size < (p.task_queues_ i).capacity) :
    (∃ j p1, j < p.num_slaves_ ∧
      (∀ i, i < j →
        ¬ (p.task_queues_ ((p.enqueue_thread_id_ + i) % p.num_slaves_)).size
          < (p.task_queues_ ((p.enqueue_thread_id_ + i) % p.num_slaves_)).capacity) ∧
      (p.task_queues_ ((p.enqueue_thread_id_ + j) % p.num_slaves_)).size
        < (p.task_queues_ ((p.enqueue_thread_id_ + j) % p.num_slaves_)).capacity ∧
      (∀ fuel, p.num_slaves_ ≤ fuel → p.master_enqueue_task fuel task = .ok (j + 1, p1)) ∧
      (p1.task_queues_ ((p.enqueue_thread_id_ + j) % p.num_slaves_)).contents
        = (p.task_queues_ ((p.enqueue_thread_id_ + j) % p.num_slaves_)).contents ++ [task] ∧
      (∀ i, i ≠ (p.enqueue_thread_id_ + j) % p.num_slaves_ →
        p1.task_queues_ i = p.task_queues_ i) ∧
      p1.enqueue_thread_id_
        = ((p.enqueue_thread_id_ + j) % p.num_slaves_ + 1) % p.num_slaves_ ∧
      p1.num_slaves_ = p.num_slaves_) ∧
    (∀ (tasks : List Task) (fuel : Nat), 1 ≤ fuel →
      Parallelizer.never_full fuel tasks p = true →
      ∃ p2, Parallelizer.master_enqueue_all fuel tasks p = .ok p2 ∧
        p2.enqueue_thread_id_ = (p.enqueue_thread_id_ + tasks.length) % p.num_slaves_ ∧
        ∀ i, i < p.num_slaves_ →
          (p2.task_queues_ i).contents
            = (p.task_queues_ i).contents
              ++ Parallelizer.routed p.num_slaves_ i p.enqueue_thread_id_ tasks) := by
  constructor
  · obtain ⟨i0, hi0, hfree0⟩ := hex
    have hc := hw.1
    have hP : ∃ j, (p.task_queues_ ((p.enqueue_thread_id_ + j) % p.num_slaves_)).size
        < (p.task_queues_ ((p.enqueue_thread_id_ + j) % p.num_slaves_)).capacity ∧
        j < p.num_slaves_ := by
      refine ⟨(i0 + p.num_slaves_ - p.enqueue_thread_id_) % p.num_slaves_, ?_,
        Nat.mod_lt _ (by omega)⟩
      have e : (p.enqueue_thread_id_
          + (i0 + p.num_slaves_ - p.enqueue_thread_id_) % p.num_slaves_) % p.num_slaves_ = i0 := by
        rw [Nat.add_mod_mod, show p.enqueue_thread_id_ + (i0 + p.num_slaves_ - p.enqueue_thread_id_)
          = i0 + p.num_slaves_ by omega, Nat.add_mod_right, Nat.mod_eq_of_lt hi0]
      rw [e]
      exact hfree0
    have hj := Nat.find_spec hP
    have hmin : ∀ i, i < Nat.find hP →
        ¬ (p.task_queues_ ((p.enqueue_thread_id_ + i) % p.num_slaves_)).size
          < (p.task_queues_ ((p.enqueue_thread_id_ + i) % p.num_slaves_)).capacity := by
      intro i hi h
      exact Nat.find_min hP hi ⟨h, by omega⟩
    obtain ⟨p1, q, e, _, _, _, hqc, hqueues, hcur, hnum⟩ :=
      Parallelizer.master_enqueue_loop_spec task (Nat.find hP) (Nat.find hP + 1) p 0 hw
        (by omega) hmin hj.1
    refine ⟨Nat.find hP, p1, hj.2, hmin, hj.1, ?_, ?_, ?_, ?_, hnum⟩
    · intro fuel hfuel
      obtain ⟨p1a, qa, ea, _, _, _, _, hqueuesa, hcura, hnuma⟩ :=
        Parallelizer.master_enqueue_loop_spec task (Nat.find hP) fuel p 0 hw (by omega) hmin hj.1
      rw [Nat.zero_add] at e ea
      have hpq : qa = q := by
        have h1 := ‹CircularBuffer.push_back true _ task = Except.ok (true, qa)›
        have h2 := ‹CircularBuffer.push_back true _ task = Except.ok (true, q)›
        rw [h1] at h2
        injection h2 with h2
        injection h2 with _ h2
      have hp : p1a = p1 := by
        cases p1a
        cases p1
        simp only at hqueuesa hcura hnuma hqueues hcur hnum
        simp only [Parallelizer.mk.injEq]
        refine ⟨funext fun i => ?_, by rw [hcura, hcur], by rw [hnuma, hnum]⟩
        rw [hqueuesa i, hqueues i, hpq]
      show Parallelizer.master_enqueue_loop task fuel p 0 = _
      rw [ea, hp]
    · rw [hqueues, if_pos rfl, hqc]
    · intro i hi
      rw [hqueues, if_neg hi]
    · rw [hcur, Nat.mod_add_mod]
  · intro tasks fuel hfuel hnf
    obtain ⟨p2, e2, _, hcur2, hcont2⟩ := Parallelizer.master_enqueue_all_spec fuel hfuel tasks p hw hnf
    exact ⟨p2, e2, hcur2, hcont2⟩

theorem C26_round_robin_witness :
    par_three.wf ∧
    (∃ i, i < par_three.num_slaves_ ∧
      (par_three.task_queues_ i).size < (par_three.task_queues_ i).capacity) ∧
    ∃ j p1, j < par_three.num_slaves_ ∧
      (par_three.task_queues_ ((par_three.enqueue_thread_id_ + j) % par_three.num_slaves_)).size
        < (par_three.task_queues_
            ((par_three.enqueue_thread_id_ + j) % par_three.num_slaves_)).capacity ∧
      (∀ fuel, par_three.num_slaves_ ≤ fuel →
        par_three.master_enqueue_task fuel 7 = .ok (j + 1, p1)) ∧
      p1.num_slaves_ = par_three.num_slaves_ :=
  have hw : par_three.wf :=
    ⟨by decide, by decide, fun i hi => by
      have h3 : i < 3 := hi
      have h : i = 0 ∨ i = 1 ∨ i = 2 := by omega
      rcases h with rfl | rfl | rfl <;>
        exact ⟨by unfold CircularBuffer.wf; decide, by decide⟩⟩
  have hex : ∃ i, i < par_three.num_slaves_ ∧
      (par_three.task_queues_ i).size < (par_three.task_queues_ i).capacity :=
    ⟨2, by decide, by decide⟩
  ⟨hw, hex,
    let ⟨j, p1, h1, _, h3, h4, _, _, _, h8⟩ := (C26_round_robin par_three 7 hw hex).1
    ⟨j, p1, h1, h3, h4, h8⟩⟩

/-! ## The dataframe vector -/

namespace DataFrameVector

variable {T : Type}

theorem kRealChunkNumEntries_pos (k : DfvConst) : 1 ≤ k.kRealChunkNumEntries := by
  unfold DfvConst.kRealChunkNumEntries
  exact Nat.le_max_left _ _

theorem div_mod_ne (K i n : Nat) (h : i ≠ n) : ¬ (i / K = n / K ∧ i % K = n % K) := by
  intro ⟨h1, h2⟩
  apply h
  rw [← Nat.div_add_mod i K, ← Nat.div_add_mod n K, h1, h2]

theorem expand_eq (k : DfvConst) (v : DataFrameVector T) (num : Nat) :
    expand k v num
      = ⟨v.size_, v.num_chunk_ptrs + expand_chunks k num, v.chunks, v.chunk_dirty,
          v.resize_log
            ++ [u64 ((v.num_chunk_ptrs + expand_chunks k num) * k.kRealChunkNumEntries)]⟩ := by
  simp only [expand, generic_expand, expand_chunks]

theorem expand_chunks_eq (k : DfvConst) (num : Nat) (h1 : 1 ≤ num) (h2 : num < 2 ^ 64) :
    expand_chunks k num = (num - 1) / k.kRealChunkNumEntries + 1 := by
  have e : dec64 num = num - 1 := by
    unfold dec64
    rw [if_neg (by omega)]
  have hle : (num - 1) / k.kRealChunkNumEntries ≤ num - 1 := Nat.div_le_self _ _
  unfold expand_chunks
  rw [e]
  generalize (num - 1) / k.kRealChunkNumEntries = X at hle ⊢
  unfold u64
  omega

theorem kNumEntriesPerExpansion_bounds (k : DfvConst) :
    1 ≤ k.kNumEntriesPerExpansion ∧ k.kNumEntriesPerExpansion < 2 ^ 64 := by
  have hle : (DfvConst.kSizePerExpansion - 1) / k.sizeof_T ≤ DfvConst.kSizePerExpansion - 1 :=
    Nat.div_le_self _ _
  have hs : DfvConst.kSizePerExpansion = 4194304 := by decide
  unfold DfvConst.kNumEntriesPerExpansion
  rw [hs] at hle ⊢
  generalize (4194304 - 1) / k.sizeof_T = X at hle ⊢
  unfold u32
  omega

theorem pop_back_eq (v : DataFrameVector T) :
    pop_back v
      = ⟨dec64 v.size_, v.num_chunk_ptrs, v.chunks, v.chunk_dirty, v.resize_log⟩ := by
  simp only [pop_back]

theorem push_back_eq (k : DfvConst) (v : DataFrameVector T) (u : T)
    (hidx : v.size_ / k.kRealChunkNumEntries ≤ v.num_chunk_ptrs) :
    push_back k v u
      = .ok ⟨u64 (v.size_ + 1),
          if v.num_chunk_ptrs = v.size_ / k.kRealChunkNumEntries then
            v.num_chunk_ptrs + expand_chunks k k.kNumEntriesPerExpansion
          else v.num_chunk_ptrs,
          fun c o =>
            if c = v.size_ / k.kRealChunkNumEntries ∧ o = v.size_ % k.kRealChunkNumEntries then u
            else v.chunks c o,
          fun c => if c = v.size_ / k.kRealChunkNumEntries then true else v.chunk_dirty c,
          if v.num_chunk_ptrs = v.size_ / k.kRealChunkNumEntries then
            v.resize_log
              ++ [u64 ((v.num_chunk_ptrs + expand_chunks k k.kNumEntriesPerExpansion)
                    * k.kRealChunkNumEntries)]
          else v.resize_log⟩ := by
  by_cases hfull : v.num_chunk_ptrs = v.size_ / k.kRealChunkNumEntries
  · simp only [push_back, get_chunk_stats, ge_iff_le, hidx, not_true_eq_false, if_false, hfull,
      if_true, expand_eq, le_refl]
  · simp only [push_back, get_chunk_stats, ge_iff_le, hidx, not_true_eq_false, if_false, hfull]

theorem push_back_holds (k : DfvConst) (v : DataFrameVector T) (l : List T) (u : T)
    (h : holds k v l) (hlen : l.length + 1 < 2 ^ 64) :
    ∃ v1, push_back k v u = .ok v1 ∧ holds k v1 (l ++ [u]) ∧
      v.num_chunk_ptrs ≤ v1.num_chunk_ptrs := by
  obtain ⟨hsize, hcap, hel⟩ := h
  have hK := kRealChunkNumEntries_pos k
  have hidx : v.size_ / k.kRealChunkNumEntries ≤ v.num_chunk_ptrs := by
    rw [hsize]
    exact Nat.div_le_of_le_mul (by rw [Nat.mul_comm]; exact hcap)
  have hs1 : u64 (v.size_ + 1) = l.length + 1 := by
    rw [hsize]
    exact Nat.mod_eq_of_lt hlen
  have hE := kNumEntriesPerExpansion_bounds k
  have hch : 1 ≤ expand_chunks k k.kNumEntriesPerExpansion := by
    rw [expand_chunks_eq k _ hE.1 hE.2]
    exact Nat.le_add_left _ _
  have hlt : l.length < (l.length / k.kRealChunkNumEntries + 1) * k.kRealChunkNumEntries := by
    rw [Nat.mul_comm]
    exact Nat.lt_mul_div_succ _ hK
  refine ⟨_, push_back_eq k v u hidx, ⟨?_, ?_, ?_⟩, ?_⟩
  · show u64 (v.size_ + 1) = _
    rw [hs1, List.length_append, List.length_singleton]
  · rw [List.length_append, List.length_singleton]
    show l.length + 1 ≤ (if v.num_chunk_ptrs = v.size_ / k.kRealChunkNumEntries then
        v.num_chunk_ptrs + expand_chunks k k.kNumEntriesPerExpansion
      else v.num_chunk_ptrs) * k.kRealChunkNumEntries
    rw [hsize] at hidx ⊢
    have h2 : (l.length / k.kRealChunkNumEntries + 1) * k.kRealChunkNumEntries
        ≤ (if v.num_chunk_ptrs = l.length / k.kRealChunkNumEntries then
            v.num_chunk_ptrs + expand_chunks k k.kNumEntriesPerExpansion
          else v.num_chunk_ptrs) * k.kRealChunkNumEntries := by
      apply Nat.mul_le_mul_right
      split_ifs <;> omega
    omega
  · intro i hi
    rw [List.length_append, List.length_singleton] at hi
    show (l ++ [u])[i]? = some
      (if i / k.kRealChunkNumEntries = v.size_ / k.kRealChunkNumEntries ∧
          i % k.kRealChunkNumEntries = v.size_ % k.kRealChunkNumEntries then u
        else v.chunks (i / k.kRealChunkNumEntries) (i % k.kRealChunkNumEntries))
    rw [hsize]
    by_cases hil : i = l.length
    · subst hil
      rw [if_pos ⟨rfl, rfl⟩, List.getElem?_append_right (Nat.le_refl _), Nat.sub_self]
      rfl
    · have hi2 : i < l.length := by omega
      rw [if_neg (div_mod_ne _ _ _ hil), List.getElem?_append_left hi2]
      exact hel i hi2
  · show v.num_chunk_ptrs ≤ (if v.num_chunk_ptrs = v.size_ / k.kRealChunkNumEntries then
        v.num_chunk_ptrs + expand_chunks k k.kNumEntriesPerExpansion
      else v.num_chunk_ptrs)
    split_ifs <;> omega

theorem pop_back_holds (k : DfvConst) (v : DataFrameVector T) (l : List T)
    (h : holds k v l) (hlen : l.length < 2 ^ 64) (hpos : 1 ≤ l.length) :
    holds k (pop_back v) l.dropLast ∧ (pop_back v).num_chunk_ptrs = v.num_chunk_ptrs := by
  obtain ⟨hsize, hcap, hel⟩ := h
  rw [pop_back_eq]
  refine ⟨⟨?_, ?_, ?_⟩, rfl⟩
  · show dec64 v.size_ = _
    rw [hsize, List.length_dropLast]
    unfold dec64
    rw [if_neg (by omega)]
  · rw [List.length_dropLast]
    show l.length - 1 ≤ v.num_chunk_ptrs * k.kRealChunkNumEntries
    omega
  · intro i hi
    rw [List.length_dropLast] at hi
    have hi2 : i < l.length := by omega
    rw [List.dropLast_eq_take, List.getElem?_take_of_lt hi]
    exact hel i hi2

/-- A run of calls keeps the vector in step with the sequence. -/
theorem run_holds (k : DfvConst) : ∀ (ops : List (DfvOp T)) (v : DataFrameVector T) (l : List T),
    holds k v l → dfv_pops_allowed ops l = true → l.length + ops.length < 2 ^ 64 →
    ∃ v1, run k ops v = .ok v1 ∧ holds k v1 (dfv_sequence ops l) ∧
      v.num_chunk_ptrs ≤ v1.num_chunk_ptrs := by
  intro ops
  induction ops with
  | nil => intro v l h _ _; exact ⟨v, rfl, h, Nat.le_refl _⟩
  | cons op ops ih =>
    intro v l h hp hlen
    rw [List.length_cons] at hlen
    cases op with
    | push_back u =>
      have hl0 : l.length + 1 < 2 ^ 64 := by omega
      obtain ⟨v1, e1, h1, hn1⟩ := push_back_holds k v l u h hl0
      have hl1 : (l ++ [u]).length + ops.length < 2 ^ 64 := by
        rw [List.length_append, List.length_singleton]
        omega
      have hp1 : dfv_pops_allowed ops (l ++ [u]) = true := by
        rw [dfv_pops_allowed] at hp
        exact hp
      obtain ⟨v2, e2, h2, hn2⟩ := ih v1 (l ++ [u]) h1 hp1 hl1
      have e : run k (DfvOp.push_back u :: ops) v = .ok v2 := by
        rw [run, e1]
        exact e2
      exact ⟨v2, e, h2, Nat.le_trans hn1 hn2⟩
    | pop_back =>
      rw [dfv_pops_allowed, Bool.and_eq_true, decide_eq_true_eq] at hp
      have hl0 : l.length < 2 ^ 64 := by omega
      obtain ⟨hh, hn⟩ := pop_back_holds k v l h hl0 hp.1
      have hl1 : l.dropLast.length + ops.length < 2 ^ 64 := by
        rw [List.length_dropLast]
        omega
      obtain ⟨v2, e2, h2, hn2⟩ := ih (pop_back v) l.dropLast hh hp.2 hl1
      have e : run k (DfvOp.pop_back :: ops) v = .ok v2 := by
        rw [run]
        exact e2
      exact ⟨v2, e, h2, Nat.le_trans (Nat.le_of_eq hn.symm) hn2⟩

theorem sequence_length : ∀ (ops : List (DfvOp T)) (l : List T), dfv_pops_allowed ops l = true →
    (dfv_sequence ops l).length + dfv_num_pops ops = l.length + dfv_num_pushes ops := by
  intro ops
  induction ops with
  | nil => intro l _; rfl
  | cons op ops ih =>
    intro l hp
    cases op with
    | push_back u =>
      have := ih (l ++ [u]) hp
      rw [List.length_append, List.length_singleton] at this
      simp only [dfv_sequence, dfv_num_pops, dfv_num_pushes]
      omega
    | pop_back =>
      rw [dfv_pops_allowed, Bool.and_eq_true, decide_eq_true_eq] at hp
      have := ih l.dropLast hp.2
      rw [List.length_dropLast] at this
      simp only [dfv_sequence, dfv_num_pops, dfv_num_pushes]
      omega

theorem num_pushes_le : ∀ (ops : List (DfvOp T)), dfv_num_pushes ops ≤ ops.length := by
  intro ops
  induction ops with
  | nil => exact Nat.le_refl _
  | cons op ops ih =>
    cases op <;> simp only [dfv_num_pushes, List.length_cons] <;> omega

theorem fresh_eq (k : DfvConst) (chunks : Nat → Nat → T) :
    fresh k chunks
      = ⟨0, 1, chunks, fun _ => false, [u64 ((0 + 1) * k.kRealChunkNumEntries)]⟩ := by
  simp only [fresh, generic_expand, List.nil_append, Nat.zero_add]

end DataFrameVector

/-- C27: `DataFrameVector<T>` behaves as a sequence.  From a new vector, after a series of
`push_back` and `pop_back` calls (fewer than `2^64` of them, `pop_back` only when
`size() ≥ 1`) every call has returned, `size()` is the number of pushes minus the number of
pops, `empty()` holds exactly when `size() = 0`, and for every `i < size()`, `at(i)` and
`at_mut(i)` give the `i`-th element of the list obtained by appending on `push_back` and
dropping the last element on `pop_back`; `front()` is element 0 and `back()` is element
`size() - 1`.  Element `i` is in chunk `i / kRealChunkNumEntries` at offset
`i % kRealChunkNumEntries`. -/
theorem C27_sequence {T : Type} (k : DfvConst) (chunks : Nat → Nat → T) (ops : List (DfvOp T))
    (hp : dfv_pops_allowed ops [] = true) (hlen : ops.length < 2 ^ 64) :
    ∃ v, DataFrameVector.run k ops (DataFrameVector.fresh k chunks) = .ok v ∧
      v.size = (dfv_sequence ops []).length ∧
      v.size + dfv_num_pops ops = dfv_num_pushes ops ∧
      (v.empty = true ↔ v.size = 0) ∧
      (∀ i, i < v.size →
        (dfv_sequence ops [])[i]? = some (v.chunks (i / k.kRealChunkNumEntries)
          (i % k.kRealChunkNumEntries)) ∧
        (DataFrameVector.at_const k v i).toOption = (dfv_sequence ops [])[i]? ∧
        ((DataFrameVector.at_mut k v i).toOption.map Prod.fst) = (dfv_sequence ops [])[i]?) ∧
      (1 ≤ v.size →
        (DataFrameVector.front k v).toOption = (dfv_sequence ops [])[0]? ∧
        (DataFrameVector.back k v).toOption = (dfv_sequence ops [])[v.size - 1]?) := by
  have h0 : DataFrameVector.holds k (DataFrameVector.fresh k chunks) ([] : List T) := by
    rw [DataFrameVector.fresh_eq]
    exact ⟨rfl, Nat.zero_le _, fun i hi => absurd hi (Nat.not_lt_zero _)⟩
  have hl0 : ([] : List T).length + ops.length < 2 ^ 64 := by
    rw [List.length_nil, Nat.zero_add]
    exact hlen
  obtain ⟨v, e, ⟨hsize, hcap, hel⟩, _⟩ := DataFrameVector.run_holds k ops _ [] h0 hp hl0
  have hK := DataFrameVector.kRealChunkNumEntries_pos k
  have hat : ∀ i, i < v.size →
      (dfv_sequence ops [])[i]? = some (v.chunks (i / k.kRealChunkNumEntries)
          (i % k.kRealChunkNumEntries)) ∧
        (DataFrameVector.at_const k v i).toOption = (dfv_sequence ops [])[i]? ∧
        ((DataFrameVector.at_mut k v i).toOption.map Prod.fst) = (dfv_sequence ops [])[i]? := by
    intro i hi
    have hi1 : i < (dfv_sequence ops []).length := by rw [← hsize]; exact hi
    have hi2 : i < v.num_chunk_ptrs * k.kRealChunkNumEntries := Nat.lt_of_lt_of_le hi1 hcap
    have hchunk : v.num_chunk_ptrs > i / k.kRealChunkNumEntries :=
      (Nat.div_lt_iff_lt_mul hK).2 hi2
    refine ⟨hel i hi1, ?_, ?_⟩
    · simp only [DataFrameVector.at_const, DataFrameVector.get_chunk_stats, hchunk,
        not_true_eq_false, if_false]
      rw [hel i hi1]
      rfl
    · simp only [DataFrameVector.at_mut, DataFrameVector.get_chunk_stats, hchunk,
        not_true_eq_false, if_false]
      rw [hel i hi1]
      rfl
  have hseq := DataFrameVector.sequence_length ops ([] : List T) hp
  rw [List.length_nil, Nat.zero_add] at hseq
  have hsz : v.size = (dfv_sequence ops []).length := hsize
  refine ⟨v, e, hsz, by rw [hsz]; exact hseq, ?_, hat, ?_⟩
  · unfold DataFrameVector.empty
    exact decide_eq_true_iff
  · intro hpos
    refine ⟨(hat 0 (Nat.lt_of_lt_of_le Nat.zero_lt_one hpos)).2.1, ?_⟩
    have e1 : dec64 v.size = v.size - 1 := by
      unfold dec64
      rw [if_neg (by omega)]
    rw [DataFrameVector.back, e1]
    exact (hat (v.size - 1) (by omega)).2.1

theorem C27_sequence_witness :
    dfv_pops_allowed [DfvOp.push_back 5, DfvOp.push_back 6, DfvOp.pop_back, DfvOp.push_back 7]
      ([] : List Nat) = true ∧
    ∃ v, DataFrameVector.run dfv_long
        [DfvOp.push_back 5, DfvOp.push_back 6, DfvOp.pop_back, DfvOp.push_back 7]
        (DataFrameVector.fresh dfv_long (fun _ _ => 0)) = .ok v ∧
      v.size = 2 ∧ (DataFrameVector.at_const dfv_long v 1).toOption = some 7 :=
  have hp : dfv_pops_allowed
      [DfvOp.push_back 5, DfvOp.push_back 6, DfvOp.pop_back, DfvOp.push_back 7]
      ([] : List Nat) = true := by decide
  ⟨hp,
    let ⟨v, h1, h2, _, _, h5, _⟩ := C27_sequence dfv_long (fun _ _ => 0)
      [DfvOp.push_back 5, DfvOp.push_back 6, DfvOp.pop_back, DfvOp.push_back 7] hp (by decide)
    ⟨v, h1, h2, (h5 1 (by rw [h2]; decide)).2.1⟩⟩

namespace DataFrameVector

variable {T : Type}

theorem kRealChunkNumEntries_lt (k : DfvConst) : k.kRealChunkNumEntries < 2 ^ 32 := by
  unfold DfvConst.kRealChunkNumEntries
  apply Nat.max_lt.2
  exact ⟨Nat.mod_lt _ (by norm_num), Nat.mod_lt _ (by norm_num)⟩

theorem to_int64_small (x : Nat) (h : x < 2 ^ 63) : to_int64 x = (x : Int) := by
  have e : u64 x = x := Nat.mod_eq_of_lt (by omega)
  unfold to_int64
  rw [e, if_pos h]

/-- The difference that `reserve` computes, when both values are below `2^63`. -/
theorem reserve_diff (count cap : Nat) (h1 : count < 2 ^ 63) (h2 : cap < 2 ^ 63) :
    to_int64 (Int.toNat (((count : Int) - (cap : Int)) % 2 ^ 64)) = (count : Int) - (cap : Int) := by
  unfold to_int64 u64
  split_ifs <;> omega

end DataFrameVector

/-- C28: `reserve(count)` on a vector, outside a dereference scope, with `count` and
`capacity()` below `2^63`.  The call returns; afterwards `capacity() ≥ count`, `capacity()` has
not decreased, and `size()` and every entry of every chunk are as before.  If
`count ≤ capacity()` before the call the vector is unchanged (nothing is allocated);
otherwise the least number of chunks that reaches `count` is added, and
`capacity() < count + kRealChunkNumEntries`.  `capacity()` is a multiple of
`kRealChunkNumEntries` before and after. -/
theorem C28_reserve {T : Type} (k : DfvConst) (worker : Nat) (st : ScopeState)
    (v : DataFrameVector T) (count : Nat)
    (hscope : DerefScope.is_in_deref_scope worker st = false)
    (hcount : count < 2 ^ 63) (hcap : DataFrameVector.capacity k v < 2 ^ 63)
    (hnowrap : v.num_chunk_ptrs * k.kRealChunkNumEntries < 2 ^ 64) :
    ∃ v1, DataFrameVector.reserve k worker st v count = .ok v1 ∧
      count ≤ DataFrameVector.capacity k v1 ∧
      DataFrameVector.capacity k v ≤ DataFrameVector.capacity k v1 ∧
      v1.size = v.size ∧ v1.chunks = v.chunks ∧
      (count ≤ DataFrameVector.capacity k v → v1 = v) ∧
      (DataFrameVector.capacity k v < count →
        DataFrameVector.capacity k v1 < count + k.kRealChunkNumEntries ∧
        v.num_chunk_ptrs < v1.num_chunk_ptrs ∧
        ∀ n, count ≤ (v.num_chunk_ptrs + n) * k.kRealChunkNumEntries →
          v1.num_chunk_ptrs ≤ v.num_chunk_ptrs + n) ∧
      k.kRealChunkNumEntries ∣ DataFrameVector.capacity k v ∧
      k.kRealChunkNumEntries ∣ DataFrameVector.capacity k v1 := by
  have hK := DataFrameVector.kRealChunkNumEntries_pos k
  have hK32 := DataFrameVector.kRealChunkNumEntries_lt k
  have hcapv : DataFrameVector.capacity k v = v.num_chunk_ptrs * k.kRealChunkNumEntries :=
    Nat.mod_eq_of_lt hnowrap
  have hdiff := DataFrameVector.reserve_diff count (DataFrameVector.capacity k v) hcount hcap
  have hres : DataFrameVector.reserve k worker st v count
      = if (count : Int) - (DataFrameVector.capacity k v : Int) > 0 then
          .ok (DataFrameVector.expand k v
            ((count : Int) - (DataFrameVector.capacity k v : Int)).toNat)
        else .ok v := by
    simp only [DataFrameVector.reserve, hscope, Bool.false_eq_true, if_false,
      DataFrameVector.to_int64_small count hcount,
      DataFrameVector.to_int64_small _ hcap, hdiff]
  by_cases hle : count ≤ DataFrameVector.capacity k v
  · have hneg : ¬ (count : Int) - (DataFrameVector.capacity k v : Int) > 0 := by omega
    rw [if_neg hneg] at hres
    refine ⟨v, hres, hle, Nat.le_refl _, rfl, rfl, fun _ => rfl, fun h => absurd h (by omega),
      ?_, ?_⟩ <;>
    · rw [hcapv]
      exact Dvd.intro_left _ rfl
  · have hpos : (count : Int) - (DataFrameVector.capacity k v : Int) > 0 := by omega
    have htn : ((count : Int) - (DataFrameVector.capacity k v : Int)).toNat
        = count - DataFrameVector.capacity k v := by omega
    rw [if_pos hpos, htn, DataFrameVector.expand_eq,
      DataFrameVector.expand_chunks_eq k _ (by omega) (by omega)] at hres
    have hdm := Nat.div_add_mod (count - DataFrameVector.capacity k v - 1) k.kRealChunkNumEntries
    have hmod := Nat.mod_lt (count - DataFrameVector.capacity k v - 1) hK
    have hnew : (v.num_chunk_ptrs
          + ((count - DataFrameVector.capacity k v - 1) / k.kRealChunkNumEntries + 1))
        * k.kRealChunkNumEntries
        = DataFrameVector.capacity k v
          + k.kRealChunkNumEntries
            * ((count - DataFrameVector.capacity k v - 1) / k.kRealChunkNumEntries)
          + k.kRealChunkNumEntries := by
      rw [hcapv]
      ring
    have hcap1 : DataFrameVector.capacity k
        (⟨v.size_, v.num_chunk_ptrs
            + ((count - DataFrameVector.capacity k v - 1) / k.kRealChunkNumEntries + 1),
          v.chunks, v.chunk_dirty,
          v.resize_log ++ [u64 ((v.num_chunk_ptrs
            + ((count - DataFrameVector.capacity k v - 1) / k.kRealChunkNumEntries + 1))
            * k.kRealChunkNumEntries)]⟩ : DataFrameVector T)
        = (v.num_chunk_ptrs
            + ((count - DataFrameVector.capacity k v - 1) / k.kRealChunkNumEntries + 1))
          * k.kRealChunkNumEntries := by
      show u64 _ = _
      apply Nat.mod_eq_of_lt
      rw [hnew]
      omega
    refine ⟨_, hres, ?_, ?_, rfl, rfl, fun h => absurd h hle, fun _ => ⟨?_, ?_, ?_⟩, ?_, ?_⟩
    · rw [hcap1, hnew]
      omega
    · rw [hcap1, hnew]
      omega
    · rw [hcap1, hnew]
      omega
    · exact Nat.lt_add_of_pos_right (Nat.succ_pos _)
    · intro n hn
      show v.num_chunk_ptrs
        + ((count - DataFrameVector.capacity k v - 1) / k.kRealChunkNumEntries + 1)
        ≤ v.num_chunk_ptrs + n
      have h1 : (v.num_chunk_ptrs + n) * k.kRealChunkNumEntries
          = DataFrameVector.capacity k v + n * k.kRealChunkNumEntries := by
        rw [hcapv]
        ring
      rw [h1] at hn
      have h2 : count - DataFrameVector.capacity k v - 1 < n * k.kRealChunkNumEntries := by
        omega
      have h3 := (Nat.div_lt_iff_lt_mul hK).2 h2
      omega
    · rw [hcapv]
      exact Dvd.intro_left _ rfl
    · rw [hcap1]
      exact Dvd.intro_left _ rfl

theorem C28_reserve_witness :
    ∃ v1, DataFrameVector.reserve dfv_long 0 scope_idle
        (DataFrameVector.fresh dfv_long (fun _ _ => (0 : Nat))) 130 = .ok v1 ∧
      130 ≤ DataFrameVector.capacity dfv_long v1 ∧
      dfv_long.kRealChunkNumEntries ∣ DataFrameVector.capacity dfv_long v1 :=
  let ⟨v1, h1, h2, _, _, _, _, _, _, h9⟩ :=
    C28_reserve dfv_long 0 scope_idle (DataFrameVector.fresh dfv_long (fun _ _ => (0 : Nat))) 130
      (by decide) (by decide) (by decide) (by decide)
  ⟨v1, h1, h2, h9⟩

/-! ## The lookup of the hopscotch table -/

/-- C30: the code at the failing input.  Bucket 3 has one entry, a present pointer to an
object with the 2-byte id `00 02` and the value `AB CD`; the key of the lookup is the two
bytes `00 01`, which hash to bucket 3.  The id and the key have the same length and differ in
their second byte, so no entry holds the key; but `strncmp` stops at the byte 0 that both
begin with and returns 0, and `__get` reports a hit: it returns `false`, sets `*val_len` to 2
and copies `AB CD` to `val`. -/
theorem C30_strncmp_hit :
    ((Object.mk 0x200005).get_obj_id_len mem_table = 2 ∧
      (Object.mk 0x200005).get_obj_id mem_table = 0x200005 + 19 ∧
      load8 mem_table (0x200005 + 19) = load8 mem_table 0x300000 ∧
      load8 mem_table (0x200005 + 20) ≠ load8 mem_table 0x300001) ∧
    ∃ h w, GenericConcurrentHopscotch.__get env_full henv_three 4 4 2 0x300000 0x400000
        table_one_entry ⟨mem_table, ⟨[]⟩, []⟩ = .ok (false, some 2, h, w) ∧
      load8 w.mem 0x400000 = 0xAB ∧ load8 w.mem 0x400001 = 0xCD :=
  ⟨⟨by decide, by decide, by decide, by decide⟩, _, _, rfl, by decide, by decide⟩

/-! ## The move of a pointer -/

/-- What `move` does when `other` is present, its object lies at `a`, and the lock entry of
the key is not held. -/
theorem move_present (fuel : Nat) (self other : GenericUniquePtr) (reset_value : Nat)
    (w : World) (a : Nat) (hw : other.meta_.metadata_ < 2 ^ 64)
    (ha : other.meta_.get_object_data_addr = a + 10) (hp : other.meta_.is_present = true)
    (hl : ¬ w.obj_locker_.holds (move_key other w.mem)) :
    move_key other w.mem = loadN w.mem (a + 10 + loadN w.mem (a + 6) 2) 8 ∧
    self.move (fuel + 1) other reset_value w =
      .ok (⟨⟨self.meta_.self_addr, other.meta_.metadata_⟩⟩,
        ⟨⟨other.meta_.self_addr, reset_value⟩⟩,
        { mem := storeN w.mem a self.meta_.self_addr 6,
          obj_locker_ := w.obj_locker_,
          trace := w.trace ++ [Event.lock_object (move_key other w.mem),
            Event.unlock_object (move_key other w.mem)] }) := by
  obtain ⟨ho, hb⟩ := object_of_data_addr other.meta_ a hw ha
  obtain ⟨-, -, -, r4, -, -, -⟩ := object_reads a w.mem hb
  obtain ⟨-, -, -, w4, -, -, -, -, -, -⟩ := object_writes ⟨a⟩ w.mem
    (by show a + 10 ≤ 2 ^ 64; omega)
  have hw4 : (Object.mk a).set_ptr_addr self.meta_.self_addr w.mem
      = storeN w.mem a self.meta_.self_addr 6 := w4 _
  have hl2 := loadN_lt 2 w.mem (a + 6)
  have hkey : move_key other w.mem
      = get_obj_id_fragment 8 (a + 10 + loadN w.mem (a + 6) 2) w.mem := by
    simp only [move_key, hp, if_true, GenericUniquePtr.object, ho, r4]
  have hfrag : get_obj_id_fragment 8 (a + 10 + loadN w.mem (a + 6) 2)
      (storeN w.mem a self.meta_.self_addr 6) = move_key other w.mem := by
    rw [hkey]
    apply get_obj_id_fragment_congr
    intro i _ _
    exact storeN_outside _ _ _ _ _ (Or.inr (by omega))
  have hk := lock_then_unlock w.obj_locker_ (move_key other w.mem) hl
  refine ⟨by rw [hkey]; simp only [get_obj_id_fragment, ge_iff_le, le_refl, if_true], ?_⟩
  unfold GenericUniquePtr.move
  simp only [hp, if_true, GenericUniquePtr.object, ho, r4, FarMemManager.lock_object,
    bne_self_eq_false, Bool.false_eq_true, if_false, hw4]
  rw [← hkey]
  simp only [hk.1, if_true, FarMemManager.unlock_object, hw4, hfrag, hk.2,
    FarMemPtrMeta.from_uint64_t, FarMemPtrMeta.to_uint64_t, List.append_assoc,
    List.singleton_append]

/-- What `move` does when `other` is not present and the lock entry of the key is not held. -/
theorem move_absent (fuel : Nat) (self other : GenericUniquePtr) (reset_value : Nat)
    (w : World) (hp : other.meta_.is_present = false)
    (hl : ¬ w.obj_locker_.holds (move_key other w.mem)) :
    move_key other w.mem = u64 other.meta_.get_object_id ∧
    self.move (fuel + 1) other reset_value w =
      .ok (⟨⟨self.meta_.self_addr, other.meta_.metadata_⟩⟩,
        ⟨⟨other.meta_.self_addr, reset_value⟩⟩,
        { mem := w.mem,
          obj_locker_ := w.obj_locker_,
          trace := w.trace ++ [Event.lock_object (move_key other w.mem),
            Event.unlock_object (move_key other w.mem)] }) := by
  have hkey : move_key other w.mem = u64 other.meta_.get_object_id := by
    simp only [move_key, hp, Bool.false_eq_true, if_false]
  have hk := lock_then_unlock w.obj_locker_ (move_key other w.mem) hl
  refine ⟨hkey, ?_⟩
  unfold GenericUniquePtr.move
  simp only [hp, Bool.false_eq_true, if_false, FarMemManager.lock_object_local,
    bne_self_eq_false]
  rw [← hkey]
  simp only [hk.1, if_true, FarMemManager.unlock_object_local, hk.2,
    FarMemPtrMeta.from_uint64_t, FarMemPtrMeta.to_uint64_t, List.append_assoc,
    List.singleton_append]
  rw [← hkey]
  simp only [hk.2]

/-- C34: let `a` and `b` be two pointers, `a` at an address below `2^48`, `b` holding a 64-bit
word, the lock entry that the move takes being free.  Then `a.move(b, kNull)`, which is what
`a = std::move(b)` does, returns; afterwards the word of `a` is the word that `b` had, and `b`
is null and not present.  If `b` was present, with its object at `o`, then `a` is present and
designates the object at `o`, the back pointer of that object is the address of `a`, and no
byte outside the six bytes of the back pointer has changed; otherwise memory is unchanged.
The run has one lock and one unlock, of the same key, and the locker is as before. -/
theorem C34_move_transfers (fuel : Nat) (a b : GenericUniquePtr) (w : World) (o : Nat)
    (hw : b.meta_.metadata_ < 2 ^ 64) (hs : a.meta_.self_addr < 2 ^ 48)
    (ho : b.meta_.is_present = true → b.meta_.get_object_data_addr = o + 10)
    (hl : ¬ w.obj_locker_.holds (move_key b w.mem)) :
    ∃ (a1 b1 : GenericUniquePtr) (w1 : World),
      a.move_assign (fuel + 1) b w = .ok (a1, b1, w1) ∧
      a1.meta_.metadata_ = b.meta_.metadata_ ∧ a1.meta_.self_addr = a.meta_.self_addr ∧
      b1.is_null = true ∧ b1.meta_.is_present = false ∧
      b1.meta_.self_addr = b.meta_.self_addr ∧
      (b.meta_.is_present = true →
        a1.meta_.is_present = true ∧ a1.object = ⟨o⟩ ∧
        (Object.mk o).get_ptr_addr w1.mem = a.meta_.self_addr ∧
        ∀ x, x < o ∨ o + 6 ≤ x → w1.mem x = w.mem x) ∧
      (b.meta_.is_present = false → w1.mem = w.mem) ∧
      w1.trace = w.trace ++ [Event.lock_object (move_key b w.mem),
        Event.unlock_object (move_key b w.mem)] ∧
      ¬ w1.obj_locker_.holds (move_key b w.mem) ∧
      w1.obj_locker_ = w.obj_locker_ := by
  have hnull : FarMemPtrMeta.is_null ⟨b.meta_.self_addr, FarMemPtrMeta.kNull⟩ = true := by
    rw [FarMemPtrMeta.is_null_iff]
    show FarMemPtrMeta.kNull % 2 ^ 64 / 256 = 1
    decide
  have hnp : FarMemPtrMeta.is_present ⟨b.meta_.self_addr, FarMemPtrMeta.kNull⟩ = false := by
    cases h : FarMemPtrMeta.is_present ⟨b.meta_.self_addr, FarMemPtrMeta.kNull⟩
    · rfl
    · have h2 : FarMemPtrMeta.kNull / 256 % 2 = 0 := (FarMemPtrMeta.is_present_iff _).1 h
      exact absurd h2 (by decide)
  cases hp : b.meta_.is_present
  · obtain ⟨-, hm⟩ := move_absent fuel a b FarMemPtrMeta.kNull w hp hl
    exact ⟨_, _, _, hm, rfl, rfl, hnull, hnp, rfl, fun h => absurd h (by decide),
      fun _ => rfl, rfl, hl, rfl⟩
  · have ha := ho hp
    obtain ⟨-, hm⟩ := move_present fuel a b FarMemPtrMeta.kNull w o hw ha hp hl
    obtain ⟨hob, hb⟩ := object_of_data_addr b.meta_ o hw ha
    obtain ⟨-, -, -, -, -, -, w7, -, -, -⟩ := object_writes ⟨o⟩
      (storeN w.mem o a.meta_.self_addr 6) (by show o + 10 ≤ 2 ^ 64; omega)
    refine ⟨_, _, _, hm, rfl, rfl, hnull, hnp, rfl, fun _ => ⟨?_, ?_, ?_, ?_⟩,
      fun h => absurd h (by decide), rfl, hl, rfl⟩
    · exact hp
    · exact hob
    · show (Object.mk o).get_ptr_addr (storeN w.mem o a.meta_.self_addr 6) = a.meta_.self_addr
      rw [w7, loadN_storeN]
      exact Nat.mod_eq_of_lt (by norm_num; omega)
    · intro x hx
      exact storeN_outside _ _ _ _ _ hx

theorem C34_move_transfers_witness :
    ∃ (a1 b1 : GenericUniquePtr) (w1 : World),
      ptr_target.move_assign 1 ptr_fresh world_one_object = .ok (a1, b1, w1) ∧
      a1.meta_.metadata_ = ptr_fresh.meta_.metadata_ ∧ b1.is_null = true ∧
      (Object.mk 0x200005).get_ptr_addr w1.mem = 0x2000 ∧
      w1.obj_locker_ = world_one_object.obj_locker_ :=
  let ⟨a1, b1, w1, h1, h2, _, h4, _, _, h7, _, _, _, h11⟩ :=
    C34_move_transfers 0 ptr_target ptr_fresh world_one_object 0x200005 (by decide) (by decide)
      (fun _ => by decide) (by decide)
  ⟨a1, b1, w1, h1, h2, h4, (h7 (by decide)).2.2.1, h11⟩

/-- C31 fails on the code: the object at `0x200005` has the one-byte id `2A` and is followed
in memory by another object.  `_free` and `mutator_migrate_object` lock and unlock the key
`get_obj_id_fragment(1, id) = 0x2A`, whereas `move` hands the length `sizeof(uint64_t)` to the
lock and so locks and unlocks the key made of the eight bytes at the id, seven of which belong
to the next object. -/
theorem C31_move_locks_other_key :
    (Object.mk 0x200005).get_obj_id_len mem_two_objects = 1 ∧
    get_obj_id_fragment 1 ((Object.mk 0x200005).get_obj_id mem_two_objects) mem_two_objects
      = 0x2A ∧
    (ptr_fresh._free world_two_objects).toOption.map (fun r => r.2.trace)
      = some [Event.lock_object 0x2A, Event.unlock_object 0x2A] ∧
    (ptr_evacuating.mutator_migrate_object env_full world_two_objects).toOption.map
        (fun r => r.2.2.trace)
      = some [Event.mutator_migrate_object, Event.lock_object 0x2A, Event.unlock_object 0x2A] ∧
    (ptr_target.move 1 ptr_fresh FarMemPtrMeta.kNull world_two_objects).toOption.map
        (fun r => r.2.2.trace)
      = some [Event.lock_object 0x010000000010082A, Event.unlock_object 0x010000000010082A] := by
  refine ⟨by decide, by decide, by decide, by decide, by decide⟩

/-! ## The counters of the dereference scopes -/

theorem Status.toNat_inj (a b : Status) : a.toNat = b.toNat ↔ a = b := by
  cases a <;> cases b <;> simp [Status.toNat]

/-- The sum of `get_num_threads` after the counter of index `idx` of one core of the pointer
table has gone up by `d`. -/
theorem get_num_threads_loop_add (status : Status) (A B : ScopeState) (c idx : Nat) (d : Int)
    (hp : B.num_threads_on_status_ptrs = A.num_threads_on_status_ptrs)
    (h1 : A.num_threads_on_status_ptrs c = true)
    (hB : ∀ c1 i, B.num_threads_on_status c1 i =
      if c1 = c ∧ i = idx then wrap32 (A.num_threads_on_status c1 i + d)
      else A.num_threads_on_status c1 i) :
    ∀ n, (DerefScope.get_num_threads_loop status B n - DerefScope.get_num_threads_loop status A n
      - (if c < n ∧ status.toNat = idx then d else 0)) % 2 ^ 32 = 0 := by
  intro n
  induction n with
  | zero => simp [DerefScope.get_num_threads_loop]
  | succ n ih =>
    simp only [DerefScope.get_num_threads_loop, hp, hB]
    by_cases hs : status.toNat = idx
    · by_cases e1 : n = c
      · subst e1
        simp only [hs, and_self, if_true, h1, Nat.lt_irrefl, false_and, if_false,
          Nat.lt_succ_self, true_and] at ih ⊢
        simp only [wrap32] at ih ⊢
        omega
      · have a1 : (c < n + 1) ↔ (c < n) := by omega
        simp only [hs, and_true, e1, if_false, a1] at ih ⊢
        split
        · simp only [wrap32] at ih ⊢
          split_ifs at ih ⊢ <;> omega
        · exact ih
    · simp only [hs, and_false, if_false, Int.sub_zero] at ih ⊢
      split
      · simp only [wrap32] at ih ⊢
        omega
      · exact ih

/-- The sum of `get_num_threads` reads the pointer table and the counters only. -/
theorem get_num_threads_loop_congr (status : Status) (A B : ScopeState)
    (hp : B.num_threads_on_status_ptrs = A.num_threads_on_status_ptrs)
    (hc : B.num_threads_on_status = A.num_threads_on_status) :
    ∀ n, DerefScope.get_num_threads_loop status B n
      = DerefScope.get_num_threads_loop status A n := by
  intro n
  induction n with
  | zero => rfl
  | succ n ih => simp only [DerefScope.get_num_threads_loop, hp, hc, ih]

/-- The number of workers with a given status after one worker has changed its status. -/
theorem count_status_update (s : Status) (A B : ScopeState) (w : Nat) (x : Status)
    (hB : ∀ v, B.th_status v = if v = w then x else A.th_status v) :
    ∀ W, count_status s B W + (if w < W ∧ A.th_status w = s then 1 else 0)
      = count_status s A W + (if w < W ∧ x = s then 1 else 0) := by
  intro W
  induction W with
  | zero => simp [count_status]
  | succ W ih =>
    simp only [count_status, hB]
    by_cases e : W = w
    · subst e
      simp only [if_true, Nat.lt_irrefl, false_and, if_false, Nat.lt_succ_self, true_and,
        Nat.add_zero] at ih ⊢
      split_ifs <;> omega
    · have a1 : (w < W + 1) ↔ (w < W) := by omega
      simp only [e, if_false, a1] at ih ⊢
      split_ifs at ih ⊢ <;> omega

theorem count_status_congr (s : Status) (A B : ScopeState) (h : B.th_status = A.th_status) :
    ∀ W, count_status s B W = count_status s A W := by
  intro W
  induction W with
  | zero => rfl
  | succ W ih => simp only [count_status, h, ih]

theorem count_status_le (s : Status) (st : ScopeState) : ∀ W, count_status s st W ≤ W := by
  intro W
  induction W with
  | zero => exact Nat.le_refl _
  | succ W ih =>
    simp only [count_status]
    split_ifs <;> omega

theorem count_status_zero (s : Status) (st : ScopeState) :
    ∀ W, count_status s st W = 0 → ∀ w, w < W → st.th_status w ≠ s := by
  intro W
  induction W with
  | zero => intro _ w hw; omega
  | succ W ih =>
    intro h w hw
    simp only [count_status] at h
    by_cases e : st.th_status W = s
    · rw [if_pos e] at h
      omega
    · rw [if_neg e] at h
      rcases Nat.lt_succ_iff_lt_or_eq.1 hw with h1 | h1
      · exact ih (by omega) w h1
      · rw [h1]
        exact e

/-- The fields of the state that a successful `enter_deref_scope` leaves. -/
theorem enter_fields (wait : ScopeState → ScopeState) (hwait : wait_frame wait)
    (worker core : Nat) (st st1 : ScopeState)
    (he : st.expected_status = Status.InScopeV0 ∨ st.expected_status = Status.InScopeV1)
    (h : DerefScope.enter_deref_scope wait worker core st = .ok st1) :
    st.th_status worker = Status.OutofScope ∧
    ∃ e, (e = Status.InScopeV0 ∨ e = Status.InScopeV1) ∧ st1.expected_status = e ∧
      (∀ v, st1.th_status v = if v = worker then e else st.th_status v) ∧
      (∀ c i, st1.num_threads_on_status c i =
        if c = core ∧ i = e.toNat then wrap32 (st.num_threads_on_status c i + 1)
        else st.num_threads_on_status c i) ∧
      st1.num_threads_on_status_ptrs = st.num_threads_on_status_ptrs := by
  by_cases hin : DerefScope.is_in_deref_scope worker st = true
  · simp only [DerefScope.enter_deref_scope, hin, if_true] at h
    exact absurd h (by simp)
  · have hout : st.th_status worker = Status.OutofScope := by
      simp only [DerefScope.is_in_deref_scope, DerefScope.get_self_th_status, ne_eq,
        decide_eq_true_eq, not_not] at hin
      exact hin
    refine ⟨hout, ?_⟩
    have hs : ∃ s0 : ScopeState, (if st.almost_empty = true then wait st else st) = s0 ∧
        s0.th_status = st.th_status ∧ s0.num_threads_on_status = st.num_threads_on_status ∧
        s0.num_threads_on_status_ptrs = st.num_threads_on_status_ptrs ∧
        (s0.expected_status = Status.InScopeV0 ∨ s0.expected_status = Status.InScopeV1) := by
      by_cases hae : st.almost_empty = true
      · obtain ⟨q1, q2, q3, q4⟩ := hwait st
        exact ⟨wait st, by rw [if_pos hae], q1, q2, q3, q4 he⟩
      · exact ⟨st, by rw [if_neg hae], rfl, rfl, rfl, he⟩
    obtain ⟨s0, e0, q1, q2, q3, q4⟩ := hs
    have h3 : s0.expected_status.toNat < 3 := by
      rcases q4 with h' | h' <;> rw [h'] <;> decide
    simp only [DerefScope.enter_deref_scope, hin, Bool.false_eq_true, if_false, e0, h3,
      if_true] at h
    have h1 : st1 = DerefScope.add_counter core s0.expected_status.toNat 1
        (DerefScope.set_self_th_status worker s0.expected_status s0) := by
      injection h with h
      exact h.symm
    refine ⟨s0.expected_status, q4, ?_, ?_, ?_, ?_⟩
    · rw [h1]
      rfl
    · intro v
      rw [h1]
      show (if v = worker then s0.expected_status else s0.th_status v) = _
      rw [q1]
    · intro c i
      rw [h1]
      show (if c = core ∧ i = s0.expected_status.toNat then
          wrap32 (s0.num_threads_on_status c i + 1) else s0.num_threads_on_status c i) = _
      rw [q2]
    · rw [h1]
      exact q3

/-- The fields of the state that a successful `exit_deref_scope` leaves. -/
theorem exit_fields (worker core : Nat) (st st1 : ScopeState)
    (hgc : st.th_status worker ≠ Status.GC)
    (h : DerefScope.exit_deref_scope worker core st = .ok st1) :
    st.th_status worker ≠ Status.OutofScope ∧
    st1.expected_status = st.expected_status ∧
    (∀ v, st1.th_status v = if v = worker then Status.OutofScope else st.th_status v) ∧
    (∀ c i, st1.num_threads_on_status c i =
      if c = core ∧ i = (st.th_status worker).toNat then
        wrap32 (st.num_threads_on_status c i + -1)
      else st.num_threads_on_status c i) ∧
    st1.num_threads_on_status_ptrs = st.num_threads_on_status_ptrs := by
  by_cases hout : st.th_status worker = Status.OutofScope
  · simp only [DerefScope.exit_deref_scope, DerefScope.get_self_th_status, hout, if_true] at h
    exact absurd h (by simp)
  · have hin : DerefScope.get_self_th_status worker st = Status.InScopeV0 ∨
        DerefScope.get_self_th_status worker st = Status.InScopeV1 := by
      show st.th_status worker = Status.InScopeV0 ∨ st.th_status worker = Status.InScopeV1
      cases hq : st.th_status worker
      · exact absurd hq hout
      · exact Or.inl rfl
      · exact Or.inr rfl
      · exact absurd hq hgc
    obtain ⟨st2, e1, e2, e3, e4, e5, -, -⟩ := exit_in_scope worker core st hin
    rw [e1] at h
    injection h with h
    subst h
    refine ⟨hout, e5, fun v => by rw [e2], fun c i => ?_, e4⟩
    rw [e3]
    rfl

/-- A step that succeeds keeps the invariant and the pointer table. -/
theorem scope_step_inv (wait : ScopeState → ScopeState) (hwait : wait_frame wait)
    (W kNumCPUs : Nat) (op : ScopeOp) (st st1 : ScopeState)
    (hop : op.within W kNumCPUs st.num_threads_on_status_ptrs)
    (hinv : scope_inv W kNumCPUs st) (h : scope_step wait op st = .ok st1) :
    scope_inv W kNumCPUs st1 ∧
      st1.num_threads_on_status_ptrs = st.num_threads_on_status_ptrs := by
  obtain ⟨i1, i2, i3, i4⟩ := hinv
  cases op with
  | enter worker core =>
    obtain ⟨hw, hc, hptr⟩ := hop
    obtain ⟨hout, e, he, f1, f2, f3, f4⟩ := enter_fields wait hwait worker core st st1 i1 h
    refine ⟨⟨f1 ▸ he, ?_, ?_, ?_⟩, f4⟩
    · intro w hw2
      rw [f2, if_neg (by omega)]
      exact i2 w hw2
    · intro w
      rw [f2]
      by_cases hv : w = worker
      · rw [if_pos hv]
        rcases he with h' | h' <;> rw [h'] <;> decide
      · rw [if_neg hv]
        exact i3 w
    · intro s hs
      have hl := get_num_threads_loop_add s st st1 core e.toNat 1 f4 hptr f3 kNumCPUs
      have hcn := count_status_update s st st1 worker e f2 W
      have hi := i4 s hs
      have hne : ¬ (st.th_status worker = s) := by
        rw [hout]
        rcases hs with h' | h' <;> rw [h'] <;> decide
      have hinj := Status.toNat_inj s e
      by_cases hse : s = e
      · have h1 : s.toNat = e.toNat := hinj.2 hse
        have h2 : e = s := hse.symm
        simp only [hc, h1, and_self, if_true] at hl
        simp only [hw, hne, and_false, if_false, h2, and_self, if_true, Nat.add_zero] at hcn
        omega
      · have h1 : ¬ s.toNat = e.toNat := fun h' => hse (hinj.1 h')
        have h2 : ¬ e = s := fun h' => hse h'.symm
        simp only [h1, and_false, if_false, Int.sub_zero] at hl
        simp only [hne, h2, and_false, if_false, Nat.add_zero] at hcn
        omega
  | exit worker core =>
    obtain ⟨hw, hc, hptr⟩ := hop
    obtain ⟨hin, f1, f2, f3, f4⟩ := exit_fields worker core st st1 (i3 worker) h
    refine ⟨⟨f1 ▸ i1, ?_, ?_, ?_⟩, f4⟩
    · intro w hw2
      rw [f2, if_neg (by omega)]
      exact i2 w hw2
    · intro w
      rw [f2]
      by_cases hv : w = worker
      · rw [if_pos hv]
        decide
      · rw [if_neg hv]
        exact i3 w
    · intro s hs
      have hl := get_num_threads_loop_add s st st1 core (st.th_status worker).toNat (-1) f4
        hptr f3 kNumCPUs
      have hcn := count_status_update s st st1 worker Status.OutofScope f2 W
      have hi := i4 s hs
      have hne : ¬ (Status.OutofScope = s) := by
        rcases hs with h' | h' <;> rw [h'] <;> decide
      have hinj := Status.toNat_inj s (st.th_status worker)
      by_cases hse : s = st.th_status worker
      · have h1 : s.toNat = (st.th_status worker).toNat := hinj.2 hse
        have h2 : st.th_status worker = s := hse.symm
        simp only [hc, h1, and_self, if_true] at hl
        simp only [hw, hne, and_false, if_false, h2, and_self, if_true, Nat.add_zero] at hcn
        omega
      · have h1 : ¬ s.toNat = (st.th_status worker).toNat := fun h' => hse (hinj.1 h')
        have h2 : ¬ st.th_status worker = s := fun h' => hse h'.symm
        simp only [h1, and_false, if_false, Int.sub_zero] at hl
        simp only [hne, h2, and_false, if_false, Nat.add_zero] at hcn
        omega
  | flip =>
    have hf : ∃ e, (e = Status.InScopeV0 ∨ e = Status.InScopeV1) ∧
        flip_status st.expected_status = some e := by
      rcases i1 with h' | h' <;> rw [h']
      · exact ⟨Status.InScopeV1, Or.inr rfl, rfl⟩
      · exact ⟨Status.InScopeV0, Or.inl rfl, rfl⟩
    obtain ⟨e, he, hfe⟩ := hf
    simp only [scope_step, hfe] at h
    injection h with h
    subst h
    refine ⟨⟨he, i2, i3, ?_⟩, rfl⟩
    intro s hs
    have hl := get_num_threads_loop_congr s st { st with expected_status := e } rfl rfl kNumCPUs
    have hcn := count_status_congr s st { st with expected_status := e } rfl W
    rw [hl, hcn]
    exact i4 s hs

/-- A run that succeeds keeps the invariant. -/
theorem scope_run_inv (wait : ScopeState → ScopeState) (hwait : wait_frame wait)
    (W kNumCPUs : Nat) : ∀ (ops : List ScopeOp) (st st1 : ScopeState),
    (∀ op ∈ ops, op.within W kNumCPUs st.num_threads_on_status_ptrs) →
    scope_inv W kNumCPUs st → scope_run wait ops st = .ok st1 → scope_inv W kNumCPUs st1 := by
  intro ops
  induction ops with
  | nil =>
    intro st st1 _ hinv h
    simp only [scope_run] at h
    injection h with h
    subst h
    exact hinv
  | cons op ops ih =>
    intro st st1 hops hinv h
    simp only [scope_run] at h
    cases hs : scope_step wait op st with
    | error e =>
      rw [hs] at h
      exact absurd h (by simp)
    | ok st2 =>
      rw [hs] at h
      obtain ⟨j1, j2⟩ := scope_step_inv wait hwait W kNumCPUs op st st2
        (hops op (List.mem_cons_self _ _)) hinv hs
      exact ih st2 st1 (fun o ho => j2 ▸ hops o (List.mem_cons_of_mem _ ho)) j1 h

theorem scope_initial_inv (W kNumCPUs : Nat) (st : ScopeState) (h : scope_initial st) :
    scope_inv W kNumCPUs st := by
  obtain ⟨h1, h2, h3⟩ := h
  refine ⟨h3, fun w _ => h1 w, fun w => by rw [h1 w]; decide, ?_⟩
  intro s hs
  have hl : ∀ n, DerefScope.get_num_threads_loop s st n = 0 := by
    intro n
    induction n with
    | zero => rfl
    | succ n ih =>
      simp only [DerefScope.get_num_threads_loop, ih, h2]
      split
      · rfl
      · rfl
  have hc : ∀ n, count_status s st n = 0 := by
    intro n
    induction n with
    | zero => rfl
    | succ n ih =>
      have hne : ¬ (Status.OutofScope = s) := by
        rcases hs with h' | h' <;> rw [h'] <;> decide
      simp only [count_status, ih, h1, hne, if_false]
  rw [hl, hc]
  rfl

/-- C32: take `W` workers (fewer than `2^31`) and a run of `enter_deref_scope` and
`exit_deref_scope` steps of these workers, each on a core below `kNumCPUs` whose counters are
in the pointer table, interleaved with flips of `expected_status`, from a state in which every
worker is `OutofScope` and every counter is 0.  In the state reached, for `s` one of
`InScopeV0` and `InScopeV1`, `get_num_threads(s)` returns (its assertion holds) the number of
workers whose status is `s`; and if it returns 0, no worker has the status `s`. -/
theorem C32_counters_count_workers (wait : ScopeState → ScopeState) (hwait : wait_frame wait)
    (W kNumCPUs : Nat) (hW : W < 2 ^ 31) (ops : List ScopeOp) (st0 st : ScopeState)
    (hinit : scope_initial st0)
    (hops : ∀ op ∈ ops, op.within W kNumCPUs st0.num_threads_on_status_ptrs)
    (hrun : scope_run wait ops st0 = .ok st) (s : Status)
    (hs : s = Status.InScopeV0 ∨ s = Status.InScopeV1) :
    DerefScope.get_num_threads kNumCPUs s st = some (count_status s st W : Int) ∧
    (DerefScope.get_num_threads kNumCPUs s st = some 0 → ∀ w, st.th_status w ≠ s) := by
  obtain ⟨-, i2, -, i4⟩ := scope_run_inv wait hwait W kNumCPUs ops st0 st hops
    (scope_initial_inv W kNumCPUs st0 hinit) hrun
  have hi := i4 s hs
  have hr := get_num_threads_loop_range s st kNumCPUs
  have hle := count_status_le s st W
  have heq : DerefScope.get_num_threads_loop s st kNumCPUs = (count_status s st W : Int) := by
    omega
  have hg : DerefScope.get_num_threads kNumCPUs s st = some (count_status s st W : Int) := by
    simp only [DerefScope.get_num_threads, heq]
    rw [if_pos (by omega)]
  refine ⟨hg, ?_⟩
  intro h0 w
  rw [hg] at h0
  have hz : count_status s st W = 0 := by
    injection h0 with h0
    omega
  by_cases hw : w < W
  · exact count_status_zero s st W hz w hw
  · rw [i2 w (by omega)]
    rcases hs with h' | h' <;> rw [h'] <;> decide

theorem C32_counters_count_workers_witness :
    DerefScope.get_num_threads 4 Status.InScopeV0 scope_after_ops
      = some (count_status Status.InScopeV0 scope_after_ops 3 : Int) ∧
    count_status Status.InScopeV0 scope_after_ops 3 = 1 ∧
    (DerefScope.get_num_threads 4 Status.InScopeV0 scope_after_ops = some 0 →
      ∀ w, scope_after_ops.th_status w ≠ Status.InScopeV0) :=
  have h := C32_counters_count_workers id
    (fun st => ⟨rfl, rfl, rfl, fun h => h⟩) 3 4 (by decide) scope_ops scope_idle scope_after_ops
    ⟨fun _ => rfl, fun _ _ => rfl, Or.inl rfl⟩ (by decide) rfl Status.InScopeV0 (Or.inl rfl)
  ⟨h.1, by decide, h.2⟩

/-! ## The hot counter -/

/-- A dereference of a present word that is not under evacuation and has the hot-cleared bit
set goes through the slow path, which decrements the low byte; with `Mut` it also clears the
byte of the present and dirty bits. -/
theorem deref_counts (env : Env) (Mut Nt : Bool) (fuel : Nat) (self : GenericUniquePtr)
    (w : World) (hp : self.meta_.metadata_ / 256 % 2 = 0)
    (he : self.meta_.metadata_ / 65536 % 2 = 0) (hh : self.meta_.metadata_ / 128 % 2 = 1) :
    ∃ self1, self._deref env Mut Nt (fuel + 1) w = .ok (self.meta_.metadata_ / 131072, self1, w) ∧
      self1.meta_.self_addr = self.meta_.self_addr ∧
      self1.meta_.metadata_ / 65536 = self.meta_.metadata_ / 65536 ∧
      self1.meta_.metadata_ % 256 = self.meta_.metadata_ % 256 - 1 ∧
      self1.meta_.metadata_ / 256 % 2 = 0 := by
  have hp1 : self.meta_.is_present = true := (FarMemPtrMeta.is_present_iff _).2 hp
  have he1 : self.meta_.is_evacuation = false := by
    cases h : self.meta_.is_evacuation
    · rfl
    · have := (FarMemPtrMeta.is_evacuation_iff _).1 h
      omega
  have hx : self.meta_.metadata_ &&& GenericUniquePtr.deref_exceptions Mut ≠ 0 := by
    intro h
    have := ((land_deref_exceptions _ Mut).1 h).1
    omega
  have hd := deref_present env Mut Nt fuel self w hp1 he1
  rw [if_pos hx, Nat.shiftRight_eq_div_pow] at hd
  obtain ⟨t1, t2⟩ := deref_touched_metadata Mut self
  refine ⟨deref_touched Mut self, hd, t2, ?_, ?_, ?_⟩
  · rw [t1]
    cases Mut
    · simp only [Bool.false_eq_true, if_false]
      omega
    · simp only [if_true]
      omega
  · rw [t1]
    cases Mut
    · simp only [Bool.false_eq_true, if_false]
      omega
    · simp only [if_true]
      omega
  · rw [t1]
    cases Mut
    · simp only [Bool.false_eq_true, if_false]
      omega
    · simp only [if_true]
      omega

/-- A dereference of a present word that is hot and not under evacuation (and dirty, for
`deref_mut`) takes the fast path. -/
theorem deref_hot (env : Env) (Mut Nt : Bool) (fuel : Nat) (self : GenericUniquePtr)
    (w : World) (hp : self.meta_.is_present = true) (he : self.meta_.is_evacuation = false)
    (hh : self.meta_.is_hot = true) (hd : Mut = true → self.meta_.is_dirty = true) :
    self._deref env Mut Nt (fuel + 1) w = .ok (self.meta_.metadata_ / 131072, self, w) := by
  have h1 := (FarMemPtrMeta.is_present_iff _).1 hp
  have h2 := (FarMemPtrMeta.is_hot_iff _).1 hh
  have h3 : self.meta_.metadata_ / 65536 % 2 = 0 := by
    have := FarMemPtrMeta.is_evacuation_iff self.meta_
    rw [he] at this
    simp only [Bool.false_eq_true, false_iff] at this
    omega
  have hx : self.meta_.metadata_ &&& GenericUniquePtr.deref_exceptions Mut = 0 :=
    (land_deref_exceptions _ Mut).2
      ⟨h2, h1, h3, fun hm => (FarMemPtrMeta.is_dirty_iff _).1 (hd hm)⟩
  have := deref_present env Mut Nt fuel self w hp he
  rw [if_neg (by rw [hx]; exact fun h => h rfl), Nat.shiftRight_eq_div_pow] at this
  exact this

theorem is_hot_eq_false (self : FarMemPtrMeta) (h : self.metadata_ / 128 % 2 = 1) :
    self.is_hot = false := by
  cases hh : self.is_hot
  · rfl
  · have := (FarMemPtrMeta.is_hot_iff _).1 hh
    omega

/-- C33: the hot threshold is 2.  Let `p` hold the word that `set_present` or `init` writes for
an object at `a`.  Its low byte is `0x81` and it is not hot.  A first dereference (`deref` or
`deref_mut`) returns the data address and leaves the low byte `0x80`, the word still not hot;
a second one leaves `0x7F`, and the word is hot.  Both leave the world as it was.  From then
on, and for every present word that is hot and not under evacuation, `deref` returns and
leaves the pointer as it is, and so does `deref_mut` when the word is dirty. -/
theorem C33_hot_threshold (env : Env) (Nt Mut1 Mut2 : Bool) (fuel1 fuel2 : Nat)
    (p : GenericUniquePtr) (w : World) (self : FarMemPtrMeta) (shared : Bool) (a : Nat) (m : Mem)
    (ha : a + 10 < 2 ^ 47)
    (hp : p.meta_ = (self.set_present a m).1 ∨ p.meta_ = (self.init shared a m).1) :
    p.meta_.is_hot = false ∧ p.meta_.byte FarMemPtrMeta.kHotPos = 0x81 ∧
    ∃ p1 p2 : GenericUniquePtr,
      p._deref env Mut1 Nt (fuel1 + 1) w = .ok (a + 10, p1, w) ∧
      p1.meta_.is_hot = false ∧ p1.meta_.byte FarMemPtrMeta.kHotPos = 0x80 ∧
      p1._deref env Mut2 Nt (fuel2 + 1) w = .ok (a + 10, p2, w) ∧
      p2.meta_.is_hot = true ∧ p2.meta_.byte FarMemPtrMeta.kHotPos = 0x7F ∧
      p2.meta_.is_present = true ∧ p2.meta_.is_evacuation = false ∧
      (∀ (q : GenericUniquePtr) (Mut : Bool) (fuel : Nat) (w1 : World),
        q.meta_.is_present = true → q.meta_.is_evacuation = false → q.meta_.is_hot = true →
        (Mut = true → q.meta_.is_dirty = true) →
        q._deref env Mut Nt (fuel + 1) w1 = .ok (q.meta_.metadata_ / 131072, q, w1)) := by
  have hm : p.meta_.metadata_ = (a + 10) * 131072 + 1153 ∨
      p.meta_.metadata_ = (a + 10) * 131072 + 129 := by
    rcases hp with h | h
    · left; rw [h]; exact FarMemPtrMeta.set_present_metadata self a m ha
    · right; rw [h]; exact FarMemPtrMeta.init_metadata self shared a m ha
  have hb : ∀ q : FarMemPtrMeta, q.byte FarMemPtrMeta.kHotPos = q.metadata_ % 256 := by
    intro q
    simp only [FarMemPtrMeta.byte, word_byte, FarMemPtrMeta.kHotPos]
    norm_num
  obtain ⟨p1, d1, -, k1, l1, q1⟩ := deref_counts env Mut1 Nt fuel1 p w
    (by rcases hm with h | h <;> rw [h] <;> omega)
    (by rcases hm with h | h <;> rw [h] <;> omega)
    (by rcases hm with h | h <;> rw [h] <;> omega)
  have hlow : p.meta_.metadata_ % 256 = 129 := by rcases hm with h | h <;> rw [h] <;> omega
  have hhi : p.meta_.metadata_ / 65536 = (a + 10) * 2 := by
    rcases hm with h | h <;> rw [h] <;> omega
  have haddr : p.meta_.metadata_ / 131072 = a + 10 := by
    rcases hm with h | h <;> rw [h] <;> omega
  obtain ⟨p2, d2, -, k2, l2, q2⟩ := deref_counts env Mut2 Nt fuel2 p1 w q1 (by omega) (by omega)
  have haddr1 : p1.meta_.metadata_ / 131072 = a + 10 := by omega
  rw [haddr] at d1
  rw [haddr1] at d2
  refine ⟨is_hot_eq_false _ (by omega), by rw [hb]; omega, p1, p2, d1,
    is_hot_eq_false _ (by omega), by rw [hb]; omega, d2,
    (FarMemPtrMeta.is_hot_iff _).2 (by omega), by rw [hb]; omega,
    (FarMemPtrMeta.is_present_iff _).2 q2, ?_, ?_⟩
  · cases h : p2.meta_.is_evacuation
    · rfl
    · have := (FarMemPtrMeta.is_evacuation_iff _).1 h
      omega
  · intro q Mut fuel w1 h1 h2 h3 h4
    exact deref_hot env Mut Nt fuel q w1 h1 h2 h3 h4

theorem C33_hot_threshold_witness :
    ptr_fresh.meta_.is_hot = false ∧ ptr_fresh.meta_.byte FarMemPtrMeta.kHotPos = 0x81 ∧
    ∃ p1 p2 : GenericUniquePtr,
      ptr_fresh._deref env_full false false 1 world_one_object
        = .ok (0x200005 + 10, p1, world_one_object) ∧
      p1.meta_.is_hot = false ∧ p1.meta_.byte FarMemPtrMeta.kHotPos = 0x80 ∧
      p1._deref env_full true false 1 world_one_object
        = .ok (0x200005 + 10, p2, world_one_object) ∧
      p2.meta_.is_hot = true ∧ p2.meta_.byte FarMemPtrMeta.kHotPos = 0x7F :=
  let ⟨h1, h2, p1, p2, h3, h4, h5, h6, h7, h8, _⟩ :=
    C33_hot_threshold env_full false false true 0 0 ptr_fresh world_one_object ⟨0x1000, 0⟩ false
      0x200005 mem_one_object (by decide) (Or.inl rfl)
  ⟨h1, h2, p1, p2, h3, h4, h5, h6, h7, h8⟩

/-! ## The shared bit -/

/-- The word after `set_shared()`: the source ORs it with `1 < kSharedBitPos`, a comparison
whose value is 1, so bit 0 gets set and bit 9, which `is_shared()` tests, is as before. -/
theorem set_shared_metadata (self : FarMemPtrMeta) :
    self.set_shared.metadata_ = self.metadata_ / 2 * 2 + 1 ∧
    self.set_shared.is_shared = self.is_shared := by
  have e : self.set_shared.metadata_ = self.metadata_ / 2 * 2 + 1 := by
    simp only [FarMemPtrMeta.set_shared, FarMemPtrMeta.from_uint64_t,
      FarMemPtrMeta.to_uint64_t, FarMemPtrMeta.kSharedBitPos]
    rw [if_pos (by decide), lor_one]
  refine ⟨e, ?_⟩
  have h1 := FarMemPtrMeta.is_shared_iff self.set_shared
  have h2 := FarMemPtrMeta.is_shared_iff self
  rw [e] at h1
  have h3 : (self.metadata_ / 2 * 2 + 1) / 512 % 2 = self.metadata_ / 512 % 2 := by omega
  rw [h3] at h1
  cases hs : self.is_shared
  · cases hs1 : self.set_shared.is_shared
    · rfl
    · rw [hs1] at h1
      rw [hs] at h2
      exact absurd (h2.2 (h1.1 rfl)) (by decide)
  · rw [hs] at h2
    exact h1.2 (h2.1 rfl)

/-- C35 fails on the code: on the word 0, which is what the constructor
`FarMemPtrMeta(true, object_addr)` has after its `memset` when `init` calls `set_shared()`,
the call gives the word 1.  The word has changed, in bit 0 (the lowest bit of the hot byte),
and `is_shared()` is still false afterwards, as it is after `set_shared()` on every word that
was not shared: the source has `1 < kSharedBitPos` where `is_shared()` has
`1 << kSharedBitPos`. -/
theorem C35_set_shared_not_identity :
    (FarMemPtrMeta.mk 0x1000 0).is_shared = false ∧
    (FarMemPtrMeta.set_shared ⟨0x1000, 0⟩).metadata_ = 1 ∧
    (FarMemPtrMeta.set_shared ⟨0x1000, 0⟩).is_shared = false ∧
    (¬ ∀ self : FarMemPtrMeta, self.set_shared.metadata_ = self.metadata_) ∧
    (∀ self : FarMemPtrMeta, self.is_shared = false → self.set_shared.is_shared = false) := by
  refine ⟨by decide, by decide, by decide, fun h => ?_, fun self hs => ?_⟩
  · have := h ⟨0x1000, 0⟩
    revert this
    decide
  · rw [(set_shared_metadata self).2]
    exact hs

/-! ## The GC boundaries of a region -/

namespace Region

/-- The region after `gc_boundaries_[num_boundaries_++] = first_free_byte_idx_`, for
`num_boundaries_` below 255. -/
theorem update_boundaries_eq (r : Region) (force : Bool) :
    r.update_boundaries force =
      if force = true ∨ r.first_free_byte_idx_ > 524288 * (r.num_boundaries_ + 1) then
        if 2 ≤ r.num_boundaries_ then .error RegionFault.out_of_bounds
        else
          .ok ⟨r.first_free_byte_idx_, r.buf_ptr_, r.region_idx_,
            (r.num_boundaries_ + 1) % 2 ^ 8,
            fun i => if i = r.num_boundaries_ then r.first_free_byte_idx_
              else r.gc_boundaries_ i⟩
      else .ok r := by
  have hk : kSize / 2 = 524288 := by decide
  simp only [update_boundaries, kGCParallelism, hk, Bool.or_eq_true, decide_eq_true_eq]

/-- Once a boundary is recorded, a cursor within the region makes no call that is not forced
record another one. -/
theorem run_updates_after_first : ∀ (steps : List (Nat × Bool)) (r : Region),
    1 ≤ r.num_boundaries_ → r.num_boundaries_ + num_forced steps ≤ 2 →
    (∀ s ∈ steps, s.1 ≤ kSize) →
    ∃ r1, run_updates steps r = .ok r1 ∧
      r1.num_boundaries_ = r.num_boundaries_ + num_forced steps ∧
      num_unforced_records steps r = 0 := by
  intro steps
  induction steps with
  | nil =>
    intro r _ _ _
    exact ⟨r, rfl, rfl, rfl⟩
  | cons s rest ih =>
    intro r h1 h2 hc
    obtain ⟨cursor, force⟩ := s
    have hcur : cursor ≤ kSize := hc (cursor, force) (List.mem_cons_self _ _)
    have hks : kSize = 1048576 := by decide
    have hrest : ∀ s ∈ rest, s.1 ≤ kSize := fun s hs => hc s (List.mem_cons_of_mem _ hs)
    cases force with
    | false =>
      have hu : update_boundaries { r with first_free_byte_idx_ := cursor } false
          = .ok { r with first_free_byte_idx_ := cursor } := by
        rw [update_boundaries_eq, if_neg]
        simp only [Bool.false_eq_true, false_or, not_lt]
        show cursor ≤ 524288 * (r.num_boundaries_ + 1)
        rw [hks] at hcur
        omega
      have hf : num_forced ((cursor, false) :: rest) = num_forced rest := by
        simp only [num_forced, Bool.false_eq_true, if_false, Nat.zero_add]
      rw [hf] at h2 ⊢
      obtain ⟨r1, e1, e2, e3⟩ := ih { r with first_free_byte_idx_ := cursor } h1 h2 hrest
      refine ⟨r1, ?_, e2, ?_⟩
      · simp only [run_updates, hu, e1]
      · simp only [num_unforced_records, hu, e3, ne_eq, not_true_eq_false, decide_False,
          Bool.and_false, Bool.false_eq_true, if_false]
    | true =>
      have hf : num_forced ((cursor, true) :: rest) = 1 + num_forced rest := by
        simp only [num_forced, if_true]
      rw [hf] at h2 ⊢
      have hn : r.num_boundaries_ = 1 := by omega
      have hu : update_boundaries { r with first_free_byte_idx_ := cursor } true
          = .ok ⟨cursor, r.buf_ptr_, r.region_idx_, 2,
              fun i => if i = r.num_boundaries_ then cursor else r.gc_boundaries_ i⟩ := by
        rw [update_boundaries_eq, if_pos (Or.inl rfl), if_neg]
        · simp only [hn]
          rfl
        · show ¬ 2 ≤ r.num_boundaries_
          omega
      obtain ⟨r1, e1, e2, e3⟩ := ih ⟨cursor, r.buf_ptr_, r.region_idx_, 2,
        fun i => if i = r.num_boundaries_ then cursor else r.gc_boundaries_ i⟩
        (by show 1 ≤ 2; omega) (by show 2 + num_forced rest ≤ 2; omega) hrest
      refine ⟨r1, ?_, ?_, ?_⟩
      · simp only [run_updates, hu, e1]
      · rw [e2, hn]
        show 2 + num_forced rest = 1 + (1 + num_forced rest)
        omega
      · simp only [num_unforced_records, hu, e3, Bool.not_true, Bool.false_and,
          Bool.false_eq_true, if_false]

/-- From a region without boundaries, a series with at most one forced call runs through. -/
theorem run_updates_from_zero : ∀ (steps : List (Nat × Bool)) (r : Region),
    r.num_boundaries_ = 0 → num_forced steps ≤ 1 → (∀ s ∈ steps, s.1 ≤ kSize) →
    ∃ r1, run_updates steps r = .ok r1 ∧
      r1.num_boundaries_ = num_forced steps + num_unforced_records steps r ∧
      num_unforced_records steps r ≤ 1 := by
  intro steps
  induction steps with
  | nil =>
    intro r h0 _ _
    exact ⟨r, rfl, by simp only [num_forced, num_unforced_records, h0], Nat.zero_le _⟩
  | cons s rest ih =>
    intro r h0 hf hc
    obtain ⟨cursor, force⟩ := s
    have hrest : ∀ s ∈ rest, s.1 ≤ kSize := fun s hs => hc s (List.mem_cons_of_mem _ hs)
    have hrec : ∀ force : Bool, (force = true ∨ cursor > 524288) →
        update_boundaries { r with first_free_byte_idx_ := cursor } force
          = .ok ⟨cursor, r.buf_ptr_, r.region_idx_, 1,
              fun i => if i = r.num_boundaries_ then cursor else r.gc_boundaries_ i⟩ := by
      intro force hcond
      rw [update_boundaries_eq, if_pos, if_neg]
      · simp only [h0]
        rfl
      · show ¬ 2 ≤ r.num_boundaries_
        omega
      · show force = true ∨ cursor > 524288 * (r.num_boundaries_ + 1)
        rw [h0]
        rcases hcond with h | h
        · exact Or.inl h
        · exact Or.inr (by omega)
    cases force with
    | true =>
      have hfe : num_forced ((cursor, true) :: rest) = 1 + num_forced rest := by
        simp only [num_forced, if_true]
      rw [hfe] at hf ⊢
      have hu := hrec true (Or.inl rfl)
      obtain ⟨r1, e1, e2, e3⟩ := run_updates_after_first rest
        ⟨cursor, r.buf_ptr_, r.region_idx_, 1,
          fun i => if i = r.num_boundaries_ then cursor else r.gc_boundaries_ i⟩
        (Nat.le_refl 1) (by show 1 + num_forced rest ≤ 2; omega) hrest
      have hur : num_unforced_records ((cursor, true) :: rest) r = 0 := by
        simp only [num_unforced_records, hu, e3, Bool.not_true, Bool.false_and,
          Bool.false_eq_true, if_false]
      refine ⟨r1, ?_, ?_, ?_⟩
      · simp only [run_updates, hu, e1]
      · rw [e2, hur]
        show 1 + num_forced rest = 1 + num_forced rest + 0
        omega
      · rw [hur]
        exact Nat.zero_le _
    | false =>
      have hfe : num_forced ((cursor, false) :: rest) = num_forced rest := by
        simp only [num_forced, Bool.false_eq_true, if_false, Nat.zero_add]
      rw [hfe] at hf ⊢
      by_cases hcond : cursor > 524288
      · have hu := hrec false (Or.inr hcond)
        obtain ⟨r1, e1, e2, e3⟩ := run_updates_after_first rest
          ⟨cursor, r.buf_ptr_, r.region_idx_, 1,
            fun i => if i = r.num_boundaries_ then cursor else r.gc_boundaries_ i⟩
          (Nat.le_refl 1) (by show 1 + num_forced rest ≤ 2; omega) hrest
        have hur : num_unforced_records ((cursor, false) :: rest) r = 1 := by
          simp only [num_unforced_records, hu, e3]
          rw [h0]
          rfl
        refine ⟨r1, ?_, ?_, ?_⟩
        · simp only [run_updates, hu, e1]
        · rw [e2, hur]
          show 1 + num_forced rest = num_forced rest + 1
          omega
        · rw [hur]
      · have hu : update_boundaries { r with first_free_byte_idx_ := cursor } false
            = .ok { r with first_free_byte_idx_ := cursor } := by
          rw [update_boundaries_eq, if_neg]
          simp only [Bool.false_eq_true, false_or, not_lt]
          show cursor ≤ 524288 * (r.num_boundaries_ + 1)
          rw [h0]
          omega
        obtain ⟨r1, e1, e2, e3⟩ := ih { r with first_free_byte_idx_ := cursor } h0 hf hrest
        have hur : num_unforced_records ((cursor, false) :: rest) r
            = num_unforced_records rest { r with first_free_byte_idx_ := cursor } := by
          simp only [num_unforced_records, hu, ne_eq, not_true_eq_false, decide_False,
            Bool.and_false, Bool.false_eq_true, if_false, Nat.zero_add]
        refine ⟨r1, ?_, ?_, ?_⟩
        · simp only [run_updates, hu, e1]
        · rw [e2, hur]
        · rw [hur]
          exact e3

end Region

/-- C36: on a region with fewer than `kGCParallelism` boundaries, `update_boundaries(false)`
records the cursor as a new boundary exactly when
`first_free_byte_idx_ > 524288 * (num_boundaries_ + 1)`, and `update_boundaries(true)` always
records it.  From a region without boundaries (as `reset` leaves it), in a series of calls with
cursors at most `kSize` and at most one forced call, every call returns without a store
outside `gc_boundaries_`, the calls that are not forced record at most one boundary in total,
and the region ends with at most `kGCParallelism = 2` boundaries. -/
theorem C36_boundaries_bounded (r : Region) (steps : List (Nat × Bool))
    (h0 : r.num_boundaries_ = 0) (hc : ∀ s ∈ steps, s.1 ≤ Region.kSize)
    (hf : Region.num_forced steps ≤ 1) :
    Region.kSize / Region.kGCParallelism = 524288 ∧
    (∀ (r0 : Region) (force : Bool), r0.num_boundaries_ < Region.kGCParallelism →
      r0.update_boundaries force =
        .ok (if force = true ∨ r0.first_free_byte_idx_ > 524288 * (r0.num_boundaries_ + 1) then
          { r0 with
            gc_boundaries_ := fun i =>
              if i = r0.num_boundaries_ then r0.first_free_byte_idx_ else r0.gc_boundaries_ i,
            num_boundaries_ := r0.num_boundaries_ + 1 }
          else r0)) ∧
    ∃ r1, Region.run_updates steps r = .ok r1 ∧
      Region.num_unforced_records steps r ≤ 1 ∧
      r1.num_boundaries_ = Region.num_forced steps + Region.num_unforced_records steps r ∧
      r1.num_boundaries_ ≤ Region.kGCParallelism := by
  refine ⟨by decide, ?_, ?_⟩
  · intro r0 force hn
    have hn2 : r0.num_boundaries_ < 2 := hn
    rw [Region.update_boundaries_eq]
    by_cases hcond : force = true ∨ r0.first_free_byte_idx_ > 524288 * (r0.num_boundaries_ + 1)
    · rw [if_pos hcond, if_pos hcond, if_neg (by omega)]
      have : (r0.num_boundaries_ + 1) % 2 ^ 8 = r0.num_boundaries_ + 1 := by omega
      rw [this]
    · rw [if_neg hcond, if_neg hcond]
  · obtain ⟨r1, e1, e2, e3⟩ := Region.run_updates_from_zero steps r h0 hf hc
    refine ⟨r1, e1, e3, e2, ?_⟩
    show r1.num_boundaries_ ≤ 2
    omega

theorem C36_boundaries_bounded_witness :
    ∃ r1, Region.run_updates [(600000, false), (700000, false), (900000, true)]
        (Region.fresh (fun _ => 0)) = .ok r1 ∧
      Region.num_unforced_records [(600000, false), (700000, false), (900000, true)]
        (Region.fresh (fun _ => 0)) ≤ 1 ∧
      r1.num_boundaries_ = Region.num_forced [(600000, false), (700000, false), (900000, true)]
        + Region.num_unforced_records [(600000, false), (700000, false), (900000, true)]
            (Region.fresh (fun _ => 0)) ∧
      r1.num_boundaries_ ≤ Region.kGCParallelism :=
  (C36_boundaries_bounded (Region.fresh (fun _ => 0))
    [(600000, false), (700000, false), (900000, true)] rfl (by decide) (by decide)).2.2

/-! ## The three forms of the metadata word -/

/-- C37: for a data-structure id of 8 bits, an object size of 16 bits and an object id below
`2^38`, `gc_wb(ds_id, object_size, obj_id)` returns, and the word it writes is null exactly
when `object_size = 0` and `obj_id = 0`; it is never present.  So the write-back of an object,
whose size is at least the 10 bytes of the header, gives a word that is neither present nor
null. -/
theorem C37_gc_wb_null_iff (self : FarMemPtrMeta) (ds_id object_size obj_id : Nat)
    (h1 : ds_id < 2 ^ 8) (h2 : object_size < 2 ^ 16) (h3 : obj_id < 2 ^ 38) :
    ∃ m, self.gc_wb ds_id object_size obj_id = some m ∧
      (m.is_null = true ↔ object_size = 0 ∧ obj_id = 0) ∧
      m.is_present = false ∧
      (Object.kHeaderSize ≤ object_size → m.is_present = false ∧ m.is_null = false) := by
  have hnull : ∀ m : FarMemPtrMeta,
      m.metadata_ = obj_id * 67108864 + object_size * 1024 + 256 + ds_id →
      (m.is_null = true ↔ object_size = 0 ∧ obj_id = 0) := by
    intro m hm
    rw [FarMemPtrMeta.is_null_iff, hm]
    constructor
    · intro h
      omega
    · rintro ⟨rfl, rfl⟩
      omega
  have hpres : ∀ m : FarMemPtrMeta,
      m.metadata_ = obj_id * 67108864 + object_size * 1024 + 256 + ds_id →
      m.is_present = false := by
    intro m hm
    cases hp : m.is_present
    · rfl
    · have := (FarMemPtrMeta.is_present_iff m).1 hp
      rw [hm] at this
      omega
  refine ⟨_, FarMemPtrMeta.gc_wb_eq self ds_id object_size obj_id h1 h2 h3, hnull _ rfl,
    hpres _ rfl, fun hsz => ⟨hpres _ rfl, ?_⟩⟩
  cases hn : FarMemPtrMeta.is_null
      ⟨self.self_addr, obj_id * 67108864 + object_size * 1024 + 256 + ds_id⟩
  · rfl
  · have := ((hnull _ rfl).1 hn).1
    have hk : Object.kHeaderSize = 10 := rfl
    omega

theorem C37_gc_wb_null_iff_witness :
    ∃ m, (FarMemPtrMeta.mk 0x1000 0).gc_wb 7 13 42 = some m ∧
      (m.is_null = true ↔ (13 : Nat) = 0 ∧ (42 : Nat) = 0) ∧
      m.is_present = false ∧
      (Object.kHeaderSize ≤ 13 → m.is_present = false ∧ m.is_null = false) :=
  C37_gc_wb_null_iff ⟨0x1000, 0⟩ 7 13 42 (by decide) (by decide) (by decide)

/-! ## The capacity of a dataframe vector -/

namespace DataFrameVector

variable {T : Type}

/-- Outside a scope, with `count` and the capacity below `2^63`, `reserve` returns a vector of
the same size whose capacity is not smaller and did not wrap. -/
theorem reserve_grows (k : DfvConst) (worker : Nat) (st : ScopeState) (v : DataFrameVector T)
    (count : Nat) (hscope : DerefScope.is_in_deref_scope worker st = false)
    (hcount : count < 2 ^ 63) (hcap : v.num_chunk_ptrs * k.kRealChunkNumEntries < 2 ^ 63) :
    ∃ v1, reserve k worker st v count = .ok v1 ∧ v1.size_ = v.size_ ∧
      v.num_chunk_ptrs * k.kRealChunkNumEntries ≤ v1.num_chunk_ptrs * k.kRealChunkNumEntries ∧
      v1.num_chunk_ptrs * k.kRealChunkNumEntries < 2 ^ 64 := by
  have hK := kRealChunkNumEntries_pos k
  have hK32 := kRealChunkNumEntries_lt k
  have hcapv : capacity k v = v.num_chunk_ptrs * k.kRealChunkNumEntries :=
    Nat.mod_eq_of_lt (by omega)
  have hcap2 : capacity k v < 2 ^ 63 := by rw [hcapv]; exact hcap
  have hdiff := reserve_diff count (capacity k v) hcount hcap2
  have hres : reserve k worker st v count
      = if (count : Int) - (capacity k v : Int) > 0 then
          .ok (expand k v ((count : Int) - (capacity k v : Int)).toNat)
        else .ok v := by
    simp only [reserve, hscope, Bool.false_eq_true, if_false, to_int64_small count hcount,
      to_int64_small _ hcap2, hdiff]
  by_cases hle : count ≤ capacity k v
  · have hneg : ¬ (count : Int) - (capacity k v : Int) > 0 := by omega
    rw [if_neg hneg] at hres
    exact ⟨v, hres, rfl, Nat.le_refl _, by omega⟩
  · have hpos : (count : Int) - (capacity k v : Int) > 0 := by omega
    have htn : ((count : Int) - (capacity k v : Int)).toNat = count - capacity k v := by omega
    rw [if_pos hpos, htn, expand_eq, expand_chunks_eq k _ (by omega) (by omega)] at hres
    have hdm := Nat.div_add_mod (count - capacity k v - 1) k.kRealChunkNumEntries
    have hnew : (v.num_chunk_ptrs
          + ((count - capacity k v - 1) / k.kRealChunkNumEntries + 1)) * k.kRealChunkNumEntries
        = v.num_chunk_ptrs * k.kRealChunkNumEntries
          + k.kRealChunkNumEntries * ((count - capacity k v - 1) / k.kRealChunkNumEntries)
          + k.kRealChunkNumEntries := by
      ring
    refine ⟨_, hres, rfl, ?_, ?_⟩
    · show v.num_chunk_ptrs * k.kRealChunkNumEntries
        ≤ (v.num_chunk_ptrs + ((count - capacity k v - 1) / k.kRealChunkNumEntries + 1))
          * k.kRealChunkNumEntries
      rw [hnew]
      omega
    · show (v.num_chunk_ptrs + ((count - capacity k v - 1) / k.kRealChunkNumEntries + 1))
          * k.kRealChunkNumEntries < 2 ^ 64
      rw [hnew]
      omega

/-- The step of `push_back` on a vector whose size is within its capacity. -/
theorem push_back_within (k : DfvConst) (v : DataFrameVector T) (u : T)
    (hinv : v.size_ ≤ v.num_chunk_ptrs * k.kRealChunkNumEntries)
    (hroom : (v.num_chunk_ptrs + expand_chunks k k.kNumEntriesPerExpansion)
      * k.kRealChunkNumEntries < 2 ^ 64) :
    ∃ v1, push_back k v u = .ok v1 ∧ v1.size_ = v.size_ + 1 ∧
      v1.size_ ≤ v1.num_chunk_ptrs * k.kRealChunkNumEntries ∧
      v1.num_chunk_ptrs * k.kRealChunkNumEntries < 2 ^ 64 ∧
      v.num_chunk_ptrs ≤ v1.num_chunk_ptrs ∧
      (v1.num_chunk_ptrs ≠ v.num_chunk_ptrs ↔
        v.size_ = v.num_chunk_ptrs * k.kRealChunkNumEntries) := by
  have hK := kRealChunkNumEntries_pos k
  obtain ⟨hN1, hN2⟩ := kNumEntriesPerExpansion_bounds k
  have hE := expand_chunks_eq k k.kNumEntriesPerExpansion hN1 hN2
  have hE1 : 1 ≤ expand_chunks k k.kNumEntriesPerExpansion := by
    rw [hE]
    exact Nat.le_add_left 1 _
  have hidx : v.size_ / k.kRealChunkNumEntries ≤ v.num_chunk_ptrs :=
    Nat.div_le_of_le_mul (by rw [Nat.mul_comm]; exact hinv)
  have hmul : (v.num_chunk_ptrs + expand_chunks k k.kNumEntriesPerExpansion)
      * k.kRealChunkNumEntries
      = v.num_chunk_ptrs * k.kRealChunkNumEntries
        + expand_chunks k k.kNumEntriesPerExpansion * k.kRealChunkNumEntries := Nat.add_mul _ _ _
  have hEK : k.kRealChunkNumEntries
      ≤ expand_chunks k k.kNumEntriesPerExpansion * k.kRealChunkNumEntries :=
    Nat.le_mul_of_pos_left _ hE1
  have hgrow : v.num_chunk_ptrs * k.kRealChunkNumEntries + k.kRealChunkNumEntries
      ≤ (v.num_chunk_ptrs + expand_chunks k k.kNumEntriesPerExpansion)
        * k.kRealChunkNumEntries := by
    rw [hmul]
    exact Nat.add_le_add_left hEK _
  have hs1 : u64 (v.size_ + 1) = v.size_ + 1 := Nat.mod_eq_of_lt (by omega)
  have hpb := push_back_eq k v u hidx
  by_cases hfull : v.num_chunk_ptrs = v.size_ / k.kRealChunkNumEntries
  · have hge : v.num_chunk_ptrs * k.kRealChunkNumEntries ≤ v.size_ := by
      rw [hfull]
      exact Nat.div_mul_le_self _ _
    rw [if_pos hfull, if_pos hfull, hs1] at hpb
    refine ⟨_, hpb, rfl, ?_, ?_, ?_, ?_⟩
    · show v.size_ + 1 ≤ (v.num_chunk_ptrs + expand_chunks k k.kNumEntriesPerExpansion)
        * k.kRealChunkNumEntries
      omega
    · exact hroom
    · exact Nat.le_add_right _ _
    · constructor
      · intro _
        omega
      · intro _
        show v.num_chunk_ptrs + expand_chunks k k.kNumEntriesPerExpansion ≠ v.num_chunk_ptrs
        omega
  · have hlt : v.size_ / k.kRealChunkNumEntries < v.num_chunk_ptrs := by omega
    have hlt2 : v.size_ < v.num_chunk_ptrs * k.kRealChunkNumEntries :=
      (Nat.div_lt_iff_lt_mul hK).1 hlt
    rw [if_neg hfull, if_neg hfull, hs1] at hpb
    refine ⟨_, hpb, rfl, ?_, ?_, Nat.le_refl _, ?_⟩
    · show v.size_ + 1 ≤ v.num_chunk_ptrs * k.kRealChunkNumEntries
      omega
    · show v.num_chunk_ptrs * k.kRealChunkNumEntries < 2 ^ 64
      omega
    · constructor
      · intro h
        exact absurd rfl h
      · intro h
        omega

end DataFrameVector

/-- C38: `size() ≤ capacity()` is an invariant of `DataFrameVector<T>`, as long as the
capacity (also after one more expansion) and the argument of `reserve` stay below `2^63`.  It
holds after construction (one chunk, size 0).  On a vector where it holds, `push_back` returns
(its assertion holds) and preserves it, and it adds chunks exactly when `size() = capacity()`
before the call; `pop_back` on a non-empty vector, `reserve` (outside a scope) and `clear`
preserve it; and `at` and `at_mut` return for every index below `size()` (their assertion
holds). -/
theorem C38_size_within_capacity {T : Type} (k : DfvConst) (v : DataFrameVector T) (u : T)
    (chunks : Nat → Nat → T) (worker : Nat) (st : ScopeState) (count : Nat)
    (hinv : v.size ≤ DataFrameVector.capacity k v)
    (hroom : (v.num_chunk_ptrs + DataFrameVector.expand_chunks k k.kNumEntriesPerExpansion)
      * k.kRealChunkNumEntries < 2 ^ 63)
    (hscope : DerefScope.is_in_deref_scope worker st = false) (hcount : count < 2 ^ 63) :
    ((DataFrameVector.fresh k chunks).size = 0 ∧
      (DataFrameVector.fresh k chunks).num_chunk_ptrs = 1 ∧
      (DataFrameVector.fresh k chunks).size
        ≤ DataFrameVector.capacity k (DataFrameVector.fresh k chunks)) ∧
    (∃ v1, DataFrameVector.push_back k v u = .ok v1 ∧
      v1.size ≤ DataFrameVector.capacity k v1 ∧
      (v1.num_chunk_ptrs ≠ v.num_chunk_ptrs ↔ v.size = DataFrameVector.capacity k v)) ∧
    (1 ≤ v.size →
      (DataFrameVector.pop_back v).size
        ≤ DataFrameVector.capacity k (DataFrameVector.pop_back v)) ∧
    (∃ v2, DataFrameVector.reserve k worker st v count = .ok v2 ∧
      v2.size ≤ DataFrameVector.capacity k v2) ∧
    (DataFrameVector.clear v).size ≤ DataFrameVector.capacity k (DataFrameVector.clear v) ∧
    (∀ index, index < v.size →
      (∃ x, DataFrameVector.at_const k v index = .ok x) ∧
      ∃ x, DataFrameVector.at_mut k v index = .ok x) := by
  have hK := DataFrameVector.kRealChunkNumEntries_pos k
  have hK32 := DataFrameVector.kRealChunkNumEntries_lt k
  have hmul : (v.num_chunk_ptrs + DataFrameVector.expand_chunks k k.kNumEntriesPerExpansion)
      * k.kRealChunkNumEntries
      = v.num_chunk_ptrs * k.kRealChunkNumEntries
        + DataFrameVector.expand_chunks k k.kNumEntriesPerExpansion * k.kRealChunkNumEntries :=
    Nat.add_mul _ _ _
  have hcap : v.num_chunk_ptrs * k.kRealChunkNumEntries < 2 ^ 63 := by omega
  have hcapv : DataFrameVector.capacity k v = v.num_chunk_ptrs * k.kRealChunkNumEntries :=
    Nat.mod_eq_of_lt (by omega)
  have hcapeq : ∀ w : DataFrameVector T, w.num_chunk_ptrs * k.kRealChunkNumEntries < 2 ^ 64 →
      DataFrameVector.capacity k w = w.num_chunk_ptrs * k.kRealChunkNumEntries :=
    fun w hw => Nat.mod_eq_of_lt hw
  have hsz : v.size_ ≤ v.num_chunk_ptrs * k.kRealChunkNumEntries := by
    rw [← hcapv]
    exact hinv
  refine ⟨⟨?_, ?_, ?_⟩, ?_, ?_, ?_, ?_, ?_⟩
  · rw [DataFrameVector.fresh_eq]
    rfl
  · rw [DataFrameVector.fresh_eq]
  · rw [DataFrameVector.fresh_eq]
    exact Nat.zero_le _
  · obtain ⟨v1, e1, e2, e3, e4, -, e6⟩ := DataFrameVector.push_back_within k v u hsz (by omega)
    refine ⟨v1, e1, ?_, ?_⟩
    · rw [hcapeq v1 e4]
      exact e3
    · rw [hcapv]
      exact e6
  · intro h1
    have h1' : 1 ≤ v.size_ := h1
    rw [DataFrameVector.pop_back_eq]
    show dec64 v.size_ ≤ u64 (v.num_chunk_ptrs * k.kRealChunkNumEntries)
    have : u64 (v.num_chunk_ptrs * k.kRealChunkNumEntries)
        = v.num_chunk_ptrs * k.kRealChunkNumEntries := Nat.mod_eq_of_lt (by omega)
    rw [this]
    unfold dec64
    rw [if_neg (by omega)]
    omega
  · obtain ⟨v2, e1, e2, e3, e4⟩ :=
      DataFrameVector.reserve_grows k worker st v count hscope hcount hcap
    refine ⟨v2, e1, ?_⟩
    rw [hcapeq v2 e4]
    show v2.size_ ≤ _
    rw [e2]
    omega
  · exact Nat.zero_le _
  · intro index hi
    have hi' : index < v.size_ := hi
    have hlt : index / k.kRealChunkNumEntries < v.num_chunk_ptrs :=
      (Nat.div_lt_iff_lt_mul hK).2 (by omega)
    constructor
    · simp only [DataFrameVector.at_const, DataFrameVector.get_chunk_stats, gt_iff_lt, hlt,
        not_true_eq_false, if_false]
      exact ⟨_, rfl⟩
    · simp only [DataFrameVector.at_mut, DataFrameVector.get_chunk_stats, gt_iff_lt, hlt,
        not_true_eq_false, if_false]
      exact ⟨_, rfl⟩

theorem C38_size_within_capacity_witness :
    ∃ v1, DataFrameVector.push_back dfv_long
        (DataFrameVector.fresh dfv_long (fun _ _ => (0 : Nat))) 5 = .ok v1 ∧
      v1.size ≤ DataFrameVector.capacity dfv_long v1 ∧
      (v1.num_chunk_ptrs ≠ (DataFrameVector.fresh dfv_long (fun _ _ => (0 : Nat))).num_chunk_ptrs ↔
        (DataFrameVector.fresh dfv_long (fun _ _ => (0 : Nat))).size
          = DataFrameVector.capacity dfv_long
              (DataFrameVector.fresh dfv_long (fun _ _ => (0 : Nat)))) :=
  (C38_size_within_capacity dfv_long (DataFrameVector.fresh dfv_long (fun _ _ => (0 : Nat))) 5
    (fun _ _ => 0) 0 scope_idle 130 (by decide) (by decide) (by decide) (by decide)).2.1

/-! ## The dataframe vector and its server -/

namespace ServerDataFrameVector

/-- The barrier is open: no resize is waiting and no call is inside. -/
theorem barrier_sum_zero (s : ServerDataFrameVector) (hz : ∀ c, s.ref_cnts_ c = 0) :
    ∀ (cores : List Nat), cores.foldl (fun acc i => wrap32 (acc + s.ref_cnts_ i)) 0 = 0 := by
  intro cores
  induction cores with
  | nil => rfl
  | cons c cs ih =>
    have e : wrap32 (0 + s.ref_cnts_ c) = 0 := by rw [hz c]; rfl
    rw [List.foldl_cons, e]
    exact ih

theorem barrier_round_trip (core c : Nat) (x : Int) (hx : x = 0) :
    (if c = core then wrap32 ((if c = core then wrap32 (x + 1) else x) - 1)
      else (if c = core then wrap32 (x + 1) else x)) = 0 := by
  subst hx
  by_cases h : c = core
  · simp only [h, if_true]
    rfl
  · simp only [h, if_false]

/-- A `Resize` request for more than the current size goes through and leaves the barrier
open. -/
theorem compute_resize_ok (k : DfvConst) (cores : List Nat) (new_capacity : Nat)
    (s : ServerDataFrameVector) (hz : ∀ c, s.ref_cnts_ c = 0)
    (hgt : s.vec_size < new_capacity) :
    ∃ s1, s.compute k cores 0 8 new_capacity = .ok (0, s1) ∧ s1.vec_size = new_capacity ∧
      s1.global_wait_ = false ∧ (∀ c, s1.ref_cnts_ c = 0) ∧
      ∀ b, b < s.vec_size * k.sizeof_T → s1.vec_bytes b = s.vec_bytes b := by
  have hsum := barrier_sum_zero s hz cores
  have hc : s.compute k cores 0 8 new_capacity
      = .ok (0, ⟨new_capacity,
          fun b => if b < s.vec_size * k.sizeof_T then s.vec_bytes b else 0, false,
          s.ref_cnts_⟩) := by
    simp only [compute, if_true, compute_resize, disable_and_wait_barrier, hsum, ne_eq,
      not_true_eq_false, if_false, gt_iff_lt, hgt, enable_barrier]
  refine ⟨_, hc, rfl, rfl, hz, ?_⟩
  intro b hb
  show (if b < s.vec_size * k.sizeof_T then s.vec_bytes b else 0) = s.vec_bytes b
  rw [if_pos hb]

/-- The bytes of a list read one by one. -/
theorem map_getD_range (d : List Nat) :
    (List.range d.length).map (fun j => d.getD j 0) = d := by
  apply List.ext_getElem
  · simp
  · intro n h1 h2
    simp only [List.getElem_map, List.getElem_range]
    exact List.getD_eq_getElem _ _ h2

/-- A chunk that lies within `vec_` is written and read back. -/
theorem write_then_read (k : DfvConst) (core i : Nat) (d : List Nat) (s : ServerDataFrameVector)
    (hw : s.global_wait_ = false) (hz : ∀ c, s.ref_cnts_ c = 0)
    (hlen : d.length = k.kRealChunkSize) (h16 : k.kRealChunkSize < 2 ^ 16)
    (h64 : i * k.kRealChunkSize < 2 ^ 64)
    (hin : i * k.kRealChunkSize + k.kRealChunkSize ≤ s.vec_size * k.sizeof_T) :
    ∃ s1 s2, s.write_object k core 8 i k.kRealChunkSize d = .ok s1 ∧
      s1.read_object k core 8 i = .ok ((k.kRealChunkSize, d), s2) ∧
      s2.vec_size = s.vec_size ∧ s2.global_wait_ = false ∧ (∀ c, s2.ref_cnts_ c = 0) := by
  have hoff : u64 (i * k.kRealChunkSize) = i * k.kRealChunkSize := Nat.mod_eq_of_lt h64
  have hdl : k.kRealChunkSize % 2 ^ 16 = k.kRealChunkSize := Nat.mod_eq_of_lt h16
  have hwr : s.write_object k core 8 i k.kRealChunkSize d
      = .ok ⟨s.vec_size,
          fun b => if i * k.kRealChunkSize ≤ b ∧ b < i * k.kRealChunkSize + k.kRealChunkSize
            then d.getD (b - i * k.kRealChunkSize) 0 else s.vec_bytes b,
          false,
          fun c => if c = core then
              wrap32 ((if c = core then wrap32 (s.ref_cnts_ c + 1) else s.ref_cnts_ c) - 1)
            else (if c = core then wrap32 (s.ref_cnts_ c + 1) else s.ref_cnts_ c)⟩ := by
    simp only [write_object, enter_barrier, hw, Bool.false_eq_true, if_false, exit_barrier,
      ne_eq, not_true_eq_false, hoff, hin, if_true]
  have hrd : ∀ s1 : ServerDataFrameVector, s1.global_wait_ = false →
      i * k.kRealChunkSize + k.kRealChunkSize ≤ s1.vec_size * k.sizeof_T →
      s1.read_object k core 8 i
        = .ok ((k.kRealChunkSize,
            (List.range k.kRealChunkSize).map (fun j => s1.vec_bytes (i * k.kRealChunkSize + j))),
          ⟨s1.vec_size, s1.vec_bytes, false,
            fun c => if c = core then
                wrap32 ((if c = core then wrap32 (s1.ref_cnts_ c + 1) else s1.ref_cnts_ c) - 1)
              else (if c = core then wrap32 (s1.ref_cnts_ c + 1) else s1.ref_cnts_ c)⟩) := by
    intro s1 h1 h2
    simp only [read_object, enter_barrier, h1, Bool.false_eq_true, if_false, exit_barrier,
      ne_eq, not_true_eq_false, hoff, hdl, h2, if_true]
  obtain ⟨s1, hs1, hv1, hg1, hr1, hb1⟩ : ∃ s1 : ServerDataFrameVector,
      s.write_object k core 8 i k.kRealChunkSize d = .ok s1 ∧ s1.vec_size = s.vec_size ∧
      s1.global_wait_ = false ∧ (∀ c, s1.ref_cnts_ c = 0) ∧
      ∀ b, s1.vec_bytes b =
        if i * k.kRealChunkSize ≤ b ∧ b < i * k.kRealChunkSize + k.kRealChunkSize
        then d.getD (b - i * k.kRealChunkSize) 0 else s.vec_bytes b :=
    ⟨_, hwr, rfl, rfl, fun c => barrier_round_trip core c _ (hz c), fun _ => rfl⟩
  have hmap : (List.range k.kRealChunkSize).map
      (fun j => s1.vec_bytes (i * k.kRealChunkSize + j)) = d := by
    have e : (List.range k.kRealChunkSize).map
        (fun j => s1.vec_bytes (i * k.kRealChunkSize + j))
        = (List.range k.kRealChunkSize).map (fun j => d.getD j 0) := by
      apply List.map_congr_left
      intro j hj
      rw [List.mem_range] at hj
      rw [hb1, if_pos ⟨Nat.le_add_right _ _, by omega⟩, Nat.add_sub_cancel_left]
    rw [e, ← hlen]
    exact map_getD_range d
  have hr := hrd s1 hg1 (by rw [hv1]; exact hin)
  rw [hmap] at hr
  exact ⟨s1, _, hs1, hr, hv1, rfl, fun c => barrier_round_trip core c _ (hr1 c)⟩

end ServerDataFrameVector

namespace GenericDataFrameVector

/-- One `expand(num)` on a vector of `n` chunks with the ids `0, ..., n - 1` whose server
vector has `n * kRealChunkNumEntries` elements. -/
theorem expand_ok (k : DfvConst) (cores : List Nat) (g : GenericDataFrameVector) (n num : Nat)
    (h1 : 1 ≤ num) (hids : g.chunk_ptrs_ = List.range n)
    (hsize : g.device_.vec_size = n * k.kRealChunkNumEntries)
    (hz : ∀ c, g.device_.ref_cnts_ c = 0)
    (hnowrap : (n + num) * k.kRealChunkNumEntries < 2 ^ 64) :
    ∃ g1, expand k cores g num = .ok g1 ∧ g1.chunk_ptrs_ = List.range (n + num) ∧
      g1.device_.vec_size = (n + num) * k.kRealChunkNumEntries ∧
      g1.device_.global_wait_ = false ∧ (∀ c, g1.device_.ref_cnts_ c = 0) := by
  have hK := DataFrameVector.kRealChunkNumEntries_pos k
  have hlen : g.chunk_ptrs_.length = n := by rw [hids, List.length_range]
  have hcapv : u64 ((n + num) * k.kRealChunkNumEntries) = (n + num) * k.kRealChunkNumEntries :=
    Nat.mod_eq_of_lt hnowrap
  have hmul : (n + num) * k.kRealChunkNumEntries
      = n * k.kRealChunkNumEntries + num * k.kRealChunkNumEntries := Nat.add_mul _ _ _
  have hnK : k.kRealChunkNumEntries ≤ num * k.kRealChunkNumEntries :=
    Nat.le_mul_of_pos_left _ h1
  have hle : n + num ≤ (n + num) * k.kRealChunkNumEntries := Nat.le_mul_of_pos_right _ hK
  obtain ⟨s1, e1, e2, e3, e4, -⟩ := ServerDataFrameVector.compute_resize_ok k cores
    ((n + num) * k.kRealChunkNumEntries) g.device_ hz (by rw [hsize]; omega)
  refine ⟨⟨g.chunk_ptrs_ ++ (List.range num).map (fun i => u64 (i + n)), s1⟩, ?_, ?_, e2, e3, e4⟩
  · simp only [expand, hlen, hcapv, e1, ne_eq, not_true_eq_false, if_false]
  · show g.chunk_ptrs_ ++ (List.range num).map (fun i => u64 (i + n)) = List.range (n + num)
    rw [hids, List.range_add]
    congr 1
    apply List.map_congr_left
    intro i hi
    rw [List.mem_range] at hi
    show (i + n) % 2 ^ 64 = n + i
    rw [Nat.mod_eq_of_lt (by omega)]
    omega

/-- A series of `expand` calls, each for at least one chunk. -/
theorem expand_all_ok (k : DfvConst) (cores : List Nat) : ∀ (nums : List Nat)
    (g : GenericDataFrameVector) (n : Nat), (∀ num ∈ nums, 1 ≤ num) →
    g.chunk_ptrs_ = List.range n → g.device_.vec_size = n * k.kRealChunkNumEntries →
    g.device_.global_wait_ = false → (∀ c, g.device_.ref_cnts_ c = 0) →
    (n + nums.sum) * k.kRealChunkNumEntries < 2 ^ 64 →
    ∃ g1, expand_all k cores nums g = .ok g1 ∧ g1.chunk_ptrs_ = List.range (n + nums.sum) ∧
      g1.device_.vec_size = (n + nums.sum) * k.kRealChunkNumEntries ∧
      g1.device_.global_wait_ = false ∧ (∀ c, g1.device_.ref_cnts_ c = 0) := by
  intro nums
  induction nums with
  | nil =>
    intro g n _ hids hsize hw hz _
    exact ⟨g, rfl, by simpa using hids, by simpa using hsize, hw, hz⟩
  | cons num rest ih =>
    intro g n hnum hids hsize hw hz hnowrap
    have hsum : n + (num :: rest).sum = n + num + rest.sum := by
      rw [List.sum_cons, Nat.add_assoc]
    rw [hsum] at hnowrap ⊢
    have hle : (n + num) * k.kRealChunkNumEntries
        ≤ (n + num + rest.sum) * k.kRealChunkNumEntries :=
      Nat.mul_le_mul_right _ (Nat.le_add_right _ _)
    obtain ⟨g1, e1, e2, e3, e4, e5⟩ := expand_ok k cores g n num
      (hnum num (List.mem_cons_self _ _)) hids hsize hz (by omega)
    obtain ⟨g2, f1, f2, f3, f4, f5⟩ := ih g1 (n + num)
      (fun x hx => hnum x (List.mem_cons_of_mem _ hx)) e2 e3 e4 e5 hnowrap
    exact ⟨g2, by simp only [expand_all, e1, f1], f2, f3, f4, f5⟩

end GenericDataFrameVector

/-- C39: take an element type of at least one byte whose chunk has fewer than `2^16` bytes (it
has 512 for the types of a dataframe), and a series of `expand(num)` calls with `num ≥ 1`,
starting with the one of the constructor, for a vector whose bytes number fewer than `2^64`.
Every call returns, so each `Resize` request has passed the assertion of `compute_resize`; the
chunks have the object ids `0, 1, 2, ...` in order; the server vector has
`kRealChunkNumEntries` elements per chunk; and for every chunk id `i` the bytes from
`i * kRealChunkSize` up to `(i + 1) * kRealChunkSize` lie within the
`vec_.size() * sizeof(T)` bytes of the server vector, and `write_object(i, d)` followed by
`read_object(i)` returns `d` with `data_len = kRealChunkSize`. -/
theorem C39_client_server_bounds (k : DfvConst) (cores : List Nat) (nums : List Nat)
    (hnum : ∀ num ∈ nums, 1 ≤ num) (hT : 1 ≤ k.sizeof_T)
    (hchunk : k.sizeof_T * k.kRealChunkNumEntries < 2 ^ 16)
    (hbytes : nums.sum * k.kRealChunkNumEntries * k.sizeof_T < 2 ^ 64) :
    ∃ g, GenericDataFrameVector.expand_all k cores nums GenericDataFrameVector.fresh = .ok g ∧
      g.chunk_ptrs_ = List.range nums.sum ∧
      g.device_.vec_size = nums.sum * k.kRealChunkNumEntries ∧
      ∀ i ∈ g.chunk_ptrs_,
        i * k.kRealChunkSize + k.kRealChunkSize ≤ g.device_.vec_size * k.sizeof_T ∧
        ∀ (core : Nat) (d : List Nat), d.length = k.kRealChunkSize →
          ∃ s1 s2, g.device_.write_object k core 8 i k.kRealChunkSize d = .ok s1 ∧
            s1.read_object k core 8 i = .ok ((k.kRealChunkSize, d), s2) := by
  have hcs : k.kRealChunkSize = k.sizeof_T * k.kRealChunkNumEntries := by
    unfold DfvConst.kRealChunkSize u32
    exact Nat.mod_eq_of_lt (by omega)
  have hcap : nums.sum * k.kRealChunkNumEntries ≤ nums.sum * k.kRealChunkNumEntries * k.sizeof_T :=
    Nat.le_mul_of_pos_right _ hT
  obtain ⟨g, e1, e2, e3, e4, e5⟩ := GenericDataFrameVector.expand_all_ok k cores nums
    GenericDataFrameVector.fresh 0 hnum rfl (by simp [GenericDataFrameVector.fresh,
      ServerDataFrameVector.fresh]) rfl (fun _ => rfl) (by rw [Nat.zero_add]; omega)
  rw [Nat.zero_add] at e2 e3
  refine ⟨g, e1, e2, e3, ?_⟩
  intro i hi
  rw [e2, List.mem_range] at hi
  have hin : i * k.kRealChunkSize + k.kRealChunkSize ≤ g.device_.vec_size * k.sizeof_T := by
    rw [e3, hcs]
    have h1 : i * (k.sizeof_T * k.kRealChunkNumEntries) + k.sizeof_T * k.kRealChunkNumEntries
        = (i + 1) * (k.kRealChunkNumEntries * k.sizeof_T) := by ring
    have h2 : nums.sum * k.kRealChunkNumEntries * k.sizeof_T
        = nums.sum * (k.kRealChunkNumEntries * k.sizeof_T) := by ring
    rw [h1, h2]
    exact Nat.mul_le_mul_right _ hi
  refine ⟨hin, ?_⟩
  intro core d hd
  obtain ⟨s1, s2, w1, w2, -⟩ := ServerDataFrameVector.write_then_read k core i d g.device_ e4 e5
    hd (by rw [hcs]; exact hchunk) (by rw [e3] at hin; omega) hin
  exact ⟨s1, s2, w1, w2⟩

theorem C39_client_server_bounds_witness :
    ∃ g, GenericDataFrameVector.expand_all dfv_long [0, 1] [1, 2]
        GenericDataFrameVector.fresh = .ok g ∧
      g.chunk_ptrs_ = List.range ([1, 2] : List Nat).sum ∧
      g.device_.vec_size = ([1, 2] : List Nat).sum * dfv_long.kRealChunkNumEntries ∧
      ∀ i ∈ g.chunk_ptrs_,
        i * dfv_long.kRealChunkSize + dfv_long.kRealChunkSize
          ≤ g.device_.vec_size * dfv_long.sizeof_T ∧
        ∀ (core : Nat) (d : List Nat), d.length = dfv_long.kRealChunkSize →
          ∃ s1 s2, g.device_.write_object dfv_long core 8 i dfv_long.kRealChunkSize d = .ok s1 ∧
            s1.read_object dfv_long core 8 i = .ok ((dfv_long.kRealChunkSize, d), s2) :=
  C39_client_server_bounds dfv_long [0, 1] [1, 2] (by decide) (by decide) (by decide) (by decide)

end far_memory
